import Mathlib

/-!
# PDF-Writer: DocumentContext

A shallow embedding of `src/PDFWriter/DocumentContext.cpp` and the
properties of its page-tree writer, trailer writer, incremental-update
finalisation, extender callbacks and deferred task registry.

Modelling conventions.

* The objects context is an append-only log of the writer calls made on it
  (`Token`), together with the object count of its registry.
* A call that leaves the file (an extender callback, the used-fonts
  repository) is an `ExternalWrite`: the status it returns, what it appended
  to the log and how many object IDs it requested. It is recorded in the log
  as one `Token.External` entry.
* `eSuccess`/`eFailure` are the two values of `EStatusCode`.
* A dereference of a null pointer has no defined result: functions that can
  reach one return `Option`, and `none` stands for it.
* `int` and `long long` counters are unbounded integers: signed overflow is
  undefined in C++, so the theorems speak of the executions that stay inside
  the range of the type.
* The extender set is a `std::set` of pointers (`insert` and `erase` by value):
  it is kept in increasing address order, the order in which it is iterated.
* The declared level of the source is a `double`; the model keeps the value
  the code compares, the level times ten and truncated.
* Classes of the repository whose files are not among the sources (registry,
  page tree, trailer and catalog information, info dictionary, parser,
  resources dictionary, tasks) are modelled from the specification; their
  definitions say so.
* The two task registries are `std::map`s of `std::list`s: lists of entries
  that are looked up, extended and erased by key. A resources dictionary and
  a form are known to them by address.
* A task or a callback is what it returns, what it writes and how many object
  IDs it requests, given the log so far; it does not register or run tasks
  itself while it runs.
-/

namespace PDFHummus

/-! ## Basic types -/

/-- Status code returned by the operations of the writer. -/
inductive EStatusCode where
  | eSuccess
  | eFailure
deriving DecidableEq, Repr

/-- Modelled from the spec: `ObjectReference` (ObjectsBasicTypes.h is not among the sources)
is the identity of an indirect object, an object ID and a generation number. -/
structure ObjectReference where
  ObjectID : Nat
  GenerationNumber : Nat
deriving DecidableEq, Repr

/-- Modelled from the spec: the objects the document reader parses (PDFObject.h and its
subclasses are not among the sources), with the kinds this file casts to.
`PDFObjectCastPtr<T>` is a match on the constructor. -/
inductive PDFObject where
  | null
  | boolean (value : Bool)
  | integer (value : Int)
  | name (value : String)
  | literalString (value : String)
  | hexString (value : String)
  | indirectObjectReference (mObjectID : Nat) (mVersion : Nat)
  | array (items : List PDFObject)
  | dictionary (entries : List (String × PDFObject))
deriving Repr

/-- Entries of a parsed dictionary, in iteration order. -/
abbrev PDFDictionary := List (String × PDFObject)

/-- The call `PDFDictionary::QueryDirectObject`: the value stored under the key, if any. -/
def PDFDictionary.QueryDirectObject (d : PDFDictionary) (key : String) : Option PDFObject :=
  (d.find? (fun e => e.1 == key)).map (fun e => e.2)

/-- Modelled from the spec: a rectangle (PDFRectangle.h is not among the sources), by its
four coordinates. The code writes rectangles and compares them for equality only; the
coordinates, `double`s in the source, are kept as integers. -/
structure PDFRectangle where
  LowerLeftX : Int
  LowerLeftY : Int
  UpperRightX : Int
  UpperRightY : Int
deriving DecidableEq, Repr

/-- One writer call on the objects context or on a dictionary context. -/
inductive Token where
  | StartNewIndirectObject (id : Nat)
  | StartModifiedIndirectObject (id : Nat)
  | EndIndirectObject
  | StartDictionary
  | EndDictionary
  | WriteKey (key : String)
  | WriteNameValue (value : String)
  | WriteIntegerValue (value : Int)
  | WriteLiteralStringValue (value : String)
  | WriteObjectReferenceValue (ref : ObjectReference)
  | WriteNewObjectReferenceValue (id : Nat)
  | WriteIndirectObjectReference (ref : ObjectReference)
  | WriteNewIndirectObjectReference (id : Nat)
  | WriteHexString (value : String)
  | StartArray
  | EndArray
  | EndLine
  | WriteKeyword (keyword : String)
  | WriteInteger (value : Int)
  | FreeContextWrite (bytes : List Nat)
  | CopyDirectObjectAsIs (object : PDFObject)
  | WriteXrefTable (status : EStatusCode)
  | WriteXrefStream (status : EStatusCode)
  | External (callee : String) (id : Nat) (status : EStatusCode) (wrote : List Token)
  | WriteName (value : String)
  | EndPDFStream
  | WriteRectangleValue (box : PDFRectangle)
  | WriteBooleanValue (value : Bool)
  | WriteHexStringValue (value : String)
  | EndArrayEndLine
deriving Repr

/-- Result of a call that leaves this file. -/
structure ExternalWrite where
  status : EStatusCode
  tokens : List Token
  allocated : Nat

/-- Modelled from the spec: the object writer and its registry (ObjectsContext.h is not
among the sources), as the log of the writer calls made so far, an append-only output, and
the object count of the registry. -/
structure ObjectsContext where
  written : List Token
  objectsCount : Nat

/-- Append one writer call to the log. -/
def ObjectsContext.write (ctx : ObjectsContext) (t : Token) : ObjectsContext :=
  { ctx with written := ctx.written ++ [t] }

/-- Modelled from the spec: the indirect object registry (IndirectObjectsReferenceRegistry
is not among the sources) allocates unique object identities, monotonically, and tracks
the total count: the new identity is the count so far. -/
def ObjectsContext.AllocateNewObjectID (ctx : ObjectsContext) : Nat × ObjectsContext :=
  (ctx.objectsCount, { ctx with objectsCount := ctx.objectsCount + 1 })

/-- The call `StartNewIndirectObject()`: allocate an identity and frame the object under it. -/
def ObjectsContext.StartNewIndirectObject (ctx : ObjectsContext) : Nat × ObjectsContext :=
  let r := ctx.AllocateNewObjectID
  (r.1, r.2.write (.StartNewIndirectObject r.1))

/-- Record a call that leaves this file: its writes and its allocations. -/
def ObjectsContext.external (ctx : ObjectsContext) (callee : String) (id : Nat)
    (w : ExternalWrite) : ObjectsContext :=
  { written := ctx.written ++ [.External callee id w.status w.tokens],
    objectsCount := ctx.objectsCount + w.allocated }

/-! ## Page tree -/

/-- Modelled from the spec: a page tree node (PageTree.h is not among the sources) has an
ID, a back-reference to its parent, here the ID of the node `GetParent()` points to, and
either an ordered list of leaf page IDs (`IsLeafParent()`) or an ordered list of child
nodes. -/
inductive PageTree where
  | leafParent (id : Nat) (parent : Option Nat) (pages : List Nat)
  | node (id : Nat) (parent : Option Nat) (kids : List PageTree)

/-- The call `PageTree::GetID`. -/
def PageTree.GetID : PageTree → Nat
  | .leafParent id _ _ => id
  | .node id _ _ => id

/-- The call `PageTree::IsLeafParent`. -/
def PageTree.IsLeafParent : PageTree → Bool
  | .leafParent _ _ _ => true
  | .node _ _ _ => false

/-- The call `PageTree::GetNodesCount`: number of direct kids. -/
def PageTree.GetNodesCount : PageTree → Nat
  | .leafParent _ _ pages => pages.length
  | .node _ _ kids => kids.length

/-- The call `PageTree::GetParent`, as the ID of the parent. -/
def PageTree.GetParent : PageTree → Option Nat
  | .leafParent _ parent _ => parent
  | .node _ parent _ => parent

/-- The call `PageTree::SetParent`. -/
def PageTree.SetParent : PageTree → Option Nat → PageTree
  | .leafParent id _ pages, p => .leafParent id p pages
  | .node id _ kids, p => .node id p kids

mutual
/-- Number of leaf pages reachable beneath a node. -/
def PageTree.leafCount : PageTree → Nat
  | .leafParent _ _ pages => pages.length
  | .node _ _ kids => PageTree.leafCountKids kids
/-- Number of leaf pages reachable beneath a list of nodes. -/
def PageTree.leafCountKids : List PageTree → Nat
  | [] => 0
  | k :: ks => PageTree.leafCount k + PageTree.leafCountKids ks
end

/-! ## String constants of the source -/

def scType : String := "Type"

def scCatalog : String := "Catalog"

def scPages : String := "Pages"

def scCount : String := "Count"

def scKids : String := "Kids"

def scParent : String := "Parent"

def scTrailer : String := "trailer"

def scSize : String := "Size"

def scPrev : String := "Prev"

def scRoot : String := "Root"

def scEncrypt : String := "Encrypt"

def scInfo : String := "Info"

def scID : String := "ID"

def scStartXref : String := "startxref"

def scEOF : List Nat := [37, 37, 69, 79, 70]

/-! ## WritePageTree -/

/-- The loop `for(i...) WriteNewIndirectObjectReference(GetPageIDChild(i))`. -/
def writePageIDChildren : List Nat → ObjectsContext → ObjectsContext
  | [], ctx => ctx
  | p :: ps, ctx => writePageIDChildren ps (ctx.write (.WriteNewIndirectObjectReference p))

/-- The loop `for(j...) WriteNewIndirectObjectReference(GetPageTreeChild(j)->GetID())`. -/
def writePageTreeChildrenIDs : List PageTree → ObjectsContext → ObjectsContext
  | [], ctx => ctx
  | k :: ks, ctx =>
    writePageTreeChildrenIDs ks (ctx.write (.WriteNewIndirectObjectReference k.GetID))

/-- The block `if(GetParent()) { WriteKey(scParent); WriteNewObjectReferenceValue(...) }`. -/
def writeParent (parent : Option Nat) (ctx : ObjectsContext) : ObjectsContext :=
  match parent with
  | some p => (ctx.write (.WriteKey scParent)).write (.WriteNewObjectReferenceValue p)
  | none => ctx

mutual
/-- The function `DocumentContext::WritePageTree`: writes the node (its kids first) and
returns the page count for accumulation at higher levels. -/
def WritePageTree : PageTree → ObjectsContext → Int × ObjectsContext
  | .leafParent id parent pages, ctx =>
    let ctx := ctx.write (.StartNewIndirectObject id)
    let ctx := ctx.write .StartDictionary
    let ctx := ctx.write (.WriteKey scType)
    let ctx := ctx.write (.WriteNameValue scPages)
    let ctx := ctx.write (.WriteKey scCount)
    let ctx := ctx.write (.WriteIntegerValue (pages.length : Int))
    let ctx := ctx.write (.WriteKey scKids)
    let ctx := ctx.write .StartArray
    let ctx := writePageIDChildren pages ctx
    let ctx := ctx.write .EndArray
    let ctx := ctx.write .EndLine
    let ctx := writeParent parent ctx
    let ctx := ctx.write .EndDictionary
    let ctx := ctx.write .EndIndirectObject
    ((pages.length : Int), ctx)
  | .node id parent kids, ctx =>
    let r := WritePageTreeChildren kids 0 ctx
    let totalPagesNodes := r.1
    let ctx := r.2
    let ctx := ctx.write (.StartNewIndirectObject id)
    let ctx := ctx.write .StartDictionary
    let ctx := ctx.write (.WriteKey scType)
    let ctx := ctx.write (.WriteNameValue scPages)
    let ctx := ctx.write (.WriteKey scCount)
    let ctx := ctx.write (.WriteIntegerValue totalPagesNodes)
    let ctx := ctx.write (.WriteKey scKids)
    let ctx := ctx.write .StartArray
    let ctx := writePageTreeChildrenIDs kids ctx
    let ctx := ctx.write .EndArray
    let ctx := ctx.write .EndLine
    let ctx := writeParent parent ctx
    let ctx := ctx.write .EndDictionary
    let ctx := ctx.write .EndIndirectObject
    (totalPagesNodes, ctx)
/-- The loop `for(i...) totalPagesNodes += WritePageTree(GetPageTreeChild(i))`. -/
def WritePageTreeChildren : List PageTree → Int → ObjectsContext → Int × ObjectsContext
  | [], totalPagesNodes, ctx => (totalPagesNodes, ctx)
  | k :: ks, totalPagesNodes, ctx =>
    let r := WritePageTree k ctx
    WritePageTreeChildren ks (totalPagesNodes + r.1) r.2
end

/-! ## Specification of the page tree writer (spec 4.1) -/

/-- Entries of the Kids array of a node: the leaf IDs, or the child references. -/
def PageTree.kidsEntries : PageTree → List Token
  | .leafParent _ _ pages => pages.map (fun p => Token.WriteNewIndirectObjectReference p)
  | .node _ _ kids => kids.map (fun k => Token.WriteNewIndirectObjectReference k.GetID)

/-- Parent entry of a node, present when the node has a parent. -/
def parentEntry : Option Nat → List Token
  | some p => [.WriteKey scParent, .WriteNewObjectReferenceValue p]
  | none => []

/-- Indirect object framed for a node, under the node's ID, with the given Count. -/
def PageTree.frame (t : PageTree) (count : Int) : List Token :=
  [.StartNewIndirectObject t.GetID, .StartDictionary,
   .WriteKey scType, .WriteNameValue scPages,
   .WriteKey scCount, .WriteIntegerValue count,
   .WriteKey scKids, .StartArray] ++ t.kidsEntries ++ [.EndArray, .EndLine]
   ++ parentEntry t.GetParent ++ [.EndDictionary, .EndIndirectObject]

mutual
/-- Objects of a tree in post-order, each node framed with the number of leaves beneath it. -/
def PageTree.postOrder : PageTree → List Token
  | .leafParent id parent pages =>
    (PageTree.leafParent id parent pages).frame (pages.length : Int)
  | .node id parent kids =>
    PageTree.postOrderKids kids
      ++ (PageTree.node id parent kids).frame (PageTree.leafCountKids kids : Int)
/-- Objects of a list of trees, one tree after the other. -/
def PageTree.postOrderKids : List PageTree → List Token
  | [] => []
  | k :: ks => PageTree.postOrder k ++ PageTree.postOrderKids ks
end

/-- Objects written before the object of the node itself: those of its proper descendants. -/
def PageTree.descendantObjects : PageTree → List Token
  | .leafParent _ _ _ => []
  | .node _ _ kids => PageTree.postOrderKids kids

/-! ## Document state -/

/-- Date of the info dictionary, with the nine components the state writer stores. -/
structure PDFDate where
  Year : Int
  Month : Int
  Day : Int
  Hour : Int
  Minute : Int
  Second : Int
  UTC : Int
  HourFromUTC : Int
  MinuteFromUTC : Int
deriving DecidableEq, Repr

/-- Trapped flag of the info dictionary. -/
inductive EInfoTrapped where
  | EInfoTrappedTrue
  | EInfoTrappedFalse
  | EInfoTrappedUnknown
deriving DecidableEq, Repr

/-- Modelled from the spec: the info dictionary (InfoDictionary.h is not among the sources)
has optional text fields, two dates, a trapped flag and additional string-keyed text
entries. A text field is a string, empty when absent. -/
structure InfoDictionary where
  Title : String
  Author : String
  Subject : String
  Keywords : String
  Creator : String
  Producer : String
  CreationDate : PDFDate
  ModDate : PDFDate
  Trapped : EInfoTrapped
  mAdditionalInfoEntries : List (String × String)
deriving DecidableEq, Repr

/-- Modelled from the spec: the trailer information (TrailerInformation.h is not among the
sources) has an optional previous cross-reference offset, a root reference, optional
encryption and info dictionary references, and the info dictionary. `GetPrev`, `GetRoot`,
`GetEncrypt` and `GetInfoDictionaryReference` return a presence flag and a value: an
`Option`. -/
structure TrailerInformation where
  mPrev : Option Int
  mRootReference : Option ObjectReference
  mEncryptReference : Option ObjectReference
  mInfoDictionaryReference : Option ObjectReference
  mInfoDictionary : InfoDictionary
deriving DecidableEq, Repr

/-- Modelled from the spec: `TrailerInformation::SetRoot`, called with an object ID, makes
the root reference present: the reference to that object, generation 0. -/
def TrailerInformation.SetRoot (t : TrailerInformation) (id : Nat) : TrailerInformation :=
  { t with mRootReference := some ⟨id, 0⟩ }

/-- Modelled from the spec: `TrailerInformation::SetPrev` sets the previous
cross-reference offset. The trailer information keeps the value, and the offset is present
when the value is not 0: the state writer stores `GetPrev().second` whether the offset is
present or not, and the state reader hands what it finds to `SetPrev`. -/
def TrailerInformation.SetPrev (t : TrailerInformation) (p : Int) : TrailerInformation :=
  { t with mPrev := if p = 0 then none else some p }

/-- Modelled from the spec: a reference as the trailer information keeps it, absent when
its object ID is 0. No object has the ID 0, and this file takes a reference to it for the
absence of an object (`GetOriginalDocumentPageTreeRoot`, `FinalizeModifiedPDF`). -/
def ObjectReference.asOptional (ref : ObjectReference) : Option ObjectReference :=
  if ref.ObjectID = 0 then none else some ref

/-- Modelled from the spec: `TrailerInformation::SetRoot`, called with a reference as the
state reader does. -/
def TrailerInformation.SetRootReference (t : TrailerInformation) (ref : ObjectReference) :
    TrailerInformation :=
  { t with mRootReference := ref.asOptional }

/-- Modelled from the spec: `TrailerInformation::SetEncrypt`, called with a reference. -/
def TrailerInformation.SetEncrypt (t : TrailerInformation) (ref : ObjectReference) :
    TrailerInformation :=
  { t with mEncryptReference := ref.asOptional }

/-- Modelled from the spec: `TrailerInformation::SetInfoDictionaryReference`, called with a
reference as the state reader does. -/
def TrailerInformation.SetInfoReference (t : TrailerInformation) (ref : ObjectReference) :
    TrailerInformation :=
  { t with mInfoDictionaryReference := ref.asOptional }

/-- Modelled from the spec: `TrailerInformation::SetInfoDictionaryReference`, called with an
object ID, makes the info dictionary reference present: that object, generation 0. -/
def TrailerInformation.SetInfoDictionaryReference (t : TrailerInformation) (id : Nat) :
    TrailerInformation :=
  { t with mInfoDictionaryReference := some ⟨id, 0⟩ }

/-- Modelled from the spec: the catalog information (CatalogInformation.h is not among the
sources) refers to the page tree root and to the currently open page tree node: here the
session page tree (by its root) when a page tree node exists, and the position of the open
node as a path of child indexes from the root. -/
structure CatalogInformation where
  mPageTree : Option PageTree
  mCurrentPageTreeNode : List Nat

/-- Modelled from the spec: the document reader (PDFParser.h is not among the sources)
gives the trailer, the indirect object of an ID, the position of the cross-reference
section and the declared level of the source, here times ten and truncated as
`IsRequiredVersionHigherThanPDFVersion` uses it. -/
structure PDFParser where
  GetTrailer : Option PDFDictionary
  objects : List (Nat × PDFObject)
  GetXrefPosition : Int
  PDFLevelTenths : Nat

/-- The call `PDFParser::ParseNewObject`: the object of that ID, null when there is none. -/
def PDFParser.ParseNewObject (p : PDFParser) (id : Nat) : Option PDFObject :=
  (p.objects.find? (fun e => e.1 == id)).map (fun e => e.2)

/-- Modelled from the spec: a resources dictionary (ResourcesDictionary.h is not among the
sources) has a set of procedure-set names and, per category, a mapping from object ID to
allocated name; each is kept as the list its iterator yields. The dictionary is known to
the task registry by its identity, here its address. -/
structure ResourcesDictionary where
  address : Nat
  mProcsets : List String
  mXObjects : List (Nat × String)
  mExtGStates : List (Nat × String)
  mFonts : List (Nat × String)
  mColorSpaces : List (Nat × String)
  mPatterns : List (Nat × String)
  mShadings : List (Nat × String)
  mProperties : List (Nat × String)
deriving DecidableEq, Repr

/-- Modelled from the spec: a page (PDFPage.h is not among the sources) has a media box,
four optional boxes (`GetCropBox` and the like return a presence flag and a box: an
`Option`), a resources dictionary and the IDs of its content streams, in order. -/
structure PDFPage where
  mMediaBox : PDFRectangle
  mCropBox : Option PDFRectangle
  mBleedBox : Option PDFRectangle
  mTrimBox : Option PDFRectangle
  mArtBox : Option PDFRectangle
  mResources : ResourcesDictionary
  mContentStreamReferences : List Nat
deriving DecidableEq, Repr

/-- Modelled from the spec: an extension (IDocumentContextExtender.h is not among the
sources) is called back at fixed points; a callback may write to the object writer, request
object IDs and fail. A callback left out succeeds and writes nothing, a query left out
answers false, as `VersionUpdate` relies on for the callbacks it does not override. -/
structure IDocumentContextExtender where
  OnCatalogWrite : CatalogInformation → ObjectsContext → ExternalWrite :=
    fun _ _ => { status := .eSuccess, tokens := [], allocated := 0 }
  IsCatalogUpdateRequiredForModifiedFile : PDFParser → Bool := fun _ => false
  OnResourcesWrite : ResourcesDictionary → ObjectsContext → ExternalWrite :=
    fun _ _ => { status := .eSuccess, tokens := [], allocated := 0 }
  OnResourceDictionaryWrite : String → ObjectsContext → ExternalWrite :=
    fun _ _ => { status := .eSuccess, tokens := [], allocated := 0 }
  OnPageWrite : PDFPage → ObjectsContext → ExternalWrite :=
    fun _ _ => { status := .eSuccess, tokens := [], allocated := 0 }

/-- Modelled from the spec: a deferred resource task (IResourceWritingTask.h is not among
the sources) is a command object; its `Write` may write to the object writer, request object
IDs and fail. -/
structure IResourceWritingTask where
  Write : ObjectsContext → ExternalWrite

/-- Modelled from the spec: a form object (PDFFormXObject.h is not among the sources), known
to the task registry by its identity, here its address, with the ID of its resources
dictionary object and its resources dictionary. -/
structure PDFFormXObject where
  address : Nat
  mResourcesDictionaryID : Nat
  mResources : ResourcesDictionary
deriving DecidableEq, Repr

/-- Modelled from the spec: a deferred form-end task (IFormEndWritingTask.h is not among the
sources) is a command object; its `Write` may write to the object writer, request object IDs
and fail. -/
structure IFormEndWritingTask where
  Write : PDFFormXObject → ObjectsContext → ExternalWrite

/-- A `std::map` from a key to a `std::list` of tasks, as the list of its entries; a task is
kept with its address. Keys are looked up, inserted and erased: the order of the entries
plays no part. -/
abbrev TaskMap (κ τ : Type) := List (κ × List (Nat × τ))

/-- Behaviour of the collaborators outside this file. Among them are the insertion of a
page into the page tree (`CatalogInformation::AddPageToPageTree`, which gives the ID of the
parent of the page; when left out, a page goes under a root that is a leaf parent, created
on the first page), the status of `ObjectsContext::EndDictionary` (success when left out:
the dictionary closed is the innermost open one), the ASCII-7 encoder
(`Ascii7Encoding::Encode`, which gives a flag and the encoded text and, when left out, is
modelled from the spec: it fails on a character outside ASCII-7) and the state writer and
reader of the used-fonts repository. -/
structure Collaborators where
  WriteUsedFontsDefinitions : ObjectsContext → ExternalWrite
  WriteXrefTable : ObjectsContext → EStatusCode × Int
  WriteXrefStream : ObjectsContext → EStatusCode
  GetCurrentPosition : ObjectsContext → Int
  MD5 : List String → String
  CurrentTime : PDFDate
  DateToString : PDFDate → String
  DateIsNull : PDFDate → Bool
  PositionToString : Int → String
  VersionToString : Nat → String
  CopyingContextStart : PDFParser → EStatusCode
  NewVersionUpdate : Nat
  AddResourceMapping : ResourcesDictionary → String → Nat → String × ResourcesDictionary :=
    fun d _ _ => ("", d)
  AddPageToPageTree : Nat → CatalogInformation → ObjectsContext →
      Nat × CatalogInformation × ObjectsContext :=
    fun page info ctx =>
      match info.mPageTree with
      | some (.leafParent id parent pages) =>
        (id, { info with mPageTree := some (.leafParent id parent (pages ++ [page])) }, ctx)
      | some (.node id _ _) => (id, info, ctx)
      | none =>
        (ctx.objectsCount,
          { mPageTree := some (.leafParent ctx.objectsCount none [page]),
            mCurrentPageTreeNode := [] },
          { ctx with objectsCount := ctx.objectsCount + 1 })
  EndDictionary : ObjectsContext → EStatusCode := fun _ => .eSuccess
  Ascii7Encode : String → Bool × String :=
    fun s => (s.data.all (fun c => decide (c.toNat < 128)), s)
  WriteUsedFontsState : ObjectsContext → Nat → ExternalWrite :=
    fun _ _ => { status := .eSuccess, tokens := [], allocated := 0 }
  ReadUsedFontsState : PDFParser → Nat → EStatusCode := fun _ _ => .eSuccess

/-- State of a `DocumentContext`. The extender set is a `std::set` of pointers: pairs of
address and extender, kept in increasing address order without duplicates. The resource
tasks are keyed by resources dictionary (its address) and category, the form-end tasks by
form (its address). -/
structure DocumentContext where
  mObjectsContext : ObjectsContext
  mTrailerInformation : TrailerInformation
  mCatalogInformation : CatalogInformation
  mExtenders : List (Nat × IDocumentContextExtender)
  mModifiedDocumentIDExists : Bool
  mModifiedDocumentID : String
  mOutputFilePath : String
  mResourcesTasks : TaskMap (Nat × String) IResourceWritingTask := []
  mFormEndTasks : TaskMap Nat IFormEndWritingTask := []
  mAnnotations : List Nat := []
  mCurrentPageTreeIDInState : Nat := 0

/-- Append one writer call to the log of the objects context. -/
def DocumentContext.write (s : DocumentContext) (t : Token) : DocumentContext :=
  { s with mObjectsContext := s.mObjectsContext.write t }

/-- Modelled from the spec: `InfoDictionary::IsEmpty` (InfoDictionary.cpp is not among the
sources); the dictionary is empty when none of its fields is present. -/
def InfoDictionary.IsEmpty (env : Collaborators) (i : InfoDictionary) : Bool :=
  i.Title.isEmpty && i.Author.isEmpty && i.Subject.isEmpty && i.Keywords.isEmpty
    && i.Creator.isEmpty && i.Producer.isEmpty
    && env.DateIsNull i.CreationDate && env.DateIsNull i.ModDate
    && decide (i.Trapped = .EInfoTrappedUnknown) && i.mAdditionalInfoEntries.isEmpty

/-- Modelled from the spec: `CatalogInformation::GetPageTreeRoot` (CatalogInformation.cpp is
not among the sources) gives the root of the session page tree; when no page tree node
exists yet it creates a childless root under a newly allocated ID. -/
def GetPageTreeRoot (s : DocumentContext) : PageTree × DocumentContext :=
  match s.mCatalogInformation.mPageTree with
  | some root => (root, s)
  | none =>
    let r := s.mObjectsContext.AllocateNewObjectID
    let root := PageTree.leafParent r.1 none []
    (root, { s with
      mObjectsContext := r.2,
      mCatalogInformation := { mPageTree := some root, mCurrentPageTreeNode := [] } })

/-! ## Extender registration -/

/-- Insertion into the address-ordered extender set. -/
def insertExtender (addr : Nat) (e : IDocumentContextExtender) :
    List (Nat × IDocumentContextExtender) → List (Nat × IDocumentContextExtender)
  | [] => [(addr, e)]
  | x :: rest =>
    if addr < x.1 then (addr, e) :: x :: rest
    else if addr = x.1 then x :: rest
    else x :: insertExtender addr e rest

/-- The function `DocumentContext::AddDocumentContextExtender`. -/
def AddDocumentContextExtender (addr : Nat) (e : IDocumentContextExtender)
    (s : DocumentContext) : DocumentContext :=
  { s with mExtenders := insertExtender addr e s.mExtenders }

/-- The function `DocumentContext::RemoveDocumentContextExtender`. -/
def RemoveDocumentContextExtender (addr : Nat) (s : DocumentContext) : DocumentContext :=
  { s with mExtenders := s.mExtenders.filter (fun x => x.1 != addr) }

/-! ## Trailer and info dictionary -/

def scTitle : String := "Title"

def scAuthor : String := "Author"

def scSubject : String := "Subject"

def scKeywords : String := "Keywords"

def scCreator : String := "Creator"

def scProducer : String := "Producer"

def scCreationDate : String := "CreationDate"

def scModDate : String := "ModDate"

def scTrapped : String := "Trapped"

def scTrue : String := "True"

def scFalse : String := "False"

def scUnknown : String := "Unknown"

/-- The function `DocumentContext::GenerateMD5IDForFile`. -/
def GenerateMD5IDForFile (env : Collaborators) (s : DocumentContext) : String :=
  let info := s.mTrailerInformation.mInfoDictionary
  env.MD5 ([env.DateToString env.CurrentTime, s.mOutputFilePath,
      env.PositionToString (env.GetCurrentPosition s.mObjectsContext),
      info.Title, info.Author, info.Subject, info.Keywords, info.Creator, info.Producer,
      env.DateToString info.CreationDate, env.DateToString info.ModDate,
      (if info.Trapped = .EInfoTrappedUnknown then scUnknown
       else if info.Trapped = .EInfoTrappedTrue then scTrue else scFalse)]
    ++ info.mAdditionalInfoEntries.map (fun e => e.2))

/-- A key with an object reference value, written when the reference is present. -/
def writeOptionalReference (key : String) (r : Option ObjectReference)
    (s : DocumentContext) : DocumentContext :=
  match r with
  | some ref => (s.write (.WriteKey key)).write (.WriteObjectReferenceValue ref)
  | none => s

/-- The function `DocumentContext::WriteTrailerDictionaryValues`. -/
def WriteTrailerDictionaryValues (env : Collaborators) (s : DocumentContext) :
    EStatusCode × DocumentContext :=
  -- size
  let s := s.write (.WriteKey scSize)
  let s := s.write (.WriteIntegerValue (s.mObjectsContext.objectsCount : Int))
  -- prev reference
  let s := match s.mTrailerInformation.mPrev with
    | some p => (s.write (.WriteKey scPrev)).write (.WriteIntegerValue p)
    | none => s
  -- catalog reference
  match s.mTrailerInformation.mRootReference with
  | none => (.eFailure, s)
  | some root =>
    let s := (s.write (.WriteKey scRoot)).write (.WriteObjectReferenceValue root)
    -- encrypt dictionary reference
    let s := writeOptionalReference scEncrypt s.mTrailerInformation.mEncryptReference s
    -- info reference
    let s := writeOptionalReference scInfo s.mTrailerInformation.mInfoDictionaryReference s
    -- write ID
    let id := GenerateMD5IDForFile env s
    let s := s.write (.WriteKey scID)
    let s := s.write .StartArray
    let s := if s.mModifiedDocumentIDExists then s.write (.WriteHexString s.mModifiedDocumentID)
      else s.write (.WriteHexString id)
    let s := s.write (.WriteHexString id)
    let s := s.write .EndArray
    let s := s.write .EndLine
    (.eSuccess, s)

/-- The function `DocumentContext::WriteTrailerDictionary`. -/
def WriteTrailerDictionary (env : Collaborators) (s : DocumentContext) :
    EStatusCode × DocumentContext :=
  let s := s.write (.WriteKeyword scTrailer)
  let s := s.write .StartDictionary
  let r := WriteTrailerDictionaryValues env s
  (r.1, r.2.write .EndDictionary)

/-- A key with a literal string value, written when the condition holds. -/
def writeOptionalString (present : Bool) (key value : String) (s : DocumentContext) :
    DocumentContext :=
  if present then (s.write (.WriteKey key)).write (.WriteLiteralStringValue value) else s

/-- The loop over the additional entries of the info dictionary. -/
def writeAdditionalEntries : List (String × String) → DocumentContext → DocumentContext
  | [], s => s
  | e :: es, s =>
    writeAdditionalEntries es ((s.write (.WriteKey e.1)).write (.WriteLiteralStringValue e.2))

/-- The function `DocumentContext::WriteInfoDictionary`. -/
def WriteInfoDictionary (env : Collaborators) (s : DocumentContext) : DocumentContext :=
  let infoDictionary := s.mTrailerInformation.mInfoDictionary
  if infoDictionary.IsEmpty env then s
  else
    let r := s.mObjectsContext.StartNewIndirectObject
    let infoDictionaryID := r.1
    let s := { s with mObjectsContext := r.2 }
    let s := s.write .StartDictionary
    let s := { s with mTrailerInformation :=
      s.mTrailerInformation.SetInfoDictionaryReference infoDictionaryID }
    let s := writeOptionalString (!infoDictionary.Title.isEmpty) scTitle infoDictionary.Title s
    let s := writeOptionalString (!infoDictionary.Author.isEmpty) scAuthor infoDictionary.Author s
    let s := writeOptionalString (!infoDictionary.Subject.isEmpty) scSubject
      infoDictionary.Subject s
    let s := writeOptionalString (!infoDictionary.Keywords.isEmpty) scKeywords
      infoDictionary.Keywords s
    let s := writeOptionalString (!infoDictionary.Creator.isEmpty) scCreator
      infoDictionary.Creator s
    let s := writeOptionalString (!infoDictionary.Producer.isEmpty) scProducer
      infoDictionary.Producer s
    let s := writeOptionalString (!env.DateIsNull infoDictionary.CreationDate) scCreationDate
      (env.DateToString infoDictionary.CreationDate) s
    let s := writeOptionalString (!env.DateIsNull infoDictionary.ModDate) scModDate
      (env.DateToString infoDictionary.ModDate) s
    let s := if infoDictionary.Trapped ≠ .EInfoTrappedUnknown then
        (s.write (.WriteKey scTrapped)).write
          (.WriteNameValue (if infoDictionary.Trapped = .EInfoTrappedTrue then scTrue else scFalse))
      else s
    let s := writeAdditionalEntries infoDictionary.mAdditionalInfoEntries s
    let s := s.write .EndDictionary
    s.write .EndIndirectObject

/-! ## Catalog and page tree of the session -/

/-- The extender loop of `WriteCatalogObject`: it runs while the status is `eSuccess`. -/
def onCatalogWriteLoop : List (Nat × IDocumentContextExtender) → CatalogInformation →
    EStatusCode → ObjectsContext → EStatusCode × ObjectsContext
  | [], _, status, ctx => (status, ctx)
  | x :: rest, info, status, ctx =>
    if status = .eSuccess then
      let w := x.2.OnCatalogWrite info ctx
      onCatalogWriteLoop rest info w.status (ctx.external "OnCatalogWrite" x.1 w)
    else (status, ctx)

/-- The function `DocumentContext::WriteCatalogObject`. -/
def WriteCatalogObject (inPageTreeRootObjectReference : ObjectReference)
    (s : DocumentContext) : EStatusCode × DocumentContext :=
  let r := s.mObjectsContext.StartNewIndirectObject
  let catalogID := r.1
  let s := { s with mObjectsContext := r.2 }
  -- set the catalog reference as root in the trailer
  let s := { s with mTrailerInformation := s.mTrailerInformation.SetRoot catalogID }
  let s := s.write .StartDictionary
  let s := s.write (.WriteKey scType)
  let s := s.write (.WriteNameValue scCatalog)
  let s := s.write (.WriteKey scPages)
  let s := s.write (.WriteObjectReferenceValue inPageTreeRootObjectReference)
  let l := onCatalogWriteLoop s.mExtenders s.mCatalogInformation .eSuccess s.mObjectsContext
  let s := { s with mObjectsContext := l.2 }
  let s := s.write .EndDictionary
  let s := s.write .EndIndirectObject
  (l.1, s)

/-- The function `DocumentContext::WriteCatalogObjectOfNewPDF`. -/
def WriteCatalogObjectOfNewPDF (s : DocumentContext) : EStatusCode × DocumentContext :=
  let r := GetPageTreeRoot s
  WriteCatalogObject ⟨r.1.GetID, 0⟩ r.2

/-- The function `DocumentContext::WritePagesTree`. -/
def WritePagesTree (s : DocumentContext) : DocumentContext :=
  let r := GetPageTreeRoot s
  let w := WritePageTree r.1 r.2.mObjectsContext
  { r.2 with mObjectsContext := w.2 }

/-- The function `DocumentContext::WriteUsedFontsDefinitions`: the used-fonts repository
writes its definitions. -/
def WriteUsedFontsDefinitions (env : Collaborators) (s : DocumentContext) :
    EStatusCode × DocumentContext :=
  let w := env.WriteUsedFontsDefinitions s.mObjectsContext
  (w.status, { s with mObjectsContext :=
    s.mObjectsContext.external "WriteUsedFontsDefinitions" 0 w })

/-- The call `mObjectsContext->WriteXrefTable(xrefTablePosition)`. -/
def WriteXrefTable (env : Collaborators) (s : DocumentContext) :
    EStatusCode × Int × DocumentContext :=
  let r := env.WriteXrefTable s.mObjectsContext
  (r.1, r.2, s.write (.WriteXrefTable r.1))

/-- The function `DocumentContext::WriteXrefReference`. -/
def WriteXrefReference (inXrefTablePosition : Int) (s : DocumentContext) : DocumentContext :=
  let s := s.write (.WriteKeyword scStartXref)
  s.write (.WriteInteger inXrefTablePosition)

/-- The function `DocumentContext::WriteFinalEOF`. -/
def WriteFinalEOF (s : DocumentContext) : DocumentContext :=
  s.write (.FreeContextWrite scEOF)

/-- The function `DocumentContext::FinalizeNewPDF`. -/
def FinalizeNewPDF (env : Collaborators) (s : DocumentContext) :
    EStatusCode × DocumentContext :=
  let r := WriteUsedFontsDefinitions env s
  if r.1 ≠ .eSuccess then r
  else
    let s := WritePagesTree r.2
    let r := WriteCatalogObjectOfNewPDF s
    if r.1 ≠ .eSuccess then r
    else
      -- write the info dictionary of the trailer, if has any valid entries
      let s := WriteInfoDictionary env r.2
      let x := WriteXrefTable env s
      if x.1 ≠ .eSuccess then (x.1, x.2.2)
      else
        let xrefTablePosition := x.2.1
        let r := WriteTrailerDictionary env x.2.2
        if r.1 ≠ .eSuccess then r
        else
          let s := WriteXrefReference xrefTablePosition r.2
          let s := WriteFinalEOF s
          (r.1, s)

/-! ## Modification of an existing file -/

/-- The function `DocumentContext::SetupModifiedFile`. -/
def SetupModifiedFile (env : Collaborators) (inModifiedFileParser : PDFParser)
    (s : DocumentContext) : EStatusCode × DocumentContext :=
  match inModifiedFileParser.GetTrailer with
  | none => (.eFailure, s)
  | some trailer =>
    match trailer.QueryDirectObject "Root" with
    | some (.indirectObjectReference mObjectID _) =>
      -- set catalog reference and previous reference table position
      let t := s.mTrailerInformation.SetRoot mObjectID
      let t := t.SetPrev inModifiedFileParser.GetXrefPosition
      -- setup modified date to current time
      let t := { t with mInfoDictionary := { t.mInfoDictionary with ModDate := env.CurrentTime } }
      -- try to get document ID. in any case use whatever was the original
      let mModifiedDocumentID :=
        match trailer.QueryDirectObject "ID" with
        | some (.array [.hexString value, _]) => value
        | _ => ""
      (.eSuccess, { s with
        mTrailerInformation := t,
        mModifiedDocumentIDExists := true,
        mModifiedDocumentID := mModifiedDocumentID })
    | _ => (.eFailure, s)

/-- The function `DocumentContext::GetOriginalDocumentPageTreeRoot`. The trailer is
dereferenced unchecked: `none` when the parser has no trailer. -/
def GetOriginalDocumentPageTreeRoot (inModifiedFileParser : PDFParser) :
    Option ObjectReference :=
  match inModifiedFileParser.GetTrailer with
  | none => none
  | some trailer =>
    -- get catalogue, verify indirect reference
    match trailer.QueryDirectObject "Root" with
    | some (.indirectObjectReference catalogID _) =>
      match inModifiedFileParser.ParseNewObject catalogID with
      | some (.dictionary catalog) =>
        -- get pages, verify indirect reference
        match PDFDictionary.QueryDirectObject catalog "Pages" with
        | some (.indirectObjectReference mObjectID mVersion) => some ⟨mObjectID, mVersion⟩
        | _ => some ⟨0, 0⟩
      | _ => some ⟨0, 0⟩
    | _ => some ⟨0, 0⟩

mutual
/-- The loop of `DocumentHasNewPages`: descent along first children until a leaf parent
or a node without kids is met. -/
def hasLeafsLoop : PageTree → Bool
  | .leafParent _ _ _ => true
  | .node _ _ kids => hasLeafsLoopFirst kids
/-- The step of the loop on the kids of a node that is not a leaf parent. -/
def hasLeafsLoopFirst : List PageTree → Bool
  | [] => false
  | k :: _ => hasLeafsLoop k
end

/-- The function `DocumentContext::DocumentHasNewPages`. -/
def DocumentHasNewPages (s : DocumentContext) : Bool :=
  match s.mCatalogInformation.mPageTree with
  | none => false
  | some pageTreeRoot => hasLeafsLoop pageTreeRoot

/-- The value a `long long` holds after an arithmetic operation whose exact result is the
given integer: the result reduced to 64 bits in two's complement. -/
def toLongLong (x : Int) : Int := (x + 2 ^ 63) % 2 ^ 64 - 2 ^ 63

/-- The loop of `WriteCombinedPageTree` that copies all but the parent key. -/
def copyAllButParent : PDFDictionary → DocumentContext → DocumentContext
  | [], s => s
  | e :: es, s =>
    if e.1 ≠ "Parent" then
      copyAllButParent es ((s.write (.WriteKey e.1)).write (.CopyDirectObjectAsIs e.2))
    else copyAllButParent es s

/-- The function `DocumentContext::WriteCombinedPageTree`. The result is the ID of the new
root, 0 on failure; `none` when the original root is not a dictionary (it is dereferenced
unchecked) or the parser has no trailer. -/
def WriteCombinedPageTree (env : Collaborators) (inModifiedFileParser : PDFParser)
    (s : DocumentContext) : Option (Nat × DocumentContext) :=
  -- allocate new root object
  let a := s.mObjectsContext.AllocateNewObjectID
  let newPageRootTreeID := a.1
  let s := { s with mObjectsContext := a.2 }
  -- write new pages tree
  let g := GetPageTreeRoot s
  let newPagesTree := g.1
  let s := g.2
  let w := WritePageTree (newPagesTree.SetParent (some newPageRootTreeID)) s.mObjectsContext
  let newPagesCount := w.1
  let s := { s with
    mObjectsContext := w.2,
    mCatalogInformation := { s.mCatalogInformation with
      mPageTree := some (newPagesTree.SetParent none) } }
  -- write modified old pages root
  match GetOriginalDocumentPageTreeRoot inModifiedFileParser with
  | none => none
  | some originalTreeRoot =>
    let originalTreeRootObject := inModifiedFileParser.ParseNewObject originalTreeRoot.ObjectID
    let s := s.write (.StartModifiedIndirectObject originalTreeRoot.ObjectID)
    let s := s.write .StartDictionary
    match originalTreeRootObject with
    | some (.dictionary originalTreeRootObject) =>
      let originalPageTreeKidsCount : Int :=
        match PDFDictionary.QueryDirectObject originalTreeRootObject scCount with
        | some (.integer value) => value
        | _ => 0
      -- copy all but parent key. then add parent as the new root object
      let status := env.CopyingContextStart inModifiedFileParser
      if status ≠ .eSuccess then some (0, s)
      else
        let s := copyAllButParent originalTreeRootObject s
        -- parent
        let s := s.write (.WriteKey scParent)
        let s := s.write (.WriteNewObjectReferenceValue newPageRootTreeID)
        let s := s.write .EndDictionary
        let s := s.write .EndIndirectObject
        -- now write the root page tree. 2 kids, the original pages, and new pages
        let s := s.write (.StartNewIndirectObject newPageRootTreeID)
        let s := s.write .StartDictionary
        let s := s.write (.WriteKey scType)
        let s := s.write (.WriteNameValue scPages)
        let s := s.write (.WriteKey scCount)
        let s := s.write
          (.WriteIntegerValue (toLongLong (originalPageTreeKidsCount + newPagesCount)))
        let s := s.write (.WriteKey scKids)
        let s := s.write .StartArray
        let s := s.write (.WriteIndirectObjectReference originalTreeRoot)
        let s := s.write (.WriteNewIndirectObjectReference newPagesTree.GetID)
        let s := s.write .EndArray
        let s := s.write .EndLine
        let s := s.write .EndDictionary
        let s := s.write .EndIndirectObject
        some (newPageRootTreeID, s)
    | _ => none

/-- The function `DocumentContext::IsRequiredVersionHigherThanPDFVersion`. The level of the
source, times ten and truncated, is the field `PDFLevelTenths` of the parser. -/
def IsRequiredVersionHigherThanPDFVersion (inModifiedFileParser : PDFParser)
    (inModifiedPDFVersion : Nat) : Bool :=
  decide (inModifiedFileParser.PDFLevelTenths < inModifiedPDFVersion)

/-- The loop of `DoExtendersRequireCatalogUpdate`. -/
def requireCatalogUpdateLoop (inModifiedFileParser : PDFParser) :
    List (Nat × IDocumentContextExtender) → Bool → Bool
  | [], isUpdateRequired => isUpdateRequired
  | x :: rest, isUpdateRequired =>
    if !isUpdateRequired then
      requireCatalogUpdateLoop inModifiedFileParser rest
        (x.2.IsCatalogUpdateRequiredForModifiedFile inModifiedFileParser)
    else isUpdateRequired

/-- The function `DocumentContext::DoExtendersRequireCatalogUpdate`. -/
def DoExtendersRequireCatalogUpdate (inModifiedFileParser : PDFParser)
    (s : DocumentContext) : Bool :=
  requireCatalogUpdateLoop inModifiedFileParser s.mExtenders false

/-- The function `DocumentContext::RequiresXrefStream`. -/
def RequiresXrefStream (inModifiedFileParser : PDFParser) : Bool :=
  -- modification requires xref stream if the original document uses one
  match inModifiedFileParser.GetTrailer with
  | none => false
  | some trailer =>
    match trailer.QueryDirectObject "Type" with
    | some (.name value) => value == "XRef"
    | _ => false

/-- The function `DocumentContext::WriteXrefStream`, with the position it reports. -/
def WriteXrefStream (env : Collaborators) (s : DocumentContext) :
    EStatusCode × Int × DocumentContext :=
  let outXrefPosition := env.GetCurrentPosition s.mObjectsContext
  let r := s.mObjectsContext.StartNewIndirectObject
  let s := { s with mObjectsContext := r.2 }
  let s := s.write .StartDictionary
  let s := s.write (.WriteKey "Type")
  let s := s.write (.WriteNameValue "XRef")
  let v := WriteTrailerDictionaryValues env s
  if v.1 ≠ .eSuccess then (v.1, outXrefPosition, v.2)
  else
    -- k. now for the xref table itself
    let status := env.WriteXrefStream v.2.mObjectsContext
    (status, outXrefPosition, v.2.write (.WriteXrefStream status))

/-- The extender `VersionUpdate`: it writes the Version key of the catalog. -/
def VersionUpdate (env : Collaborators) (inPDFVersion : Nat) : IDocumentContextExtender :=
  { OnCatalogWrite := fun _ _ =>
      { status := .eSuccess,
        tokens := [.WriteKey "Version", .WriteNameValue (env.VersionToString inPDFVersion)],
        allocated := 0 } }

/-- The catalog step of `FinalizeModifiedPDF`, with the temporary version extender. -/
def writeCatalogOfModifiedPDF (env : Collaborators) (requiresVersionUpdate : Bool)
    (inModifiedPDFVersion : Nat) (finalPageRoot : ObjectReference) (s : DocumentContext) :
    EStatusCode × DocumentContext :=
  let s := if requiresVersionUpdate then
      AddDocumentContextExtender env.NewVersionUpdate (VersionUpdate env inModifiedPDFVersion) s
    else s
  let r := WriteCatalogObject finalPageRoot s
  let s := if requiresVersionUpdate then RemoveDocumentContextExtender env.NewVersionUpdate r.2
    else r.2
  (r.1, s)

/-- The end of `FinalizeModifiedPDF`, from the info dictionary on. -/
def finishModifiedPDF (env : Collaborators) (inModifiedFileParser : PDFParser)
    (s : DocumentContext) : EStatusCode × DocumentContext :=
  -- write the info dictionary of the trailer, if has any valid entries
  let s := WriteInfoDictionary env s
  if RequiresXrefStream inModifiedFileParser then
    let x := WriteXrefStream env s
    let s := WriteXrefReference x.2.1 x.2.2
    let s := WriteFinalEOF s
    (x.1, s)
  else
    let x := WriteXrefTable env s
    if x.1 ≠ .eSuccess then (x.1, x.2.2)
    else
      let r := WriteTrailerDictionary env x.2.2
      if r.1 ≠ .eSuccess then r
      else
        let s := WriteXrefReference x.2.1 r.2
        let s := WriteFinalEOF s
        (r.1, s)

/-- The catalog decision of `FinalizeModifiedPDF` and what follows it, given the page tree
root that was settled on and whether a new page tree root was written. -/
def finalizeFromCatalog (env : Collaborators) (inModifiedFileParser : PDFParser)
    (inModifiedPDFVersion : Nat) (hasNewPageTreeRoot : Bool) (finalPageRoot : ObjectReference)
    (s : DocumentContext) : EStatusCode × DocumentContext :=
  let requiresVersionUpdate :=
    IsRequiredVersionHigherThanPDFVersion inModifiedFileParser inModifiedPDFVersion
  if hasNewPageTreeRoot || requiresVersionUpdate
      || DoExtendersRequireCatalogUpdate inModifiedFileParser s then
    let r := writeCatalogOfModifiedPDF env requiresVersionUpdate inModifiedPDFVersion
      finalPageRoot s
    if r.1 ≠ .eSuccess then r
    else finishModifiedPDF env inModifiedFileParser r.2
  else finishModifiedPDF env inModifiedFileParser s

/-- The function `DocumentContext::FinalizeModifiedPDF`. -/
def FinalizeModifiedPDF (env : Collaborators) (inModifiedFileParser : PDFParser)
    (inModifiedPDFVersion : Nat) (s : DocumentContext) :
    Option (EStatusCode × DocumentContext) :=
  let r := WriteUsedFontsDefinitions env s
  if r.1 ≠ .eSuccess then some r
  else
    let s := r.2
    match GetOriginalDocumentPageTreeRoot inModifiedFileParser with
    | none => none
    | some originalDocumentPageTreeRoot =>
      if DocumentHasNewPages s then
        if originalDocumentPageTreeRoot.ObjectID ≠ 0 then
          match WriteCombinedPageTree env inModifiedFileParser s with
          | none => none
          | some c =>
            -- check for error - may fail to write combined page tree if document is protected
            if c.1 = 0 then some (.eFailure, c.2)
            else some (finalizeFromCatalog env inModifiedFileParser inModifiedPDFVersion true
              ⟨c.1, 0⟩ c.2)
        else
          let s := WritePagesTree s
          let g := GetPageTreeRoot s
          some (finalizeFromCatalog env inModifiedFileParser inModifiedPDFVersion true
            ⟨g.1.GetID, 0⟩ g.2)
      else
        some (finalizeFromCatalog env inModifiedFileParser inModifiedPDFVersion false
          originalDocumentPageTreeRoot s)

/-! ## Specification of the trailer and info dictionary writers (spec 4.2) -/

/-- Append a list of writer calls to the log of the objects context. -/
def DocumentContext.writeAll (s : DocumentContext) (ts : List Token) : DocumentContext :=
  { s with mObjectsContext := { s.mObjectsContext with
      written := s.mObjectsContext.written ++ ts } }

/-- The Prev entry: present when a previous cross-reference offset is. -/
def prevEntry : Option Int → List Token
  | some p => [.WriteKey scPrev, .WriteIntegerValue p]
  | none => []

/-- An entry with a reference value: present when the reference is. -/
def referenceEntry (key : String) : Option ObjectReference → List Token
  | some ref => [.WriteKey key, .WriteObjectReferenceValue ref]
  | none => []

/-- The Size and Prev entries of the trailer. -/
def sizeAndPrevEntries (s : DocumentContext) : List Token :=
  [.WriteKey scSize, .WriteIntegerValue (s.mObjectsContext.objectsCount : Int)]
    ++ prevEntry s.mTrailerInformation.mPrev

/-- The entries of the trailer that come before the ID, for the given root. -/
def entriesBeforeID (s : DocumentContext) (root : ObjectReference) : List Token :=
  sizeAndPrevEntries s
    ++ [.WriteKey scRoot, .WriteObjectReferenceValue root]
    ++ referenceEntry scEncrypt s.mTrailerInformation.mEncryptReference
    ++ referenceEntry scInfo s.mTrailerInformation.mInfoDictionaryReference

/-- The ID entry: an array of two hex strings. -/
def idEntry (first second : String) : List Token :=
  [.WriteKey scID, .StartArray, .WriteHexString first, .WriteHexString second,
   .EndArray, .EndLine]

/-- The value `GenerateMD5IDForFile` returns during the trailer write: it is computed after
the entries before the ID are written. -/
def generatedID (env : Collaborators) (s : DocumentContext) (root : ObjectReference) :
    String :=
  GenerateMD5IDForFile env (s.writeAll (entriesBeforeID s root))

/-- The first string of the ID array: the preserved one of a modified file, else the
generated one. -/
def firstID (s : DocumentContext) (g : String) : String :=
  if s.mModifiedDocumentIDExists then s.mModifiedDocumentID else g

/-- The entries of the trailer, for the given root. -/
def trailerEntries (env : Collaborators) (s : DocumentContext) (root : ObjectReference) :
    List Token :=
  entriesBeforeID s root
    ++ idEntry (firstID s (generatedID env s root)) (generatedID env s root)

/-- Whether a writer call writes the given dictionary key. -/
def Token.isKey (key : String) : Token → Bool
  | .WriteKey k => k == key
  | _ => false

/-- Whether a writer call writes the given name value. -/
def Token.isName (value : String) : Token → Bool
  | .WriteNameValue v => v == value
  | _ => false

/-- Whether a writer call writes the given keyword. -/
def Token.isKeyword (keyword : String) : Token → Bool
  | .WriteKeyword k => k == keyword
  | _ => false

/-- Whether a writer call frames an indirect object (new or modified). -/
def Token.startsObject : Token → Bool
  | .StartNewIndirectObject _ => true
  | .StartModifiedIndirectObject _ => true
  | _ => false

/-- Whether a writer call rewrites an object of the source. -/
def Token.startsModifiedObject : Token → Bool
  | .StartModifiedIndirectObject _ => true
  | _ => false

/-- Whether a writer call is the classic cross-reference table. -/
def Token.isXrefTable : Token → Bool
  | .WriteXrefTable _ => true
  | _ => false

/-- Whether a writer call is the table part of a cross-reference stream. -/
def Token.isXrefStream : Token → Bool
  | .WriteXrefStream _ => true
  | _ => false

/-- The text entries of the info dictionary object. -/
def stringEntry (present : Bool) (key value : String) : List Token :=
  if present then [.WriteKey key, .WriteLiteralStringValue value] else []

/-- The Trapped entry of the info dictionary object. -/
def trappedEntry (t : EInfoTrapped) : List Token :=
  if t ≠ .EInfoTrappedUnknown then
    [.WriteKey scTrapped, .WriteNameValue (if t = .EInfoTrappedTrue then scTrue else scFalse)]
  else []

/-- The additional entries of the info dictionary object. -/
def additionalEntries : List (String × String) → List Token
  | [] => []
  | e :: es => [.WriteKey e.1, .WriteLiteralStringValue e.2] ++ additionalEntries es

/-- The entries of the info dictionary object. -/
def infoEntries (env : Collaborators) (i : InfoDictionary) : List Token :=
  stringEntry (!i.Title.isEmpty) scTitle i.Title
    ++ stringEntry (!i.Author.isEmpty) scAuthor i.Author
    ++ stringEntry (!i.Subject.isEmpty) scSubject i.Subject
    ++ stringEntry (!i.Keywords.isEmpty) scKeywords i.Keywords
    ++ stringEntry (!i.Creator.isEmpty) scCreator i.Creator
    ++ stringEntry (!i.Producer.isEmpty) scProducer i.Producer
    ++ stringEntry (!env.DateIsNull i.CreationDate) scCreationDate
        (env.DateToString i.CreationDate)
    ++ stringEntry (!env.DateIsNull i.ModDate) scModDate (env.DateToString i.ModDate)
    ++ trappedEntry i.Trapped
    ++ additionalEntries i.mAdditionalInfoEntries

/-- The info object: framed under the given ID. -/
def infoObject (env : Collaborators) (i : InfoDictionary) (id : Nat) : List Token :=
  [.StartNewIndirectObject id, .StartDictionary] ++ infoEntries env i
    ++ [.EndDictionary, .EndIndirectObject]

/-! ## Concrete documents used to evaluate the model -/

/-- A null date. -/
def nullDate : PDFDate :=
  { Year := -1, Month := -1, Day := -1, Hour := -1, Minute := -1, Second := -1,
    UTC := 0, HourFromUTC := 0, MinuteFromUTC := 0 }

/-- A date: 2012-03-04 05:06:07. -/
def sampleDate : PDFDate :=
  { Year := 2012, Month := 3, Day := 4, Hour := 5, Minute := 6, Second := 7,
    UTC := 0, HourFromUTC := 0, MinuteFromUTC := 0 }

/-- Collaborators that all succeed and write nothing. -/
def quietEnv : Collaborators :=
  { WriteUsedFontsDefinitions := fun _ => { status := .eSuccess, tokens := [], allocated := 0 },
    WriteXrefTable := fun ctx => (.eSuccess, (ctx.written.length : Int)),
    WriteXrefStream := fun _ => .eSuccess,
    GetCurrentPosition := fun ctx => (ctx.written.length : Int),
    MD5 := fun _ => "d41d8cd9",
    CurrentTime := sampleDate,
    DateToString := fun d => toString d.Year,
    DateIsNull := fun d => d.Year == -1,
    PositionToString := fun p => toString p,
    VersionToString := fun v => toString (v / 10) ++ "." ++ toString (v % 10),
    CopyingContextStart := fun _ => .eSuccess,
    NewVersionUpdate := 1000 }

/-- Collaborators whose used-fonts repository fails. -/
def failingFontsEnv : Collaborators :=
  { quietEnv with
    WriteUsedFontsDefinitions := fun _ => { status := .eFailure, tokens := [], allocated := 0 } }

/-- Collaborators whose copying context cannot be started (a protected source). -/
def protectedSourceEnv : Collaborators :=
  { quietEnv with CopyingContextStart := fun _ => .eFailure }

/-- An empty info dictionary. -/
def emptyInfo : InfoDictionary :=
  { Title := "", Author := "", Subject := "", Keywords := "", Creator := "", Producer := "",
    CreationDate := nullDate, ModDate := nullDate, Trapped := .EInfoTrappedUnknown,
    mAdditionalInfoEntries := [] }

/-- A document context right after construction: nothing written, object 0 only in the
registry, no page tree node, no extender. -/
def freshDocument : DocumentContext :=
  { mObjectsContext := { written := [], objectsCount := 1 },
    mTrailerInformation :=
      { mPrev := none, mRootReference := none, mEncryptReference := none,
        mInfoDictionaryReference := none, mInfoDictionary := emptyInfo },
    mCatalogInformation := { mPageTree := none, mCurrentPageTreeNode := [] },
    mExtenders := [],
    mModifiedDocumentIDExists := false,
    mModifiedDocumentID := "",
    mOutputFilePath := "out.pdf" }

/-- A page tree of depth two with three leaf pages. -/
def sampleTree : PageTree :=
  .node 1 none [.leafParent 2 (some 1) [3, 4], .leafParent 5 (some 1) [6]]

/-- A source document with a catalog (object 1), a page tree root (object 2) of three pages,
an ID pair, declared level 1.3 and a classic cross-reference table at offset 500. -/
def sourceParser : PDFParser :=
  { GetTrailer := some [("Size", .integer 6), ("Root", .indirectObjectReference 1 0),
      ("ID", .array [.hexString "0a0b", .hexString "0c0d"])],
    objects := [(1, .dictionary [("Type", .name "Catalog"),
                  ("Pages", .indirectObjectReference 2 0)]),
                (2, .dictionary [("Type", .name "Pages"), ("Count", .integer 3),
                  ("Kids", .array [.indirectObjectReference 3 0,
                    .indirectObjectReference 4 0, .indirectObjectReference 5 0])])],
    GetXrefPosition := 500,
    PDFLevelTenths := 13 }

/-- The same source, declaring a cross-reference stream trailer. -/
def xrefStreamSourceParser : PDFParser :=
  { sourceParser with
    GetTrailer := some [("Type", .name "XRef"), ("Size", .integer 6),
      ("Root", .indirectObjectReference 1 0),
      ("ID", .array [.hexString "0a0b", .hexString "0c0d"])] }

/-- A source document with a catalog that has no page tree. -/
def zeroPageSourceParser : PDFParser :=
  { sourceParser with objects := [(1, .dictionary [("Type", .name "Catalog")])] }

/-- A parser that could not read a trailer. -/
def noTrailerParser : PDFParser :=
  { GetTrailer := none, objects := [], GetXrefPosition := 0, PDFLevelTenths := 13 }

/-- The document context set up for the modification of `sourceParser`, six objects being
in the registry. -/
def modifiedDocument : DocumentContext :=
  (SetupModifiedFile quietEnv sourceParser
    { freshDocument with mObjectsContext := { written := [], objectsCount := 6 } }).2

/-- The same document with one leaf parent holding two new pages (objects 6 and 7),
the leaf parent being object 8. -/
def modifiedDocumentWithPages : DocumentContext :=
  { modifiedDocument with
    mObjectsContext := { written := [], objectsCount := 9 },
    mCatalogInformation :=
      { mPageTree := some (.leafParent 8 none [6, 7]), mCurrentPageTreeNode := [] } }

/-- The tokens a result has written, the empty list when there is no result. -/
def writtenBy (r : Option (EStatusCode × DocumentContext)) : List Token :=
  match r with
  | some x => x.2.mObjectsContext.written
  | none => []

/-- The state in which `FinalizeNewPDF` writes the trailer dictionary, once the used fonts,
the page tree, the catalog, the info dictionary and the cross-reference table are written. -/
def stateAtTrailerOfNewPDF (env : Collaborators) (s : DocumentContext) : DocumentContext :=
  (WriteXrefTable env (WriteInfoDictionary env
    (WriteCatalogObjectOfNewPDF (WritePagesTree (WriteUsedFontsDefinitions env s).2)).2)).2.2

/-- The state in which `WriteXrefStream` writes the trailer values: the stream object is
framed and its dictionary holds the Type entry. -/
def stateAtValuesOfXrefStream (s : DocumentContext) : DocumentContext :=
  (((({ s with mObjectsContext := s.mObjectsContext.StartNewIndirectObject.2 }
    : DocumentContext).write .StartDictionary).write (.WriteKey "Type")).write
      (.WriteNameValue "XRef"))

/-- A document with a previous cross-reference offset, an encryption reference and an info
reference, but no root reference. -/
def rootlessDocument : DocumentContext :=
  { freshDocument with
    mTrailerInformation :=
      { mPrev := some 500, mRootReference := none, mEncryptReference := some ⟨4, 0⟩,
        mInfoDictionaryReference := some ⟨5, 0⟩, mInfoDictionary := emptyInfo } }

/-- A document with a root reference and an info reference only. -/
def rootedDocument : DocumentContext :=
  { freshDocument with
    mObjectsContext := { written := [], objectsCount := 6 },
    mTrailerInformation :=
      { mPrev := none, mRootReference := some ⟨2, 0⟩, mEncryptReference := none,
        mInfoDictionaryReference := some ⟨5, 0⟩, mInfoDictionary := emptyInfo } }

/-! ## Specification of the splice (spec 4.3) -/

/-- The entries copied from the original root: every key but Parent, in iteration order. -/
def copiedEntries : PDFDictionary → List Token
  | [] => []
  | e :: es =>
    if e.1 ≠ "Parent" then [.WriteKey e.1, .CopyDirectObjectAsIs e.2] ++ copiedEntries es
    else copiedEntries es

/-- The original root rewritten under its own ID, with the new root as its parent. -/
def rewrittenOriginalRoot (original : ObjectReference) (entries : PDFDictionary)
    (newRootID : Nat) : List Token :=
  [.StartModifiedIndirectObject original.ObjectID, .StartDictionary]
    ++ copiedEntries entries
    ++ [.WriteKey scParent, .WriteNewObjectReferenceValue newRootID,
        .EndDictionary, .EndIndirectObject]

/-- The new root of a splice: two kids, the original root and the root of the new pages. -/
def spliceRoot (newRootID : Nat) (count : Int) (original : ObjectReference)
    (newPagesTreeID : Nat) : List Token :=
  [.StartNewIndirectObject newRootID, .StartDictionary,
   .WriteKey scType, .WriteNameValue scPages,
   .WriteKey scCount, .WriteIntegerValue count,
   .WriteKey scKids, .StartArray,
   .WriteIndirectObjectReference original, .WriteNewIndirectObjectReference newPagesTreeID,
   .EndArray, .EndLine, .EndDictionary, .EndIndirectObject]

/-- A document whose info dictionary has a title. -/
def titledDocument : DocumentContext :=
  { freshDocument with
    mTrailerInformation := { freshDocument.mTrailerInformation with
      mInfoDictionary := { emptyInfo with Title := "Report" } } }

/-! ## Specification of the finalisation of a modified file (spec 4.2, 4.3) -/

/-- The callbacks of `WriteCatalogObject`, as the status they end with, the log entries
they leave and the number of object IDs they request. -/
def catalogCallbacks : List (Nat × IDocumentContextExtender) → CatalogInformation →
    ObjectsContext → EStatusCode × List Token × Nat
  | [], _, _ => (.eSuccess, [], 0)
  | x :: rest, info, ctx =>
    let w := x.2.OnCatalogWrite info ctx
    if w.status = .eSuccess then
      let r := catalogCallbacks rest info (ctx.external "OnCatalogWrite" x.1 w)
      (r.1, Token.External "OnCatalogWrite" x.1 w.status w.tokens :: r.2.1,
        w.allocated + r.2.2)
    else (w.status, [Token.External "OnCatalogWrite" x.1 w.status w.tokens], w.allocated)

/-- The start of a catalog object: framed under the given ID, with Type and Pages. -/
def catalogStart (catalogID : Nat) (pages : ObjectReference) : List Token :=
  [.StartNewIndirectObject catalogID, .StartDictionary,
   .WriteKey scType, .WriteNameValue scCatalog,
   .WriteKey scPages, .WriteObjectReferenceValue pages]

/-- The cross-reference stream form of the end of the file: one object that is both the
trailer dictionary (Type XRef and the trailer entries) and the table, then startxref and
the end-of-file marker. The state is the one before the section. -/
def crossReferenceStreamSection (env : Collaborators) (s : DocumentContext)
    (root : ObjectReference) (status : EStatusCode) : List Token :=
  [.StartNewIndirectObject s.mObjectsContext.objectsCount, .StartDictionary,
   .WriteKey "Type", .WriteNameValue "XRef"]
    ++ trailerEntries env (stateAtValuesOfXrefStream s) root
    ++ [.WriteXrefStream status, .WriteKeyword scStartXref,
        .WriteInteger (env.GetCurrentPosition s.mObjectsContext), .FreeContextWrite scEOF]

/-- The classic form of the end of the file: the cross-reference table, a separate trailer
dictionary, then startxref and the end-of-file marker. The state is the one before the
section. -/
def classicSection (env : Collaborators) (s : DocumentContext) (root : ObjectReference) :
    List Token :=
  [.WriteXrefTable .eSuccess, .WriteKeyword scTrailer, .StartDictionary]
    ++ trailerEntries env
        (s.writeAll [.WriteXrefTable .eSuccess, .WriteKeyword scTrailer, .StartDictionary]) root
    ++ [.EndDictionary, .WriteKeyword scStartXref,
        .WriteInteger (env.WriteXrefTable s.mObjectsContext).2, .FreeContextWrite scEOF]

/-- Writer calls that can occur before the info dictionary is written: page tree objects,
the rewritten original root, the catalog, and calls that leave the file. -/
def Token.inBody : Token → Bool
  | .WriteXrefTable _ => false
  | .WriteXrefStream _ => false
  | .WriteKeyword _ => false
  | .FreeContextWrite _ => false
  | .WriteInteger _ => false
  | .WriteHexString _ => false
  | .WriteLiteralStringValue _ => false
  | .WriteNameValue v => v == scPages || v == scCatalog
  | _ => true

/-- Writer calls that can occur from the info dictionary on: the info object, the
cross-reference section, the trailer, startxref and the end-of-file marker. -/
def Token.inFinish : Token → Bool
  | .StartModifiedIndirectObject _ => false
  | .CopyDirectObjectAsIs _ => false
  | .External _ _ _ _ => false
  | .WriteNewObjectReferenceValue _ => false
  | .WriteIndirectObjectReference _ => false
  | .WriteNewIndirectObjectReference _ => false
  | .WriteNameValue v => v == scTrue || v == scFalse || v == "XRef"
  | .WriteKeyword k => k == scTrailer || k == scStartXref
  | _ => true

/-- Whether the source trailer declares a cross-reference stream: it exists and has a Type
entry that is the name XRef. -/
def declaresXrefStream (parser : PDFParser) : Prop :=
  ∃ trailer, parser.GetTrailer = some trailer ∧
    trailer.QueryDirectObject "Type" = some (.name "XRef")

/-- Writer calls of a dictionary of entries: the info object and the trailer entries. -/
def Token.inEntries : Token → Bool
  | .StartNewIndirectObject _ => true
  | .StartDictionary => true
  | .EndDictionary => true
  | .EndIndirectObject => true
  | .WriteKey _ => true
  | .WriteLiteralStringValue _ => true
  | .WriteNameValue v => v == scTrue || v == scFalse
  | .WriteIntegerValue _ => true
  | .WriteObjectReferenceValue _ => true
  | .StartArray => true
  | .WriteHexString _ => true
  | .EndArray => true
  | .EndLine => true
  | _ => false

/-- Whether a log entry records a call that leaves this file. -/
def Token.isExternal : Token → Bool
  | .External _ _ _ _ => true
  | _ => false

/-- The call `std::map::find`: the list stored under the key, if the key is present. -/
def TaskMap.find {κ τ : Type} [DecidableEq κ] :
    TaskMap κ τ → κ → Option (List (Nat × τ))
  | [], _ => none
  | e :: rest, key => if e.1 = key then some e.2 else TaskMap.find rest key

/-- The call `std::map::erase` on the entry of a key. -/
def TaskMap.erase {κ τ : Type} [DecidableEq κ] : TaskMap κ τ → κ → TaskMap κ τ
  | [], _ => []
  | e :: rest, key =>
    if e.1 = key then TaskMap.erase rest key else e :: TaskMap.erase rest key

/-- The lookup of a key (`std::map::find`), the insertion of an empty list under it when it
is absent (`std::map::insert`), and `push_back` on the list of the key. -/
def TaskMap.pushBack {κ τ : Type} [DecidableEq κ] :
    TaskMap κ τ → κ → Nat × τ → TaskMap κ τ
  | [], key, task => [(key, [task])]
  | e :: rest, key, task =>
    if e.1 = key then (e.1, e.2 ++ [task]) :: rest
    else e :: TaskMap.pushBack rest key task

/-- The common shape of the task and extender loops,
`for(; it != end && eSuccess == status; ++it) status = call(*it)`: each call is recorded in
the log under the name of the callee and the address of the object called. -/
def callWhileSuccess (callee : String) :
    List (Nat × (ObjectsContext → ExternalWrite)) → EStatusCode → ObjectsContext →
    EStatusCode × ObjectsContext
  | [], status, ctx => (status, ctx)
  | c :: rest, status, ctx =>
    if status = .eSuccess then
      let w := c.2 ctx
      callWhileSuccess callee rest w.status (ctx.external callee c.1 w)
    else (status, ctx)

def scProcesets : String := "ProcSet"

def scXObjects : String := "XObject"

def scExtGStates : String := "ExtGState"

def scFonts : String := "Font"

def scColorSpaces : String := "ColorSpace"

def scPatterns : String := "Pattern"

def scShadings : String := "Shading"

def scProperties : String := "Properties"

/-- The loop `do { WriteKey(GetValue()); WriteNewObjectReferenceValue(GetKey()); }
while(MoveNext())` over the name bindings of a category. -/
def writeMapping : List (Nat × String) → ObjectsContext → ObjectsContext
  | [], ctx => ctx
  | e :: es, ctx =>
    writeMapping es ((ctx.write (.WriteKey e.2)).write (.WriteNewObjectReferenceValue e.1))

/-- The function `DocumentContext::WriteResourceDictionary`: the flush of one category of a
resources dictionary. The extender loop has a status variable of its own, which shadows the
one that is returned. -/
def WriteResourceDictionary (inResourcesDictionary : ResourcesDictionary)
    (inResourceDictionaryLabel : String) (inMapping : List (Nat × String))
    (s : DocumentContext) : EStatusCode × DocumentContext :=
  let key := (inResourcesDictionary.address, inResourceDictionaryLabel)
  let itWriterTasks := TaskMap.find s.mResourcesTasks key
  if !inMapping.isEmpty || itWriterTasks.isSome then
    let s := s.write (.WriteKey inResourceDictionaryLabel)
    let s := s.write .StartDictionary
    let s := { s with mObjectsContext := writeMapping inMapping s.mObjectsContext }
    let r : EStatusCode × DocumentContext :=
      match itWriterTasks with
      | some tasks =>
        let l := callWhileSuccess "IResourceWritingTask::Write"
          (tasks.map (fun t => (t.1, t.2.Write))) .eSuccess s.mObjectsContext
        -- Discard the tasks for this category
        (l.1, { s with
          mObjectsContext := l.2,
          mResourcesTasks := TaskMap.erase s.mResourcesTasks key })
      | none => (.eSuccess, s)
    if r.1 ≠ .eSuccess then r
    else
      let s := r.2
      let l := callWhileSuccess "OnResourceDictionaryWrite"
        (s.mExtenders.map (fun x => (x.1, x.2.OnResourceDictionaryWrite
          inResourceDictionaryLabel))) .eSuccess s.mObjectsContext
      let s := { s with mObjectsContext := l.2 }
      let s := s.write .EndDictionary
      (r.1, s)
  else (.eSuccess, s)

/-- The loop `do { WriteName(GetItem()); } while(MoveNext())` over the procedure sets. -/
def writeProcsets : List String → DocumentContext → DocumentContext
  | [], s => s
  | n :: ns, s => writeProcsets ns (s.write (.WriteName n))

/-- The function `DocumentContext::WriteResourcesDictionary`. The status of the ColorSpace
category is assigned and not tested: the Pattern category assigns it next. -/
def WriteResourcesDictionary (inResourcesDictionary : ResourcesDictionary)
    (s : DocumentContext) : EStatusCode × DocumentContext :=
  let d := inResourcesDictionary
  let s := s.write .StartDictionary
  -- Procsets
  let s :=
    if !d.mProcsets.isEmpty then
      let s := s.write (.WriteKey scProcesets)
      let s := s.write .StartArray
      let s := writeProcsets d.mProcsets s
      let s := s.write .EndArray
      s.write .EndLine
    else s
  -- XObjects
  let r := WriteResourceDictionary d scXObjects d.mXObjects s
  if r.1 ≠ .eSuccess then r
  else
    -- ExtGStates
    let r := WriteResourceDictionary d scExtGStates d.mExtGStates r.2
    if r.1 ≠ .eSuccess then r
    else
      -- Fonts
      let r := WriteResourceDictionary d scFonts d.mFonts r.2
      if r.1 ≠ .eSuccess then r
      else
        -- Color space
        let r := WriteResourceDictionary d scColorSpaces d.mColorSpaces r.2
        -- Patterns
        let r := WriteResourceDictionary d scPatterns d.mPatterns r.2
        if r.1 ≠ .eSuccess then r
        else
          -- Shading
          let r := WriteResourceDictionary d scShadings d.mShadings r.2
          if r.1 ≠ .eSuccess then r
          else
            -- Properties
            let r := WriteResourceDictionary d scProperties d.mProperties r.2
            if r.1 ≠ .eSuccess then r
            else
              let s := r.2
              let l := callWhileSuccess "OnResourcesWrite"
                (s.mExtenders.map (fun x => (x.1, x.2.OnResourcesWrite d)))
                r.1 s.mObjectsContext
              let s := { s with mObjectsContext := l.2 }
              let s := s.write .EndDictionary
              (l.1, s)

/-- The function `DocumentContext::EndFormXObjectNoRelease`. The result of
`WriteResourcesDictionary` is not used. -/
def EndFormXObjectNoRelease (inFormXObject : PDFFormXObject) (s : DocumentContext) :
    EStatusCode × DocumentContext :=
  let s := s.write .EndPDFStream
  -- now write the resources dictionary
  let s := s.write (.StartNewIndirectObject inFormXObject.mResourcesDictionaryID)
  let s := (WriteResourcesDictionary inFormXObject.mResources s).2
  let s := s.write .EndIndirectObject
  -- now write writing tasks
  match TaskMap.find s.mFormEndTasks inFormXObject.address with
  | some tasks =>
    let l := callWhileSuccess "IFormEndWritingTask::Write"
      (tasks.map (fun t => (t.1, t.2.Write inFormXObject))) .eSuccess s.mObjectsContext
    -- one time, so delete
    (l.1, { s with
      mObjectsContext := l.2,
      mFormEndTasks := TaskMap.erase s.mFormEndTasks inFormXObject.address })
  | none => (.eSuccess, s)

/-- The function `DocumentContext::AddExtendedResourceMapping` on a resources dictionary:
the task joins the queue of the key, then a name is allocated in the category of the
dictionary (the calls `AddXObjectMapping(0)` to `AddPropertyMapping(0)` of the resources
dictionary are the collaborator `AddResourceMapping`, by category); the result is the name,
the dictionary and the document context. -/
def AddExtendedResourceMapping (env : Collaborators)
    (inResourceDictionary : ResourcesDictionary) (inResourceCategoryName : String)
    (inWritingTask : Nat × IResourceWritingTask) (s : DocumentContext) :
    String × ResourcesDictionary × DocumentContext :=
  let key := (inResourceDictionary.address, inResourceCategoryName)
  let s := { s with mResourcesTasks := TaskMap.pushBack s.mResourcesTasks key inWritingTask }
  let r : String × ResourcesDictionary :=
    if inResourceCategoryName = scXObjects then
      env.AddResourceMapping inResourceDictionary scXObjects 0
    else if inResourceCategoryName = scExtGStates then
      env.AddResourceMapping inResourceDictionary scExtGStates 0
    else if inResourceCategoryName = scFonts then
      env.AddResourceMapping inResourceDictionary scFonts 0
    else if inResourceCategoryName = scColorSpaces then
      env.AddResourceMapping inResourceDictionary scColorSpaces 0
    else if inResourceCategoryName = scPatterns then
      env.AddResourceMapping inResourceDictionary scPatterns 0
    else if inResourceCategoryName = scShadings then
      env.AddResourceMapping inResourceDictionary scShadings 0
    else if inResourceCategoryName = scProperties then
      env.AddResourceMapping inResourceDictionary scProperties 0
    else ("", inResourceDictionary)
  (r.1, r.2, s)

/-- The function `DocumentContext::RegisterFormEndWritingTask`. -/
def RegisterFormEndWritingTask (inFormXObject : PDFFormXObject)
    (inWritingTask : Nat × IFormEndWritingTask) (s : DocumentContext) : DocumentContext :=
  { s with mFormEndTasks :=
      TaskMap.pushBack s.mFormEndTasks inFormXObject.address inWritingTask }

/-! ## Specification of the callback and task loops (spec 4.2, 4.4) -/

/-- The address of the object called, when the log entry records a call of the callee. -/
def Token.callOf (callee : String) : Token → Option Nat
  | .External c id _ _ => if c = callee then some id else none
  | _ => none

/-- The objects on which a stretch of the log records a call of the callee, by address, in
the order of the calls. -/
def callsOf (callee : String) (ts : List Token) : List Nat :=
  ts.filterMap (Token.callOf callee)

/-- The log entries left when every call of the list is made, one after the other, each
seeing what the calls before it wrote. -/
def callEntries (callee : String) :
    List (Nat × (ObjectsContext → ExternalWrite)) → ObjectsContext → List Token
  | [], _ => []
  | c :: rest, ctx =>
    Token.External callee c.1 (c.2 ctx).status (c.2 ctx).tokens
      :: callEntries callee rest (ctx.external callee c.1 (c.2 ctx))

/-- The number of object IDs requested when every call of the list is made. -/
def callAllocations (callee : String) :
    List (Nat × (ObjectsContext → ExternalWrite)) → ObjectsContext → Nat
  | [], _ => 0
  | c :: rest, ctx =>
    (c.2 ctx).allocated + callAllocations callee rest (ctx.external callee c.1 (c.2 ctx))

/-- The objects context after every call of the list is made. -/
def stateAfterCalls (callee : String)
    (calls : List (Nat × (ObjectsContext → ExternalWrite))) (ctx : ObjectsContext) :
    ObjectsContext :=
  { written := ctx.written ++ callEntries callee calls ctx,
    objectsCount := ctx.objectsCount + callAllocations callee calls ctx }

/-- Whether every call of the list returns success when the calls are made one after the
other from the given state. -/
def callsSucceed (callee : String) :
    List (Nat × (ObjectsContext → ExternalWrite)) → ObjectsContext → Bool
  | [], _ => true
  | c :: rest, ctx =>
    decide ((c.2 ctx).status = .eSuccess)
      && callsSucceed callee rest (ctx.external callee c.1 (c.2 ctx))

/-- The `OnCatalogWrite` callbacks of a list of extenders, each with the address of its
extender. -/
def catalogCalls (info : CatalogInformation) (exts : List (Nat × IDocumentContextExtender)) :
    List (Nat × (ObjectsContext → ExternalWrite)) :=
  exts.map (fun x => (x.1, x.2.OnCatalogWrite info))

/-- The objects context in which `WriteCatalogObject` starts its extender loop. -/
def catalogLoopStart (ref : ObjectReference) (s : DocumentContext) : ObjectsContext :=
  { written := s.mObjectsContext.written ++ catalogStart s.mObjectsContext.objectsCount ref,
    objectsCount := s.mObjectsContext.objectsCount + 1 }

/-- An extender whose catalog callback writes one key and succeeds. -/
def keyExtender (key : String) : IDocumentContextExtender :=
  { OnCatalogWrite := fun _ _ =>
      { status := .eSuccess, tokens := [.WriteKey key, .WriteIntegerValue 1], allocated := 0 } }

/-- An extender whose catalog callback fails. -/
def failingExtender : IDocumentContextExtender :=
  { OnCatalogWrite := fun _ _ => { status := .eFailure, tokens := [], allocated := 0 } }

/-- A document with three extenders, at the addresses 10, 20 and 30; the second one fails. -/
def threeExtenderDocument : DocumentContext :=
  { freshDocument with
    mExtenders := [(10, keyExtender "A"), (20, failingExtender), (30, keyExtender "B")] }

/-- A document with two extenders that succeed, at the addresses 10 and 30. -/
def twoExtenderDocument : DocumentContext :=
  { freshDocument with mExtenders := [(10, keyExtender "A"), (30, keyExtender "B")] }

/-- A sequence of `AddDocumentContextExtender` calls, in the order of the list. -/
def registerExtenders (regs : List (Nat × IDocumentContextExtender)) (s : DocumentContext) :
    DocumentContext :=
  regs.foldl (fun s r => AddDocumentContextExtender r.1 r.2 s) s

/-- What was appended to the log between two states of the document context. -/
def writtenSince (before after : DocumentContext) : List Token :=
  after.mObjectsContext.written.drop before.mObjectsContext.written.length

/-- The extenders a call of `WriteCatalogObject` calls back, by address, in the order of
the calls. -/
def catalogWriteOrder (ref : ObjectReference) (s : DocumentContext) : List Nat :=
  callsOf "OnCatalogWrite" (writtenSince s (WriteCatalogObject ref s).2)

/-! ## Specification of the order of the page tree objects (spec 4.1) -/

mutual
/-- The nodes of a tree, every node after the nodes beneath it. -/
def PageTree.nodes : PageTree → List PageTree
  | .leafParent id parent pages => [.leafParent id parent pages]
  | .node id parent kids => PageTree.nodesKids kids ++ [.node id parent kids]
/-- The nodes of a list of trees, one tree after the other. -/
def PageTree.nodesKids : List PageTree → List PageTree
  | [] => []
  | k :: ks => PageTree.nodes k ++ PageTree.nodesKids ks
end

/-- The child nodes of a node. -/
def PageTree.children : PageTree → List PageTree
  | .leafParent _ _ _ => []
  | .node _ _ kids => kids

/-- The ID a writer call frames a new indirect object under, if it frames one. -/
def Token.framedID : Token → Option Nat
  | .StartNewIndirectObject id => some id
  | _ => none

/-- The IDs a stretch of the log frames new indirect objects under, in order. -/
def framedIDs (ts : List Token) : List Nat :=
  ts.filterMap Token.framedID

/-- The objects of a list of nodes, each node framed with the number of leaves beneath
it. -/
def framesOf : List PageTree → List Token
  | [] => []
  | n :: ns => n.frame (n.leafCount : Int) ++ framesOf ns

/-! ## Specification of the parents in a splice and of its failure (spec 4.3) -/

/-- The object of the root of the new pages in a splice: framed under the ID of that root,
with the number of its leaves as Count and the new root of the splice as Parent. -/
def newPagesRootObject (tree : PageTree) (newRootID : Nat) : List Token :=
  [.StartNewIndirectObject tree.GetID, .StartDictionary,
   .WriteKey scType, .WriteNameValue scPages,
   .WriteKey scCount, .WriteIntegerValue (tree.leafCount : Int),
   .WriteKey scKids, .StartArray] ++ tree.kidsEntries
    ++ [.EndArray, .EndLine,
        .WriteKey scParent, .WriteNewObjectReferenceValue newRootID,
        .EndDictionary, .EndIndirectObject]

/-- The copy of one entry of the original root: its key, then its value as is. -/
def copiedEntry (e : String × PDFObject) : List Token :=
  [.WriteKey e.1, .CopyDirectObjectAsIs e.2]

/-- Writer calls of a page tree object. -/
def Token.inPagesObject : Token → Bool
  | .StartNewIndirectObject _ => true
  | .StartDictionary => true
  | .WriteKey _ => true
  | .WriteNameValue v => v == scPages
  | .WriteIntegerValue _ => true
  | .StartArray => true
  | .WriteNewIndirectObjectReference _ => true
  | .EndArray => true
  | .EndLine => true
  | .WriteNewObjectReferenceValue _ => true
  | .EndDictionary => true
  | .EndIndirectObject => true
  | _ => false

/-- Whether a writer call is the end-of-file marker. -/
def Token.isEndOfFile : Token → Bool
  | .FreeContextWrite bytes => bytes == scEOF
  | _ => false

/-- A source like `sourceParser` whose page tree root has a Parent entry of its own. -/
def parentedSourceParser : PDFParser :=
  { sourceParser with
    objects := [(1, .dictionary [("Type", .name "Catalog"),
                  ("Pages", .indirectObjectReference 2 0)]),
                (2, .dictionary [("Type", .name "Pages"),
                  ("Parent", .indirectObjectReference 7 0), ("Count", .integer 3)])] }

/-! ## Specification of the deferred task registry (spec 4.4) -/

/-- The queue of a key: the list stored under it, empty when the key is absent. -/
def TaskMap.queue {κ τ : Type} [DecidableEq κ] (m : TaskMap κ τ) (key : κ) :
    List (Nat × τ) :=
  (TaskMap.find m key).getD []

/-- The `Write` calls of the tasks of a queue, each with the address of its task. -/
def resourceTaskCalls (q : List (Nat × IResourceWritingTask)) :
    List (Nat × (ObjectsContext → ExternalWrite)) :=
  q.map (fun t => (t.1, t.2.Write))

/-- The `OnResourceDictionaryWrite` callbacks of a list of extenders. -/
def resourceDictionaryCalls (label : String) (exts : List (Nat × IDocumentContextExtender)) :
    List (Nat × (ObjectsContext → ExternalWrite)) :=
  exts.map (fun x => (x.1, x.2.OnResourceDictionaryWrite label))

/-- The name bindings of a category as they are written: name, then object reference. -/
def mappingEntries : List (Nat × String) → List Token
  | [] => []
  | e :: es => [.WriteKey e.2, .WriteNewObjectReferenceValue e.1] ++ mappingEntries es

/-- The objects context in which `WriteResourceDictionary` runs the tasks of the category:
the key is written, the sub-dictionary is open and the name bindings are written. -/
def categoryLoopStart (label : String) (mapping : List (Nat × String))
    (s : DocumentContext) : ObjectsContext :=
  { written := s.mObjectsContext.written ++ [.WriteKey label, .StartDictionary]
      ++ mappingEntries mapping,
    objectsCount := s.mObjectsContext.objectsCount }

/-- A sequence of `AddExtendedResourceMapping` calls, in the order of the list: each names
the resources dictionary, the category and the task. -/
def registerResourceTasks (env : Collaborators)
    (regs : List (ResourcesDictionary × String × (Nat × IResourceWritingTask)))
    (s : DocumentContext) : DocumentContext :=
  regs.foldl (fun s r => (AddExtendedResourceMapping env r.1 r.2.1 r.2.2 s).2.2) s

/-- The tasks a sequence of registrations queues for a key, in the order of registration. -/
def tasksRegisteredFor (key : Nat × String)
    (regs : List (ResourcesDictionary × String × (Nat × IResourceWritingTask))) :
    List (Nat × IResourceWritingTask) :=
  (regs.filter (fun r => decide ((r.1.address, r.2.1) = key))).map (fun r => r.2.2)

/-- A resource task that writes one entry and succeeds. -/
def entryTask (key : String) : IResourceWritingTask :=
  { Write := fun _ =>
      { status := .eSuccess, tokens := [.WriteKey key, .WriteIntegerValue 1], allocated := 0 } }

/-- A resource task that fails. -/
def failingTask : IResourceWritingTask :=
  { Write := fun _ => { status := .eFailure, tokens := [], allocated := 0 } }

/-- A resources dictionary at the address 100 with one font, object 5 under the name FN1. -/
def fontResources : ResourcesDictionary :=
  { address := 100, mProcsets := [], mXObjects := [], mExtGStates := [],
    mFonts := [(5, "FN1")], mColorSpaces := [], mPatterns := [], mShadings := [],
    mProperties := [] }

/-- A resources dictionary at the address 200 without any name. -/
def emptyResources : ResourcesDictionary :=
  { address := 200, mProcsets := [], mXObjects := [], mExtGStates := [],
    mFonts := [], mColorSpaces := [], mPatterns := [], mShadings := [],
    mProperties := [] }

/-- A document whose registry holds one queue, for the given category of the resources
dictionary at the address 200 (`emptyResources`): a single task, which fails. -/
def failingQueueDocument (category : String) : DocumentContext :=
  { freshDocument with mResourcesTasks := [((200, category), [(1, failingTask)])] }

/-- A form at the address 300 whose resources dictionary is `emptyResources`, written as
object 4. -/
def sampleForm : PDFFormXObject :=
  { address := 300, mResourcesDictionaryID := 4, mResources := emptyResources }

/-! ## Specification of the form-end tasks (spec 4.4) -/

/-- The `Write` calls of the form-end tasks of a queue, each with the address of its task. -/
def formEndTaskCalls (f : PDFFormXObject) (q : List (Nat × IFormEndWritingTask)) :
    List (Nat × (ObjectsContext → ExternalWrite)) :=
  q.map (fun t => (t.1, t.2.Write f))

/-- A sequence of `RegisterFormEndWritingTask` calls, in the order of the list: each names
the form and the task. -/
def registerFormEndTasks (regs : List (PDFFormXObject × (Nat × IFormEndWritingTask)))
    (s : DocumentContext) : DocumentContext :=
  regs.foldl (fun s r => RegisterFormEndWritingTask r.1 r.2 s) s

/-- The tasks a sequence of registrations queues for the form at an address, in the order
of registration. -/
def formTasksRegisteredFor (address : Nat)
    (regs : List (PDFFormXObject × (Nat × IFormEndWritingTask))) :
    List (Nat × IFormEndWritingTask) :=
  (regs.filter (fun r => decide (r.1.address = address))).map (fun r => r.2)

/-- The state in which `EndFormXObjectNoRelease` looks up the tasks of the form: the content
stream is closed and the resources dictionary object is written. -/
def formResourcesWritten (f : PDFFormXObject) (s : DocumentContext) : DocumentContext :=
  ((WriteResourcesDictionary f.mResources
    ((s.write .EndPDFStream).write (.StartNewIndirectObject f.mResourcesDictionaryID))).2).write
      .EndIndirectObject

/-- A step from one state to another that appends to the log without a call of a form-end
task, and leaves the registry of the form-end tasks as it is. -/
def AppendsNoFormEndCall (s s2 : DocumentContext) : Prop :=
  (∃ X, s2.mObjectsContext.written = s.mObjectsContext.written ++ X ∧
    callsOf "IFormEndWritingTask::Write" X = []) ∧
  s2.mFormEndTasks = s.mFormEndTasks

/-- A form-end task that writes one entry and succeeds. -/
def entryFormTask (key : String) : IFormEndWritingTask :=
  { Write := fun _ _ =>
      { status := .eSuccess, tokens := [.WriteKey key, .WriteIntegerValue 1], allocated := 0 } }

/-- A form-end task that fails. -/
def failingFormTask : IFormEndWritingTask :=
  { Write := fun _ _ => { status := .eFailure, tokens := [], allocated := 0 } }

/-- Another form, at the address 301. -/
def otherForm : PDFFormXObject :=
  { address := 301, mResourcesDictionaryID := 5, mResources := emptyResources }

/-! ## Failing inputs of the callback, page count and cross-reference stream claims -/

/-- An extender whose per-category resource callback fails. -/
def failingCategoryExtender : IDocumentContextExtender :=
  { OnResourceDictionaryWrite := fun _ _ =>
      { status := .eFailure, tokens := [], allocated := 0 } }

/-- An extender whose resources callback fails. -/
def failingResourcesExtender : IDocumentContextExtender :=
  { OnResourcesWrite := fun _ _ => { status := .eFailure, tokens := [], allocated := 0 } }

/-- A document whose only extender, at the address 10, is the given one. -/
def oneExtenderDocument (e : IDocumentContextExtender) : DocumentContext :=
  { freshDocument with mExtenders := [(10, e)] }

/-- The document `modifiedDocument` after `GetPageTreeRoot` has been asked for the root of
the session page tree, no page having been added: the root is a leaf parent without pages. -/
def emptyRootDocument : DocumentContext :=
  (GetPageTreeRoot modifiedDocument).2

/-- Collaborators whose cross-reference stream writer fails. -/
def failingXrefStreamEnv : Collaborators :=
  { quietEnv with WriteXrefStream := fun _ => .eFailure }

/-- The status a result carries, `none` when there is no result. -/
def statusOf (r : Option (EStatusCode × DocumentContext)) : Option EStatusCode :=
  r.map (fun x => x.1)

/-- Collaborators whose cross-reference table writer fails. -/
def failingXrefTableEnv : Collaborators :=
  { quietEnv with WriteXrefTable := fun _ => (.eFailure, 0) }

/-! ## Specification of the temporary version extender (spec 4.3) -/

/-- The extenders of the set that come before a new extender of the given address. -/
def extendersBefore (addr : Nat) (l : List (Nat × IDocumentContextExtender)) :
    List (Nat × IDocumentContextExtender) :=
  l.takeWhile (fun x => decide (x.1 < addr))

/-- The extenders of the set that come after a new extender of the given address. -/
def extendersAfter (addr : Nat) (l : List (Nat × IDocumentContextExtender)) :
    List (Nat × IDocumentContextExtender) :=
  l.dropWhile (fun x => decide (x.1 < addr))

/-- Whether a log records a catalog callback on the extender at the given address. -/
def catalogCallOn (addr : Nat) (ts : List Token) : Bool :=
  (callsOf "OnCatalogWrite" ts).contains addr

/-- The log entry of the catalog callback of `VersionUpdate`: the key Version and the
target version as a name. -/
def versionEntry (env : Collaborators) (inPDFVersion : Nat) : Token :=
  .External "OnCatalogWrite" env.NewVersionUpdate .eSuccess
    [.WriteKey "Version", .WriteNameValue (env.VersionToString inPDFVersion)]

/-- The address of the object called, when the log entry records a call of the callee that
did not return success. -/
def Token.failedCallOf (callee : String) : Token → Option Nat
  | .External c id status _ => if c = callee ∧ status ≠ .eSuccess then some id else none
  | _ => none

/-- The objects on which a stretch of the log records a call of the callee that did not
return success, by address, in the order of the calls. -/
def failedCallsOf (callee : String) (ts : List Token) : List Nat :=
  ts.filterMap (Token.failedCallOf callee)

/-- Whether a log records a failed catalog callback on an extender whose address is lower
than the given one: an extender that comes before it in the set. -/
def catalogCallFailedBelow (addr : Nat) (ts : List Token) : Bool :=
  (failedCallsOf "OnCatalogWrite" ts).any (fun a => decide (a < addr))

/-- A modified document with one extender, at the address 10, whose catalog callback
fails. -/
def failingExtenderDocument : DocumentContext :=
  { modifiedDocument with mExtenders := [(10, failingExtender)] }

/-- A modified document with one extender, at the address 10, whose catalog callback
writes a key. -/
def keyExtenderDocument : DocumentContext :=
  { modifiedDocument with mExtenders := [(10, keyExtender "A")] }

/-! ## Pages and annotations -/

def scPage : String := "Page"

def scMediaBox : String := "MediaBox"

def scCropBox : String := "CropBox"

def scBleedBox : String := "BleedBox"

def scTrimBox : String := "TrimBox"

def scArtBox : String := "ArtBox"

def scContents : String := "Contents"

def scResources : String := "Resources"

/-- A box key with its rectangle, written when the box is set and differs from the
reference box. -/
def writeOptionalBox (key : String) (box : Option PDFRectangle) (reference : PDFRectangle)
    (s : DocumentContext) : DocumentContext :=
  match box with
  | some b =>
    if b ≠ reference then (s.write (.WriteKey key)).write (.WriteRectangleValue b) else s
  | none => s

/-- The loops `WriteNewIndirectObjectReference(*it)` of `WritePage`, over the annotations
and over the content streams. -/
def writeNewIndirectObjectReferences : List Nat → DocumentContext → DocumentContext
  | [], s => s
  | id :: ids, s =>
    writeNewIndirectObjectReferences ids (s.write (.WriteNewIndirectObjectReference id))

/-- The function `DocumentContext::WritePage`. The `break` of the extender loop leaves that
loop only: the status of `EndDictionary` is assigned next. -/
def WritePage (env : Collaborators) (inPage : PDFPage) (s : DocumentContext) :
    (EStatusCode × Nat) × DocumentContext :=
  let r := s.mObjectsContext.StartNewIndirectObject
  let pageID := r.1
  let s := { s with mObjectsContext := r.2 }
  let s := s.write .StartDictionary
  -- type
  let s := s.write (.WriteKey scType)
  let s := s.write (.WriteNameValue scPage)
  -- parent
  let s := s.write (.WriteKey scParent)
  let a := env.AddPageToPageTree pageID s.mCatalogInformation s.mObjectsContext
  let s := { s with mCatalogInformation := a.2.1, mObjectsContext := a.2.2 }
  let s := s.write (.WriteNewObjectReferenceValue a.1)
  -- Media Box
  let s := s.write (.WriteKey scMediaBox)
  let s := s.write (.WriteRectangleValue inPage.mMediaBox)
  -- Crop Box
  let s := writeOptionalBox scCropBox inPage.mCropBox inPage.mMediaBox s
  let cropBox :=
    match inPage.mCropBox with
    | some b => if b ≠ inPage.mMediaBox then b else inPage.mMediaBox
    | none => inPage.mMediaBox
  -- Bleed Box
  let s := writeOptionalBox scBleedBox inPage.mBleedBox cropBox s
  -- Trim Box
  let s := writeOptionalBox scTrimBox inPage.mTrimBox cropBox s
  -- Art Box
  let s := writeOptionalBox scArtBox inPage.mArtBox cropBox s
  -- Resource dict
  let s := s.write (.WriteKey scResources)
  let w := WriteResourcesDictionary inPage.mResources s
  if w.1 ≠ .eSuccess then ((w.1, pageID), w.2)
  else
    let s := w.2
    -- Annotations
    let s :=
      if s.mAnnotations.length > 0 then
        let s := s.write (.WriteKey "Annots")
        let s := s.write .StartArray
        let s := writeNewIndirectObjectReferences s.mAnnotations s
        s.write .EndArrayEndLine
      else s
    let s := { s with mAnnotations := [] }
    -- Content
    let s :=
      if inPage.mContentStreamReferences.length > 0 then
        let s := s.write (.WriteKey scContents)
        if inPage.mContentStreamReferences.length > 1 then
          let s := s.write .StartArray
          let s := writeNewIndirectObjectReferences inPage.mContentStreamReferences s
          let s := s.write .EndArray
          s.write .EndLine
        else
          match inPage.mContentStreamReferences with
          | id :: _ => s.write (.WriteNewObjectReferenceValue id)
          | [] => s
      else s
    let l := callWhileSuccess "OnPageWrite"
      (s.mExtenders.map (fun x => (x.1, x.2.OnPageWrite inPage))) w.1 s.mObjectsContext
    let s := { s with mObjectsContext := l.2 }
    let status := env.EndDictionary s.mObjectsContext
    let s := s.write .EndDictionary
    if status ≠ .eSuccess then ((status, pageID), s)
    else ((status, pageID), s.write .EndIndirectObject)

def scAnnot : String := "Annot"

def scLink : String := "Link"

def scSubType : String := "Subtype"

def scRect : String := "Rect"

def scF : String := "F"

def scW : String := "W"

def scA : String := "A"

def scBS : String := "BS"

def scAction : String := "Action"

def scS : String := "S"

def scURI : String := "URI"

/-- The function `DocumentContext::WriteAnnotationAndLinkForURL`. -/
def WriteAnnotationAndLinkForURL (env : Collaborators) (inURL : String)
    (inLinkClickArea : PDFRectangle) (s : DocumentContext) :
    (EStatusCode × Nat) × DocumentContext :=
  let encodedResult := env.Ascii7Encode inURL
  if !encodedResult.1 then ((.eFailure, 0), s)
  else
    let r := s.mObjectsContext.StartNewIndirectObject
    let s : DocumentContext := { s with mObjectsContext := r.2 }
    let s : DocumentContext := s.write .StartDictionary
    -- Type
    let s : DocumentContext := s.write (.WriteKey scType)
    let s : DocumentContext := s.write (.WriteNameValue scAnnot)
    -- Subtype
    let s : DocumentContext := s.write (.WriteKey scSubType)
    let s : DocumentContext := s.write (.WriteNameValue scLink)
    -- Rect
    let s : DocumentContext := s.write (.WriteKey scRect)
    let s : DocumentContext := s.write (.WriteRectangleValue inLinkClickArea)
    -- F
    let s : DocumentContext := s.write (.WriteKey scF)
    let s : DocumentContext := s.write (.WriteIntegerValue 4)
    -- BS
    let s : DocumentContext := s.write (.WriteKey scBS)
    let s : DocumentContext := s.write .StartDictionary
    let s : DocumentContext := s.write (.WriteKey scW)
    let s : DocumentContext := s.write (.WriteIntegerValue 0)
    let s : DocumentContext := s.write .EndDictionary
    -- A
    let s : DocumentContext := s.write (.WriteKey scA)
    let s : DocumentContext := s.write .StartDictionary
    -- Type
    let s : DocumentContext := s.write (.WriteKey scType)
    let s : DocumentContext := s.write (.WriteNameValue scAction)
    -- S
    let s : DocumentContext := s.write (.WriteKey scS)
    let s : DocumentContext := s.write (.WriteNameValue scURI)
    -- URI
    let s : DocumentContext := s.write (.WriteKey scURI)
    let s : DocumentContext := s.write (.WriteLiteralStringValue encodedResult.2)
    let s : DocumentContext := s.write .EndDictionary
    let s : DocumentContext := s.write .EndDictionary
    let s : DocumentContext := s.write .EndIndirectObject
    ((.eSuccess, r.1), s)

/-- Insertion into the set of annotation IDs, a `std::set` kept in increasing order. -/
def insertAnnotationID (id : Nat) : List Nat → List Nat
  | [] => [id]
  | x :: rest =>
    if id < x then id :: x :: rest
    else if id = x then x :: rest
    else x :: insertAnnotationID id rest

/-- The function `DocumentContext::RegisterAnnotationReferenceForNextPageWrite`. -/
def RegisterAnnotationReferenceForNextPageWrite (inAnnotationReference : Nat)
    (s : DocumentContext) : DocumentContext :=
  { s with mAnnotations := insertAnnotationID inAnnotationReference s.mAnnotations }

/-- The function `DocumentContext::AttachURLLinktoCurrentPage`. -/
def AttachURLLinktoCurrentPage (env : Collaborators) (inURL : String)
    (inLinkClickArea : PDFRectangle) (s : DocumentContext) : EStatusCode × DocumentContext :=
  let writeResult := WriteAnnotationAndLinkForURL env inURL inLinkClickArea s
  if writeResult.1.1 ≠ .eSuccess then (writeResult.1.1, writeResult.2)
  else (.eSuccess, RegisterAnnotationReferenceForNextPageWrite writeResult.1.2 writeResult.2)

/-! ## Specification of pages and annotations (spec 4.2) -/

/-- An extender whose page callback fails. -/
def failingPageExtender : IDocumentContextExtender :=
  { OnPageWrite := fun _ _ => { status := .eFailure, tokens := [], allocated := 0 } }

/-- A page of 595 by 842 units with no other box, the resources `fontResources` and one
content stream, object 7. -/
def samplePage : PDFPage :=
  { mMediaBox := ⟨0, 0, 595, 842⟩, mCropBox := none, mBleedBox := none, mTrimBox := none,
    mArtBox := none, mResources := fontResources, mContentStreamReferences := [7] }

/-- The link annotation object of an encoded URL over an area, framed under an ID. -/
def linkAnnotationObject (id : Nat) (area : PDFRectangle) (encoded : String) : List Token :=
  [.StartNewIndirectObject id, .StartDictionary,
   .WriteKey "Type", .WriteNameValue "Annot",
   .WriteKey "Subtype", .WriteNameValue "Link",
   .WriteKey "Rect", .WriteRectangleValue area,
   .WriteKey "F", .WriteIntegerValue 4,
   .WriteKey "BS", .StartDictionary, .WriteKey "W", .WriteIntegerValue 0, .EndDictionary,
   .WriteKey "A", .StartDictionary, .WriteKey "Type", .WriteNameValue "Action",
   .WriteKey "S", .WriteNameValue "URI",
   .WriteKey "URI", .WriteLiteralStringValue encoded, .EndDictionary,
   .EndDictionary, .EndIndirectObject]

/-- A document with two annotations pending, objects 3 and 9, and twelve objects in the
registry. -/
def pendingAnnotationsDocument : DocumentContext :=
  { freshDocument with
    mObjectsContext := { written := [], objectsCount := 12 },
    mAnnotations := [3, 9] }

/-! ## State of the document context: writing -/

/-- The value of the trapped flag as `WriteIntegerValue` sees it: the position in the
enumeration. -/
def EInfoTrapped.toInt : EInfoTrapped → Int
  | .EInfoTrappedTrue => 0
  | .EInfoTrappedFalse => 1
  | .EInfoTrappedUnknown => 2

/-- The cast `(EInfoTrapped)value` of the state reader. A value outside the enumeration is
taken for the last enumerator. -/
def EInfoTrapped.ofInt (value : Int) : EInfoTrapped :=
  if value = 0 then .EInfoTrappedTrue
  else if value = 1 then .EInfoTrappedFalse
  else .EInfoTrappedUnknown

/-- The function `DocumentContext::WriteReferenceState`. -/
def WriteReferenceState (inReference : ObjectReference) (inStateWriter : ObjectsContext) :
    ObjectsContext :=
  let w : ObjectsContext := inStateWriter.write .StartDictionary
  let w : ObjectsContext := w.write (.WriteKey "ObjectID")
  let w : ObjectsContext := w.write (.WriteIntegerValue (inReference.ObjectID : Int))
  let w : ObjectsContext := w.write (.WriteKey "GenerationNumber")
  let w : ObjectsContext := w.write (.WriteIntegerValue (inReference.GenerationNumber : Int))
  w.write .EndDictionary

/-- The function `DocumentContext::WriteDateState`. -/
def WriteDateState (inDate : PDFDate) (inStateWriter : ObjectsContext) : ObjectsContext :=
  let w : ObjectsContext := inStateWriter.write .StartDictionary
  let w : ObjectsContext := w.write (.WriteKey "Type")
  let w : ObjectsContext := w.write (.WriteNameValue "Date")
  let w : ObjectsContext := w.write (.WriteKey "Year")
  let w : ObjectsContext := w.write (.WriteIntegerValue inDate.Year)
  let w : ObjectsContext := w.write (.WriteKey "Month")
  let w : ObjectsContext := w.write (.WriteIntegerValue inDate.Month)
  let w : ObjectsContext := w.write (.WriteKey "Day")
  let w : ObjectsContext := w.write (.WriteIntegerValue inDate.Day)
  let w : ObjectsContext := w.write (.WriteKey "Hour")
  let w : ObjectsContext := w.write (.WriteIntegerValue inDate.Hour)
  let w : ObjectsContext := w.write (.WriteKey "Minute")
  let w : ObjectsContext := w.write (.WriteIntegerValue inDate.Minute)
  let w : ObjectsContext := w.write (.WriteKey "Second")
  let w : ObjectsContext := w.write (.WriteIntegerValue inDate.Second)
  let w : ObjectsContext := w.write (.WriteKey "UTC")
  let w : ObjectsContext := w.write (.WriteIntegerValue inDate.UTC)
  let w : ObjectsContext := w.write (.WriteKey "HourFromUTC")
  let w : ObjectsContext := w.write (.WriteIntegerValue inDate.HourFromUTC)
  let w : ObjectsContext := w.write (.WriteKey "MinuteFromUTC")
  let w : ObjectsContext := w.write (.WriteIntegerValue inDate.MinuteFromUTC)
  w.write .EndDictionary

/-- The loop of `WriteTrailerInfoState` over the additional entries of the info
dictionary. -/
def writeAdditionalInfoState : List (String × String) → ObjectsContext → ObjectsContext
  | [], w => w
  | e :: es, w =>
    writeAdditionalInfoState es
      ((w.write (.WriteKey e.1)).write (.WriteLiteralStringValue e.2))

/-- The function `DocumentContext::WriteTrailerInfoState`. -/
def WriteTrailerInfoState (inObjectID : Nat) (s : DocumentContext)
    (inStateWriter : ObjectsContext) : ObjectsContext :=
  let info := s.mTrailerInformation.mInfoDictionary
  let w : ObjectsContext := inStateWriter.write (.StartNewIndirectObject inObjectID)
  let w : ObjectsContext := w.write .StartDictionary
  let w : ObjectsContext := w.write (.WriteKey "Type")
  let w : ObjectsContext := w.write (.WriteNameValue "InfoDictionary")
  let w : ObjectsContext := w.write (.WriteKey "Title")
  let w : ObjectsContext := w.write (.WriteLiteralStringValue info.Title)
  let w : ObjectsContext := w.write (.WriteKey "Author")
  let w : ObjectsContext := w.write (.WriteLiteralStringValue info.Author)
  let w : ObjectsContext := w.write (.WriteKey "Subject")
  let w : ObjectsContext := w.write (.WriteLiteralStringValue info.Subject)
  let w : ObjectsContext := w.write (.WriteKey "Keywords")
  let w : ObjectsContext := w.write (.WriteLiteralStringValue info.Keywords)
  let w : ObjectsContext := w.write (.WriteKey "Creator")
  let w : ObjectsContext := w.write (.WriteLiteralStringValue info.Creator)
  let w : ObjectsContext := w.write (.WriteKey "Producer")
  let w : ObjectsContext := w.write (.WriteLiteralStringValue info.Producer)
  let w : ObjectsContext := w.write (.WriteKey "CreationDate")
  let w : ObjectsContext := WriteDateState info.CreationDate w
  let w : ObjectsContext := w.write (.WriteKey "ModDate")
  let w : ObjectsContext := WriteDateState info.ModDate w
  let w : ObjectsContext := w.write (.WriteKey "Trapped")
  let w : ObjectsContext := w.write (.WriteIntegerValue info.Trapped.toInt)
  let w : ObjectsContext := w.write (.WriteKey "mAdditionalInfoEntries")
  let w : ObjectsContext := w.write .StartDictionary
  let w : ObjectsContext := writeAdditionalInfoState info.mAdditionalInfoEntries w
  let w : ObjectsContext := w.write .EndDictionary
  let w : ObjectsContext := w.write .EndDictionary
  w.write .EndIndirectObject

/-- The function `DocumentContext::WriteTrailerState`. The second component of what
`GetPrev`, `GetRoot`, `GetEncrypt` and `GetInfoDictionaryReference` return is written
whether the first says that the field is present or not: for an absent field it is the
zero value. -/
def WriteTrailerState (inObjectID : Nat) (s : DocumentContext)
    (inStateWriter : ObjectsContext) : ObjectsContext :=
  let t := s.mTrailerInformation
  let w : ObjectsContext := inStateWriter.write (.StartNewIndirectObject inObjectID)
  let w : ObjectsContext := w.write .StartDictionary
  let w : ObjectsContext := w.write (.WriteKey "Type")
  let w : ObjectsContext := w.write (.WriteNameValue "TrailerInformation")
  let w : ObjectsContext := w.write (.WriteKey "mPrev")
  let w : ObjectsContext := w.write (.WriteIntegerValue (t.mPrev.getD 0))
  let w : ObjectsContext := w.write (.WriteKey "mRootReference")
  let w : ObjectsContext := WriteReferenceState (t.mRootReference.getD ⟨0, 0⟩) w
  let w : ObjectsContext := w.write (.WriteKey "mEncryptReference")
  let w : ObjectsContext := WriteReferenceState (t.mEncryptReference.getD ⟨0, 0⟩) w
  let w : ObjectsContext := w.write (.WriteKey "mInfoDictionary")
  let a := w.AllocateNewObjectID
  let infoDictionaryID := a.1
  let w : ObjectsContext := a.2.write (.WriteNewObjectReferenceValue infoDictionaryID)
  let w : ObjectsContext := w.write (.WriteKey "mInfoDictionaryReference")
  let w : ObjectsContext := WriteReferenceState (t.mInfoDictionaryReference.getD ⟨0, 0⟩) w
  let w : ObjectsContext := w.write .EndDictionary
  let w : ObjectsContext := w.write .EndIndirectObject
  WriteTrailerInfoState infoDictionaryID s w

/-- The loop `WriteInteger(GetPageIDChild(i))` of `WritePageTreeState`. -/
def writePageIDChildrenState : List Nat → ObjectsContext → ObjectsContext
  | [], w => w
  | p :: ps, w => writePageIDChildrenState ps (w.write (.WriteInteger (p : Int)))

/-- The loop of `WritePageTreeState` that allocates an ID for each kid node and writes a
reference to it: the state writer and the IDs (`kidsObjectIDs`), in the order of the
kids. -/
def allocateKidsObjectIDs : Nat → ObjectsContext → ObjectsContext × List Nat
  | 0, w => (w, [])
  | n + 1, w =>
    let a := w.AllocateNewObjectID
    let r := allocateKidsObjectIDs n (a.2.write (.WriteNewIndirectObjectReference a.1))
    (r.1, a.1 :: r.2)

mutual
/-- The function `DocumentContext::WritePageTreeState`. The node is given with its position
in the tree, the path of child indexes from the root: `inPageTree ==
GetCurrentPageTreeNode()` is the equality of that position with the position of the open
node. The result is the state writer and the document context, whose
`mCurrentPageTreeIDInState` the function sets. -/
def WritePageTreeState (inObjectID : Nat) :
    PageTree → List Nat → DocumentContext → ObjectsContext → ObjectsContext × DocumentContext
  | .leafParent id _ pages, position, s, inStateWriter =>
    let w : ObjectsContext := inStateWriter.write (.StartNewIndirectObject inObjectID)
    let w : ObjectsContext := w.write .StartDictionary
    let w : ObjectsContext := w.write (.WriteKey "Type")
    let w : ObjectsContext := w.write (.WriteNameValue "PageTree")
    let w : ObjectsContext := w.write (.WriteKey "mPageTreeID")
    let w : ObjectsContext := w.write (.WriteIntegerValue (id : Int))
    let w : ObjectsContext := w.write (.WriteKey "mIsLeafParent")
    let w : ObjectsContext := w.write (.WriteBooleanValue true)
    let w : ObjectsContext := w.write (.WriteKey "mKidsIDs")
    let w : ObjectsContext := w.write .StartArray
    let w : ObjectsContext := writePageIDChildrenState pages w
    let w : ObjectsContext := w.write .EndArrayEndLine
    let w : ObjectsContext := w.write .EndDictionary
    let w : ObjectsContext := w.write .EndIndirectObject
    let s : DocumentContext :=
      if position = s.mCatalogInformation.mCurrentPageTreeNode then
        { s with mCurrentPageTreeIDInState := inObjectID }
      else s
    (w, s)
  | .node id _ kids, position, s, inStateWriter =>
    let w : ObjectsContext := inStateWriter.write (.StartNewIndirectObject inObjectID)
    let w : ObjectsContext := w.write .StartDictionary
    let w : ObjectsContext := w.write (.WriteKey "Type")
    let w : ObjectsContext := w.write (.WriteNameValue "PageTree")
    let w : ObjectsContext := w.write (.WriteKey "mPageTreeID")
    let w : ObjectsContext := w.write (.WriteIntegerValue (id : Int))
    let w : ObjectsContext := w.write (.WriteKey "mIsLeafParent")
    let w : ObjectsContext := w.write (.WriteBooleanValue false)
    let w : ObjectsContext := w.write (.WriteKey "mKidsNodes")
    let w : ObjectsContext := w.write .StartArray
    let a := allocateKidsObjectIDs kids.length w
    let kidsObjectIDs := a.2
    let w : ObjectsContext := a.1.write .EndArrayEndLine
    let w : ObjectsContext := w.write .EndDictionary
    let w : ObjectsContext := w.write .EndIndirectObject
    let r := writePageTreeStateKids kidsObjectIDs kids position 0 s w
    let s : DocumentContext :=
      if position = r.2.mCatalogInformation.mCurrentPageTreeNode then
        { r.2 with mCurrentPageTreeIDInState := inObjectID }
      else r.2
    (r.1, s)
/-- The loop `for(; i < GetNodesCount(); ++i, ++it) WritePageTreeState(inStateWriter, *it,
GetPageTreeChild(i))`. -/
def writePageTreeStateKids :
    List Nat → List PageTree → List Nat → Nat → DocumentContext → ObjectsContext →
      ObjectsContext × DocumentContext
  | _, [], _, _, s, w => (w, s)
  | [], _ :: _, _, _, s, w => (w, s)
  | kidID :: kidIDs, k :: ks, position, i, s, w =>
    let r := WritePageTreeState kidID k (position ++ [i]) s w
    writePageTreeStateKids kidIDs ks position (i + 1) r.2 r.1
end

/-- The function `DocumentContext::WriteCatalogInformationState`. A current page tree node
exists when the session has a page tree. -/
def WriteCatalogInformationState (inObjectID : Nat) (s : DocumentContext)
    (inStateWriter : ObjectsContext) : ObjectsContext × DocumentContext :=
  match s.mCatalogInformation.mPageTree with
  | some root =>
    let a := inStateWriter.AllocateNewObjectID
    let rootNodeID := a.1
    let r := WritePageTreeState rootNodeID root [] s a.2
    let s : DocumentContext := r.2
    let w : ObjectsContext := r.1.write (.StartNewIndirectObject inObjectID)
    let w : ObjectsContext := w.write .StartDictionary
    let w : ObjectsContext := w.write (.WriteKey "Type")
    let w : ObjectsContext := w.write (.WriteNameValue "CatalogInformation")
    let w : ObjectsContext := w.write (.WriteKey "PageTreeRoot")
    let w : ObjectsContext := w.write (.WriteNewObjectReferenceValue rootNodeID)
    let w : ObjectsContext := w.write (.WriteKey "mCurrentPageTreeNode")
    let w : ObjectsContext := w.write (.WriteNewObjectReferenceValue s.mCurrentPageTreeIDInState)
    let w : ObjectsContext := w.write .EndDictionary
    (w.write .EndIndirectObject, s)
  | none =>
    let w : ObjectsContext := inStateWriter.write (.StartNewIndirectObject inObjectID)
    let w : ObjectsContext := w.write .StartDictionary
    let w : ObjectsContext := w.write (.WriteKey "Type")
    let w : ObjectsContext := w.write (.WriteNameValue "CatalogInformation")
    let w : ObjectsContext := w.write .EndDictionary
    (w.write .EndIndirectObject, s)

/-- The function `DocumentContext::WriteState`: the status, the state writer and the
document context. -/
def WriteState (env : Collaborators) (inStateWriter : ObjectsContext) (inObjectID : Nat)
    (s : DocumentContext) : EStatusCode × ObjectsContext × DocumentContext :=
  let w : ObjectsContext := inStateWriter.write (.StartNewIndirectObject inObjectID)
  let a1 := w.AllocateNewObjectID
  let trailerInformationID := a1.1
  let a2 := a1.2.AllocateNewObjectID
  let catalogInformationID := a2.1
  let a3 := a2.2.AllocateNewObjectID
  let usedFontsRepositoryID := a3.1
  let w : ObjectsContext := a3.2.write .StartDictionary
  let w : ObjectsContext := w.write (.WriteKey "Type")
  let w : ObjectsContext := w.write (.WriteNameValue "DocumentContext")
  let w : ObjectsContext := w.write (.WriteKey "mTrailerInformation")
  let w : ObjectsContext := w.write (.WriteNewObjectReferenceValue trailerInformationID)
  let w : ObjectsContext := w.write (.WriteKey "mCatalogInformation")
  let w : ObjectsContext := w.write (.WriteNewObjectReferenceValue catalogInformationID)
  let w : ObjectsContext := w.write (.WriteKey "mUsedFontsRepository")
  let w : ObjectsContext := w.write (.WriteNewObjectReferenceValue usedFontsRepositoryID)
  let w : ObjectsContext := w.write (.WriteKey "mModifiedDocumentIDExists")
  let w : ObjectsContext := w.write (.WriteBooleanValue s.mModifiedDocumentIDExists)
  let w : ObjectsContext :=
    if s.mModifiedDocumentIDExists then
      (w.write (.WriteKey "mModifiedDocumentID")).write
        (.WriteHexStringValue s.mModifiedDocumentID)
    else w
  let w : ObjectsContext := w.write .EndDictionary
  let w : ObjectsContext := w.write .EndIndirectObject
  let w : ObjectsContext := WriteTrailerState trailerInformationID s w
  let c := WriteCatalogInformationState catalogInformationID s w
  let f := env.WriteUsedFontsState c.1 usedFontsRepositoryID
  (f.status, c.1.external "UsedFontsRepository::WriteState" usedFontsRepositoryID f, c.2)

/-! ## State of the document context: the state file read back -/

/-- Modelled from the spec: a value under construction while the document reader reads
a state file (PDFParser.cpp is not among the sources): an open dictionary with its entries
so far and the key that waits for its value, or an open array with its items so far. -/
inductive ParseFrame where
  | dictionary (entries : PDFDictionary) (key : Option String)
  | array (items : List PDFObject)

/-- Modelled from the spec: the document reader in the middle of a state file: the indirect
objects read so far, the ID of the object it is in, the value of that object and the open
dictionaries and arrays, the innermost first. -/
structure ParseState where
  objects : List (Nat × PDFObject)
  current : Option Nat
  value : PDFObject
  stack : List ParseFrame

/-- The document reader between two indirect objects. -/
def ParseState.between (objects : List (Nat × PDFObject)) : ParseState :=
  { objects := objects, current := none, value := .null, stack := [] }

/-- Modelled from the spec: a complete value goes to the innermost open dictionary, under
the key that waits, or to the innermost open array; outside both it is the value of the
indirect object. -/
def ParseState.emit (st : ParseState) (v : PDFObject) : ParseState :=
  match st.stack with
  | [] => { st with value := v }
  | .dictionary entries (some key) :: rest =>
    { st with stack := .dictionary (entries ++ [(key, v)]) none :: rest }
  | .dictionary _ none :: _ => st
  | .array items :: rest => { st with stack := .array (items ++ [v]) :: rest }

/-- Modelled from the spec: what the document reader makes of one writer call: the object
written is the object read. A reference written by ID is a reference of generation 0. -/
def ParseState.step (st : ParseState) : Token → ParseState
  | .StartNewIndirectObject id => { st with current := some id, value := .null, stack := [] }
  | .StartModifiedIndirectObject id =>
    { st with current := some id, value := .null, stack := [] }
  | .EndIndirectObject =>
    match st.current with
    | some id => ParseState.between (st.objects ++ [(id, st.value)])
    | none => st
  | .StartDictionary => { st with stack := .dictionary [] none :: st.stack }
  | .EndDictionary =>
    match st.stack with
    | .dictionary entries _ :: rest =>
      ParseState.emit { st with stack := rest } (.dictionary entries)
    | _ => st
  | .StartArray => { st with stack := .array [] :: st.stack }
  | .EndArray =>
    match st.stack with
    | .array items :: rest => ParseState.emit { st with stack := rest } (.array items)
    | _ => st
  | .EndArrayEndLine =>
    match st.stack with
    | .array items :: rest => ParseState.emit { st with stack := rest } (.array items)
    | _ => st
  | .WriteKey key =>
    match st.stack with
    | .dictionary entries _ :: rest =>
      { st with stack := .dictionary entries (some key) :: rest }
    | _ => st
  | .WriteNameValue value => st.emit (.name value)
  | .WriteName value => st.emit (.name value)
  | .WriteIntegerValue value => st.emit (.integer value)
  | .WriteInteger value => st.emit (.integer value)
  | .WriteLiteralStringValue value => st.emit (.literalString value)
  | .WriteBooleanValue value => st.emit (.boolean value)
  | .WriteHexStringValue value => st.emit (.hexString value)
  | .WriteHexString value => st.emit (.hexString value)
  | .WriteObjectReferenceValue ref =>
    st.emit (.indirectObjectReference ref.ObjectID ref.GenerationNumber)
  | .WriteIndirectObjectReference ref =>
    st.emit (.indirectObjectReference ref.ObjectID ref.GenerationNumber)
  | .WriteNewObjectReferenceValue id => st.emit (.indirectObjectReference id 0)
  | .WriteNewIndirectObjectReference id => st.emit (.indirectObjectReference id 0)
  | _ => st

/-- The document reader after the whole output of a writer. -/
def ObjectsContext.parsed (w : ObjectsContext) : ParseState :=
  w.written.foldl ParseState.step (ParseState.between [])

/-- Modelled from the spec: the reader of the state file a state writer has written
(`inStateReader`): its indirect objects are the objects written. -/
def stateReader (inStateWriter : ObjectsContext) : PDFParser :=
  { GetTrailer := none, objects := inStateWriter.parsed.objects, GetXrefPosition := 0,
    PDFLevelTenths := 0 }

/-! ## State of the document context: reading -/

/-- Modelled from the spec: `PDFParser::QueryDictionaryObject`, the value under a key of a
dictionary, the object referred to when the value is a reference. -/
def PDFParser.QueryDictionaryObject (p : PDFParser) (d : PDFDictionary) (key : String) :
    Option PDFObject :=
  match d.QueryDirectObject key with
  | some (.indirectObjectReference id _) => p.ParseNewObject id
  | other => other

/-- The function `DocumentContext::GetReferenceFromState`. A null pointer is dereferenced
when an entry is missing or no integer: `none`. -/
def GetReferenceFromState (inDictionary : PDFDictionary) : Option ObjectReference :=
  match inDictionary.QueryDirectObject "ObjectID" with
  | some (.integer objectID) =>
    match inDictionary.QueryDirectObject "GenerationNumber" with
    | some (.integer generationNumber) => some ⟨objectID.toNat, generationNumber.toNat⟩
    | _ => none
  | _ => none

/-- One `PDFObjectCastPtr<PDFInteger>` that is dereferenced. -/
def queryInteger (d : PDFDictionary) (key : String) : Option Int :=
  match d.QueryDirectObject key with
  | some (.integer value) => some value
  | _ => none

/-- One `PDFObjectCastPtr<PDFLiteralString>` that is dereferenced. -/
def queryLiteralString (d : PDFDictionary) (key : String) : Option String :=
  match d.QueryDirectObject key with
  | some (.literalString value) => some value
  | _ => none

/-- One `PDFObjectCastPtr<PDFDictionary>` of a direct object, null when the entry is
missing or no dictionary. -/
def queryDictionary (d : PDFDictionary) (key : String) : Option PDFDictionary :=
  match d.QueryDirectObject key with
  | some (.dictionary entries) => some entries
  | _ => none

/-- The function `DocumentContext::ReadDateState`, on the dictionary pointer it is given:
`none` when the pointer is null or an entry is missing. -/
def ReadDateState (inDateState : Option PDFDictionary) : Option PDFDate :=
  match inDateState with
  | none => none
  | some d =>
    match queryInteger d "Year", queryInteger d "Month", queryInteger d "Day",
      queryInteger d "Hour", queryInteger d "Minute", queryInteger d "Second",
      queryInteger d "UTC", queryInteger d "HourFromUTC", queryInteger d "MinuteFromUTC" with
    | some year, some month, some day, some hour, some minute, some second, some utc,
      some hourFromUTC, some minuteFromUTC =>
      some { Year := year, Month := month, Day := day, Hour := hour, Minute := minute,
             Second := second, UTC := utc, HourFromUTC := hourFromUTC,
             MinuteFromUTC := minuteFromUTC }
    | _, _, _, _, _, _, _, _, _ => none

/-- The loop of `ReadTrailerInfoState` over the additional entries:
`AddAdditionalInfoEntry(key, value)` for each, the value being a literal string. -/
def readAdditionalInfoEntries : PDFDictionary → Option (List (String × String))
  | [] => some []
  | (key, .literalString value) :: rest =>
    (readAdditionalInfoEntries rest).map (fun l => (key, value) :: l)
  | _ :: _ => none

/-- The function `DocumentContext::ReadTrailerInfoState`: the info dictionary it leaves.
The date read for ModDate is read from `creationDateState`; `modDateState` is looked up
and not used. -/
def ReadTrailerInfoState (inTrailerInfoState : PDFDictionary) : Option InfoDictionary :=
  match queryLiteralString inTrailerInfoState "Title",
    queryLiteralString inTrailerInfoState "Author",
    queryLiteralString inTrailerInfoState "Subject",
    queryLiteralString inTrailerInfoState "Keywords",
    queryLiteralString inTrailerInfoState "Creator",
    queryLiteralString inTrailerInfoState "Producer" with
  | some title, some author, some subject, some keywords, some creator, some producer =>
    let creationDateState := queryDictionary inTrailerInfoState "CreationDate"
    match ReadDateState creationDateState with
    | none => none
    | some creationDate =>
      match ReadDateState creationDateState with
      | none => none
      | some modDate =>
        match queryInteger inTrailerInfoState "Trapped" with
        | none => none
        | some trapped =>
          match queryDictionary inTrailerInfoState "mAdditionalInfoEntries" with
          | none => none
          | some additionalInfoState =>
            match readAdditionalInfoEntries additionalInfoState with
            | none => none
            | some entries =>
              some { Title := title, Author := author, Subject := subject,
                     Keywords := keywords, Creator := creator, Producer := producer,
                     CreationDate := creationDate, ModDate := modDate,
                     Trapped := EInfoTrapped.ofInt trapped,
                     mAdditionalInfoEntries := entries }
  | _, _, _, _, _, _ => none

/-- The function `DocumentContext::ReadTrailerState`, on the dictionary it is given. -/
def ReadTrailerState (inStateReader : PDFParser) (inTrailerState : PDFDictionary)
    (s : DocumentContext) : Option DocumentContext :=
  match queryInteger inTrailerState "mPrev" with
  | none => none
  | some prev =>
    let t := s.mTrailerInformation.SetPrev prev
    match (queryDictionary inTrailerState "mRootReference").bind GetReferenceFromState with
    | none => none
    | some root =>
      let t := t.SetRootReference root
      match (queryDictionary inTrailerState "mEncryptReference").bind
        GetReferenceFromState with
      | none => none
      | some encrypt =>
        let t := t.SetEncrypt encrypt
        match inStateReader.QueryDictionaryObject inTrailerState "mInfoDictionary" with
        | some (.dictionary infoDictionaryState) =>
          match ReadTrailerInfoState infoDictionaryState with
          | none => none
          | some info =>
            let t := { t with mInfoDictionary := info }
            match (queryDictionary inTrailerState "mInfoDictionaryReference").bind
              GetReferenceFromState with
            | none => none
            | some infoReference =>
              some { s with mTrailerInformation := t.SetInfoReference infoReference }
        | _ => none

/-- Modelled from the spec: `new PageTree(id)` (PageTree.cpp is not among the sources): a
node without kids and without a parent, a leaf parent until a node is added to it. -/
def PageTree.new (id : Nat) : PageTree := .leafParent id none []

/-- Modelled from the spec: `PageTree::AddNodeToTree` called with a page ID: the page
becomes the last kid. -/
def PageTree.AddPageToTree : PageTree → Nat → PageTree
  | .leafParent id parent pages, page => .leafParent id parent (pages ++ [page])
  | .node id parent kids, _ => .node id parent kids

/-- Modelled from the spec: `PageTree::AddNodeToTree` called with a node: the node becomes
the last kid, with this node as its parent, and this node is no leaf parent. -/
def PageTree.AddNodeToTree : PageTree → PageTree → PageTree
  | .leafParent id parent _, kid => .node id parent [kid.SetParent (some id)]
  | .node id parent kids, kid => .node id parent (kids ++ [kid.SetParent (some id)])

/-- The loop of `ReadPageTreeState` over `mKidsIDs`. -/
def readKidsIDs : List PDFObject → PageTree → Option PageTree
  | [], inPageTree => some inPageTree
  | .integer kidID :: rest, inPageTree => readKidsIDs rest (inPageTree.AddPageToTree kidID.toNat)
  | _ :: _, _ => none

/-- The loop of `ReadPageTreeState` over `mKidsNodes`, given what the recursive call does.
The node that `SetCurrentPageTreeNode` is called with is kept by its position. -/
def readKidsNodes (inStateReader : PDFParser) (mCurrentPageTreeIDInState : Nat)
    (readKid : PDFDictionary → PageTree → List Nat → Option (List Nat) →
      Option (PageTree × Option (List Nat))) :
    List PDFObject → PageTree → List Nat → Nat → Option (List Nat) →
      Option (PageTree × Option (List Nat))
  | [], inPageTree, _, _, current => some (inPageTree, current)
  | .indirectObjectReference mObjectID _ :: rest, inPageTree, position, i, current =>
    match inStateReader.ParseNewObject mObjectID with
    | some (.dictionary kidNodeState) =>
      match queryInteger kidNodeState "mPageTreeID" with
      | none => none
      | some pageTreeID =>
        let kidNode := PageTree.new pageTreeID.toNat
        let current :=
          if mObjectID = mCurrentPageTreeIDInState then some (position ++ [i]) else current
        match readKid kidNodeState kidNode (position ++ [i]) current with
        | none => none
        | some r =>
          readKidsNodes inStateReader mCurrentPageTreeIDInState readKid rest
            (inPageTree.AddNodeToTree r.1) position (i + 1) r.2
    | _ => none
  | _ :: _, _, _, _, _ => none

/-- The function `DocumentContext::ReadPageTreeState`, with a bound on the depth of the
recursion: the node read and the position of the node `SetCurrentPageTreeNode` was last
called with. `none` when a null pointer is dereferenced or the bound is reached. -/
def ReadPageTreeState (inStateReader : PDFParser) (mCurrentPageTreeIDInState : Nat) :
    Nat → PDFDictionary → PageTree → List Nat → Option (List Nat) →
      Option (PageTree × Option (List Nat))
  | 0, _, _, _, _ => none
  | fuel + 1, inPageTreeState, inPageTree, position, current =>
    match inPageTreeState.QueryDirectObject "mIsLeafParent" with
    | some (.boolean true) =>
      match inPageTreeState.QueryDirectObject "mKidsIDs" with
      | some (.array kidsIDsState) =>
        (readKidsIDs kidsIDsState inPageTree).map (fun t => (t, current))
      | _ => none
    | some (.boolean false) =>
      match inPageTreeState.QueryDirectObject "mKidsNodes" with
      | some (.array kidsNodesState) =>
        readKidsNodes inStateReader mCurrentPageTreeIDInState
          (ReadPageTreeState inStateReader mCurrentPageTreeIDInState fuel)
          kidsNodesState inPageTree position 0 current
      | _ => none
    | _ => none

/-- The function `DocumentContext::ReadCatalogInformationState`. The catalog information
reaches the page tree through the open node: when `SetCurrentPageTreeNode` was not called,
the nodes read are out of reach and there is no page tree. -/
def ReadCatalogInformationState (fuel : Nat) (inStateReader : PDFParser)
    (inCatalogInformationState : PDFDictionary) (s : DocumentContext) :
    Option DocumentContext :=
  -- clear current state
  let s : DocumentContext :=
    { s with mCatalogInformation := { mPageTree := none, mCurrentPageTreeNode := [] } }
  match inCatalogInformationState.QueryDirectObject "PageTreeRoot" with
  | some (.indirectObjectReference rootID _) =>
    match inCatalogInformationState.QueryDirectObject "mCurrentPageTreeNode" with
    | some (.indirectObjectReference currentID _) =>
      let s : DocumentContext := { s with mCurrentPageTreeIDInState := currentID }
      match inStateReader.ParseNewObject rootID with
      | some (.dictionary pageTreeState) =>
        match queryInteger pageTreeState "mPageTreeID" with
        | none => none
        | some pageTreeID =>
          let rootNode := PageTree.new pageTreeID.toNat
          let current : Option (List Nat) :=
            if rootID = s.mCurrentPageTreeIDInState then some [] else none
          match ReadPageTreeState inStateReader s.mCurrentPageTreeIDInState fuel
            pageTreeState rootNode [] current with
          | none => none
          | some r =>
            match r.2 with
            | some position =>
              some { s with mCatalogInformation :=
                { mPageTree := some r.1, mCurrentPageTreeNode := position } }
            | none => some s
      | _ => none
    | _ => none
  | _ => some s -- no page nodes yet...

/-- The function `DocumentContext::ReadState`, with the bound on the depth of the page tree
recursion. `none` when a null pointer is dereferenced or the bound is reached. -/
def ReadState (env : Collaborators) (fuel : Nat) (inStateReader : PDFParser)
    (inObjectID : Nat) (s : DocumentContext) : Option (EStatusCode × DocumentContext) :=
  match inStateReader.ParseNewObject inObjectID with
  | some (.dictionary documentState) =>
    match PDFDictionary.QueryDirectObject documentState "mModifiedDocumentIDExists" with
    | some (.boolean exists_) =>
      let s : DocumentContext := { s with mModifiedDocumentIDExists := exists_ }
      let id : Option DocumentContext :=
        if exists_ then
          match PDFDictionary.QueryDirectObject documentState "mModifiedDocumentID" with
          | some (.hexString value) => some { s with mModifiedDocumentID := value }
          | _ => none
        else some s
      match id with
      | none => none
      | some s =>
        match inStateReader.QueryDictionaryObject documentState "mTrailerInformation" with
        | some (.dictionary trailerInformationState) =>
          match ReadTrailerState inStateReader trailerInformationState s with
          | none => none
          | some s =>
            match inStateReader.QueryDictionaryObject documentState "mCatalogInformation" with
            | some (.dictionary catalogInformationState) =>
              match ReadCatalogInformationState fuel inStateReader catalogInformationState s
                with
              | none => none
              | some s =>
                match PDFDictionary.QueryDirectObject documentState "mUsedFontsRepository" with
                | some (.indirectObjectReference mObjectID _) =>
                  some (env.ReadUsedFontsState inStateReader mObjectID, s)
                | _ => none
            | _ => none
        | _ => none
    | _ => none
  | _ => none

/-! ## Specification of the state round trip (spec 4.5) -/

/-- The object a reference is stored as. -/
def referenceStateObject (ref : ObjectReference) : PDFObject :=
  .dictionary [("ObjectID", .integer (ref.ObjectID : Int)),
    ("GenerationNumber", .integer (ref.GenerationNumber : Int))]

/-- The entries a date is stored as. -/
def dateStateEntries (d : PDFDate) : PDFDictionary :=
  [("Type", .name "Date"), ("Year", .integer d.Year), ("Month", .integer d.Month),
   ("Day", .integer d.Day), ("Hour", .integer d.Hour), ("Minute", .integer d.Minute),
   ("Second", .integer d.Second), ("UTC", .integer d.UTC),
   ("HourFromUTC", .integer d.HourFromUTC), ("MinuteFromUTC", .integer d.MinuteFromUTC)]

/-- The entries the additional entries of an info dictionary are stored as. -/
def additionalInfoStateEntries (es : List (String × String)) : PDFDictionary :=
  es.map (fun e => (e.1, PDFObject.literalString e.2))

/-- The entries an info dictionary is stored as. -/
def infoStateEntries (info : InfoDictionary) : PDFDictionary :=
  [("Type", .name "InfoDictionary"), ("Title", .literalString info.Title),
   ("Author", .literalString info.Author), ("Subject", .literalString info.Subject),
   ("Keywords", .literalString info.Keywords), ("Creator", .literalString info.Creator),
   ("Producer", .literalString info.Producer),
   ("CreationDate", .dictionary (dateStateEntries info.CreationDate)),
   ("ModDate", .dictionary (dateStateEntries info.ModDate)),
   ("Trapped", .integer info.Trapped.toInt),
   ("mAdditionalInfoEntries",
     .dictionary (additionalInfoStateEntries info.mAdditionalInfoEntries))]

/-- The entries the trailer information is stored as, the info dictionary being the object
of the given ID. -/
def trailerStateEntries (t : TrailerInformation) (infoDictionaryID : Nat) : PDFDictionary :=
  [("Type", .name "TrailerInformation"), ("mPrev", .integer (t.mPrev.getD 0)),
   ("mRootReference", referenceStateObject (t.mRootReference.getD ⟨0, 0⟩)),
   ("mEncryptReference", referenceStateObject (t.mEncryptReference.getD ⟨0, 0⟩)),
   ("mInfoDictionary", .indirectObjectReference infoDictionaryID 0),
   ("mInfoDictionaryReference",
     referenceStateObject (t.mInfoDictionaryReference.getD ⟨0, 0⟩))]

/-- The entries the document context is stored as, its three parts being the objects n,
n + 1 and n + 2. -/
def documentStateEntries (s : DocumentContext) (n : Nat) : PDFDictionary :=
  [("Type", .name "DocumentContext"), ("mTrailerInformation", .indirectObjectReference n 0),
   ("mCatalogInformation", .indirectObjectReference (n + 1) 0),
   ("mUsedFontsRepository", .indirectObjectReference (n + 2) 0),
   ("mModifiedDocumentIDExists", .boolean s.mModifiedDocumentIDExists)]
  ++ (if s.mModifiedDocumentIDExists then
        [("mModifiedDocumentID", PDFObject.hexString s.mModifiedDocumentID)]
      else [])

/-- The entries a leaf parent is stored as. -/
def leafStateEntries (id : Nat) (pages : List Nat) : PDFDictionary :=
  [("Type", .name "PageTree"), ("mPageTreeID", .integer (id : Int)),
   ("mIsLeafParent", .boolean true),
   ("mKidsIDs", .array (pages.map (fun (p : Nat) => PDFObject.integer (p : Int))))]

/-- The entries a node that is no leaf parent is stored as, its kids being the objects of
the given IDs. -/
def nodeStateEntries (id : Nat) (kidsObjectIDs : List Nat) : PDFDictionary :=
  [("Type", .name "PageTree"), ("mPageTreeID", .integer (id : Int)),
   ("mIsLeafParent", .boolean false),
   ("mKidsNodes", .array (kidsObjectIDs.map (fun (k : Nat) => PDFObject.indirectObjectReference k 0)))]

mutual
/-- The number of nodes beneath a node. -/
def PageTree.descendants : PageTree → Nat
  | .leafParent _ _ _ => 0
  | .node _ _ kids => PageTree.descendantsKids kids
/-- The number of nodes in the trees of a list. -/
def PageTree.descendantsKids : List PageTree → Nat
  | [] => 0
  | k :: ks => 1 + PageTree.descendants k + PageTree.descendantsKids ks
end

/-- The entries a node is stored as, when the registry of the state writer has n objects at
the time the node is written. -/
def PageTree.stateEntries : PageTree → Nat → PDFDictionary
  | .leafParent id _ pages, _ => leafStateEntries id pages
  | .node id _ kids, n => nodeStateEntries id (List.range' n kids.length)

mutual
/-- The objects of the state of a tree written under an ID with n objects in the registry
of the state writer: the ID, the position of the node in the tree and the entries, the node
first and then the trees of its kids. -/
def PageTree.stateNodes (inObjectID : Nat) :
    PageTree → Nat → List Nat → List (Nat × List Nat × PDFDictionary)
  | .leafParent id _ pages, _, position => [(inObjectID, position, leafStateEntries id pages)]
  | .node id _ kids, n, position =>
    (inObjectID, position, nodeStateEntries id (List.range' n kids.length))
      :: PageTree.stateNodesKids n kids (n + kids.length) position 0
/-- The objects of the state of the kids of a node, the first kid under the given ID. -/
def PageTree.stateNodesKids (kidID : Nat) :
    List PageTree → Nat → List Nat → Nat → List (Nat × List Nat × PDFDictionary)
  | [], _, _, _ => []
  | k :: ks, n, position, i =>
    PageTree.stateNodes kidID k n (position ++ [i])
      ++ PageTree.stateNodesKids (kidID + 1) ks (n + PageTree.descendants k) position (i + 1)
end

/-- The objects of a list of state nodes, each under its ID. -/
def stateObjects (nodes : List (Nat × List Nat × PDFDictionary)) : List (Nat × PDFObject) :=
  nodes.map (fun e => (e.1, PDFObject.dictionary e.2.2))

mutual
/-- A tree with the back-references to the parents set: the given one at the root, the ID
of the node at each of its kids. -/
def PageTree.linked : PageTree → Option Nat → PageTree
  | .leafParent id _ pages, parent => .leafParent id parent pages
  | .node id _ kids, parent => .node id parent (PageTree.linkedKids kids id)
/-- The trees of a list with the back-references to the parents set. -/
def PageTree.linkedKids : List PageTree → Nat → List PageTree
  | [], _ => []
  | k :: ks, parent => PageTree.linked k (some parent) :: PageTree.linkedKids ks parent
end

mutual
/-- A tree without the back-references to the parents: IDs, leaf parent flags and kids in
their order. -/
def PageTree.shape : PageTree → PageTree
  | .leafParent id _ pages => .leafParent id none pages
  | .node id _ kids => .node id none (PageTree.shapeKids kids)
/-- The trees of a list without the back-references to the parents. -/
def PageTree.shapeKids : List PageTree → List PageTree
  | [] => []
  | k :: ks => PageTree.shape k :: PageTree.shapeKids ks
end

mutual
/-- Whether every node that is no leaf parent has a kid. -/
def PageTree.nodesHaveKids : PageTree → Bool
  | .leafParent _ _ _ => true
  | .node _ _ kids => !kids.isEmpty && PageTree.nodesHaveKidsAll kids
/-- Whether the trees of a list have a kid at every node that is no leaf parent. -/
def PageTree.nodesHaveKidsAll : List PageTree → Bool
  | [] => true
  | k :: ks => PageTree.nodesHaveKids k && PageTree.nodesHaveKidsAll ks
end

mutual
/-- The number of levels of a tree. -/
def PageTree.depth : PageTree → Nat
  | .leafParent _ _ _ => 1
  | .node _ _ kids => 1 + PageTree.depthKids kids
/-- The number of levels of the deepest tree of a list. -/
def PageTree.depthKids : List PageTree → Nat
  | [] => 0
  | k :: ks => max (PageTree.depth k) (PageTree.depthKids ks)
end

mutual
/-- The node at a position, a path of child indexes from the root. -/
def PageTree.nodeAt : PageTree → List Nat → Option PageTree
  | .leafParent id parent pages, [] => some (.leafParent id parent pages)
  | .leafParent _ _ _, _ :: _ => none
  | .node id parent kids, [] => some (.node id parent kids)
  | .node _ _ kids, i :: rest => PageTree.nodeAtKids kids i rest
/-- The node at a position beneath the kid of the given index. -/
def PageTree.nodeAtKids : List PageTree → Nat → List Nat → Option PageTree
  | [], _, _ => none
  | k :: _, 0, rest => PageTree.nodeAt k rest
  | _ :: ks, i + 1, rest => PageTree.nodeAtKids ks i rest
end

/-- What the state reader takes for the open node while it goes through state nodes: the
position of the last one whose ID is the ID stored for the open node. -/
def openNodeAfter (mCurrentPageTreeIDInState : Nat)
    (nodes : List (Nat × List Nat × PDFDictionary)) (current : Option (List Nat)) :
    Option (List Nat) :=
  nodes.foldl (fun c e => if e.1 = mCurrentPageTreeIDInState then some e.2.1 else c) current

/-- Whether the page tree of a document can be written and read back within the bound:
every node that is no leaf parent has a kid, the open node is a node of the tree, and the
tree has no more levels than the bound. -/
def PageTreeReadable (s : DocumentContext) (fuel : Nat) : Prop :=
  ∀ tree, s.mCatalogInformation.mPageTree = some tree →
    tree.nodesHaveKids = true ∧
    (tree.nodeAt s.mCatalogInformation.mCurrentPageTreeNode).isSome = true ∧
    tree.depth ≤ fuel

/-- The state file a document context is written to: a new state writer whose registry has
n objects, the state going under the given ID. -/
def stateFile (env : Collaborators) (n inObjectID : Nat) (s : DocumentContext) :
    ObjectsContext :=
  (WriteState env { written := [], objectsCount := n } inObjectID s).2.1

/-- The start of the object of a node that is no leaf parent in `WritePageTreeState`, up to
the opening of the array of its kids. -/
def nodeStateStart (inObjectID id : Nat) (inStateWriter : ObjectsContext) : ObjectsContext :=
  let w : ObjectsContext := inStateWriter.write (.StartNewIndirectObject inObjectID)
  let w : ObjectsContext := w.write .StartDictionary
  let w : ObjectsContext := w.write (.WriteKey "Type")
  let w : ObjectsContext := w.write (.WriteNameValue "PageTree")
  let w : ObjectsContext := w.write (.WriteKey "mPageTreeID")
  let w : ObjectsContext := w.write (.WriteIntegerValue (id : Int))
  let w : ObjectsContext := w.write (.WriteKey "mIsLeafParent")
  let w : ObjectsContext := w.write (.WriteBooleanValue false)
  let w : ObjectsContext := w.write (.WriteKey "mKidsNodes")
  w.write .StartArray

/-- The end of the object of a node in `WritePageTreeState`, from the closing of the array
of its kids on. -/
def nodeStateEnd (inStateWriter : ObjectsContext) : ObjectsContext :=
  ((inStateWriter.write .EndArrayEndLine).write .EndDictionary).write .EndIndirectObject

/-- The entries the catalog information is stored as: with a page tree, the ID of the object
of the root and the ID stored for the open node. -/
def catalogStateEntries (root : Option (Nat × Nat)) : PDFDictionary :=
  match root with
  | some r =>
    [("Type", .name "CatalogInformation"), ("PageTreeRoot", .indirectObjectReference r.1 0),
     ("mCurrentPageTreeNode", .indirectObjectReference r.2 0)]
  | none => [("Type", .name "CatalogInformation")]

/-- The trailer information the state reader leaves when it reads the state of a trailer
information: each of the four fields is set to the value stored, absent when that is the
zero value, and the info dictionary is the one stored but for its ModDate, which is the
CreationDate stored. -/
def restoredTrailer (t : TrailerInformation) : TrailerInformation :=
  { mPrev := if t.mPrev.getD 0 = 0 then none else some (t.mPrev.getD 0),
    mRootReference := (t.mRootReference.getD ⟨0, 0⟩).asOptional,
    mEncryptReference := (t.mEncryptReference.getD ⟨0, 0⟩).asOptional,
    mInfoDictionaryReference := (t.mInfoDictionaryReference.getD ⟨0, 0⟩).asOptional,
    mInfoDictionary :=
      { t.mInfoDictionary with ModDate := t.mInfoDictionary.CreationDate } }

/-- The start of `WriteState`: the object of the document context itself. -/
def documentStateWriter (inObjectID : Nat) (s : DocumentContext)
    (inStateWriter : ObjectsContext) : ObjectsContext :=
  let w : ObjectsContext := inStateWriter.write (.StartNewIndirectObject inObjectID)
  let a1 := w.AllocateNewObjectID
  let a2 := a1.2.AllocateNewObjectID
  let a3 := a2.2.AllocateNewObjectID
  let w : ObjectsContext := a3.2.write .StartDictionary
  let w : ObjectsContext := w.write (.WriteKey "Type")
  let w : ObjectsContext := w.write (.WriteNameValue "DocumentContext")
  let w : ObjectsContext := w.write (.WriteKey "mTrailerInformation")
  let w : ObjectsContext := w.write (.WriteNewObjectReferenceValue a1.1)
  let w : ObjectsContext := w.write (.WriteKey "mCatalogInformation")
  let w : ObjectsContext := w.write (.WriteNewObjectReferenceValue a2.1)
  let w : ObjectsContext := w.write (.WriteKey "mUsedFontsRepository")
  let w : ObjectsContext := w.write (.WriteNewObjectReferenceValue a3.1)
  let w : ObjectsContext := w.write (.WriteKey "mModifiedDocumentIDExists")
  let w : ObjectsContext := w.write (.WriteBooleanValue s.mModifiedDocumentIDExists)
  let w : ObjectsContext :=
    if s.mModifiedDocumentIDExists then
      (w.write (.WriteKey "mModifiedDocumentID")).write
        (.WriteHexStringValue s.mModifiedDocumentID)
    else w
  let w : ObjectsContext := w.write .EndDictionary
  w.write .EndIndirectObject

/-- A date one year after `sampleDate`. -/
def laterDate : PDFDate := { sampleDate with Year := 2013 }

/-- A document whose info dictionary has a title, a creation date, a later modification
date, a trapped flag and one additional entry. -/
def datedDocument : DocumentContext :=
  { freshDocument with
    mTrailerInformation := { freshDocument.mTrailerInformation with
      mInfoDictionary :=
        { emptyInfo with
          Title := "Report", CreationDate := sampleDate, ModDate := laterDate,
          Trapped := .EInfoTrappedFalse,
          mAdditionalInfoEntries := [("Department", "Sales")] } } }

/-- A document whose page tree is `sampleTree`, the open node being its second kid, with a
root reference and a previous cross-reference offset in the trailer information and
neither an encryption reference nor an info dictionary reference. -/
def pagedDocument : DocumentContext :=
  { freshDocument with
    mCatalogInformation := { mPageTree := some sampleTree, mCurrentPageTreeNode := [1] },
    mTrailerInformation := { freshDocument.mTrailerInformation with
      mPrev := some 500, mRootReference := some ⟨7, 0⟩ } }

/-- The result of `ReadState` on a new document context from the state file of a document
written under the ID 0 by a state writer with one object in its registry. -/
def roundTrip (fuel : Nat) (s : DocumentContext) : Option (EStatusCode × DocumentContext) :=
  ReadState quietEnv fuel (stateReader (stateFile quietEnv 1 0 s)) 0 freshDocument

/-! ## Lemmas on the page tree writer -/

theorem writePageIDChildren_eq (pages : List Nat) (ctx : ObjectsContext) :
    writePageIDChildren pages ctx =
      { ctx with written := ctx.written
          ++ pages.map (fun p => Token.WriteNewIndirectObjectReference p) } := by
  induction pages generalizing ctx with
  | nil => simp [writePageIDChildren]
  | cons p ps ih => simp [writePageIDChildren, ih, ObjectsContext.write]

theorem writePageTreeChildrenIDs_eq (kids : List PageTree) (ctx : ObjectsContext) :
    writePageTreeChildrenIDs kids ctx =
      { ctx with written := ctx.written
          ++ kids.map (fun k => Token.WriteNewIndirectObjectReference k.GetID) } := by
  induction kids generalizing ctx with
  | nil => simp [writePageTreeChildrenIDs]
  | cons k ks ih => simp [writePageTreeChildrenIDs, ih, ObjectsContext.write]

theorem writeParent_eq (parent : Option Nat) (ctx : ObjectsContext) :
    writeParent parent ctx = { ctx with written := ctx.written ++ parentEntry parent } := by
  cases parent <;> simp [writeParent, parentEntry, ObjectsContext.write]

mutual
theorem WritePageTree_eq : ∀ (t : PageTree) (ctx : ObjectsContext),
    WritePageTree t ctx =
      ((t.leafCount : Int), { ctx with written := ctx.written ++ t.postOrder })
  | .leafParent id parent pages, ctx => by
    simp [WritePageTree, writePageIDChildren_eq, writeParent_eq, ObjectsContext.write,
      PageTree.leafCount, PageTree.postOrder, PageTree.frame, PageTree.kidsEntries,
      PageTree.GetID, PageTree.GetParent]
  | .node id parent kids, ctx => by
    simp [WritePageTree, WritePageTreeChildren_eq kids 0 ctx, writePageTreeChildrenIDs_eq,
      writeParent_eq, ObjectsContext.write,
      PageTree.leafCount, PageTree.postOrder, PageTree.frame, PageTree.kidsEntries,
      PageTree.GetID, PageTree.GetParent]

theorem WritePageTreeChildren_eq : ∀ (kids : List PageTree) (total : Int)
    (ctx : ObjectsContext),
    WritePageTreeChildren kids total ctx =
      (total + (PageTree.leafCountKids kids : Int),
        { ctx with written := ctx.written ++ PageTree.postOrderKids kids })
  | [], total, ctx => by
    simp [WritePageTreeChildren, PageTree.leafCountKids, PageTree.postOrderKids]
  | k :: ks, total, ctx => by
    simp [WritePageTreeChildren, WritePageTree_eq k ctx, WritePageTreeChildren_eq ks,
      PageTree.leafCountKids, PageTree.postOrderKids, add_assoc]
end

theorem PageTree.postOrder_eq (t : PageTree) :
    t.postOrder = t.descendantObjects ++ t.frame (t.leafCount : Int) := by
  cases t <;> simp [PageTree.postOrder, PageTree.descendantObjects, PageTree.leafCount]

/-! ## Lemmas on the trailer writer -/

theorem DocumentContext.write_eq (s : DocumentContext) (t : Token) :
    s.write t = s.writeAll [t] := rfl

theorem DocumentContext.writeAll_writeAll (s : DocumentContext) (a b : List Token) :
    (s.writeAll a).writeAll b = s.writeAll (a ++ b) := by
  simp [DocumentContext.writeAll]

theorem DocumentContext.writeAll_nil (s : DocumentContext) : s.writeAll [] = s := by
  simp [DocumentContext.writeAll]

theorem writeOptionalReference_eq (key : String) (r : Option ObjectReference)
    (s : DocumentContext) :
    writeOptionalReference key r s = s.writeAll (referenceEntry key r) := by
  cases r <;>
    simp [writeOptionalReference, referenceEntry, DocumentContext.write_eq,
      DocumentContext.writeAll_writeAll, DocumentContext.writeAll_nil]

theorem WriteTrailerDictionaryValues_noRoot (env : Collaborators) (s : DocumentContext)
    (h : s.mTrailerInformation.mRootReference = none) :
    WriteTrailerDictionaryValues env s = (.eFailure, s.writeAll (sizeAndPrevEntries s)) := by
  unfold WriteTrailerDictionaryValues
  cases hp : s.mTrailerInformation.mPrev <;>
    simp [h, hp, sizeAndPrevEntries, prevEntry, DocumentContext.write_eq,
      DocumentContext.writeAll_writeAll, DocumentContext.writeAll]

theorem WriteTrailerDictionaryValues_root (env : Collaborators) (s : DocumentContext)
    (root : ObjectReference) (h : s.mTrailerInformation.mRootReference = some root) :
    WriteTrailerDictionaryValues env s = (.eSuccess, s.writeAll (trailerEntries env s root)) := by
  unfold WriteTrailerDictionaryValues
  cases hp : s.mTrailerInformation.mPrev <;>
  cases hm : s.mModifiedDocumentIDExists <;>
    simp [h, hp, hm, trailerEntries, entriesBeforeID, sizeAndPrevEntries, prevEntry, idEntry,
      firstID, generatedID, writeOptionalReference_eq, DocumentContext.write_eq,
      DocumentContext.writeAll_writeAll, DocumentContext.writeAll]


/-! ## C1: page counts -/

/-- C1: on every page tree, `WritePageTree` returns the number of leaf pages reachable
beneath the node, writes the objects of the descendants first and then the object of the
node with that number as its Count, and allocates nothing. -/
theorem C1_WritePageTree_count (t : PageTree) (ctx : ObjectsContext) :
    (WritePageTree t ctx).1 = (t.leafCount : Int) ∧
    (WritePageTree t ctx).2.written
      = ctx.written ++ t.descendantObjects ++ t.frame (t.leafCount : Int) ∧
    (WritePageTree t ctx).2.objectsCount = ctx.objectsCount ∧
    (t.GetNodesCount = 0 → (WritePageTree t ctx).1 = 0) := by
  rw [WritePageTree_eq, PageTree.postOrder_eq]
  refine ⟨rfl, by simp, rfl, ?_⟩
  intro h
  cases t with
  | leafParent id p pages =>
    simp only [PageTree.GetNodesCount] at h
    simp [PageTree.leafCount, h]
  | node id p kids =>
    simp only [PageTree.GetNodesCount, List.length_eq_zero] at h
    simp [PageTree.leafCount, h, PageTree.leafCountKids]

/-- C1 at a childless node and at a tree of depth two. -/
theorem C1_WritePageTree_count_witness :
    (WritePageTree (.node 9 none []) { written := [], objectsCount := 10 }).1 = 0 ∧
    (WritePageTree sampleTree { written := [], objectsCount := 10 }).1 = 3 :=
  ⟨(C1_WritePageTree_count (.node 9 none []) { written := [], objectsCount := 10 }).2.2.2 rfl,
   (C1_WritePageTree_count sampleTree { written := [], objectsCount := 10 }).1⟩


/-! ## C7, C8, C9: the trailer dictionary -/

theorem sizeAndPrevEntries_keys (s : DocumentContext) (key : String)
    (hs : (key == scSize) = false) (hp : (key == scPrev) = false) :
    (sizeAndPrevEntries s).any (Token.isKey key) = false := by
  have hs2 : (scSize == key) = false := by
    rw [beq_eq_false_iff_ne] at hs ⊢; exact fun h => hs h.symm
  have hp2 : (scPrev == key) = false := by
    rw [beq_eq_false_iff_ne] at hp ⊢; exact fun h => hp h.symm
  cases h : s.mTrailerInformation.mPrev <;>
    simp [sizeAndPrevEntries, prevEntry, h, Token.isKey, hs2, hp2]

/-- C7: `WriteTrailerDictionaryValues` fails exactly when the trailer information has no
root reference; it has then written the Size and Prev entries only, so no Root, Encrypt,
Info or ID key; and `WriteTrailerDictionary`, `WriteXrefStream` and `FinalizeNewPDF` return
the status of the trailer values they write, a failure included. -/
theorem C7_trailer_without_root (env : Collaborators) (s : DocumentContext) :
    ((WriteTrailerDictionaryValues env s).1 = .eFailure
      ↔ s.mTrailerInformation.mRootReference = none) ∧
    (s.mTrailerInformation.mRootReference = none →
      (WriteTrailerDictionaryValues env s).2 = s.writeAll (sizeAndPrevEntries s) ∧
      (sizeAndPrevEntries s).any (Token.isKey scRoot) = false ∧
      (sizeAndPrevEntries s).any (Token.isKey scEncrypt) = false ∧
      (sizeAndPrevEntries s).any (Token.isKey scInfo) = false ∧
      (sizeAndPrevEntries s).any (Token.isKey scID) = false) ∧
    (WriteTrailerDictionary env s).1
      = (WriteTrailerDictionaryValues env
          ((s.write (.WriteKeyword scTrailer)).write .StartDictionary)).1 ∧
    ((WriteTrailerDictionaryValues env (stateAtValuesOfXrefStream s)).1 = .eFailure →
      (WriteXrefStream env s).1 = .eFailure) ∧
    ((WriteUsedFontsDefinitions env s).1 = .eSuccess →
      (WriteCatalogObjectOfNewPDF (WritePagesTree (WriteUsedFontsDefinitions env s).2)).1
        = .eSuccess →
      (WriteXrefTable env (WriteInfoDictionary env (WriteCatalogObjectOfNewPDF
        (WritePagesTree (WriteUsedFontsDefinitions env s).2)).2)).1 = .eSuccess →
      (FinalizeNewPDF env s).1
        = (WriteTrailerDictionary env (stateAtTrailerOfNewPDF env s)).1) := by
  refine ⟨?_, ?_, rfl, ?_, ?_⟩
  · cases h : s.mTrailerInformation.mRootReference with
    | none => simp [WriteTrailerDictionaryValues_noRoot env s h]
    | some root => simp [WriteTrailerDictionaryValues_root env s root h]
  · intro h
    refine ⟨by rw [WriteTrailerDictionaryValues_noRoot env s h], ?_, ?_, ?_, ?_⟩ <;>
      exact sizeAndPrevEntries_keys s _ (by decide) (by decide)
  · intro h
    have h2 : (WriteTrailerDictionaryValues env (stateAtValuesOfXrefStream s)).1
        ≠ .eSuccess := by rw [h]; decide
    unfold WriteXrefStream
    simp only []
    rw [if_pos (by exact h2)]
    exact h
  · intro h1 h2 h3
    unfold FinalizeNewPDF
    simp only []
    rw [if_neg (by rw [h1]; decide), if_neg (by rw [h2]; decide), if_neg (by rw [h3]; decide)]
    unfold stateAtTrailerOfNewPDF
    split <;> rfl

/-- C7 at a document without root reference: the trailer values, the trailer dictionary
and the cross-reference stream all fail, and only Size and Prev are written. -/
theorem C7_trailer_without_root_witness :
    (WriteTrailerDictionaryValues quietEnv rootlessDocument).1 = .eFailure ∧
    (WriteTrailerDictionaryValues quietEnv rootlessDocument).2
      = rootlessDocument.writeAll [.WriteKey "Size", .WriteIntegerValue 1,
          .WriteKey "Prev", .WriteIntegerValue 500] ∧
    (WriteXrefStream quietEnv rootlessDocument).1 = .eFailure :=
  ⟨(C7_trailer_without_root quietEnv rootlessDocument).1.2 rfl,
   ((C7_trailer_without_root quietEnv rootlessDocument).2.1 rfl).1,
   (C7_trailer_without_root quietEnv rootlessDocument).2.2.2.1 rfl⟩

/-- C8: with a root reference, `WriteTrailerDictionaryValues` succeeds and writes, in this
order: Size with the object count of the registry, Prev when a previous offset is present,
Root, Encrypt when present, Info when present, and ID with an array of two hex strings. -/
theorem C8_trailer_entries (env : Collaborators) (s : DocumentContext)
    (root : ObjectReference) (h : s.mTrailerInformation.mRootReference = some root) :
    WriteTrailerDictionaryValues env s =
      (.eSuccess, s.writeAll (
        [.WriteKey scSize, .WriteIntegerValue (s.mObjectsContext.objectsCount : Int)]
        ++ prevEntry s.mTrailerInformation.mPrev
        ++ [.WriteKey scRoot, .WriteObjectReferenceValue root]
        ++ referenceEntry scEncrypt s.mTrailerInformation.mEncryptReference
        ++ referenceEntry scInfo s.mTrailerInformation.mInfoDictionaryReference
        ++ [.WriteKey scID, .StartArray,
            .WriteHexString (firstID s (generatedID env s root)),
            .WriteHexString (generatedID env s root), .EndArray, .EndLine])) := by
  rw [WriteTrailerDictionaryValues_root env s root h]
  simp [trailerEntries, entriesBeforeID, sizeAndPrevEntries, idEntry]

/-- C8 at a document with a root and an info reference, no previous offset and no
encryption reference. -/
theorem C8_trailer_entries_witness :
    rootedDocument.mTrailerInformation.mRootReference = some ⟨2, 0⟩ ∧
    WriteTrailerDictionaryValues quietEnv rootedDocument =
      (.eSuccess, rootedDocument.writeAll
        [.WriteKey "Size", .WriteIntegerValue 6,
         .WriteKey "Root", .WriteObjectReferenceValue ⟨2, 0⟩,
         .WriteKey "Info", .WriteObjectReferenceValue ⟨5, 0⟩,
         .WriteKey "ID", .StartArray, .WriteHexString "d41d8cd9",
         .WriteHexString "d41d8cd9", .EndArray, .EndLine]) :=
  ⟨rfl, C8_trailer_entries quietEnv rootedDocument ⟨2, 0⟩ rfl⟩


theorem SetupModifiedFile_success (env : Collaborators) (parser : PDFParser)
    (s0 : DocumentContext) (h : (SetupModifiedFile env parser s0).1 = .eSuccess) :
    (SetupModifiedFile env parser s0).2.mModifiedDocumentIDExists = true ∧
    ∃ trailer id gen, parser.GetTrailer = some trailer ∧
      trailer.QueryDirectObject "Root" = some (.indirectObjectReference id gen) ∧
      (SetupModifiedFile env parser s0).2.mTrailerInformation.mRootReference = some ⟨id, 0⟩ ∧
      (SetupModifiedFile env parser s0).2.mTrailerInformation.mPrev
        = (if parser.GetXrefPosition = 0 then none else some parser.GetXrefPosition) ∧
      (∀ o x, trailer.QueryDirectObject "ID" = some (.array [.hexString o, x]) →
        (SetupModifiedFile env parser s0).2.mModifiedDocumentID = o) := by
  unfold SetupModifiedFile at h ⊢
  cases ht : parser.GetTrailer with
  | none => simp [ht] at h
  | some trailer =>
    simp only [ht] at h ⊢
    cases hr : PDFDictionary.QueryDirectObject trailer "Root" with
    | none => simp [hr] at h
    | some root =>
      cases root <;> simp [hr] at h ⊢
      case indirectObjectReference id gen =>
        refine ⟨?_, ?_, ?_⟩
        · simp [TrailerInformation.SetPrev, TrailerInformation.SetRoot]
        · simp [TrailerInformation.SetPrev]
        · intro o x hid
          simp [hid]

/-- C9: with g the value `GenerateMD5IDForFile` returns during the trailer write, the ID
array of a document for which no modified-document ID exists is [g, g]; after a successful
`SetupModifiedFile` whose ID settings are still in force it is [o, g], with o the ID that
`SetupModifiedFile` preserved, which is the first element of the ID array of the source
trailer when that array has two elements, the first a hex string. -/
theorem C9_id_array (env : Collaborators) (s : DocumentContext) (root : ObjectReference)
    (h : s.mTrailerInformation.mRootReference = some root) :
    (s.mModifiedDocumentIDExists = false →
      WriteTrailerDictionaryValues env s =
        (.eSuccess, s.writeAll (entriesBeforeID s root ++
          [.WriteKey scID, .StartArray,
           .WriteHexString (generatedID env s root),
           .WriteHexString (generatedID env s root), .EndArray, .EndLine]))) ∧
    (∀ (parser : PDFParser) (s0 : DocumentContext),
      (SetupModifiedFile env parser s0).1 = .eSuccess →
      s.mModifiedDocumentIDExists
        = (SetupModifiedFile env parser s0).2.mModifiedDocumentIDExists →
      s.mModifiedDocumentID = (SetupModifiedFile env parser s0).2.mModifiedDocumentID →
      WriteTrailerDictionaryValues env s =
        (.eSuccess, s.writeAll (entriesBeforeID s root ++
          [.WriteKey scID, .StartArray,
           .WriteHexString (SetupModifiedFile env parser s0).2.mModifiedDocumentID,
           .WriteHexString (generatedID env s root), .EndArray, .EndLine])) ∧
      ∀ trailer o x, parser.GetTrailer = some trailer →
        trailer.QueryDirectObject "ID" = some (.array [.hexString o, x]) →
        (SetupModifiedFile env parser s0).2.mModifiedDocumentID = o) := by
  constructor
  · intro hm
    rw [WriteTrailerDictionaryValues_root env s root h]
    simp [trailerEntries, idEntry, firstID, hm]
  · intro parser s0 hs he hi
    obtain ⟨hex, trailer, id, gen, ht, -, -, -, hid⟩ :=
      SetupModifiedFile_success env parser s0 hs
    constructor
    · rw [WriteTrailerDictionaryValues_root env s root h]
      rw [hex] at he
      simp [trailerEntries, idEntry, firstID, he, hi]
    · intro trailer2 o x ht2 hq
      rw [ht] at ht2
      cases ht2
      exact hid o x hq

/-- C9 at a fresh document with a root, and at the document set up from `sourceParser`,
whose trailer ID array starts with the hex string 0a0b. -/
theorem C9_id_array_witness :
    WriteTrailerDictionaryValues quietEnv rootedDocument =
      (.eSuccess, rootedDocument.writeAll (entriesBeforeID rootedDocument ⟨2, 0⟩ ++
        [.WriteKey "ID", .StartArray, .WriteHexString "d41d8cd9",
         .WriteHexString "d41d8cd9", .EndArray, .EndLine])) ∧
    WriteTrailerDictionaryValues quietEnv modifiedDocument =
      (.eSuccess, modifiedDocument.writeAll (entriesBeforeID modifiedDocument ⟨1, 0⟩ ++
        [.WriteKey "ID", .StartArray, .WriteHexString "0a0b",
         .WriteHexString "d41d8cd9", .EndArray, .EndLine])) :=
  ⟨(C9_id_array quietEnv rootedDocument ⟨2, 0⟩ rfl).1 rfl,
   ((C9_id_array quietEnv modifiedDocument ⟨1, 0⟩ rfl).2 sourceParser
      { freshDocument with mObjectsContext := { written := [], objectsCount := 6 } }
      rfl rfl rfl).1⟩


/-! ## C10: the info dictionary -/

theorem writeOptionalString_eq (present : Bool) (key value : String) (s : DocumentContext) :
    writeOptionalString present key value s = s.writeAll (stringEntry present key value) := by
  cases present <;>
    simp [writeOptionalString, stringEntry, DocumentContext.write_eq,
      DocumentContext.writeAll_writeAll, DocumentContext.writeAll_nil]

theorem writeAdditionalEntries_eq (es : List (String × String)) (s : DocumentContext) :
    writeAdditionalEntries es s = s.writeAll (additionalEntries es) := by
  induction es generalizing s with
  | nil => simp [writeAdditionalEntries, additionalEntries, DocumentContext.writeAll_nil]
  | cons e es ih =>
    simp [writeAdditionalEntries, additionalEntries, ih, DocumentContext.write_eq,
      DocumentContext.writeAll_writeAll]

theorem WriteInfoDictionary_empty (env : Collaborators) (s : DocumentContext)
    (h : s.mTrailerInformation.mInfoDictionary.IsEmpty env = true) :
    WriteInfoDictionary env s = s := by
  simp [WriteInfoDictionary, h]

theorem WriteInfoDictionary_nonempty (env : Collaborators) (s : DocumentContext)
    (h : s.mTrailerInformation.mInfoDictionary.IsEmpty env = false) :
    WriteInfoDictionary env s =
      { s with
        mObjectsContext :=
          { written := s.mObjectsContext.written
              ++ infoObject env s.mTrailerInformation.mInfoDictionary
                  s.mObjectsContext.objectsCount,
            objectsCount := s.mObjectsContext.objectsCount + 1 },
        mTrailerInformation :=
          s.mTrailerInformation.SetInfoDictionaryReference s.mObjectsContext.objectsCount } := by
  unfold WriteInfoDictionary
  simp only [h, Bool.false_eq_true, if_false]
  by_cases ht : s.mTrailerInformation.mInfoDictionary.Trapped = .EInfoTrappedUnknown <;>
    simp [ht, writeOptionalString_eq, writeAdditionalEntries_eq, DocumentContext.write_eq,
      DocumentContext.writeAll_writeAll, DocumentContext.writeAll, infoObject, infoEntries,
      trappedEntry, ObjectsContext.StartNewIndirectObject, ObjectsContext.AllocateNewObjectID,
      ObjectsContext.write, TrailerInformation.SetInfoDictionaryReference]

theorem stringEntry_startsObject (present : Bool) (key value : String) :
    (stringEntry present key value).countP Token.startsObject = 0 := by
  cases present <;> simp [stringEntry, Token.startsObject]

theorem additionalEntries_startsObject (es : List (String × String)) :
    (additionalEntries es).countP Token.startsObject = 0 := by
  induction es with
  | nil => simp [additionalEntries]
  | cons e es ih =>
    simp only [additionalEntries, List.countP_append, ih]
    simp [Token.startsObject]

theorem infoObject_startsObject (env : Collaborators) (i : InfoDictionary) (id : Nat) :
    (infoObject env i id).countP Token.startsObject = 1 := by
  simp only [infoObject, infoEntries, List.countP_append, stringEntry_startsObject,
    additionalEntries_startsObject]
  by_cases ht : i.Trapped = .EInfoTrappedUnknown <;>
    simp [trappedEntry, ht, Token.startsObject]


theorem WritePagesTree_trailer (s : DocumentContext) :
    (WritePagesTree s).mTrailerInformation = s.mTrailerInformation := by
  unfold WritePagesTree GetPageTreeRoot
  cases s.mCatalogInformation.mPageTree <;> rfl

theorem GetPageTreeRoot_trailer (s : DocumentContext) :
    (GetPageTreeRoot s).2.mTrailerInformation = s.mTrailerInformation := by
  unfold GetPageTreeRoot
  cases s.mCatalogInformation.mPageTree <;> rfl

theorem WriteCatalogObject_trailer (ref : ObjectReference) (s : DocumentContext) :
    (WriteCatalogObject ref s).2.mTrailerInformation
      = s.mTrailerInformation.SetRoot s.mObjectsContext.objectsCount := rfl

theorem stateAtTrailerOfNewPDF_trailer (env : Collaborators) (s : DocumentContext)
    (he : s.mTrailerInformation.mInfoDictionary.IsEmpty env = true) :
    ∃ n, (stateAtTrailerOfNewPDF env s).mTrailerInformation
      = s.mTrailerInformation.SetRoot n := by
  unfold stateAtTrailerOfNewPDF
  have h1 : (WriteCatalogObjectOfNewPDF
      (WritePagesTree (WriteUsedFontsDefinitions env s).2)).2.mTrailerInformation
      = s.mTrailerInformation.SetRoot
          (GetPageTreeRoot (WritePagesTree
            (WriteUsedFontsDefinitions env s).2)).2.mObjectsContext.objectsCount := by
    unfold WriteCatalogObjectOfNewPDF
    rw [WriteCatalogObject_trailer, GetPageTreeRoot_trailer, WritePagesTree_trailer]
    rfl
  refine ⟨(GetPageTreeRoot (WritePagesTree
    (WriteUsedFontsDefinitions env s).2)).2.mObjectsContext.objectsCount, ?_⟩
  rw [WriteInfoDictionary_empty]
  · exact h1
  · rw [h1]; exact he

theorem trailerEntries_noInfo (env : Collaborators) (s : DocumentContext)
    (root : ObjectReference) (h : s.mTrailerInformation.mInfoDictionaryReference = none) :
    (trailerEntries env s root).any (Token.isKey scInfo) = false := by
  cases hp : s.mTrailerInformation.mPrev <;>
  cases hc : s.mTrailerInformation.mEncryptReference <;>
    simp [trailerEntries, entriesBeforeID, sizeAndPrevEntries, prevEntry, referenceEntry,
      idEntry, h, hp, hc, Token.isKey] <;> decide

theorem WriteTrailerDictionary_root (env : Collaborators) (s : DocumentContext)
    (root : ObjectReference) (h : s.mTrailerInformation.mRootReference = some root) :
    WriteTrailerDictionary env s =
      (.eSuccess, s.writeAll ([.WriteKeyword scTrailer, .StartDictionary]
        ++ trailerEntries env (s.writeAll [.WriteKeyword scTrailer, .StartDictionary]) root
        ++ [.EndDictionary])) := by
  unfold WriteTrailerDictionary
  simp only [DocumentContext.write_eq, DocumentContext.writeAll_writeAll]
  rw [WriteTrailerDictionaryValues_root env _ root (by exact h)]
  simp [DocumentContext.writeAll_writeAll]

/-- C10: `WriteInfoDictionary` leaves the document untouched when the info dictionary is
empty (nothing written, no ID allocated, the info reference of the trailer as it was), and
otherwise writes exactly one object, the info object, under a newly allocated ID that becomes
the info reference of the trailer. For a document with an empty info dictionary and no info
reference, the trailer dictionary that `FinalizeNewPDF` writes has no Info key. -/
theorem C10_info_dictionary (env : Collaborators) (s : DocumentContext) :
    (s.mTrailerInformation.mInfoDictionary.IsEmpty env = true →
      WriteInfoDictionary env s = s) ∧
    (s.mTrailerInformation.mInfoDictionary.IsEmpty env = false →
      WriteInfoDictionary env s =
        { s with
          mObjectsContext :=
            { written := s.mObjectsContext.written
                ++ infoObject env s.mTrailerInformation.mInfoDictionary
                    s.mObjectsContext.objectsCount,
              objectsCount := s.mObjectsContext.objectsCount + 1 },
          mTrailerInformation := { s.mTrailerInformation with
            mInfoDictionaryReference := some ⟨s.mObjectsContext.objectsCount, 0⟩ } } ∧
      (infoObject env s.mTrailerInformation.mInfoDictionary
        s.mObjectsContext.objectsCount).countP Token.startsObject = 1) ∧
    (s.mTrailerInformation.mInfoDictionary.IsEmpty env = true →
      s.mTrailerInformation.mInfoDictionaryReference = none →
      (∃ entries, WriteTrailerDictionary env (stateAtTrailerOfNewPDF env s) =
          (.eSuccess, (stateAtTrailerOfNewPDF env s).writeAll
            ([.WriteKeyword scTrailer, .StartDictionary] ++ entries ++ [.EndDictionary])) ∧
        entries.any (Token.isKey scInfo) = false) ∧
      ((FinalizeNewPDF env s).1 = .eSuccess →
        ∃ position, (FinalizeNewPDF env s).2 = WriteFinalEOF (WriteXrefReference position
          (WriteTrailerDictionary env (stateAtTrailerOfNewPDF env s)).2))) := by
  refine ⟨WriteInfoDictionary_empty env s, fun h => ⟨?_, infoObject_startsObject env _ _⟩, ?_⟩
  · rw [WriteInfoDictionary_nonempty env s h]
    rfl
  · intro he hn
    constructor
    · obtain ⟨n, hn2⟩ := stateAtTrailerOfNewPDF_trailer env s he
      refine ⟨_, WriteTrailerDictionary_root env _ ⟨n, 0⟩ ?_, ?_⟩
      · rw [hn2]; rfl
      · apply trailerEntries_noInfo
        show (stateAtTrailerOfNewPDF env s).mTrailerInformation.mInfoDictionaryReference = none
        rw [hn2]; exact hn
    · intro hs
      unfold FinalizeNewPDF at hs ⊢
      simp only [] at hs ⊢
      split at hs
      · rename_i h1; exact absurd hs h1
      · rw [if_neg (by assumption)]
        split at hs
        · rename_i h2; exact absurd hs h2
        · rw [if_neg (by assumption)]
          split at hs
          · rename_i h3; exact absurd hs h3
          · rw [if_neg (by assumption)]
            split at hs
            · rename_i h4; exact absurd hs h4
            · rw [if_neg (by assumption)]
              exact ⟨_, rfl⟩


/-- C10 at a fresh document (empty info dictionary: nothing happens, and `FinalizeNewPDF`
succeeds) and at a document with a title (one object, under ID 1). -/
theorem C10_info_dictionary_witness :
    WriteInfoDictionary quietEnv freshDocument = freshDocument ∧
    (FinalizeNewPDF quietEnv freshDocument).1 = .eSuccess ∧
    (∃ entries, WriteTrailerDictionary quietEnv (stateAtTrailerOfNewPDF quietEnv freshDocument)
        = (.eSuccess, (stateAtTrailerOfNewPDF quietEnv freshDocument).writeAll
            ([.WriteKeyword scTrailer, .StartDictionary] ++ entries ++ [.EndDictionary])) ∧
      entries.any (Token.isKey scInfo) = false) ∧
    (WriteInfoDictionary quietEnv titledDocument).mObjectsContext =
      { written := [.StartNewIndirectObject 1, .StartDictionary, .WriteKey "Title",
          .WriteLiteralStringValue "Report", .EndDictionary, .EndIndirectObject],
        objectsCount := 2 } ∧
    (WriteInfoDictionary quietEnv titledDocument).mTrailerInformation.mInfoDictionaryReference
      = some ⟨1, 0⟩ :=
  ⟨(C10_info_dictionary quietEnv freshDocument).1 rfl,
   rfl,
   ((C10_info_dictionary quietEnv freshDocument).2.2 rfl rfl).1,
   by rw [((C10_info_dictionary quietEnv titledDocument).2.1 rfl).1]; rfl,
   by rw [((C10_info_dictionary quietEnv titledDocument).2.1 rfl).1]; rfl⟩

/-! ## C2: the combined page tree -/

theorem PageTree.leafCount_SetParent (t : PageTree) (p : Option Nat) :
    (t.SetParent p).leafCount = t.leafCount := by
  cases t <;> rfl

theorem copyAllButParent_eq (d : PDFDictionary) (s : DocumentContext) :
    copyAllButParent d s = s.writeAll (copiedEntries d) := by
  induction d generalizing s with
  | nil => simp [copyAllButParent, copiedEntries, DocumentContext.writeAll_nil]
  | cons e es ih =>
    by_cases h : e.1 = "Parent" <;>
      simp [copyAllButParent, copiedEntries, h, ih, DocumentContext.write_eq,
        DocumentContext.writeAll_writeAll]

theorem WriteCombinedPageTree_eq (env : Collaborators) (parser : PDFParser)
    (s : DocumentContext) (tree : PageTree) (original : ObjectReference)
    (entries : PDFDictionary)
    (htree : s.mCatalogInformation.mPageTree = some tree)
    (hroot : GetOriginalDocumentPageTreeRoot parser = some original)
    (hobj : parser.ParseNewObject original.ObjectID = some (.dictionary entries))
    (hcopy : env.CopyingContextStart parser = .eSuccess) :
    WriteCombinedPageTree env parser s = some (s.mObjectsContext.objectsCount,
      { s with
        mObjectsContext :=
          { written := s.mObjectsContext.written
              ++ (tree.SetParent (some s.mObjectsContext.objectsCount)).postOrder
              ++ rewrittenOriginalRoot original entries s.mObjectsContext.objectsCount
              ++ spliceRoot s.mObjectsContext.objectsCount
                  (toLongLong ((match PDFDictionary.QueryDirectObject entries scCount with
                    | some (.integer value) => value
                    | _ => 0) + (tree.leafCount : Int)))
                  original tree.GetID,
            objectsCount := s.mObjectsContext.objectsCount + 1 },
        mCatalogInformation := { s.mCatalogInformation with
          mPageTree := some (tree.SetParent none) } }) := by
  unfold WriteCombinedPageTree
  simp only [GetPageTreeRoot, ObjectsContext.AllocateNewObjectID, htree, hroot, hobj, hcopy,
    WritePageTree_eq, PageTree.leafCount_SetParent, copyAllButParent_eq,
    DocumentContext.write_eq, DocumentContext.writeAll_writeAll]
  simp [DocumentContext.writeAll, rewrittenOriginalRoot, spliceRoot]


theorem any_false_of_all {q p : Token → Bool} {X : List Token} (h : X.all q = true)
    (hq : ∀ t, q t = true → p t = false) : X.any p = false := by
  rw [List.any_eq_false]
  intro t ht
  rw [List.all_eq_true] at h
  simp [hq t (h t ht)]

theorem inBody_not_inFinishMarks (t : Token) (h : t.inBody = true) :
    t.isXrefTable = false ∧ t.isXrefStream = false ∧ t.isKeyword scTrailer = false ∧
    t.isName "XRef" = false := by
  cases t <;> simp_all [Token.inBody, Token.isXrefTable, Token.isXrefStream, Token.isKeyword,
    Token.isName]
  rcases h with h | h <;> subst h <;> decide

theorem inFinish_not_bodyMarks (t : Token) (h : t.inFinish = true) :
    t.isName scPages = false ∧ t.isName scCatalog = false ∧
    t.startsModifiedObject = false := by
  cases t <;> simp_all [Token.inFinish, Token.isName, Token.startsModifiedObject]
  rcases h with (h | h) | h <;> subst h <;> decide

theorem postOrder_inBody : ∀ (t : PageTree), t.postOrder.all Token.inBody = true := by
  have hk : ∀ ks : List PageTree, (∀ k ∈ ks, k.postOrder.all Token.inBody = true) →
      (PageTree.postOrderKids ks).all Token.inBody = true := by
    intro ks
    induction ks with
    | nil => intro _; rfl
    | cons k ks ih =>
      intro h
      rw [PageTree.postOrderKids, List.all_append, h k (List.mem_cons_self _ _),
        ih (fun k2 hk2 => h k2 (List.mem_cons_of_mem _ hk2))]
      rfl
  have hf : ∀ (t : PageTree) (c : Int), (t.frame c).all Token.inBody = true := by
    intro t c
    cases hp : t.GetParent <;> cases t <;>
      simp [PageTree.frame, PageTree.kidsEntries, parentEntry, hp, Token.inBody,
        scPages, scCatalog]
  intro t
  induction t using PageTree.rec
    (motive_2 := fun ks => ∀ k ∈ ks, k.postOrder.all Token.inBody = true) with
  | leafParent id p pages => rw [PageTree.postOrder]; exact hf _ _
  | node id p kids ih =>
    rw [PageTree.postOrder, List.all_append, hk kids ih, hf]
    rfl
  | nil => rename_i k hk2; cases hk2
  | cons head tail ih1 ih2 =>
    rename_i k hk2
    rcases List.mem_cons.1 hk2 with h | h
    · rw [h]; exact ih1
    · exact ih2 k h


theorem inEntries_inFinish (t : Token) (h : t.inEntries = true) :
    t.inFinish = true ∧ t.isXrefTable = false ∧ t.isXrefStream = false ∧
    t.isKeyword scTrailer = false ∧ t.isName "XRef" = false := by
  cases t <;> simp_all [Token.inEntries, Token.inFinish, Token.isXrefTable,
    Token.isXrefStream, Token.isKeyword, Token.isName]
  rcases h with h | h <;> subst h <;> decide

theorem all_inFinish_of_inEntries {X : List Token} (h : X.all Token.inEntries = true) :
    X.all Token.inFinish = true := by
  rw [List.all_eq_true] at h ⊢
  exact fun t ht => (inEntries_inFinish t (h t ht)).1

theorem stringEntry_inEntries (present : Bool) (key value : String) :
    (stringEntry present key value).all Token.inEntries = true := by
  cases present <;> simp [stringEntry, Token.inEntries]

theorem additionalEntries_inEntries (es : List (String × String)) :
    (additionalEntries es).all Token.inEntries = true := by
  induction es with
  | nil => rfl
  | cons e es ih =>
    rw [additionalEntries, List.all_append, ih]
    simp [Token.inEntries]

theorem trappedEntry_inEntries (t : EInfoTrapped) :
    (trappedEntry t).all Token.inEntries = true := by
  cases t <;> simp [trappedEntry, Token.inEntries]

theorem infoObject_inEntries (env : Collaborators) (i : InfoDictionary) (id : Nat) :
    (infoObject env i id).all Token.inEntries = true := by
  simp only [infoObject, infoEntries, List.all_append, stringEntry_inEntries,
    additionalEntries_inEntries, trappedEntry_inEntries]
  simp [Token.inEntries]

theorem prevEntry_inEntries (p : Option Int) : (prevEntry p).all Token.inEntries = true := by
  cases p <;> simp [prevEntry, Token.inEntries]

theorem referenceEntry_inEntries (key : String) (r : Option ObjectReference) :
    (referenceEntry key r).all Token.inEntries = true := by
  cases r <;> simp [referenceEntry, Token.inEntries]

theorem sizeAndPrevEntries_inEntries (s : DocumentContext) :
    (sizeAndPrevEntries s).all Token.inEntries = true := by
  simp only [sizeAndPrevEntries, List.all_append, prevEntry_inEntries]
  simp [Token.inEntries]

theorem trailerEntries_inEntries (env : Collaborators) (s : DocumentContext)
    (root : ObjectReference) : (trailerEntries env s root).all Token.inEntries = true := by
  simp only [trailerEntries, entriesBeforeID, idEntry, List.all_append,
    sizeAndPrevEntries_inEntries, referenceEntry_inEntries]
  simp [Token.inEntries]

theorem WriteInfoDictionary_shape (env : Collaborators) (s : DocumentContext) :
    ∃ I, (WriteInfoDictionary env s).mObjectsContext.written
        = s.mObjectsContext.written ++ I ∧
      I.all Token.inEntries = true ∧
      (WriteInfoDictionary env s).mTrailerInformation.mRootReference
        = s.mTrailerInformation.mRootReference ∧
      (WriteInfoDictionary env s).mExtenders = s.mExtenders := by
  cases h : s.mTrailerInformation.mInfoDictionary.IsEmpty env with
  | true =>
    rw [WriteInfoDictionary_empty env s h]
    exact ⟨[], by simp, rfl, rfl, rfl⟩
  | false =>
    rw [WriteInfoDictionary_nonempty env s h]
    exact ⟨_, rfl, infoObject_inEntries _ _ _, rfl, rfl⟩


theorem stateAtValuesOfXrefStream_eq (s : DocumentContext) :
    stateAtValuesOfXrefStream s =
      { s with mObjectsContext :=
          { written := s.mObjectsContext.written
              ++ [.StartNewIndirectObject s.mObjectsContext.objectsCount, .StartDictionary,
                  .WriteKey "Type", .WriteNameValue "XRef"],
            objectsCount := s.mObjectsContext.objectsCount + 1 } } := by
  simp [stateAtValuesOfXrefStream, DocumentContext.write, ObjectsContext.write,
    ObjectsContext.StartNewIndirectObject, ObjectsContext.AllocateNewObjectID]

theorem WriteXrefStream_root (env : Collaborators) (s : DocumentContext)
    (root : ObjectReference) (h : s.mTrailerInformation.mRootReference = some root) :
    ∃ status, (WriteXrefStream env s).1 = status ∧
      (WriteXrefStream env s).2.1 = env.GetCurrentPosition s.mObjectsContext ∧
      (WriteXrefStream env s).2.2.mObjectsContext.written = s.mObjectsContext.written
        ++ ([.StartNewIndirectObject s.mObjectsContext.objectsCount, .StartDictionary,
             .WriteKey "Type", .WriteNameValue "XRef"]
            ++ trailerEntries env (stateAtValuesOfXrefStream s) root
            ++ [.WriteXrefStream status]) ∧
      (WriteXrefStream env s).2.2.mTrailerInformation = s.mTrailerInformation := by
  have hv := WriteTrailerDictionaryValues_root env (stateAtValuesOfXrefStream s) root h
  have hw : WriteXrefStream env s =
      (env.WriteXrefStream ((stateAtValuesOfXrefStream s).writeAll
          (trailerEntries env (stateAtValuesOfXrefStream s) root)).mObjectsContext,
        env.GetCurrentPosition s.mObjectsContext,
        ((stateAtValuesOfXrefStream s).writeAll
          (trailerEntries env (stateAtValuesOfXrefStream s) root)).write
            (.WriteXrefStream (env.WriteXrefStream ((stateAtValuesOfXrefStream s).writeAll
              (trailerEntries env (stateAtValuesOfXrefStream s) root)).mObjectsContext))) := by
    unfold WriteXrefStream
    simp only []
    have hv2 : WriteTrailerDictionaryValues env
        (((({ s with mObjectsContext := s.mObjectsContext.StartNewIndirectObject.2 }
          : DocumentContext).write .StartDictionary).write (.WriteKey "Type")).write
            (.WriteNameValue "XRef")) = _ := hv
    rw [hv2]
    simp
  rw [hw]
  refine ⟨_, rfl, rfl, ?_, rfl⟩
  simp [DocumentContext.write, DocumentContext.writeAll, ObjectsContext.write,
    stateAtValuesOfXrefStream_eq]

theorem WriteXrefStream_noRoot (env : Collaborators) (s : DocumentContext)
    (h : s.mTrailerInformation.mRootReference = none) :
    (WriteXrefStream env s).1 = .eFailure ∧
      (WriteXrefStream env s).2.1 = env.GetCurrentPosition s.mObjectsContext ∧
      (WriteXrefStream env s).2.2.mObjectsContext.written = s.mObjectsContext.written
        ++ ([.StartNewIndirectObject s.mObjectsContext.objectsCount, .StartDictionary,
             .WriteKey "Type", .WriteNameValue "XRef"]
            ++ sizeAndPrevEntries (stateAtValuesOfXrefStream s)) ∧
      (WriteXrefStream env s).2.2.mTrailerInformation = s.mTrailerInformation := by
  have hv := WriteTrailerDictionaryValues_noRoot env (stateAtValuesOfXrefStream s) h
  have hw : WriteXrefStream env s =
      (.eFailure, env.GetCurrentPosition s.mObjectsContext,
        (stateAtValuesOfXrefStream s).writeAll
          (sizeAndPrevEntries (stateAtValuesOfXrefStream s))) := by
    unfold WriteXrefStream
    simp only []
    have hv2 : WriteTrailerDictionaryValues env
        (((({ s with mObjectsContext := s.mObjectsContext.StartNewIndirectObject.2 }
          : DocumentContext).write .StartDictionary).write (.WriteKey "Type")).write
            (.WriteNameValue "XRef")) = _ := hv
    rw [hv2]
    simp
  rw [hw]
  refine ⟨rfl, rfl, ?_, rfl⟩
  simp [DocumentContext.writeAll, stateAtValuesOfXrefStream_eq]


theorem WriteTrailerDictionary_noRoot (env : Collaborators) (s : DocumentContext)
    (h : s.mTrailerInformation.mRootReference = none) :
    WriteTrailerDictionary env s =
      (.eFailure, s.writeAll ([.WriteKeyword scTrailer, .StartDictionary]
        ++ sizeAndPrevEntries (s.writeAll [.WriteKeyword scTrailer, .StartDictionary])
        ++ [.EndDictionary])) := by
  unfold WriteTrailerDictionary
  simp only [DocumentContext.write_eq, DocumentContext.writeAll_writeAll]
  rw [WriteTrailerDictionaryValues_noRoot env _ (by exact h)]
  simp [DocumentContext.writeAll_writeAll]

theorem entries_marks {X : List Token} (h : X.all Token.inEntries = true) :
    X.all Token.inFinish = true ∧ X.any Token.isXrefTable = false ∧
    X.any Token.isXrefStream = false ∧ X.any (Token.isKeyword scTrailer) = false ∧
    X.any (Token.isName "XRef") = false :=
  ⟨all_inFinish_of_inEntries h,
   any_false_of_all h (fun t ht => (inEntries_inFinish t ht).2.1),
   any_false_of_all h (fun t ht => (inEntries_inFinish t ht).2.2.1),
   any_false_of_all h (fun t ht => (inEntries_inFinish t ht).2.2.2.1),
   any_false_of_all h (fun t ht => (inEntries_inFinish t ht).2.2.2.2)⟩

theorem streamForm_marks (a : Nat) (E : List Token) (rest : List Token)
    (hE : E.all Token.inEntries = true) (hrest : rest.all Token.inFinish = true)
    (hrest1 : rest.any Token.isXrefTable = false)
    (hrest2 : rest.any (Token.isKeyword scTrailer) = false) :
    let S := [Token.StartNewIndirectObject a, .StartDictionary, .WriteKey "Type",
      .WriteNameValue "XRef"] ++ E ++ rest
    S.all Token.inFinish = true ∧ S.any Token.isXrefTable = false ∧
    S.any (Token.isKeyword scTrailer) = false ∧ S.any (Token.isName "XRef") = true := by
  obtain ⟨h1, h2, -, h4, -⟩ := entries_marks hE
  intro S
  refine ⟨?_, ?_, ?_, ?_⟩
  · simp only [S, List.all_append, h1, hrest]; rfl
  · simp only [S, List.any_append, h2, hrest1]; rfl
  · simp only [S, List.any_append, h4, hrest2]; rfl
  · simp only [S, List.any_append]
    have : [Token.StartNewIndirectObject a, .StartDictionary, .WriteKey "Type",
      .WriteNameValue "XRef"].any (Token.isName "XRef") = true := by
      simp [Token.isName]
    rw [this]; rfl

theorem classicForm_marks (st : EStatusCode) (mid : List Token)
    (hmid : mid.all Token.inFinish = true)
    (hmid1 : mid.any Token.isXrefStream = false)
    (hmid2 : mid.any (Token.isName "XRef") = false) :
    let S := Token.WriteXrefTable st :: mid
    S.all Token.inFinish = true ∧ S.any Token.isXrefStream = false ∧
    S.any (Token.isName "XRef") = false ∧ S.any Token.isXrefTable = true := by
  intro S
  refine ⟨?_, ?_, ?_, ?_⟩
  · simp only [S, List.all_cons, hmid]; rfl
  · simp only [S, List.any_cons, hmid1]; rfl
  · simp only [S, List.any_cons, hmid2]; rfl
  · simp only [S, List.any_cons]; rfl

theorem finishModifiedPDF_stream (env : Collaborators) (parser : PDFParser)
    (s : DocumentContext) (hR : RequiresXrefStream parser = true) :
    finishModifiedPDF env parser s =
      ((WriteXrefStream env (WriteInfoDictionary env s)).1,
        WriteFinalEOF (WriteXrefReference (WriteXrefStream env (WriteInfoDictionary env s)).2.1
          (WriteXrefStream env (WriteInfoDictionary env s)).2.2)) := by
  unfold finishModifiedPDF
  simp only [hR, if_true]

theorem finishModifiedPDF_tableFails (env : Collaborators) (parser : PDFParser)
    (s : DocumentContext) (hR : RequiresXrefStream parser = false)
    (hx : (env.WriteXrefTable (WriteInfoDictionary env s).mObjectsContext).1 = .eFailure) :
    finishModifiedPDF env parser s =
      (.eFailure, (WriteInfoDictionary env s).writeAll [.WriteXrefTable .eFailure]) := by
  unfold finishModifiedPDF
  simp [hR, WriteXrefTable, hx, DocumentContext.write_eq]

theorem finishModifiedPDF_table (env : Collaborators) (parser : PDFParser)
    (s : DocumentContext) (hR : RequiresXrefStream parser = false)
    (hx : (env.WriteXrefTable (WriteInfoDictionary env s).mObjectsContext).1 = .eSuccess) :
    finishModifiedPDF env parser s =
      if (WriteTrailerDictionary env
          ((WriteInfoDictionary env s).writeAll [.WriteXrefTable .eSuccess])).1 ≠ .eSuccess
      then WriteTrailerDictionary env
          ((WriteInfoDictionary env s).writeAll [.WriteXrefTable .eSuccess])
      else (.eSuccess, ((WriteTrailerDictionary env
          ((WriteInfoDictionary env s).writeAll [.WriteXrefTable .eSuccess])).2.writeAll
            [.WriteKeyword scStartXref,
             .WriteInteger (env.WriteXrefTable (WriteInfoDictionary env s).mObjectsContext).2,
             .FreeContextWrite scEOF])) := by
  unfold finishModifiedPDF
  simp only [hR, Bool.false_eq_true, if_false, WriteXrefTable, hx, ne_eq, not_true_eq_false,
    DocumentContext.write_eq, WriteFinalEOF, WriteXrefReference,
    DocumentContext.writeAll_writeAll]
  split
  · rfl
  · rename_i h
    simp only [not_not] at h
    simp [h]

theorem finishModifiedPDF_spec (env : Collaborators) (parser : PDFParser)
    (s : DocumentContext) :
    ∃ I S, (finishModifiedPDF env parser s).2.mObjectsContext.written
        = s.mObjectsContext.written ++ I ++ S ∧
      (WriteInfoDictionary env s).mObjectsContext.written = s.mObjectsContext.written ++ I ∧
      I.all Token.inEntries = true ∧ S.all Token.inFinish = true ∧
      (finishModifiedPDF env parser s).2.mTrailerInformation.mRootReference
        = s.mTrailerInformation.mRootReference ∧
      (RequiresXrefStream parser = true →
        S.any Token.isXrefTable = false ∧ S.any (Token.isKeyword scTrailer) = false ∧
        S.any (Token.isName "XRef") = true) ∧
      (RequiresXrefStream parser = false →
        S.any Token.isXrefStream = false ∧ S.any (Token.isName "XRef") = false ∧
        S.any Token.isXrefTable = true) ∧
      ((finishModifiedPDF env parser s).1 = .eSuccess →
        ∃ root, s.mTrailerInformation.mRootReference = some root ∧
          (RequiresXrefStream parser = true →
            S = crossReferenceStreamSection env (WriteInfoDictionary env s) root .eSuccess) ∧
          (RequiresXrefStream parser = false →
            S = classicSection env (WriteInfoDictionary env s) root)) := by
  obtain ⟨I, hI, hIall, hroot, -⟩ := WriteInfoDictionary_shape env s
  have no1 : ∀ {P : Prop}, RequiresXrefStream parser = true →
      RequiresXrefStream parser = false → P :=
    fun h1 h2 => absurd (h1.symm.trans h2) (by decide)
  rcases Bool.eq_false_or_eq_true (RequiresXrefStream parser) with hR | hR
  · rw [finishModifiedPDF_stream env parser s hR]
    generalize WriteInfoDictionary env s = s2 at hI hroot ⊢
    cases hr : s2.mTrailerInformation.mRootReference with
    | some root =>
      obtain ⟨st, h1, h2, h3, h4⟩ := WriteXrefStream_root env s2 root hr
      have hm := streamForm_marks s2.mObjectsContext.objectsCount
        (trailerEntries env (stateAtValuesOfXrefStream s2) root)
        [.WriteXrefStream st, .WriteKeyword scStartXref,
          .WriteInteger (env.GetCurrentPosition s2.mObjectsContext), .FreeContextWrite scEOF]
        (trailerEntries_inEntries _ _ _) (by rfl) (by rfl) (by rfl)
      refine ⟨I, _, ?_, hI, hIall, hm.1, ?_, fun _ => ⟨hm.2.1, hm.2.2.1, hm.2.2.2⟩,
        fun h => no1 hR h, ?_⟩
      · simp [WriteFinalEOF, WriteXrefReference, DocumentContext.write, ObjectsContext.write,
          h3, h2, hI]
      · simp only [WriteFinalEOF, WriteXrefReference, DocumentContext.write]
        rw [h4, ← hroot]
      · intro hs
        simp only [] at hs
        rw [h1] at hs
        subst hs
        refine ⟨root, by rw [← hroot, hr], fun _ => ?_, fun h => no1 hR h⟩
        simp [crossReferenceStreamSection]
    | none =>
      obtain ⟨h1, h2, h3, h4⟩ := WriteXrefStream_noRoot env s2 hr
      have hm := streamForm_marks s2.mObjectsContext.objectsCount
        (sizeAndPrevEntries (stateAtValuesOfXrefStream s2))
        [.WriteKeyword scStartXref,
          .WriteInteger (env.GetCurrentPosition s2.mObjectsContext), .FreeContextWrite scEOF]
        (sizeAndPrevEntries_inEntries _) (by rfl) (by rfl) (by rfl)
      refine ⟨I, _, ?_, hI, hIall, hm.1, ?_, fun _ => ⟨hm.2.1, hm.2.2.1, hm.2.2.2⟩,
        fun h => no1 hR h, ?_⟩
      · simp [WriteFinalEOF, WriteXrefReference, DocumentContext.write, ObjectsContext.write,
          h3, h2, hI]
      · simp only [WriteFinalEOF, WriteXrefReference, DocumentContext.write]
        rw [h4, ← hroot]
      · intro hs
        simp only [] at hs
        rw [h1] at hs
        cases hs
  · cases hx : (env.WriteXrefTable (WriteInfoDictionary env s).mObjectsContext).1 with
    | eFailure =>
      rw [finishModifiedPDF_tableFails env parser s hR hx]
      have hm := classicForm_marks .eFailure [] (by rfl) (by rfl) (by rfl)
      refine ⟨I, _, ?_, hI, hIall, hm.1, ?_, fun h => no1 h hR,
        fun _ => ⟨hm.2.1, hm.2.2.1, hm.2.2.2⟩, ?_⟩
      · simp [DocumentContext.writeAll, hI]
      · simp only [DocumentContext.writeAll]
        rw [← hroot]
      · intro hs
        cases hs
    | eSuccess =>
      rw [finishModifiedPDF_table env parser s hR hx]
      generalize WriteInfoDictionary env s = s2 at hI hroot hx ⊢
      cases hr : s2.mTrailerInformation.mRootReference with
      | some root =>
        rw [WriteTrailerDictionary_root env _ root (by exact hr)]
        simp only [ne_eq, not_true_eq_false, if_false, DocumentContext.writeAll_writeAll]
        have he := entries_marks (trailerEntries_inEntries env
          (s2.writeAll [.WriteXrefTable .eSuccess, .WriteKeyword scTrailer, .StartDictionary])
          root)
        have hm := classicForm_marks .eSuccess
          ([.WriteKeyword scTrailer, .StartDictionary] ++ trailerEntries env
            (s2.writeAll [.WriteXrefTable .eSuccess, .WriteKeyword scTrailer, .StartDictionary])
            root ++ [.EndDictionary, .WriteKeyword scStartXref,
              .WriteInteger (env.WriteXrefTable s2.mObjectsContext).2, .FreeContextWrite scEOF])
          (by simp only [List.all_append, he.1]; rfl)
          (by simp only [List.any_append, he.2.2.1]; rfl)
          (by simp only [List.any_append, he.2.2.2.2]; rfl)
        refine ⟨I, _, ?_, hI, hIall, hm.1, ?_, fun h => no1 h hR,
          fun _ => ⟨hm.2.1, hm.2.2.1, hm.2.2.2⟩, ?_⟩
        · simp [DocumentContext.writeAll, hI]
        · simp only [DocumentContext.writeAll]
          rw [← hroot]
        · intro _
          refine ⟨root, by rw [← hroot, hr], fun h => no1 h hR, fun _ => ?_⟩
          simp [classicSection]
      | none =>
        rw [WriteTrailerDictionary_noRoot env _ (by exact hr)]
        simp only [ne_eq, reduceCtorEq, not_false_eq_true, if_true,
          DocumentContext.writeAll_writeAll]
        have he := entries_marks (sizeAndPrevEntries_inEntries
          (s2.writeAll [.WriteXrefTable .eSuccess, .WriteKeyword scTrailer, .StartDictionary]))
        have hm := classicForm_marks .eSuccess
          ([.WriteKeyword scTrailer, .StartDictionary] ++ sizeAndPrevEntries
            (s2.writeAll [.WriteXrefTable .eSuccess, .WriteKeyword scTrailer, .StartDictionary])
            ++ [.EndDictionary])
          (by simp only [List.all_append, he.1]; rfl)
          (by simp only [List.any_append, he.2.2.1]; rfl)
          (by simp only [List.any_append, he.2.2.2.2]; rfl)
        refine ⟨I, _, ?_, hI, hIall, hm.1, ?_, fun h => no1 h hR,
          fun _ => ⟨hm.2.1, hm.2.2.1, hm.2.2.2⟩, ?_⟩
        · simp [DocumentContext.writeAll, hI]
        · simp only [DocumentContext.writeAll]
          rw [← hroot]
        · intro hs
          cases hs


theorem onCatalogWriteLoop_eq (exts : List (Nat × IDocumentContextExtender))
    (info : CatalogInformation) (ctx : ObjectsContext) :
    onCatalogWriteLoop exts info .eSuccess ctx =
      ((catalogCallbacks exts info ctx).1,
        { written := ctx.written ++ (catalogCallbacks exts info ctx).2.1,
          objectsCount := ctx.objectsCount + (catalogCallbacks exts info ctx).2.2 }) := by
  induction exts generalizing ctx with
  | nil => simp [onCatalogWriteLoop, catalogCallbacks]
  | cons x rest ih =>
    cases hw : (x.2.OnCatalogWrite info ctx).status with
    | eSuccess =>
      simp only [onCatalogWriteLoop, catalogCallbacks, hw, if_true]
      rw [ih]
      simp [ObjectsContext.external, hw, Nat.add_assoc]
    | eFailure =>
      simp only [onCatalogWriteLoop, catalogCallbacks, hw, if_true]
      cases rest <;>
        simp [onCatalogWriteLoop, ObjectsContext.external, hw]

theorem catalogCallbacks_isExternal (exts : List (Nat × IDocumentContextExtender))
    (info : CatalogInformation) (ctx : ObjectsContext) :
    (catalogCallbacks exts info ctx).2.1.all Token.isExternal = true := by
  induction exts generalizing ctx with
  | nil => rfl
  | cons x rest ih =>
    cases hw : (x.2.OnCatalogWrite info ctx).status <;>
      simp [catalogCallbacks, hw, Token.isExternal, ih]

theorem isExternal_marks (t : Token) (h : t.isExternal = true) :
    t.inBody = true ∧ t.startsModifiedObject = false ∧ t.isName scPages = false ∧
    t.isName scCatalog = false := by
  cases t <;> simp_all [Token.isExternal, Token.inBody, Token.startsModifiedObject,
    Token.isName]

theorem WriteCatalogObject_eq (ref : ObjectReference) (s : DocumentContext) :
    WriteCatalogObject ref s =
      ((catalogCallbacks s.mExtenders s.mCatalogInformation
          { written := s.mObjectsContext.written
              ++ catalogStart s.mObjectsContext.objectsCount ref,
            objectsCount := s.mObjectsContext.objectsCount + 1 }).1,
        { s with
          mObjectsContext :=
            { written := s.mObjectsContext.written
                ++ catalogStart s.mObjectsContext.objectsCount ref
                ++ (catalogCallbacks s.mExtenders s.mCatalogInformation
                    { written := s.mObjectsContext.written
                        ++ catalogStart s.mObjectsContext.objectsCount ref,
                      objectsCount := s.mObjectsContext.objectsCount + 1 }).2.1
                ++ [.EndDictionary, .EndIndirectObject],
              objectsCount := s.mObjectsContext.objectsCount + 1
                + (catalogCallbacks s.mExtenders s.mCatalogInformation
                    { written := s.mObjectsContext.written
                        ++ catalogStart s.mObjectsContext.objectsCount ref,
                      objectsCount := s.mObjectsContext.objectsCount + 1 }).2.2 },
          mTrailerInformation :=
            s.mTrailerInformation.SetRoot s.mObjectsContext.objectsCount }) := by
  unfold WriteCatalogObject
  simp only [DocumentContext.write, ObjectsContext.write,
    ObjectsContext.StartNewIndirectObject, ObjectsContext.AllocateNewObjectID,
    onCatalogWriteLoop_eq]
  simp [catalogStart]

theorem writeCatalogOfModifiedPDF_spec (env : Collaborators) (b : Bool) (version : Nat)
    (ref : ObjectReference) (s : DocumentContext) :
    ∃ C, (writeCatalogOfModifiedPDF env b version ref s).2.mObjectsContext.written
        = s.mObjectsContext.written ++ catalogStart s.mObjectsContext.objectsCount ref
          ++ C ++ [.EndDictionary, .EndIndirectObject] ∧
      C.all Token.isExternal = true ∧
      (writeCatalogOfModifiedPDF env b version ref s).2.mTrailerInformation
        = s.mTrailerInformation.SetRoot s.mObjectsContext.objectsCount := by
  unfold writeCatalogOfModifiedPDF
  cases b
  · simp only [Bool.false_eq_true, if_false]
    rw [WriteCatalogObject_eq]
    exact ⟨_, rfl, catalogCallbacks_isExternal _ _ _, rfl⟩
  · simp only [if_true]
    rw [WriteCatalogObject_eq]
    exact ⟨_, rfl, catalogCallbacks_isExternal _ _ _, rfl⟩


theorem catalogObject_inBody (n : Nat) (ref : ObjectReference) (C : List Token)
    (hC : C.all Token.isExternal = true) :
    (catalogStart n ref ++ C ++ [Token.EndDictionary, Token.EndIndirectObject]).all
      Token.inBody = true := by
  have h : C.all Token.inBody = true := by
    rw [List.all_eq_true] at hC ⊢
    exact fun t ht => (isExternal_marks t (hC t ht)).1
  simp only [List.all_append, h]
  rfl

theorem finish_facts {parser : PDFParser} {I S : List Token}
    (hI : I.all Token.inEntries = true) (hS : S.all Token.inFinish = true)
    (h1 : RequiresXrefStream parser = true →
      S.any Token.isXrefTable = false ∧ S.any (Token.isKeyword scTrailer) = false ∧
      S.any (Token.isName "XRef") = true)
    (h2 : RequiresXrefStream parser = false →
      S.any Token.isXrefStream = false ∧ S.any (Token.isName "XRef") = false ∧
      S.any Token.isXrefTable = true) :
    (I ++ S).all Token.inFinish = true ∧
    (RequiresXrefStream parser = true →
      (I ++ S).any Token.isXrefTable = false ∧
      (I ++ S).any (Token.isKeyword scTrailer) = false) ∧
    (RequiresXrefStream parser = false →
      (I ++ S).any Token.isXrefStream = false ∧
      (I ++ S).any (Token.isName "XRef") = false) := by
  obtain ⟨e1, e2, e3, e4, e5⟩ := entries_marks hI
  refine ⟨by simp only [List.all_append, e1, hS]; rfl, fun h => ?_, fun h => ?_⟩
  · obtain ⟨a, b, -⟩ := h1 h
    exact ⟨by simp only [List.any_append, e2, a]; rfl,
      by simp only [List.any_append, e4, b]; rfl⟩
  · obtain ⟨a, b, -⟩ := h2 h
    exact ⟨by simp only [List.any_append, e3, a]; rfl,
      by simp only [List.any_append, e5, b]; rfl⟩

theorem finalizeFromCatalog_spec (env : Collaborators) (parser : PDFParser) (version : Nat)
    (hasNew : Bool) (ref : ObjectReference) (s : DocumentContext) :
    ∃ B F, (finalizeFromCatalog env parser version hasNew ref s).2.mObjectsContext.written
        = s.mObjectsContext.written ++ B ++ F ∧
      B.all Token.inBody = true ∧ F.all Token.inFinish = true ∧
      (RequiresXrefStream parser = true →
        F.any Token.isXrefTable = false ∧ F.any (Token.isKeyword scTrailer) = false) ∧
      (RequiresXrefStream parser = false →
        F.any Token.isXrefStream = false ∧ F.any (Token.isName "XRef") = false) ∧
      ((finalizeFromCatalog env parser version hasNew ref s).1 = .eSuccess →
        ∃ I sx root, I.all Token.inEntries = true ∧
          (finalizeFromCatalog env parser version hasNew ref s).2.mTrailerInformation.mRootReference
            = some root ∧
          (RequiresXrefStream parser = true →
            F = I ++ crossReferenceStreamSection env sx root .eSuccess) ∧
          (RequiresXrefStream parser = false → F = I ++ classicSection env sx root)) ∧
      ((hasNew || IsRequiredVersionHigherThanPDFVersion parser version
          || DoExtendersRequireCatalogUpdate parser s) = true →
        ∃ C, B = catalogStart s.mObjectsContext.objectsCount ref ++ C
            ++ [.EndDictionary, .EndIndirectObject] ∧
          C.all Token.isExternal = true ∧
          (finalizeFromCatalog env parser version hasNew ref s).2.mTrailerInformation.mRootReference
            = some ⟨s.mObjectsContext.objectsCount, 0⟩) ∧
      ((hasNew || IsRequiredVersionHigherThanPDFVersion parser version
          || DoExtendersRequireCatalogUpdate parser s) = false →
        B = [] ∧
        (finalizeFromCatalog env parser version hasNew ref s).2.mTrailerInformation.mRootReference
          = s.mTrailerInformation.mRootReference) := by
  have no1 : ∀ {P : Prop} {b : Bool}, b = true → b = false → P :=
    fun h1 h2 => absurd (h1.symm.trans h2) (by decide)
  rcases Bool.eq_false_or_eq_true (hasNew || IsRequiredVersionHigherThanPDFVersion parser version
      || DoExtendersRequireCatalogUpdate parser s) with hD | hD
  · obtain ⟨C, hC, hCall, hCroot⟩ := writeCatalogOfModifiedPDF_spec env
      (IsRequiredVersionHigherThanPDFVersion parser version) version ref s
    have hB := catalogObject_inBody s.mObjectsContext.objectsCount ref C hCall
    cases hst : (writeCatalogOfModifiedPDF env
        (IsRequiredVersionHigherThanPDFVersion parser version) version ref s).1 with
    | eFailure =>
      have hfin : finalizeFromCatalog env parser version hasNew ref s =
          writeCatalogOfModifiedPDF env
            (IsRequiredVersionHigherThanPDFVersion parser version) version ref s := by
        unfold finalizeFromCatalog
        simp only [hD, if_true]
        rw [if_pos (by rw [hst]; decide)]
      rw [hfin]
      refine ⟨_, [], by rw [hC]; simp, hB, rfl, fun _ => ⟨rfl, rfl⟩, fun _ => ⟨rfl, rfl⟩,
        fun h => ?_, fun _ => ⟨C, rfl, hCall, by rw [hCroot]; rfl⟩, fun h => no1 hD h⟩
      rw [hst] at h
      cases h
    | eSuccess =>
      have hfin : finalizeFromCatalog env parser version hasNew ref s =
          finishModifiedPDF env parser (writeCatalogOfModifiedPDF env
            (IsRequiredVersionHigherThanPDFVersion parser version) version ref s).2 := by
        unfold finalizeFromCatalog
        simp only [hD, if_true]
        rw [if_neg (by rw [hst]; decide)]
      rw [hfin]
      obtain ⟨I, S, hw, -, hI, hS, hroot, hs1, hs2, hsucc⟩ := finishModifiedPDF_spec env parser
        (writeCatalogOfModifiedPDF env
          (IsRequiredVersionHigherThanPDFVersion parser version) version ref s).2
      obtain ⟨f1, f2, f3⟩ := finish_facts hI hS hs1 hs2
      refine ⟨_, I ++ S, by rw [hw, hC]; simp, hB, f1, f2, f3, fun h => ?_,
        fun _ => ⟨C, rfl, hCall, by rw [hroot, hCroot]; rfl⟩, fun h => no1 hD h⟩
      obtain ⟨root, hr, hx1, hx2⟩ := hsucc h
      exact ⟨I, _, root, hI, by rw [hroot, hr], fun h => by rw [hx1 h],
        fun h => by rw [hx2 h]⟩
  · have hfin : finalizeFromCatalog env parser version hasNew ref s =
        finishModifiedPDF env parser s := by
      unfold finalizeFromCatalog
      simp only [hD, Bool.false_eq_true, if_false]
    rw [hfin]
    obtain ⟨I, S, hw, -, hI, hS, hroot, hs1, hs2, hsucc⟩ := finishModifiedPDF_spec env parser s
    obtain ⟨f1, f2, f3⟩ := finish_facts hI hS hs1 hs2
    refine ⟨[], I ++ S, by rw [hw]; simp, rfl, f1, f2, f3, fun h => ?_,
      fun h => no1 h hD, fun _ => ⟨rfl, hroot⟩⟩
    obtain ⟨root, hr, hx1, hx2⟩ := hsucc h
    exact ⟨I, _, root, hI, by rw [hroot, hr], fun h => by rw [hx1 h],
      fun h => by rw [hx2 h]⟩


theorem GetPageTreeRoot_written (s : DocumentContext) :
    (GetPageTreeRoot s).2.mObjectsContext.written = s.mObjectsContext.written := by
  unfold GetPageTreeRoot
  cases s.mCatalogInformation.mPageTree <;> rfl

theorem GetPageTreeRoot_some (s : DocumentContext) (tree : PageTree)
    (h : s.mCatalogInformation.mPageTree = some tree) : GetPageTreeRoot s = (tree, s) := by
  unfold GetPageTreeRoot
  rw [h]

theorem WritePagesTree_written (s : DocumentContext) :
    (WritePagesTree s).mObjectsContext.written
      = s.mObjectsContext.written ++ (GetPageTreeRoot s).1.postOrder := by
  unfold WritePagesTree
  simp only [WritePageTree_eq]
  rw [GetPageTreeRoot_written]

theorem copiedEntries_inBody (d : PDFDictionary) :
    (copiedEntries d).all Token.inBody = true := by
  induction d with
  | nil => rfl
  | cons e es ih =>
    by_cases h : e.1 = "Parent" <;> simp [copiedEntries, h, ih, Token.inBody]

theorem WriteCombinedPageTree_unfold (env : Collaborators) (parser : PDFParser)
    (s : DocumentContext) :
    WriteCombinedPageTree env parser s =
      match GetOriginalDocumentPageTreeRoot parser with
      | none => none
      | some original =>
        match parser.ParseNewObject original.ObjectID with
        | some (.dictionary entries) =>
          if env.CopyingContextStart parser ≠ .eSuccess then
            some (0, { (GetPageTreeRoot { s with
                mObjectsContext := s.mObjectsContext.AllocateNewObjectID.2 }).2 with
              mObjectsContext :=
                { written := s.mObjectsContext.written
                    ++ (((GetPageTreeRoot { s with
                          mObjectsContext := s.mObjectsContext.AllocateNewObjectID.2 }).1.SetParent
                        (some s.mObjectsContext.objectsCount)).postOrder
                      ++ [.StartModifiedIndirectObject original.ObjectID, .StartDictionary]),
                  objectsCount := (GetPageTreeRoot { s with
                    mObjectsContext := s.mObjectsContext.AllocateNewObjectID.2
                    }).2.mObjectsContext.objectsCount },
              mCatalogInformation := { (GetPageTreeRoot { s with
                  mObjectsContext := s.mObjectsContext.AllocateNewObjectID.2
                  }).2.mCatalogInformation with
                mPageTree := some ((GetPageTreeRoot { s with
                  mObjectsContext := s.mObjectsContext.AllocateNewObjectID.2 }).1.SetParent
                    none) } })
          else
            some (s.mObjectsContext.objectsCount, { (GetPageTreeRoot { s with
                mObjectsContext := s.mObjectsContext.AllocateNewObjectID.2 }).2 with
              mObjectsContext :=
                { written := s.mObjectsContext.written
                    ++ (((GetPageTreeRoot { s with
                          mObjectsContext := s.mObjectsContext.AllocateNewObjectID.2 }).1.SetParent
                        (some s.mObjectsContext.objectsCount)).postOrder
                      ++ rewrittenOriginalRoot original entries s.mObjectsContext.objectsCount
                      ++ spliceRoot s.mObjectsContext.objectsCount
                          (toLongLong ((match PDFDictionary.QueryDirectObject entries scCount with
                            | some (.integer value) => value
                            | _ => 0)
                            + ((GetPageTreeRoot { s with
                                mObjectsContext := s.mObjectsContext.AllocateNewObjectID.2
                                }).1.leafCount : Int)))
                          original
                          (GetPageTreeRoot { s with
                            mObjectsContext := s.mObjectsContext.AllocateNewObjectID.2
                            }).1.GetID),
                  objectsCount := (GetPageTreeRoot { s with
                    mObjectsContext := s.mObjectsContext.AllocateNewObjectID.2
                    }).2.mObjectsContext.objectsCount },
              mCatalogInformation := { (GetPageTreeRoot { s with
                  mObjectsContext := s.mObjectsContext.AllocateNewObjectID.2
                  }).2.mCatalogInformation with
                mPageTree := some ((GetPageTreeRoot { s with
                  mObjectsContext := s.mObjectsContext.AllocateNewObjectID.2 }).1.SetParent
                    none) } })
        | _ => none := by
  have hw := GetPageTreeRoot_written { s with
    mObjectsContext := s.mObjectsContext.AllocateNewObjectID.2 }
  simp only [ObjectsContext.AllocateNewObjectID] at hw
  unfold WriteCombinedPageTree
  simp only [WritePageTree_eq, copyAllButParent_eq, DocumentContext.write_eq,
    DocumentContext.writeAll_writeAll, PageTree.leafCount_SetParent]
  cases GetOriginalDocumentPageTreeRoot parser with
  | none => rfl
  | some original =>
    simp only []
    cases parser.ParseNewObject original.ObjectID with
    | none => rfl
    | some obj =>
      cases obj with
      | dictionary entries =>
        simp only [DocumentContext.writeAll, ObjectsContext.AllocateNewObjectID, hw,
          rewrittenOriginalRoot, spliceRoot, List.append_assoc, List.cons_append,
          List.nil_append]
      | _ => rfl


theorem WriteCombinedPageTree_shape (env : Collaborators) (parser : PDFParser)
    (s : DocumentContext) (c : Nat × DocumentContext)
    (h : WriteCombinedPageTree env parser s = some c) :
    ∃ B, c.2.mObjectsContext.written = s.mObjectsContext.written ++ B ∧
      B.all Token.inBody = true ∧
      (env.CopyingContextStart parser = .eSuccess → c.1 = s.mObjectsContext.objectsCount) ∧
      (env.CopyingContextStart parser = .eFailure → c.1 = 0) := by
  rw [WriteCombinedPageTree_unfold] at h
  cases ho : GetOriginalDocumentPageTreeRoot parser with
  | none => simp [ho] at h
  | some original =>
    simp only [ho] at h
    cases hp : parser.ParseNewObject original.ObjectID with
    | none => simp [hp] at h
    | some obj =>
      cases obj with
      | dictionary entries =>
        simp only [hp] at h
        cases hc : env.CopyingContextStart parser with
        | eFailure =>
          simp only [hc, ne_eq, reduceCtorEq, not_false_eq_true, if_true,
            Option.some.injEq] at h
          subst h
          refine ⟨_, rfl, ?_, ?_, ?_⟩
          · simp only [List.all_append, postOrder_inBody]
            rfl
          · intro h2; cases h2
          · intro _; rfl
        | eSuccess =>
          simp only [hc, ne_eq, not_true_eq_false, if_false, Option.some.injEq] at h
          subst h
          refine ⟨_, rfl, ?_, ?_, ?_⟩
          · simp only [List.all_append, postOrder_inBody, rewrittenOriginalRoot, spliceRoot,
              copiedEntries_inBody]
            rfl
          · intro _; rfl
          · intro h2; cases h2
      | _ => simp [hp] at h

theorem fonts_inBody (env : Collaborators) (s : DocumentContext) :
    [Token.External "WriteUsedFontsDefinitions" 0
      (env.WriteUsedFontsDefinitions s.mObjectsContext).status
      (env.WriteUsedFontsDefinitions s.mObjectsContext).tokens].all Token.inBody = true := rfl

theorem WriteUsedFontsDefinitions_written (env : Collaborators) (s : DocumentContext) :
    (WriteUsedFontsDefinitions env s).2.mObjectsContext.written = s.mObjectsContext.written
      ++ [Token.External "WriteUsedFontsDefinitions" 0
          (env.WriteUsedFontsDefinitions s.mObjectsContext).status
          (env.WriteUsedFontsDefinitions s.mObjectsContext).tokens] := rfl

/-- The shape of the output of `FinalizeModifiedPDF`: a body (used fonts, page tree objects,
catalog) and a finish (info object and cross-reference section). -/
theorem FinalizeModifiedPDF_shape (env : Collaborators) (parser : PDFParser) (version : Nat)
    (s : DocumentContext) (r : EStatusCode × DocumentContext)
    (h : FinalizeModifiedPDF env parser version s = some r) :
    ∃ B F, r.2.mObjectsContext.written = s.mObjectsContext.written ++ B ++ F ∧
      B.all Token.inBody = true ∧ F.all Token.inFinish = true ∧
      (RequiresXrefStream parser = true →
        F.any Token.isXrefTable = false ∧ F.any (Token.isKeyword scTrailer) = false) ∧
      (RequiresXrefStream parser = false →
        F.any Token.isXrefStream = false ∧ F.any (Token.isName "XRef") = false) ∧
      (r.1 = .eSuccess →
        ∃ I sx root, I.all Token.inEntries = true ∧
          r.2.mTrailerInformation.mRootReference = some root ∧
          (RequiresXrefStream parser = true →
            F = I ++ crossReferenceStreamSection env sx root .eSuccess) ∧
          (RequiresXrefStream parser = false → F = I ++ classicSection env sx root)) := by
  have hfw := WriteUsedFontsDefinitions_written env s
  have hfb := fonts_inBody env s
  unfold FinalizeModifiedPDF at h
  simp only [] at h
  split at h
  · -- the used fonts could not be written
    rename_i hf
    simp only [Option.some.injEq] at h
    subst h
    refine ⟨_, [], by rw [hfw]; simp, hfb, rfl, fun _ => ⟨rfl, rfl⟩, fun _ => ⟨rfl, rfl⟩,
      fun hs => absurd hs hf⟩
  · cases ho : GetOriginalDocumentPageTreeRoot parser with
    | none => simp [ho] at h
    | some original =>
      simp only [ho] at h
      -- a lemma for the three branches that end in `finalizeFromCatalog`
      have key : ∀ (hasNew : Bool) (ref : ObjectReference) (s1 : DocumentContext)
          (B1 : List Token),
          s1.mObjectsContext.written = s.mObjectsContext.written ++ B1 →
          B1.all Token.inBody = true →
          r = finalizeFromCatalog env parser version hasNew ref s1 →
          ∃ B F, r.2.mObjectsContext.written = s.mObjectsContext.written ++ B ++ F ∧
            B.all Token.inBody = true ∧ F.all Token.inFinish = true ∧
            (RequiresXrefStream parser = true →
              F.any Token.isXrefTable = false ∧ F.any (Token.isKeyword scTrailer) = false) ∧
            (RequiresXrefStream parser = false →
              F.any Token.isXrefStream = false ∧ F.any (Token.isName "XRef") = false) ∧
            (r.1 = .eSuccess →
              ∃ I sx root, I.all Token.inEntries = true ∧
                r.2.mTrailerInformation.mRootReference = some root ∧
                (RequiresXrefStream parser = true →
                  F = I ++ crossReferenceStreamSection env sx root .eSuccess) ∧
                (RequiresXrefStream parser = false →
                  F = I ++ classicSection env sx root)) := by
        intro hasNew ref s1 B1 hw1 hb1 hr
        obtain ⟨B, F, hw, hB, hF, hx1, hx2, hsucc, -, -⟩ :=
          finalizeFromCatalog_spec env parser version hasNew ref s1
        subst hr
        refine ⟨B1 ++ B, F, by rw [hw, hw1]; simp, ?_, hF, hx1, hx2, hsucc⟩
        simp only [List.all_append, hb1, hB]
        rfl
      split at h
      · split at h
        · -- pages were added to a source with a page tree root
          cases hc : WriteCombinedPageTree env parser (WriteUsedFontsDefinitions env s).2 with
          | none => simp [hc] at h
          | some c =>
            simp only [hc] at h
            obtain ⟨Bc, hcw, hcb, -, -⟩ := WriteCombinedPageTree_shape env parser _ c hc
            split at h
            · simp only [Option.some.injEq] at h
              subst h
              refine ⟨[Token.External "WriteUsedFontsDefinitions" 0
                  (env.WriteUsedFontsDefinitions s.mObjectsContext).status
                  (env.WriteUsedFontsDefinitions s.mObjectsContext).tokens] ++ Bc, [],
                ?_, ?_, rfl, fun _ => ⟨rfl, rfl⟩, fun _ => ⟨rfl, rfl⟩, ?_⟩
              · show c.2.mObjectsContext.written = _
                rw [hcw, hfw]; simp only [List.append_nil, List.append_assoc]
              · simp only [List.all_append, hfb, hcb]; rfl
              · intro hs; cases hs
            · simp only [Option.some.injEq] at h
              exact key true ⟨c.1, 0⟩ c.2 ([Token.External "WriteUsedFontsDefinitions" 0
                  (env.WriteUsedFontsDefinitions s.mObjectsContext).status
                  (env.WriteUsedFontsDefinitions s.mObjectsContext).tokens] ++ Bc)
                (by rw [hcw, hfw, List.append_assoc])
                (by simp only [List.all_append, hfb, hcb]; rfl) h.symm
        · -- pages were added to a source without page tree root
          simp only [Option.some.injEq] at h
          refine key true _ _ ([Token.External "WriteUsedFontsDefinitions" 0
              (env.WriteUsedFontsDefinitions s.mObjectsContext).status
              (env.WriteUsedFontsDefinitions s.mObjectsContext).tokens]
            ++ (GetPageTreeRoot (WriteUsedFontsDefinitions env s).2).1.postOrder) ?_ ?_ h.symm
          · rw [GetPageTreeRoot_written, WritePagesTree_written, hfw, List.append_assoc]
          · simp only [List.all_append, hfb, postOrder_inBody]; rfl
      · -- no page was added
        simp only [Option.some.injEq] at h
        exact key false original _ _ hfw hfb h.symm


theorem RequiresXrefStream_iff (parser : PDFParser) :
    RequiresXrefStream parser = true ↔ declaresXrefStream parser := by
  unfold RequiresXrefStream declaresXrefStream
  cases ht : parser.GetTrailer with
  | none => simp
  | some trailer =>
    simp only [Option.some.injEq, exists_eq_left']
    cases hq : PDFDictionary.QueryDirectObject trailer "Type" with
    | none => simp [hq]
    | some obj => cases obj <;> simp [hq]

theorem any_false_of_inBody {X : List Token} (h : X.all Token.inBody = true) :
    X.any Token.isXrefTable = false ∧ X.any Token.isXrefStream = false ∧
    X.any (Token.isKeyword scTrailer) = false ∧ X.any (Token.isName "XRef") = false :=
  ⟨any_false_of_all h (fun t ht => (inBody_not_inFinishMarks t ht).1),
   any_false_of_all h (fun t ht => (inBody_not_inFinishMarks t ht).2.1),
   any_false_of_all h (fun t ht => (inBody_not_inFinishMarks t ht).2.2.1),
   any_false_of_all h (fun t ht => (inBody_not_inFinishMarks t ht).2.2.2)⟩

/-! ## C6: the form of the cross-reference section -/

/-- C6 (amended): `RequiresXrefStream` holds exactly when the source trailer exists and has
a Type entry that is the name XRef. Whenever `FinalizeModifiedPDF` returns, what it wrote
follows that choice alone: with such a trailer it wrote no cross-reference table and no
trailer keyword, without it no cross-reference stream and no Type XRef dictionary; and when
it returns success its output ends with the cross-reference stream object (Type XRef and
the trailer entries, then the stream, startxref and the end-of-file marker) in the first
case, and with the classic table followed by a separate trailer dictionary in the second. -/
theorem C6_cross_reference_form (env : Collaborators) (parser : PDFParser) (version : Nat)
    (s : DocumentContext) (r : EStatusCode × DocumentContext)
    (h : FinalizeModifiedPDF env parser version s = some r) :
    (RequiresXrefStream parser = true ↔ declaresXrefStream parser) ∧
    ∃ X, r.2.mObjectsContext.written = s.mObjectsContext.written ++ X ∧
      (declaresXrefStream parser →
        X.any Token.isXrefTable = false ∧ X.any (Token.isKeyword scTrailer) = false) ∧
      (¬ declaresXrefStream parser →
        X.any Token.isXrefStream = false ∧ X.any (Token.isName "XRef") = false) ∧
      (r.1 = .eSuccess → ∃ before sx root,
        r.2.mTrailerInformation.mRootReference = some root ∧
        (declaresXrefStream parser →
          X = before ++ crossReferenceStreamSection env sx root .eSuccess) ∧
        (¬ declaresXrefStream parser → X = before ++ classicSection env sx root)) := by
  refine ⟨RequiresXrefStream_iff parser, ?_⟩
  obtain ⟨B, F, hw, hB, -, hx1, hx2, hsucc⟩ :=
    FinalizeModifiedPDF_shape env parser version s r h
  obtain ⟨b1, b2, b3, b4⟩ := any_false_of_inBody hB
  have hno : ¬ declaresXrefStream parser → RequiresXrefStream parser = false := by
    intro hd
    cases hR : RequiresXrefStream parser with
    | false => rfl
    | true => exact absurd ((RequiresXrefStream_iff parser).1 hR) hd
  refine ⟨B ++ F, by rw [hw, List.append_assoc], fun hd => ?_, fun hd => ?_, fun hs => ?_⟩
  · obtain ⟨f1, f2⟩ := hx1 ((RequiresXrefStream_iff parser).2 hd)
    exact ⟨by simp only [List.any_append, b1, f1]; rfl,
      by simp only [List.any_append, b3, f2]; rfl⟩
  · obtain ⟨f1, f2⟩ := hx2 (hno hd)
    exact ⟨by simp only [List.any_append, b2, f1]; rfl,
      by simp only [List.any_append, b4, f2]; rfl⟩
  · obtain ⟨I, sx, root, -, hroot, hs1, hs2⟩ := hsucc hs
    refine ⟨B ++ I, sx, root, hroot, fun hd => ?_, fun hd => ?_⟩
    · rw [hs1 ((RequiresXrefStream_iff parser).2 hd), List.append_assoc]
    · rw [hs2 (hno hd), List.append_assoc]

/-- C6 at the modification of `sourceParser`, whose trailer has no Type entry (the classic
table and a trailer dictionary; its result is defined and a success), and at the
modification of `xrefStreamSourceParser`, whose trailer has Type XRef (a cross-reference
stream object, no table and no trailer keyword). -/
theorem C6_cross_reference_form_witness :
    ((FinalizeModifiedPDF quietEnv sourceParser 13 modifiedDocument).getD
      (.eFailure, modifiedDocument)).1 = .eSuccess ∧
    ((RequiresXrefStream sourceParser = true ↔ declaresXrefStream sourceParser) ∧
    ∃ X, ((FinalizeModifiedPDF quietEnv sourceParser 13 modifiedDocument).getD
        (.eFailure, modifiedDocument)).2.mObjectsContext.written
        = modifiedDocument.mObjectsContext.written ++ X ∧
      (declaresXrefStream sourceParser →
        X.any Token.isXrefTable = false ∧ X.any (Token.isKeyword scTrailer) = false) ∧
      (¬ declaresXrefStream sourceParser →
        X.any Token.isXrefStream = false ∧ X.any (Token.isName "XRef") = false) ∧
      (((FinalizeModifiedPDF quietEnv sourceParser 13 modifiedDocument).getD
          (.eFailure, modifiedDocument)).1 = .eSuccess → ∃ before sx root,
        ((FinalizeModifiedPDF quietEnv sourceParser 13 modifiedDocument).getD
          (.eFailure, modifiedDocument)).2.mTrailerInformation.mRootReference = some root ∧
        (declaresXrefStream sourceParser →
          X = before ++ crossReferenceStreamSection quietEnv sx root .eSuccess) ∧
        (¬ declaresXrefStream sourceParser →
          X = before ++ classicSection quietEnv sx root))) ∧
    (declaresXrefStream xrefStreamSourceParser ∧
    ∃ X, ((FinalizeModifiedPDF quietEnv xrefStreamSourceParser 13 modifiedDocument).getD
        (.eFailure, modifiedDocument)).2.mObjectsContext.written
        = modifiedDocument.mObjectsContext.written ++ X ∧
      X.any Token.isXrefTable = false ∧ X.any (Token.isKeyword scTrailer) = false ∧
      ∃ before sx root,
        X = before ++ crossReferenceStreamSection quietEnv sx root .eSuccess) := by
  refine ⟨rfl, C6_cross_reference_form quietEnv sourceParser 13 modifiedDocument _ rfl, ?_⟩
  have hd : declaresXrefStream xrefStreamSourceParser := ⟨_, rfl, rfl⟩
  obtain ⟨-, X, hX, h1, -, h3⟩ :=
    C6_cross_reference_form quietEnv xrefStreamSourceParser 13 modifiedDocument _ rfl
  obtain ⟨before, sx, root, -, hs, -⟩ := h3 rfl
  exact ⟨hd, X, hX, (h1 hd).1, (h1 hd).2, before, sx, root, hs hd⟩

/-- C6 as stated fails: a parser without trailer does not require a cross-reference
stream, yet `FinalizeModifiedPDF` writes no classic table for it, as it dereferences the
missing trailer; and when the used fonts cannot be written no cross-reference section is
written at all. -/
theorem C6_counterexample :
    RequiresXrefStream noTrailerParser = false ∧
    FinalizeModifiedPDF quietEnv noTrailerParser 13 modifiedDocument = none ∧
    RequiresXrefStream sourceParser = false ∧
    (FinalizeModifiedPDF failingFontsEnv sourceParser 13 modifiedDocument).map
        (fun r => (r.1, r.2.mObjectsContext.written))
      = some (.eFailure, [.External "WriteUsedFontsDefinitions" 0 .eFailure []]) ∧
    (writtenBy (FinalizeModifiedPDF failingFontsEnv sourceParser 13 modifiedDocument)).any
      Token.isXrefTable = false :=
  ⟨rfl, rfl, rfl, rfl, rfl⟩


/-! ## C3, C4, C5: page tree and catalog of a modified file -/

theorem GetOriginalDocumentPageTreeRoot_some (parser : PDFParser) (trailer : PDFDictionary)
    (h : parser.GetTrailer = some trailer) :
    ∃ original, GetOriginalDocumentPageTreeRoot parser = some original := by
  unfold GetOriginalDocumentPageTreeRoot
  simp only [h]
  split
  · split
    · split <;> exact ⟨_, rfl⟩
    · exact ⟨_, rfl⟩
  · exact ⟨_, rfl⟩

theorem FinalizeModifiedPDF_noNewPages (env : Collaborators) (parser : PDFParser)
    (version : Nat) (s : DocumentContext) (original : ObjectReference)
    (hfonts : (WriteUsedFontsDefinitions env s).1 = .eSuccess)
    (horig : GetOriginalDocumentPageTreeRoot parser = some original)
    (hpages : DocumentHasNewPages s = false) :
    FinalizeModifiedPDF env parser version s =
      some (finalizeFromCatalog env parser version false original
        (WriteUsedFontsDefinitions env s).2) := by
  have hp : DocumentHasNewPages (WriteUsedFontsDefinitions env s).2 = false := hpages
  unfold FinalizeModifiedPDF
  simp only [hfonts, ne_eq, not_true_eq_false, if_false, horig, hp, Bool.false_eq_true]

theorem FinalizeModifiedPDF_newTree (env : Collaborators) (parser : PDFParser)
    (version : Nat) (s : DocumentContext) (original : ObjectReference)
    (hfonts : (WriteUsedFontsDefinitions env s).1 = .eSuccess)
    (horig : GetOriginalDocumentPageTreeRoot parser = some original)
    (hzero : original.ObjectID = 0)
    (hpages : DocumentHasNewPages s = true) :
    FinalizeModifiedPDF env parser version s =
      some (finalizeFromCatalog env parser version true
        ⟨(GetPageTreeRoot (WritePagesTree (WriteUsedFontsDefinitions env s).2)).1.GetID, 0⟩
        (GetPageTreeRoot (WritePagesTree (WriteUsedFontsDefinitions env s).2)).2) := by
  have hp : DocumentHasNewPages (WriteUsedFontsDefinitions env s).2 = true := hpages
  unfold FinalizeModifiedPDF
  simp only [hfonts, ne_eq, not_true_eq_false, if_false, horig, hp, if_true, hzero]

theorem FinalizeModifiedPDF_splice (env : Collaborators) (parser : PDFParser)
    (version : Nat) (s : DocumentContext) (original : ObjectReference)
    (c : Nat × DocumentContext)
    (hfonts : (WriteUsedFontsDefinitions env s).1 = .eSuccess)
    (horig : GetOriginalDocumentPageTreeRoot parser = some original)
    (hnonzero : original.ObjectID ≠ 0)
    (hpages : DocumentHasNewPages s = true)
    (hc : WriteCombinedPageTree env parser (WriteUsedFontsDefinitions env s).2 = some c) :
    FinalizeModifiedPDF env parser version s =
      if c.1 = 0 then some (.eFailure, c.2)
      else some (finalizeFromCatalog env parser version true ⟨c.1, 0⟩ c.2) := by
  have hp : DocumentHasNewPages (WriteUsedFontsDefinitions env s).2 = true := hpages
  unfold FinalizeModifiedPDF
  simp only [hfonts, ne_eq, not_true_eq_false, if_false, horig, hp, if_true, hnonzero,
    not_false_eq_true, hc]

theorem DocumentHasNewPages_tree (s : DocumentContext) (h : DocumentHasNewPages s = true) :
    ∃ tree, s.mCatalogInformation.mPageTree = some tree := by
  unfold DocumentHasNewPages at h
  cases ht : s.mCatalogInformation.mPageTree with
  | none => simp [ht] at h
  | some tree => exact ⟨tree, rfl⟩

theorem any_false_of_inFinish {X : List Token} (h : X.all Token.inFinish = true) :
    X.any (Token.isName scPages) = false ∧ X.any (Token.isName scCatalog) = false ∧
    X.any Token.startsModifiedObject = false :=
  ⟨any_false_of_all h (fun t ht => (inFinish_not_bodyMarks t ht).1),
   any_false_of_all h (fun t ht => (inFinish_not_bodyMarks t ht).2.1),
   any_false_of_all h (fun t ht => (inFinish_not_bodyMarks t ht).2.2)⟩

/-- C3 (amended): after a successful `SetupModifiedFile` whose root reference is still in
force, when the used fonts are written, no page was added, the target version is not higher
than the one of the source and no extender requires a catalog update, `FinalizeModifiedPDF`
writes, after the used fonts, no page tree object and no catalog object; the root reference
stays the one `SetupModifiedFile` recorded (the object ID of the Root entry of the source
trailer, generation 0), and on success the output ends with the cross-reference section
whose trailer entries carry that Root. -/
theorem C3_no_new_pages (env : Collaborators) (parser : PDFParser) (version : Nat)
    (s0 s : DocumentContext)
    (hsetup : (SetupModifiedFile env parser s0).1 = .eSuccess)
    (hkept : s.mTrailerInformation.mRootReference
      = (SetupModifiedFile env parser s0).2.mTrailerInformation.mRootReference)
    (hfonts : (WriteUsedFontsDefinitions env s).1 = .eSuccess)
    (hpages : DocumentHasNewPages s = false)
    (hversion : IsRequiredVersionHigherThanPDFVersion parser version = false)
    (hext : DoExtendersRequireCatalogUpdate parser s = false) :
    ∃ trailer id gen status s' F,
      parser.GetTrailer = some trailer ∧
      trailer.QueryDirectObject "Root" = some (.indirectObjectReference id gen) ∧
      FinalizeModifiedPDF env parser version s = some (status, s') ∧
      s'.mObjectsContext.written = s.mObjectsContext.written
        ++ [Token.External "WriteUsedFontsDefinitions" 0 .eSuccess
            (env.WriteUsedFontsDefinitions s.mObjectsContext).tokens]
        ++ F ∧
      F.any (Token.isName scPages) = false ∧
      F.any (Token.isName scCatalog) = false ∧
      s'.mTrailerInformation.mRootReference = some ⟨id, 0⟩ ∧
      (status = .eSuccess → ∃ I sx, I.all Token.inEntries = true ∧
        (RequiresXrefStream parser = true →
          F = I ++ crossReferenceStreamSection env sx ⟨id, 0⟩ .eSuccess) ∧
        (RequiresXrefStream parser = false → F = I ++ classicSection env sx ⟨id, 0⟩)) := by
  obtain ⟨-, trailer, id, gen, ht, hq, hr, -, -⟩ := SetupModifiedFile_success env parser s0 hsetup
  obtain ⟨original, horig⟩ := GetOriginalDocumentPageTreeRoot_some parser trailer ht
  have hfin := FinalizeModifiedPDF_noNewPages env parser version s original hfonts horig hpages
  obtain ⟨B, F, hw, -, hF, -, -, hsucc, -, hD⟩ := finalizeFromCatalog_spec env parser version
    false original (WriteUsedFontsDefinitions env s).2
  have hext2 : DoExtendersRequireCatalogUpdate parser (WriteUsedFontsDefinitions env s).2
      = false := hext
  obtain ⟨hB, hroot⟩ := hD (by rw [hversion, hext2]; rfl)
  have hroot2 : (finalizeFromCatalog env parser version false original
      (WriteUsedFontsDefinitions env s).2).2.mTrailerInformation.mRootReference
      = some ⟨id, 0⟩ := by
    rw [hroot]
    show s.mTrailerInformation.mRootReference = _
    rw [hkept, hr]
  obtain ⟨f1, f2, -⟩ := any_false_of_inFinish hF
  have hst : (env.WriteUsedFontsDefinitions s.mObjectsContext).status = .eSuccess := hfonts
  refine ⟨trailer, id, gen, _, _, F, ht, hq, hfin, ?_, f1, f2, hroot2, fun hs => ?_⟩
  · show (finalizeFromCatalog env parser version false original
      (WriteUsedFontsDefinitions env s).2).2.mObjectsContext.written = _
    rw [hw, hB, WriteUsedFontsDefinitions_written, hst, List.append_nil]
  · obtain ⟨I, sx, root, hI, hr2, h1, h2⟩ := hsucc hs
    rw [hroot2] at hr2
    cases hr2
    exact ⟨I, sx, hI, h1, h2⟩


/-- C3 (amended) at the modification of `sourceParser` with no page added and the version
of the source kept. -/
theorem C3_no_new_pages_witness :
    ∃ trailer id gen status s' F,
      sourceParser.GetTrailer = some trailer ∧
      trailer.QueryDirectObject "Root" = some (.indirectObjectReference id gen) ∧
      FinalizeModifiedPDF quietEnv sourceParser 13 modifiedDocument = some (status, s') ∧
      s'.mObjectsContext.written = modifiedDocument.mObjectsContext.written
        ++ [Token.External "WriteUsedFontsDefinitions" 0 .eSuccess
            (quietEnv.WriteUsedFontsDefinitions modifiedDocument.mObjectsContext).tokens]
        ++ F ∧
      F.any (Token.isName scPages) = false ∧
      F.any (Token.isName scCatalog) = false ∧
      s'.mTrailerInformation.mRootReference = some ⟨id, 0⟩ ∧
      (status = .eSuccess → ∃ I sx, I.all Token.inEntries = true ∧
        (RequiresXrefStream sourceParser = true →
          F = I ++ crossReferenceStreamSection quietEnv sx ⟨id, 0⟩ .eSuccess) ∧
        (RequiresXrefStream sourceParser = false →
          F = I ++ classicSection quietEnv sx ⟨id, 0⟩)) :=
  C3_no_new_pages quietEnv sourceParser 13
    { freshDocument with mObjectsContext := { written := [], objectsCount := 6 } }
    modifiedDocument rfl rfl rfl rfl rfl rfl

/-- C3 as stated fails: the source has pages (its page tree root is object 2), no page is
added, but the target version 1.4 is higher than the 1.3 of the source; a catalog object is
written (object 6, with the Version key) and the Root of the trailer is 6 0 R, not the
1 0 R recorded by `SetupModifiedFile`. -/
theorem C3_counterexample :
    GetOriginalDocumentPageTreeRoot sourceParser = some ⟨2, 0⟩ ∧
    DocumentHasNewPages modifiedDocument = false ∧
    modifiedDocument.mTrailerInformation.mRootReference = some ⟨1, 0⟩ ∧
    (FinalizeModifiedPDF quietEnv sourceParser 14 modifiedDocument).map (fun r => r.1)
      = some .eSuccess ∧
    (writtenBy (FinalizeModifiedPDF quietEnv sourceParser 14 modifiedDocument)).any
      (Token.isName scCatalog) = true ∧
    (FinalizeModifiedPDF quietEnv sourceParser 14 modifiedDocument).map
      (fun r => r.2.mTrailerInformation.mRootReference) = some (some ⟨6, 0⟩) ∧
    writtenBy (FinalizeModifiedPDF quietEnv sourceParser 14 modifiedDocument) =
      [.External "WriteUsedFontsDefinitions" 0 .eSuccess [],
       .StartNewIndirectObject 6, .StartDictionary,
       .WriteKey "Type", .WriteNameValue "Catalog",
       .WriteKey "Pages", .WriteObjectReferenceValue ⟨2, 0⟩,
       .External "OnCatalogWrite" 1000 .eSuccess
         [.WriteKey "Version", .WriteNameValue "1.4"],
       .EndDictionary, .EndIndirectObject,
       .StartNewIndirectObject 7, .StartDictionary,
       .WriteKey "ModDate", .WriteLiteralStringValue "2012",
       .EndDictionary, .EndIndirectObject,
       .WriteXrefTable .eSuccess,
       .WriteKeyword "trailer", .StartDictionary,
       .WriteKey "Size", .WriteIntegerValue 8,
       .WriteKey "Prev", .WriteIntegerValue 500,
       .WriteKey "Root", .WriteObjectReferenceValue ⟨6, 0⟩,
       .WriteKey "Info", .WriteObjectReferenceValue ⟨7, 0⟩,
       .WriteKey "ID", .StartArray, .WriteHexString "0a0b", .WriteHexString "d41d8cd9",
       .EndArray, .EndLine,
       .EndDictionary,
       .WriteKeyword "startxref", .WriteInteger 16,
       .FreeContextWrite [37, 37, 69, 79, 70]] :=
  ⟨rfl, rfl, rfl, rfl, rfl, rfl, rfl⟩


theorem catalogStart_any (n : Nat) (ref : ObjectReference) (C rest : List Token) :
    (catalogStart n ref ++ C ++ rest).any (Token.isName scCatalog) = true := by
  simp only [List.any_append]
  have : (catalogStart n ref).any (Token.isName scCatalog) = true := by
    simp [catalogStart, Token.isName]
  rw [this]; rfl

theorem fonts_any_catalog (env : Collaborators) (s : DocumentContext) :
    [Token.External "WriteUsedFontsDefinitions" 0
      (env.WriteUsedFontsDefinitions s.mObjectsContext).status
      (env.WriteUsedFontsDefinitions s.mObjectsContext).tokens].any
        (Token.isName scCatalog) = false := rfl

theorem WriteTrailerDictionary_extends (env : Collaborators) (s : DocumentContext) :
    ∃ X, (WriteTrailerDictionary env s).2.mObjectsContext.written
      = s.mObjectsContext.written ++ X := by
  cases h : s.mTrailerInformation.mRootReference with
  | none => rw [WriteTrailerDictionary_noRoot env s h]; exact ⟨_, rfl⟩
  | some root => rw [WriteTrailerDictionary_root env s root h]; exact ⟨_, rfl⟩

theorem FinalizeNewPDF_extends (env : Collaborators) (s : DocumentContext)
    (hfonts : (WriteUsedFontsDefinitions env s).1 = .eSuccess) :
    ∃ X, (FinalizeNewPDF env s).2.mObjectsContext.written
      = (WriteCatalogObjectOfNewPDF
          (WritePagesTree (WriteUsedFontsDefinitions env s).2)).2.mObjectsContext.written
        ++ X := by
  unfold FinalizeNewPDF
  simp only [hfonts, ne_eq, not_true_eq_false, if_false]
  generalize WriteCatalogObjectOfNewPDF
    (WritePagesTree (WriteUsedFontsDefinitions env s).2) = c
  split
  · exact ⟨[], by simp⟩
  · obtain ⟨I, hI, -, -, -⟩ := WriteInfoDictionary_shape env c.2
    split
    · exact ⟨I ++ [Token.WriteXrefTable (env.WriteXrefTable (WriteInfoDictionary env c.2).mObjectsContext).1],
        by simp [WriteXrefTable, DocumentContext.write, ObjectsContext.write, hI]⟩
    · obtain ⟨T, hT⟩ := WriteTrailerDictionary_extends env
        (WriteXrefTable env (WriteInfoDictionary env c.2)).2.2
      split
      · exact ⟨I ++ [Token.WriteXrefTable (env.WriteXrefTable (WriteInfoDictionary env c.2).mObjectsContext).1] ++ T, by
          rw [hT]; simp [WriteXrefTable, DocumentContext.write, ObjectsContext.write, hI]⟩
      · exact ⟨I ++ [Token.WriteXrefTable (env.WriteXrefTable (WriteInfoDictionary env c.2).mObjectsContext).1] ++ T
            ++ [Token.WriteKeyword scStartXref,
                Token.WriteInteger
                  (env.WriteXrefTable (WriteInfoDictionary env c.2).mObjectsContext).2,
                Token.FreeContextWrite scEOF], by
          simp only [WriteFinalEOF, WriteXrefReference, DocumentContext.write,
            ObjectsContext.write]
          rw [hT]
          simp [WriteXrefTable, DocumentContext.write, ObjectsContext.write, hI]⟩


theorem WritePagesTree_some (s : DocumentContext) (tree : PageTree)
    (h : s.mCatalogInformation.mPageTree = some tree) :
    WritePagesTree s = { s with mObjectsContext :=
      { s.mObjectsContext with written := s.mObjectsContext.written ++ tree.postOrder } } := by
  unfold WritePagesTree
  rw [GetPageTreeRoot_some s tree h]
  simp only [WritePageTree_eq]

theorem isExternal_any {C : List Token} (h : C.all Token.isExternal = true) :
    C.any Token.startsModifiedObject = false ∧ C.any (Token.isName scPages) = false :=
  ⟨any_false_of_all h (fun t ht => (isExternal_marks t ht).2.1),
   any_false_of_all h (fun t ht => (isExternal_marks t ht).2.2.1)⟩

/-- C4 (amended): when the used fonts are written, the source has no page tree root
(`GetOriginalDocumentPageTreeRoot` yields object ID 0) and `DocumentHasNewPages` holds,
`FinalizeModifiedPDF` writes the session page tree by `WritePagesTree`, its root framed with
the number of leaf pages as Count, and right after it a catalog whose Pages entry is the
reference to that root; the catalog takes the first ID allocated after the used fonts, no
object of the source is rewritten and no further page tree object is written; and
`FinalizeNewPDF` writes the same page tree and the same start of the catalog. -/
theorem C4_pages_without_original_root (env : Collaborators) (parser : PDFParser)
    (version : Nat) (s : DocumentContext) (original : ObjectReference)
    (hfonts : (WriteUsedFontsDefinitions env s).1 = .eSuccess)
    (horig : GetOriginalDocumentPageTreeRoot parser = some original)
    (hzero : original.ObjectID = 0)
    (hpages : DocumentHasNewPages s = true) :
    ∃ tree status s' rest restOfNewPDF,
      s.mCatalogInformation.mPageTree = some tree ∧
      FinalizeModifiedPDF env parser version s = some (status, s') ∧
      (WritePagesTree (WriteUsedFontsDefinitions env s).2).mObjectsContext =
        { written := (WriteUsedFontsDefinitions env s).2.mObjectsContext.written
            ++ tree.descendantObjects ++ tree.frame (tree.leafCount : Int),
          objectsCount := (WriteUsedFontsDefinitions env s).2.mObjectsContext.objectsCount } ∧
      s'.mObjectsContext.written =
        (WritePagesTree (WriteUsedFontsDefinitions env s).2).mObjectsContext.written
        ++ [.StartNewIndirectObject
              (WriteUsedFontsDefinitions env s).2.mObjectsContext.objectsCount,
            .StartDictionary, .WriteKey scType, .WriteNameValue scCatalog,
            .WriteKey scPages, .WriteObjectReferenceValue ⟨tree.GetID, 0⟩]
        ++ rest ∧
      rest.any Token.startsModifiedObject = false ∧
      rest.any (Token.isName scPages) = false ∧
      (FinalizeNewPDF env s).2.mObjectsContext.written =
        (WritePagesTree (WriteUsedFontsDefinitions env s).2).mObjectsContext.written
        ++ [.StartNewIndirectObject
              (WriteUsedFontsDefinitions env s).2.mObjectsContext.objectsCount,
            .StartDictionary, .WriteKey scType, .WriteNameValue scCatalog,
            .WriteKey scPages, .WriteObjectReferenceValue ⟨tree.GetID, 0⟩]
        ++ restOfNewPDF := by
  obtain ⟨tree, htree⟩ := DocumentHasNewPages_tree s hpages
  have htree1 : (WriteUsedFontsDefinitions env s).2.mCatalogInformation.mPageTree
      = some tree := htree
  have hwp := WritePagesTree_some _ tree htree1
  have htree2 : (WritePagesTree (WriteUsedFontsDefinitions env s).2).mCatalogInformation.mPageTree
      = some tree := by rw [hwp]; exact htree
  have hg := GetPageTreeRoot_some _ tree htree2
  have hcount : (WritePagesTree (WriteUsedFontsDefinitions env s).2).mObjectsContext.objectsCount
      = (WriteUsedFontsDefinitions env s).2.mObjectsContext.objectsCount := by rw [hwp]
  have hfin := FinalizeModifiedPDF_newTree env parser version s original hfonts horig hzero
    hpages
  rw [hg] at hfin
  obtain ⟨B, F, hw, -, hF, -, -, -, hD, -⟩ := finalizeFromCatalog_spec env parser version
    true ⟨tree.GetID, 0⟩ (WritePagesTree (WriteUsedFontsDefinitions env s).2)
  obtain ⟨C, hB, hC, -⟩ := hD (by simp)
  obtain ⟨-, -, f3⟩ := any_false_of_inFinish hF
  obtain ⟨f1, -, -⟩ := any_false_of_inFinish hF
  obtain ⟨c1, c2⟩ := isExternal_any hC
  obtain ⟨N, hN⟩ := FinalizeNewPDF_extends env s hfonts
  have hcat : WriteCatalogObjectOfNewPDF (WritePagesTree (WriteUsedFontsDefinitions env s).2)
      = WriteCatalogObject ⟨tree.GetID, 0⟩
          (WritePagesTree (WriteUsedFontsDefinitions env s).2) := by
    unfold WriteCatalogObjectOfNewPDF
    rw [hg]
  rw [hcat, WriteCatalogObject_eq] at hN
  refine ⟨tree,
    (finalizeFromCatalog env parser version true ⟨tree.GetID, 0⟩
      (WritePagesTree (WriteUsedFontsDefinitions env s).2)).1,
    (finalizeFromCatalog env parser version true ⟨tree.GetID, 0⟩
      (WritePagesTree (WriteUsedFontsDefinitions env s).2)).2,
    C ++ [Token.EndDictionary, Token.EndIndirectObject] ++ F,
    (catalogCallbacks (WritePagesTree (WriteUsedFontsDefinitions env s).2).mExtenders
      (WritePagesTree (WriteUsedFontsDefinitions env s).2).mCatalogInformation
      { written := (WritePagesTree (WriteUsedFontsDefinitions env s).2).mObjectsContext.written
          ++ catalogStart
              (WritePagesTree (WriteUsedFontsDefinitions env s).2).mObjectsContext.objectsCount
              ⟨tree.GetID, 0⟩,
        objectsCount :=
          (WritePagesTree (WriteUsedFontsDefinitions env s).2).mObjectsContext.objectsCount
            + 1 }).2.1 ++ [Token.EndDictionary, Token.EndIndirectObject] ++ N,
    htree, hfin, ?_, ?_, ?_, ?_, ?_⟩
  · rw [hwp, PageTree.postOrder_eq]
    simp only [List.append_assoc]
  · rw [hw, hB, hcount]
    simp only [catalogStart, List.append_assoc]
  · simp only [List.any_append, c1, f3]; rfl
  · simp only [List.any_append, c2, f1]; rfl
  · rw [hN, hcount]
    simp only [catalogStart, List.append_assoc]

/-- C4 (amended) at the modification of a source without page tree, with two pages added:
the page tree root (object 8, Count 2) is followed by the catalog (object 9). -/
theorem C4_pages_without_original_root_witness :
    ∃ tree status s' rest restOfNewPDF,
      modifiedDocumentWithPages.mCatalogInformation.mPageTree = some tree ∧
      FinalizeModifiedPDF quietEnv zeroPageSourceParser 13 modifiedDocumentWithPages
        = some (status, s') ∧
      (WritePagesTree (WriteUsedFontsDefinitions quietEnv
          modifiedDocumentWithPages).2).mObjectsContext =
        { written := (WriteUsedFontsDefinitions quietEnv
              modifiedDocumentWithPages).2.mObjectsContext.written
            ++ tree.descendantObjects ++ tree.frame (tree.leafCount : Int),
          objectsCount := (WriteUsedFontsDefinitions quietEnv
              modifiedDocumentWithPages).2.mObjectsContext.objectsCount } ∧
      s'.mObjectsContext.written =
        (WritePagesTree (WriteUsedFontsDefinitions quietEnv
          modifiedDocumentWithPages).2).mObjectsContext.written
        ++ [.StartNewIndirectObject
              (WriteUsedFontsDefinitions quietEnv
                modifiedDocumentWithPages).2.mObjectsContext.objectsCount,
            .StartDictionary, .WriteKey scType, .WriteNameValue scCatalog,
            .WriteKey scPages, .WriteObjectReferenceValue ⟨tree.GetID, 0⟩]
        ++ rest ∧
      rest.any Token.startsModifiedObject = false ∧
      rest.any (Token.isName scPages) = false ∧
      (FinalizeNewPDF quietEnv modifiedDocumentWithPages).2.mObjectsContext.written =
        (WritePagesTree (WriteUsedFontsDefinitions quietEnv
          modifiedDocumentWithPages).2).mObjectsContext.written
        ++ [.StartNewIndirectObject
              (WriteUsedFontsDefinitions quietEnv
                modifiedDocumentWithPages).2.mObjectsContext.objectsCount,
            .StartDictionary, .WriteKey scType, .WriteNameValue scCatalog,
            .WriteKey scPages, .WriteObjectReferenceValue ⟨tree.GetID, 0⟩]
        ++ restOfNewPDF :=
  C4_pages_without_original_root quietEnv zeroPageSourceParser 13 modifiedDocumentWithPages
    ⟨0, 0⟩ rfl rfl rfl rfl

/-- C4 as stated fails: the source has no page tree root and two pages were added, but the
used fonts cannot be written: `FinalizeModifiedPDF` fails and writes neither a page tree
nor a catalog. -/
theorem C4_counterexample :
    GetOriginalDocumentPageTreeRoot zeroPageSourceParser = some ⟨0, 0⟩ ∧
    DocumentHasNewPages modifiedDocumentWithPages = true ∧
    (modifiedDocumentWithPages.mCatalogInformation.mPageTree.map PageTree.leafCount) = some 2 ∧
    (FinalizeModifiedPDF failingFontsEnv zeroPageSourceParser 13 modifiedDocumentWithPages).map
        (fun r => (r.1, r.2.mObjectsContext.written))
      = some (.eFailure, [.External "WriteUsedFontsDefinitions" 0 .eFailure []]) ∧
    (writtenBy (FinalizeModifiedPDF failingFontsEnv zeroPageSourceParser 13
      modifiedDocumentWithPages)).any (Token.isName scPages) = false ∧
    (writtenBy (FinalizeModifiedPDF failingFontsEnv zeroPageSourceParser 13
      modifiedDocumentWithPages)).any (Token.isName scCatalog) = false :=
  ⟨rfl, rfl, rfl, rfl, rfl, rfl⟩

/-! ## Lemmas on the callback and task loops -/

theorem stateAfterCalls_nil (callee : String) (ctx : ObjectsContext) :
    stateAfterCalls callee [] ctx = ctx := by
  simp [stateAfterCalls, callEntries, callAllocations]

theorem stateAfterCalls_cons (callee : String) (c : Nat × (ObjectsContext → ExternalWrite))
    (rest : List (Nat × (ObjectsContext → ExternalWrite))) (ctx : ObjectsContext) :
    stateAfterCalls callee (c :: rest) ctx
      = stateAfterCalls callee rest (ctx.external callee c.1 (c.2 ctx)) := by
  simp [stateAfterCalls, callEntries, callAllocations, ObjectsContext.external, Nat.add_assoc]

theorem callsOf_callEntries (callee : String)
    (calls : List (Nat × (ObjectsContext → ExternalWrite))) (ctx : ObjectsContext) :
    callsOf callee (callEntries callee calls ctx) = calls.map Prod.fst := by
  induction calls generalizing ctx with
  | nil => rfl
  | cons c rest ih =>
    have h := ih (ctx.external callee c.1 (c.2 ctx))
    simp only [callsOf] at h
    simp [callsOf, callEntries, Token.callOf, h]

theorem callWhileSuccess_failure (callee : String)
    (calls : List (Nat × (ObjectsContext → ExternalWrite))) (ctx : ObjectsContext) :
    callWhileSuccess callee calls .eFailure ctx = (.eFailure, ctx) := by
  cases calls <;> simp [callWhileSuccess]

/-- When every call succeeds, the loop makes every call and ends with success. -/
theorem callWhileSuccess_all (callee : String)
    (calls : List (Nat × (ObjectsContext → ExternalWrite))) (ctx : ObjectsContext)
    (h : callsSucceed callee calls ctx = true) :
    callWhileSuccess callee calls .eSuccess ctx
      = (.eSuccess, stateAfterCalls callee calls ctx) := by
  induction calls generalizing ctx with
  | nil => simp [callWhileSuccess, stateAfterCalls_nil]
  | cons c rest ih =>
    simp only [callsSucceed, Bool.and_eq_true, decide_eq_true_eq] at h
    simp only [callWhileSuccess, if_true, h.1, stateAfterCalls_cons]
    exact ih _ h.2

/-- The loop stops at the first call that fails: the calls after it are not made. -/
theorem callWhileSuccess_firstFailure (callee : String)
    (pre post : List (Nat × (ObjectsContext → ExternalWrite)))
    (c : Nat × (ObjectsContext → ExternalWrite)) (ctx : ObjectsContext)
    (hpre : callsSucceed callee pre ctx = true)
    (hc : (c.2 (stateAfterCalls callee pre ctx)).status = .eFailure) :
    callWhileSuccess callee (pre ++ c :: post) .eSuccess ctx
      = (.eFailure, stateAfterCalls callee (pre ++ [c]) ctx) := by
  induction pre generalizing ctx with
  | nil =>
    simp only [stateAfterCalls_nil] at hc
    simp only [List.nil_append, callWhileSuccess, if_true, hc, callWhileSuccess_failure,
      stateAfterCalls_cons, stateAfterCalls_nil]
  | cons d rest ih =>
    simp only [callsSucceed, Bool.and_eq_true, decide_eq_true_eq] at hpre
    simp only [stateAfterCalls_cons] at hc
    simp only [List.cons_append, callWhileSuccess, if_true, hpre.1, stateAfterCalls_cons]
    exact ih _ hpre.2 hc

theorem onCatalogWriteLoop_callWhileSuccess (exts : List (Nat × IDocumentContextExtender))
    (info : CatalogInformation) (status : EStatusCode) (ctx : ObjectsContext) :
    onCatalogWriteLoop exts info status ctx
      = callWhileSuccess "OnCatalogWrite"
          (catalogCalls info exts) status ctx := by
  induction exts generalizing status ctx with
  | nil => rfl
  | cons x rest ih =>
    simp only [catalogCalls] at ih
    simp [onCatalogWriteLoop, callWhileSuccess, catalogCalls, ih]

/-- The catalog writer, with its extender loop as a loop of calls. -/
theorem WriteCatalogObject_calls (ref : ObjectReference) (s : DocumentContext) :
    WriteCatalogObject ref s =
      ((callWhileSuccess "OnCatalogWrite"
          (catalogCalls s.mCatalogInformation s.mExtenders) .eSuccess
          (catalogLoopStart ref s)).1,
        { s with
          mObjectsContext :=
            { written := (callWhileSuccess "OnCatalogWrite"
                  (catalogCalls s.mCatalogInformation s.mExtenders) .eSuccess
                  (catalogLoopStart ref s)).2.written
                ++ [.EndDictionary, .EndIndirectObject],
              objectsCount := (callWhileSuccess "OnCatalogWrite"
                  (catalogCalls s.mCatalogInformation s.mExtenders) .eSuccess
                  (catalogLoopStart ref s)).2.objectsCount },
          mTrailerInformation :=
            s.mTrailerInformation.SetRoot s.mObjectsContext.objectsCount }) := by
  unfold WriteCatalogObject
  simp only [DocumentContext.write, ObjectsContext.write,
    ObjectsContext.StartNewIndirectObject, ObjectsContext.AllocateNewObjectID,
    onCatalogWriteLoop_callWhileSuccess, catalogLoopStart]
  simp [catalogStart]

/-! ## C11: the extender loop of the catalog writer -/

/-- C11: in `WriteCatalogObject`, when every `OnCatalogWrite` callback succeeds, the log
records one call on every registered extender, in the order of the set, and the result is
success; when the extenders are `pre`, then `x`, then `post`, the callbacks of `pre` succeed
and the one of `x` fails, the log records the calls on `pre` and on `x` and no other, and the
result is that failure. In both cases the catalog dictionary and object are closed after
the calls. -/
theorem C11_catalog_callbacks (ref : ObjectReference) (s : DocumentContext) :
    (callsSucceed "OnCatalogWrite" (catalogCalls s.mCatalogInformation s.mExtenders)
        (catalogLoopStart ref s) = true →
      (WriteCatalogObject ref s).1 = .eSuccess ∧
      (WriteCatalogObject ref s).2.mObjectsContext.written
        = (catalogLoopStart ref s).written
          ++ callEntries "OnCatalogWrite" (catalogCalls s.mCatalogInformation s.mExtenders)
              (catalogLoopStart ref s)
          ++ [.EndDictionary, .EndIndirectObject] ∧
      callsOf "OnCatalogWrite"
          (callEntries "OnCatalogWrite" (catalogCalls s.mCatalogInformation s.mExtenders)
            (catalogLoopStart ref s))
        = s.mExtenders.map Prod.fst) ∧
    (∀ (pre post : List (Nat × IDocumentContextExtender)) (x : Nat × IDocumentContextExtender),
      s.mExtenders = pre ++ x :: post →
      callsSucceed "OnCatalogWrite" (catalogCalls s.mCatalogInformation pre)
        (catalogLoopStart ref s) = true →
      (x.2.OnCatalogWrite s.mCatalogInformation
        (stateAfterCalls "OnCatalogWrite" (catalogCalls s.mCatalogInformation pre)
          (catalogLoopStart ref s))).status = .eFailure →
      (WriteCatalogObject ref s).1
        = (x.2.OnCatalogWrite s.mCatalogInformation
            (stateAfterCalls "OnCatalogWrite" (catalogCalls s.mCatalogInformation pre)
              (catalogLoopStart ref s))).status ∧
      (WriteCatalogObject ref s).1 = .eFailure ∧
      (WriteCatalogObject ref s).2.mObjectsContext.written
        = (catalogLoopStart ref s).written
          ++ callEntries "OnCatalogWrite" (catalogCalls s.mCatalogInformation (pre ++ [x]))
              (catalogLoopStart ref s)
          ++ [.EndDictionary, .EndIndirectObject] ∧
      callsOf "OnCatalogWrite"
          (callEntries "OnCatalogWrite" (catalogCalls s.mCatalogInformation (pre ++ [x]))
            (catalogLoopStart ref s))
        = (pre ++ [x]).map Prod.fst) := by
  constructor
  · intro h
    rw [WriteCatalogObject_calls, callWhileSuccess_all _ _ _ h]
    refine ⟨rfl, ?_, ?_⟩
    · simp [stateAfterCalls]
    · rw [callsOf_callEntries]
      simp [catalogCalls]
  · intro pre post x hx hpre hfail
    have hloop := callWhileSuccess_firstFailure "OnCatalogWrite"
      (catalogCalls s.mCatalogInformation pre) (catalogCalls s.mCatalogInformation post)
      (x.1, x.2.OnCatalogWrite s.mCatalogInformation) (catalogLoopStart ref s) hpre hfail
    have hcalls : catalogCalls s.mCatalogInformation s.mExtenders
        = catalogCalls s.mCatalogInformation pre
          ++ (x.1, x.2.OnCatalogWrite s.mCatalogInformation)
            :: catalogCalls s.mCatalogInformation post := by
      rw [hx]
      simp [catalogCalls]
    have hlast : catalogCalls s.mCatalogInformation (pre ++ [x])
        = catalogCalls s.mCatalogInformation pre
          ++ [(x.1, x.2.OnCatalogWrite s.mCatalogInformation)] := by
      simp [catalogCalls]
    rw [WriteCatalogObject_calls, hcalls, hloop, hfail, hlast]
    refine ⟨rfl, rfl, ?_, ?_⟩
    · simp [stateAfterCalls]
    · rw [callsOf_callEntries]
      simp [catalogCalls]

/-- C11 at a document with three extenders of which the second fails: the calls are on the
first and the second (addresses 10 and 20), the result is failure; and at a document with
two extenders that succeed: both are called, the result is success. -/
theorem C11_catalog_callbacks_witness :
    ((WriteCatalogObject ⟨2, 0⟩ threeExtenderDocument).1 = .eFailure ∧
      (WriteCatalogObject ⟨2, 0⟩ threeExtenderDocument).2.mObjectsContext.written
        = catalogStart 1 ⟨2, 0⟩
          ++ [.External "OnCatalogWrite" 10 .eSuccess [.WriteKey "A", .WriteIntegerValue 1],
              .External "OnCatalogWrite" 20 .eFailure [],
              .EndDictionary, .EndIndirectObject]) ∧
    ((WriteCatalogObject ⟨2, 0⟩ twoExtenderDocument).1 = .eSuccess ∧
      callsOf "OnCatalogWrite"
          (callEntries "OnCatalogWrite"
            (catalogCalls twoExtenderDocument.mCatalogInformation
              twoExtenderDocument.mExtenders) (catalogLoopStart ⟨2, 0⟩ twoExtenderDocument))
        = [10, 30]) := by
  have h3 := (C11_catalog_callbacks ⟨2, 0⟩ threeExtenderDocument).2
    [(10, keyExtender "A")] [(30, keyExtender "B")] (20, failingExtender) rfl rfl rfl
  have h2 := (C11_catalog_callbacks ⟨2, 0⟩ twoExtenderDocument).1 rfl
  exact ⟨⟨h3.2.1, h3.2.2.1⟩, ⟨h2.1, h2.2.2⟩⟩

/-! ## C12: the order of the extender callbacks -/

theorem mem_insertExtender (a : Nat) (e : IDocumentContextExtender)
    (l : List (Nat × IDocumentContextExtender)) (b : Nat) :
    b ∈ (insertExtender a e l).map Prod.fst ↔ b = a ∨ b ∈ l.map Prod.fst := by
  induction l with
  | nil => simp [insertExtender]
  | cons x rest ih =>
    unfold insertExtender
    split_ifs with h1 h2
    · simp
    · simp only [List.map_cons, List.mem_cons]
      constructor
      · intro h; exact Or.inr h
      · rintro (h | h)
        · exact Or.inl (h.trans h2)
        · exact h
    · simp only [List.map_cons, List.mem_cons, ih]
      tauto

theorem sorted_insertExtender (a : Nat) (e : IDocumentContextExtender)
    (l : List (Nat × IDocumentContextExtender))
    (h : (l.map Prod.fst).Sorted (· < ·)) :
    ((insertExtender a e l).map Prod.fst).Sorted (· < ·) := by
  induction l with
  | nil => simp [insertExtender]
  | cons x rest ih =>
    simp only [List.map_cons, List.sorted_cons] at h
    unfold insertExtender
    split_ifs with h1 h2
    · simp only [List.map_cons, List.sorted_cons, List.mem_cons]
      refine ⟨?_, h.1, h.2⟩
      rintro b (hb | hb)
      · exact hb ▸ h1
      · exact lt_trans h1 (h.1 b hb)
    · simp only [List.map_cons, List.sorted_cons]
      exact h
    · simp only [List.map_cons, List.sorted_cons]
      refine ⟨?_, ih h.2⟩
      intro b hb
      rcases (mem_insertExtender a e rest b).1 hb with hb | hb
      · subst hb
        omega
      · exact h.1 b hb

theorem perm_insertExtender (a : Nat) (e : IDocumentContextExtender)
    (l : List (Nat × IDocumentContextExtender)) (h : a ∉ l.map Prod.fst) :
    ((insertExtender a e l).map Prod.fst).Perm (a :: l.map Prod.fst) := by
  induction l with
  | nil => simp [insertExtender]
  | cons x rest ih =>
    simp only [List.map_cons, List.mem_cons, not_or] at h
    unfold insertExtender
    split_ifs with h1 h2
    · simp
    · exact absurd h2 h.1
    · simp only [List.map_cons]
      exact ((ih h.2).cons x.1).trans (List.Perm.swap a x.1 _)

theorem registerExtenders_mExtenders (regs : List (Nat × IDocumentContextExtender))
    (s : DocumentContext) :
    (registerExtenders regs s).mExtenders
      = regs.foldl (fun l r => insertExtender r.1 r.2 l) s.mExtenders := by
  induction regs generalizing s with
  | nil => rfl
  | cons r rest ih =>
    simp only [registerExtenders, List.foldl_cons] at ih ⊢
    rw [ih]
    rfl

/-- The extender set after a sequence of registrations at distinct new addresses: sorted by
address, and holding the addresses it had and the registered ones. -/
theorem sorted_perm_foldl_insertExtender (regs : List (Nat × IDocumentContextExtender))
    (l : List (Nat × IDocumentContextExtender))
    (hs : (l.map Prod.fst).Sorted (· < ·))
    (hd : (l.map Prod.fst ++ regs.map Prod.fst).Nodup) :
    ((regs.foldl (fun l r => insertExtender r.1 r.2 l) l).map Prod.fst).Sorted (· < ·) ∧
    ((regs.foldl (fun l r => insertExtender r.1 r.2 l) l).map Prod.fst).Perm
      (l.map Prod.fst ++ regs.map Prod.fst) := by
  induction regs generalizing l with
  | nil => simpa using hs
  | cons r rest ih =>
    have hr : r.1 ∉ l.map Prod.fst := by
      intro hmem
      have := List.nodup_append.1 hd
      exact (List.disjoint_left.1 this.2.2 hmem) (by simp)
    have hperm := perm_insertExtender r.1 r.2 l hr
    have hd2 : ((insertExtender r.1 r.2 l).map Prod.fst ++ rest.map Prod.fst).Nodup := by
      refine (List.Perm.nodup_iff ?_).2 hd
      refine (List.Perm.append_right _ hperm).trans ?_
      simp only [List.map_cons]
      exact List.perm_middle.symm
    have h := ih (insertExtender r.1 r.2 l) (sorted_insertExtender r.1 r.2 l hs) hd2
    simp only [List.foldl_cons]
    refine ⟨h.1, h.2.trans ?_⟩
    refine (List.Perm.append_right _ hperm).trans ?_
    simp only [List.map_cons]
    exact List.perm_middle.symm

/-- The calls of the loop are made in the order of the list, up to some call. -/
theorem callWhileSuccess_prefix (callee : String)
    (calls : List (Nat × (ObjectsContext → ExternalWrite))) (ctx : ObjectsContext) :
    ∃ n, (callWhileSuccess callee calls .eSuccess ctx).2
      = stateAfterCalls callee (calls.take n) ctx := by
  induction calls generalizing ctx with
  | nil => exact ⟨0, by simp [callWhileSuccess, stateAfterCalls_nil]⟩
  | cons c rest ih =>
    cases hc : (c.2 ctx).status with
    | eSuccess =>
      obtain ⟨n, hn⟩ := ih (ctx.external callee c.1 (c.2 ctx))
      refine ⟨n + 1, ?_⟩
      simp only [callWhileSuccess, if_true, hc, List.take_succ_cons, stateAfterCalls_cons]
      exact hn
    | eFailure =>
      refine ⟨1, ?_⟩
      simp [callWhileSuccess, hc, callWhileSuccess_failure, stateAfterCalls_cons,
        stateAfterCalls_nil]

theorem callsOf_append (callee : String) (a b : List Token) :
    callsOf callee (a ++ b) = callsOf callee a ++ callsOf callee b := by
  simp [callsOf]

theorem catalogWriteOrder_prefix (ref : ObjectReference) (s : DocumentContext) :
    ∃ n, catalogWriteOrder ref s = (s.mExtenders.map Prod.fst).take n ∧
      (callsSucceed "OnCatalogWrite" (catalogCalls s.mCatalogInformation s.mExtenders)
        (catalogLoopStart ref s) = true →
        catalogWriteOrder ref s = s.mExtenders.map Prod.fst) := by
  have hmap : ∀ l : List (Nat × IDocumentContextExtender),
      (catalogCalls s.mCatalogInformation l).map Prod.fst = l.map Prod.fst := by
    intro l
    simp [catalogCalls]
  have hshape : ∀ calls : List (Nat × (ObjectsContext → ExternalWrite)),
      callsOf "OnCatalogWrite"
        (List.drop s.mObjectsContext.written.length
          ((stateAfterCalls "OnCatalogWrite" calls (catalogLoopStart ref s)).written
            ++ [Token.EndDictionary, Token.EndIndirectObject]))
      = calls.map Prod.fst := by
    intro calls
    have hdrop : List.drop s.mObjectsContext.written.length
        ((stateAfterCalls "OnCatalogWrite" calls (catalogLoopStart ref s)).written
          ++ [Token.EndDictionary, Token.EndIndirectObject])
        = catalogStart s.mObjectsContext.objectsCount ref
          ++ callEntries "OnCatalogWrite" calls (catalogLoopStart ref s)
          ++ [Token.EndDictionary, Token.EndIndirectObject] := by
      simp [stateAfterCalls, catalogLoopStart, List.append_assoc]
    rw [hdrop, callsOf_append, callsOf_append, callsOf_callEntries]
    simp [callsOf, catalogStart, Token.callOf]
  obtain ⟨n, hn⟩ := callWhileSuccess_prefix "OnCatalogWrite"
    (catalogCalls s.mCatalogInformation s.mExtenders) (catalogLoopStart ref s)
  refine ⟨n, ?_, ?_⟩
  · unfold catalogWriteOrder writtenSince
    rw [WriteCatalogObject_calls]
    simp only [hn]
    rw [hshape, List.map_take, hmap]
  · intro h
    unfold catalogWriteOrder writtenSince
    rw [WriteCatalogObject_calls, callWhileSuccess_all _ _ _ h]
    simp only []
    rw [hshape, hmap]

/-- C12 (amended): after a sequence of `AddDocumentContextExtender` calls with extenders at
distinct addresses on a document without extenders, the extender set is in increasing order
of address and holds the extenders registered; `WriteCatalogObject` calls them back in that
order, up to the first callback that fails, and every one of them when none fails. The
order is the order of registration exactly when the extenders were registered in increasing
order of address. -/
theorem C12_callbacks_in_address_order (ref : ObjectReference) (s : DocumentContext)
    (regs : List (Nat × IDocumentContextExtender))
    (hs : s.mExtenders = []) (hd : (regs.map Prod.fst).Nodup) :
    ((registerExtenders regs s).mExtenders.map Prod.fst).Sorted (· < ·) ∧
    ((registerExtenders regs s).mExtenders.map Prod.fst).Perm (regs.map Prod.fst) ∧
    (∃ n, catalogWriteOrder ref (registerExtenders regs s)
      = ((registerExtenders regs s).mExtenders.map Prod.fst).take n) ∧
    (callsSucceed "OnCatalogWrite"
        (catalogCalls (registerExtenders regs s).mCatalogInformation
          (registerExtenders regs s).mExtenders)
        (catalogLoopStart ref (registerExtenders regs s)) = true →
      catalogWriteOrder ref (registerExtenders regs s)
        = (registerExtenders regs s).mExtenders.map Prod.fst) ∧
    ((registerExtenders regs s).mExtenders.map Prod.fst = regs.map Prod.fst
      ↔ (regs.map Prod.fst).Sorted (· < ·)) := by
  have h := sorted_perm_foldl_insertExtender regs s.mExtenders (by simp [hs])
    (by simpa [hs] using hd)
  rw [← registerExtenders_mExtenders] at h
  simp only [hs, List.map_nil, List.nil_append] at h
  obtain ⟨n, hn, hall⟩ := catalogWriteOrder_prefix ref (registerExtenders regs s)
  refine ⟨h.1, h.2, ⟨n, hn⟩, hall, ?_⟩
  constructor
  · intro heq
    rw [← heq]
    exact h.1
  · intro hsorted
    exact List.eq_of_perm_of_sorted h.2 h.1 hsorted

/-- C12 at two extenders registered at the addresses 20 and then 10: the callbacks run on
10 and then on 20. -/
theorem C12_callbacks_in_address_order_witness :
    catalogWriteOrder ⟨2, 0⟩
      (registerExtenders [(20, keyExtender "A"), (10, keyExtender "B")] freshDocument)
      = [10, 20] :=
  (C12_callbacks_in_address_order ⟨2, 0⟩ freshDocument
    [(20, keyExtender "A"), (10, keyExtender "B")] rfl (by decide)).2.2.2.1 rfl

/-- C12 fails as stated: the extender at address 20 is registered first, the one at address
10 second; the callback of the second runs first. -/
theorem C12_counterexample :
    catalogWriteOrder ⟨2, 0⟩
      (AddDocumentContextExtender 10 (keyExtender "B")
        (AddDocumentContextExtender 20 (keyExtender "A") freshDocument)) = [10, 20] ∧
    catalogWriteOrder ⟨2, 0⟩
      (AddDocumentContextExtender 10 (keyExtender "B")
        (AddDocumentContextExtender 20 (keyExtender "A") freshDocument)) ≠ [20, 10] := by
  have h : catalogWriteOrder ⟨2, 0⟩
      (AddDocumentContextExtender 10 (keyExtender "B")
        (AddDocumentContextExtender 20 (keyExtender "A") freshDocument)) = [10, 20] := rfl
  refine ⟨h, ?_⟩
  rw [h]
  decide

/-! ## C13: one object per node, children first -/

theorem framesOf_append (a b : List PageTree) :
    framesOf (a ++ b) = framesOf a ++ framesOf b := by
  induction a with
  | nil => rfl
  | cons n ns ih => simp [framesOf, ih]

mutual
theorem PageTree.postOrder_nodes : ∀ (t : PageTree), t.postOrder = framesOf t.nodes
  | .leafParent id parent pages => by
    simp [PageTree.postOrder, PageTree.nodes, framesOf, PageTree.leafCount]
  | .node id parent kids => by
    simp [PageTree.postOrder, PageTree.nodes, framesOf, framesOf_append,
      PageTree.leafCount, PageTree.postOrderKids_nodes kids]

theorem PageTree.postOrderKids_nodes : ∀ (ks : List PageTree),
    PageTree.postOrderKids ks = framesOf (PageTree.nodesKids ks)
  | [] => rfl
  | k :: ks => by
    simp [PageTree.postOrderKids, PageTree.nodesKids, framesOf_append,
      PageTree.postOrder_nodes k, PageTree.postOrderKids_nodes ks]
end

theorem framedIDs_append (a b : List Token) :
    framedIDs (a ++ b) = framedIDs a ++ framedIDs b := by
  simp [framedIDs]

theorem framedIDs_map_write (ids : List Nat) :
    framedIDs (ids.map (fun p => Token.WriteNewIndirectObjectReference p)) = [] := by
  induction ids with
  | nil => rfl
  | cons p ps ih =>
    simp only [framedIDs] at ih
    simp [framedIDs, Token.framedID, ih]

theorem framedIDs_frame (n : PageTree) (count : Int) :
    framedIDs (n.frame count) = [n.GetID] := by
  have hk : framedIDs n.kidsEntries = [] := by
    cases n with
    | leafParent id parent pages => exact framedIDs_map_write pages
    | node id parent kids =>
      have := framedIDs_map_write (kids.map PageTree.GetID)
      simpa [PageTree.kidsEntries, List.map_map, Function.comp] using this
  have hp : framedIDs (parentEntry n.GetParent) = [] := by
    cases n.GetParent <;> rfl
  simp only [PageTree.frame, framedIDs_append, hk, hp]
  rfl

theorem framedIDs_framesOf (ns : List PageTree) :
    framedIDs (framesOf ns) = ns.map PageTree.GetID := by
  induction ns with
  | nil => rfl
  | cons n rest ih => simp [framesOf, framedIDs_append, framedIDs_frame, ih]

mutual
theorem PageTree.postOrder_of_mem_nodes : ∀ (t n : PageTree), n ∈ t.nodes →
    ∃ X Y, t.postOrder = X ++ n.postOrder ++ Y
  | .leafParent id parent pages, n, h => by
    simp only [PageTree.nodes, List.mem_singleton] at h
    subst h
    exact ⟨[], [], by simp⟩
  | .node id parent kids, n, h => by
    simp only [PageTree.nodes, List.mem_append, List.mem_singleton] at h
    rcases h with h | h
    · obtain ⟨X, Y, e⟩ := PageTree.postOrderKids_of_mem_nodes kids n h
      exact ⟨X, Y ++ (PageTree.node id parent kids).frame (PageTree.leafCountKids kids : Int),
        by simp [PageTree.postOrder, e]⟩
    · subst h
      exact ⟨[], [], by simp⟩

theorem PageTree.postOrderKids_of_mem_nodes : ∀ (ks : List PageTree) (n : PageTree),
    n ∈ PageTree.nodesKids ks → ∃ X Y, PageTree.postOrderKids ks = X ++ n.postOrder ++ Y
  | [], n, h => by simp [PageTree.nodesKids] at h
  | k :: ks, n, h => by
    simp only [PageTree.nodesKids, List.mem_append] at h
    rcases h with h | h
    · obtain ⟨X, Y, e⟩ := PageTree.postOrder_of_mem_nodes k n h
      exact ⟨X, Y ++ PageTree.postOrderKids ks, by simp [PageTree.postOrderKids, e]⟩
    · obtain ⟨X, Y, e⟩ := PageTree.postOrderKids_of_mem_nodes ks n h
      exact ⟨PageTree.postOrder k ++ X, Y, by simp [PageTree.postOrderKids, e]⟩
end

theorem PageTree.postOrderKids_of_mem (ks : List PageTree) (c : PageTree) (h : c ∈ ks) :
    ∃ X Y, PageTree.postOrderKids ks = X ++ c.postOrder ++ Y := by
  induction ks with
  | nil => simp at h
  | cons k rest ih =>
    rcases List.mem_cons.1 h with h | h
    · subst h
      exact ⟨[], PageTree.postOrderKids rest, by simp [PageTree.postOrderKids]⟩
    · obtain ⟨X, Y, e⟩ := ih h
      exact ⟨PageTree.postOrder k ++ X, Y, by simp [PageTree.postOrderKids, e]⟩

/-- The object of a child comes before the object of its parent. -/
theorem PageTree.child_before_parent (n c : PageTree) (h : c ∈ n.children) :
    ∃ A B, n.postOrder
      = A ++ c.frame (c.leafCount : Int) ++ B ++ n.frame (n.leafCount : Int) := by
  cases n with
  | leafParent id parent pages => simp [PageTree.children] at h
  | node id parent kids =>
    simp only [PageTree.children] at h
    obtain ⟨X, Y, e⟩ := PageTree.postOrderKids_of_mem kids c h
    refine ⟨X ++ c.descendantObjects, Y, ?_⟩
    simp [PageTree.postOrder, e, PageTree.postOrder_eq c, PageTree.leafCount]

/-- C13: on every page tree, `WritePageTree` returns (the function is total) and what it
appends to the log is one object per node of the tree, each framed under the ID of its node
with the number of leaves beneath it as Count, every node after the nodes beneath it: the
IDs framed are the IDs of the nodes in that order, the object of every child of every node
comes before the object of that node, and no ID is allocated. -/
theorem C13_one_object_per_node (t : PageTree) (ctx : ObjectsContext) :
    (WritePageTree t ctx).2.written = ctx.written ++ framesOf t.nodes ∧
    framedIDs (framesOf t.nodes) = t.nodes.map PageTree.GetID ∧
    (framedIDs (framesOf t.nodes)).length = t.nodes.length ∧
    (∀ n ∈ t.nodes, ∀ c ∈ n.children, ∃ A B C,
      (WritePageTree t ctx).2.written
        = ctx.written ++ A ++ c.frame (c.leafCount : Int) ++ B
          ++ n.frame (n.leafCount : Int) ++ C) ∧
    (WritePageTree t ctx).2.objectsCount = ctx.objectsCount := by
  rw [WritePageTree_eq]
  refine ⟨by rw [PageTree.postOrder_nodes], framedIDs_framesOf _, ?_, ?_, rfl⟩
  · rw [framedIDs_framesOf, List.length_map]
  · intro n hn c hc
    obtain ⟨X, Y, e⟩ := PageTree.postOrder_of_mem_nodes t n hn
    obtain ⟨A, B, e2⟩ := PageTree.child_before_parent n c hc
    refine ⟨X ++ A, B, Y, ?_⟩
    simp [e, e2, List.append_assoc]

/-- C13 at a tree of depth two whose root is object 1 and whose children are the objects 2
and 5: the objects are framed under 2, 5 and 1, in this order, and the object of the child
2 comes before the object of the root. -/
theorem C13_one_object_per_node_witness :
    framedIDs (framesOf sampleTree.nodes) = [2, 5, 1] ∧
    (∃ A B C, (WritePageTree sampleTree { written := [], objectsCount := 10 }).2.written
      = [] ++ A ++ (PageTree.leafParent 2 (some 1) [3, 4]).frame 2 ++ B
        ++ sampleTree.frame 3 ++ C) :=
  ⟨(C13_one_object_per_node sampleTree { written := [], objectsCount := 10 }).2.1,
   (C13_one_object_per_node sampleTree { written := [], objectsCount := 10 }).2.2.2.1
      sampleTree (by simp [sampleTree, PageTree.nodes])
      (.leafParent 2 (some 1) [3, 4]) (by simp [sampleTree, PageTree.children])⟩

/-! ## C14: the parents in a splice -/

theorem copiedEntries_flatten (d : PDFDictionary) :
    copiedEntries d
      = ((d.filter (fun e => decide (e.1 ≠ "Parent"))).map copiedEntry).flatten := by
  induction d with
  | nil => rfl
  | cons e es ih =>
    by_cases h : e.1 = "Parent" <;> simp [copiedEntries, copiedEntry, h, ih]

theorem copiedEntries_noParent (d : PDFDictionary) :
    (copiedEntries d).any (Token.isKey scParent) = false := by
  induction d with
  | nil => rfl
  | cons e es ih =>
    by_cases h : e.1 = "Parent"
    · simp only [copiedEntries, h, ne_eq, not_true_eq_false, if_false]
      exact ih
    · simp only [copiedEntries, h, ne_eq, not_false_eq_true, if_true, List.any_append, ih,
        Bool.or_false]
      simp [Token.isKey, scParent, h]

theorem PageTree.postOrder_SetParent (tree : PageTree) (newRootID : Nat) :
    (tree.SetParent (some newRootID)).postOrder
      = tree.descendantObjects ++ newPagesRootObject tree newRootID := by
  cases tree <;>
    simp [PageTree.SetParent, PageTree.postOrder, PageTree.descendantObjects,
      PageTree.frame, newPagesRootObject, PageTree.kidsEntries, PageTree.GetID,
      PageTree.GetParent, parentEntry, PageTree.leafCount]

/-- C14: in a successful splice (pages were added, the source root is a dictionary, the copy
starts), the output is the objects beneath the root of the new pages, then the object of
that root with Parent = the newly allocated root ID, then the original root rewritten under
its own object ID: every entry of the source dictionary whose key is not Parent, in
iteration order, followed by one Parent key whose value is the newly allocated root ID, the
only Parent key of that object; the new root, with these two as Kids, comes last. -/
theorem C14_splice_parents (env : Collaborators) (parser : PDFParser)
    (s : DocumentContext) (tree : PageTree) (original : ObjectReference)
    (entries : PDFDictionary)
    (htree : s.mCatalogInformation.mPageTree = some tree)
    (hroot : GetOriginalDocumentPageTreeRoot parser = some original)
    (hobj : parser.ParseNewObject original.ObjectID = some (.dictionary entries))
    (hcopy : env.CopyingContextStart parser = .eSuccess) :
    ∃ s' count, WriteCombinedPageTree env parser s
        = some (s.mObjectsContext.objectsCount, s') ∧
      s'.mObjectsContext.written = s.mObjectsContext.written
        ++ tree.descendantObjects
        ++ newPagesRootObject tree s.mObjectsContext.objectsCount
        ++ ([.StartModifiedIndirectObject original.ObjectID, .StartDictionary]
            ++ ((entries.filter (fun e => decide (e.1 ≠ "Parent"))).map copiedEntry).flatten
            ++ [.WriteKey scParent,
                .WriteNewObjectReferenceValue s.mObjectsContext.objectsCount,
                .EndDictionary, .EndIndirectObject])
        ++ spliceRoot s.mObjectsContext.objectsCount count original tree.GetID ∧
      (((entries.filter (fun e => decide (e.1 ≠ "Parent"))).map copiedEntry).flatten).any
        (Token.isKey scParent) = false ∧
      ((rewrittenOriginalRoot original entries s.mObjectsContext.objectsCount).filter
        (Token.isKey scParent)).length = 1 := by
  refine ⟨_, toLongLong ((match PDFDictionary.QueryDirectObject entries scCount with
      | some (.integer value) => value
      | _ => 0) + (tree.leafCount : Int)),
    WriteCombinedPageTree_eq env parser s tree original entries htree hroot hobj hcopy,
    ?_, ?_, ?_⟩
  · simp only [PageTree.postOrder_SetParent, rewrittenOriginalRoot, copiedEntries_flatten,
      List.append_assoc]
  · rw [← copiedEntries_flatten]
    exact copiedEntries_noParent entries
  · have h := copiedEntries_noParent entries
    have hf : (copiedEntries entries).filter (Token.isKey scParent) = [] := by
      rw [List.filter_eq_nil_iff]
      intro t ht
      have := List.any_eq_false.1 h t ht
      simpa using this
    simp only [rewrittenOriginalRoot, List.filter_append, hf]
    rfl

/-- C14 at a source whose page tree root (object 2) has a Parent entry of its own, with two
added pages: the root of the new pages (object 8) and the rewritten object 2 both have
Parent 9, the new root; the Parent entry of the source is left out. -/
theorem C14_splice_parents_witness :
    ∃ s' count, WriteCombinedPageTree quietEnv parentedSourceParser modifiedDocumentWithPages
        = some (9, s') ∧
      s'.mObjectsContext.written =
        [.StartNewIndirectObject 8, .StartDictionary,
         .WriteKey "Type", .WriteNameValue "Pages",
         .WriteKey "Count", .WriteIntegerValue 2,
         .WriteKey "Kids", .StartArray,
         .WriteNewIndirectObjectReference 6, .WriteNewIndirectObjectReference 7,
         .EndArray, .EndLine,
         .WriteKey "Parent", .WriteNewObjectReferenceValue 9,
         .EndDictionary, .EndIndirectObject,
         .StartModifiedIndirectObject 2, .StartDictionary,
         .WriteKey "Type", .CopyDirectObjectAsIs (.name "Pages"),
         .WriteKey "Count", .CopyDirectObjectAsIs (.integer 3),
         .WriteKey "Parent", .WriteNewObjectReferenceValue 9,
         .EndDictionary, .EndIndirectObject]
        ++ spliceRoot 9 count ⟨2, 0⟩ 8 := by
  obtain ⟨s', count, h1, h2, -, -⟩ := C14_splice_parents quietEnv parentedSourceParser
    modifiedDocumentWithPages (.leafParent 8 none [6, 7]) ⟨2, 0⟩
    [("Type", .name "Pages"), ("Parent", .indirectObjectReference 7 0),
     ("Count", .integer 3)] rfl rfl rfl rfl
  exact ⟨s', count, h1, h2⟩

/-! ## C15: a source that cannot be copied -/

theorem WriteCombinedPageTree_protected (env : Collaborators) (parser : PDFParser)
    (s : DocumentContext) (tree : PageTree) (original : ObjectReference)
    (entries : PDFDictionary)
    (htree : s.mCatalogInformation.mPageTree = some tree)
    (hroot : GetOriginalDocumentPageTreeRoot parser = some original)
    (hobj : parser.ParseNewObject original.ObjectID = some (.dictionary entries))
    (hcopy : env.CopyingContextStart parser = .eFailure) :
    WriteCombinedPageTree env parser s = some (0,
      { s with
        mObjectsContext :=
          { written := s.mObjectsContext.written
              ++ (tree.SetParent (some s.mObjectsContext.objectsCount)).postOrder
              ++ [.StartModifiedIndirectObject original.ObjectID, .StartDictionary],
            objectsCount := s.mObjectsContext.objectsCount + 1 },
        mCatalogInformation := { s.mCatalogInformation with
          mPageTree := some (tree.SetParent none) } }) := by
  unfold WriteCombinedPageTree
  simp only [GetPageTreeRoot, ObjectsContext.AllocateNewObjectID, htree, hroot, hobj, hcopy,
    WritePageTree_eq, PageTree.leafCount_SetParent, DocumentContext.write_eq]
  simp [DocumentContext.writeAll]

theorem inPagesObject_marks (t : Token) (h : t.inPagesObject = true) :
    t.isName scCatalog = false ∧ t.isXrefTable = false ∧ t.isXrefStream = false ∧
    t.isKeyword scTrailer = false ∧ t.isKeyword scStartXref = false ∧
    t.isEndOfFile = false ∧ t.startsModifiedObject = false := by
  cases t <;> simp_all [Token.inPagesObject, Token.isName, Token.isXrefTable,
    Token.isXrefStream, Token.isKeyword, Token.isEndOfFile, Token.startsModifiedObject]
  subst h
  decide

theorem frame_inPagesObject (t : PageTree) (c : Int) :
    (t.frame c).all Token.inPagesObject = true := by
  cases hp : t.GetParent <;> cases t <;>
    simp [PageTree.frame, PageTree.kidsEntries, parentEntry, hp, Token.inPagesObject]

theorem framesOf_inPagesObject (ns : List PageTree) :
    (framesOf ns).all Token.inPagesObject = true := by
  induction ns with
  | nil => rfl
  | cons n rest ih => rw [framesOf, List.all_append, frame_inPagesObject, ih]; rfl

/-- The marks of the later steps of a finalisation are absent from page tree objects
followed by the opening of a rewritten object. -/
theorem aborted_splice_marks (ns : List PageTree) (id : Nat) (p : Token → Bool)
    (hp : ∀ t, t.inPagesObject = true → p t = false)
    (h1 : p (.StartModifiedIndirectObject id) = false) :
    (framesOf ns ++ [Token.StartModifiedIndirectObject id, Token.StartDictionary]).any p
      = false := by
  rw [List.any_append, any_false_of_all (framesOf_inPagesObject ns) hp]
  simp [h1, hp Token.StartDictionary rfl]

/-- C15: when pages were added to a source whose page tree root is a dictionary and the
copying context cannot be started, `WriteCombinedPageTree` returns 0: it has written the
objects of the new pages tree and opened the rewritten original root, and has not framed
the new root. `FinalizeModifiedPDF` (the used fonts being written) then returns failure
with that output: the only objects framed are the nodes of the new pages tree, there is
no catalog, no cross-reference table or stream, no trailer, no startxref and no end-of-file
marker, and the trailer information (root and info dictionary reference) is unchanged. -/
theorem C15_protected_source (env : Collaborators) (parser : PDFParser) (version : Nat)
    (s : DocumentContext) (tree : PageTree) (original : ObjectReference)
    (entries : PDFDictionary)
    (hfonts : (env.WriteUsedFontsDefinitions s.mObjectsContext).status = .eSuccess)
    (htree : s.mCatalogInformation.mPageTree = some tree)
    (hpages : DocumentHasNewPages s = true)
    (hroot : GetOriginalDocumentPageTreeRoot parser = some original)
    (hnonzero : original.ObjectID ≠ 0)
    (hobj : parser.ParseNewObject original.ObjectID = some (.dictionary entries))
    (hcopy : env.CopyingContextStart parser = .eFailure) :
    ∃ s1 s2, s1 = (WriteUsedFontsDefinitions env s).2 ∧
      WriteCombinedPageTree env parser s1 = some (0, s2) ∧
      FinalizeModifiedPDF env parser version s = some (.eFailure, s2) ∧
      writtenSince s1 s2
        = framesOf (tree.SetParent (some s1.mObjectsContext.objectsCount)).nodes
          ++ [.StartModifiedIndirectObject original.ObjectID, .StartDictionary] ∧
      framedIDs (writtenSince s1 s2)
        = (tree.SetParent (some s1.mObjectsContext.objectsCount)).nodes.map PageTree.GetID ∧
      (writtenSince s1 s2).any (Token.isName scCatalog) = false ∧
      (writtenSince s1 s2).any Token.isXrefTable = false ∧
      (writtenSince s1 s2).any Token.isXrefStream = false ∧
      (writtenSince s1 s2).any (Token.isKeyword scTrailer) = false ∧
      (writtenSince s1 s2).any (Token.isKeyword scStartXref) = false ∧
      (writtenSince s1 s2).any Token.isEndOfFile = false ∧
      s2.mTrailerInformation = s.mTrailerInformation := by
  have hfonts2 : (WriteUsedFontsDefinitions env s).1 = .eSuccess := hfonts
  have htree2 : (WriteUsedFontsDefinitions env s).2.mCatalogInformation.mPageTree
      = some tree := htree
  have hw := WriteCombinedPageTree_protected env parser (WriteUsedFontsDefinitions env s).2
    tree original entries htree2 hroot hobj hcopy
  have hfin := FinalizeModifiedPDF_splice env parser version s original _ hfonts2 hroot
    hnonzero hpages hw
  simp only [if_true] at hfin
  have hsince : writtenSince (WriteUsedFontsDefinitions env s).2
      { (WriteUsedFontsDefinitions env s).2 with
        mObjectsContext :=
          { written := (WriteUsedFontsDefinitions env s).2.mObjectsContext.written
              ++ (tree.SetParent (some
                  (WriteUsedFontsDefinitions env s).2.mObjectsContext.objectsCount)).postOrder
              ++ [.StartModifiedIndirectObject original.ObjectID, .StartDictionary],
            objectsCount :=
              (WriteUsedFontsDefinitions env s).2.mObjectsContext.objectsCount + 1 },
        mCatalogInformation := { (WriteUsedFontsDefinitions env s).2.mCatalogInformation with
          mPageTree := some (tree.SetParent none) } }
      = framesOf (tree.SetParent (some
            (WriteUsedFontsDefinitions env s).2.mObjectsContext.objectsCount)).nodes
        ++ [.StartModifiedIndirectObject original.ObjectID, .StartDictionary] := by
    simp [writtenSince, PageTree.postOrder_nodes, List.append_assoc]
  refine ⟨_, _, rfl, hw, hfin, hsince, ?_, ?_, ?_, ?_, ?_, ?_, ?_, rfl⟩
  · rw [hsince, framedIDs_append, framedIDs_framesOf]
    simp [framedIDs, Token.framedID]
  · rw [hsince]
    exact aborted_splice_marks _ _ _ (fun t ht => (inPagesObject_marks t ht).1) rfl
  · rw [hsince]
    exact aborted_splice_marks _ _ _ (fun t ht => (inPagesObject_marks t ht).2.1) rfl
  · rw [hsince]
    exact aborted_splice_marks _ _ _ (fun t ht => (inPagesObject_marks t ht).2.2.1) rfl
  · rw [hsince]
    exact aborted_splice_marks _ _ _ (fun t ht => (inPagesObject_marks t ht).2.2.2.1) rfl
  · rw [hsince]
    exact aborted_splice_marks _ _ _ (fun t ht => (inPagesObject_marks t ht).2.2.2.2.1) rfl
  · rw [hsince]
    exact aborted_splice_marks _ _ _ (fun t ht => (inPagesObject_marks t ht).2.2.2.2.2.1) rfl

/-- C15 at the modification of `sourceParser` with two added pages (objects 6 and 7 under
the leaf parent 8) and a copying context that cannot be started: the result is failure,
the only object framed is 8, and the log ends with the opening of the rewritten object 2. -/
theorem C15_protected_source_witness :
    ∃ s2, FinalizeModifiedPDF protectedSourceEnv sourceParser 13 modifiedDocumentWithPages
        = some (.eFailure, s2) ∧
      framedIDs (writtenSince
        (WriteUsedFontsDefinitions protectedSourceEnv modifiedDocumentWithPages).2 s2) = [8] ∧
      s2.mTrailerInformation.mRootReference = some ⟨1, 0⟩ := by
  obtain ⟨s1, s2, h1, -, h3, -, h5, -, -, -, -, -, -, h12⟩ :=
    C15_protected_source protectedSourceEnv sourceParser 13 modifiedDocumentWithPages
      (.leafParent 8 none [6, 7]) ⟨2, 0⟩
      [("Type", .name "Pages"), ("Count", .integer 3),
       ("Kids", .array [.indirectObjectReference 3 0,
          .indirectObjectReference 4 0, .indirectObjectReference 5 0])]
      rfl rfl rfl rfl (by decide) rfl rfl
  subst h1
  refine ⟨s2, h3, h5, ?_⟩
  rw [h12]
  rfl

/-! ## Lemmas on the task registry -/

theorem TaskMap.find_erase_self {κ τ : Type} [DecidableEq κ] (m : TaskMap κ τ) (key : κ) :
    TaskMap.find (TaskMap.erase m key) key = none := by
  induction m with
  | nil => rfl
  | cons e rest ih =>
    by_cases h : e.1 = key <;> simp [TaskMap.find, TaskMap.erase, h, ih]

theorem TaskMap.find_erase_other {κ τ : Type} [DecidableEq κ] (m : TaskMap κ τ)
    (key other : κ) (h : other ≠ key) :
    TaskMap.find (TaskMap.erase m key) other = TaskMap.find m other := by
  induction m with
  | nil => rfl
  | cons e rest ih =>
    by_cases h1 : e.1 = key
    · have h2 : ¬ e.1 = other := fun h2 => h (h2.symm.trans h1)
      simp only [TaskMap.erase, h1, if_true, TaskMap.find, h2, if_false] at ih ⊢
      rw [← h1] at ih ⊢
      simp only [h2, if_false]
      exact ih
    · simp only [TaskMap.erase, h1, if_false, TaskMap.find]
      by_cases h2 : e.1 = other
      · simp only [h2, if_true]
      · simp only [h2, if_false]
        exact ih

theorem TaskMap.queue_pushBack {κ τ : Type} [DecidableEq κ] (m : TaskMap κ τ)
    (key other : κ) (task : Nat × τ) :
    TaskMap.queue (TaskMap.pushBack m key task) other
      = if other = key then TaskMap.queue m other ++ [task] else TaskMap.queue m other := by
  induction m with
  | nil =>
    by_cases h : other = key
    · simp [TaskMap.queue, TaskMap.pushBack, TaskMap.find, h]
    · have h2 : ¬ key = other := fun h2 => h h2.symm
      simp [TaskMap.queue, TaskMap.pushBack, TaskMap.find, h, h2]
  | cons e rest ih =>
    simp only [TaskMap.queue] at ih ⊢
    by_cases h1 : e.1 = key
    · by_cases h2 : other = key
      · simp [TaskMap.pushBack, TaskMap.find, h1, h2]
      · have h3 : ¬ key = other := fun h3 => h2 h3.symm
        simp [TaskMap.pushBack, TaskMap.find, h1, h2, h3]
    · by_cases h2 : e.1 = other
      · have h3 : ¬ other = key := fun h3 => h1 (h2.trans h3)
        simp [TaskMap.pushBack, TaskMap.find, h1, h2, h3]
      · simp only [TaskMap.pushBack, h1, if_false, TaskMap.find, h2]
        exact ih

/-! ## Lemmas on the flush of a category -/

theorem writeMapping_eq (m : List (Nat × String)) (ctx : ObjectsContext) :
    writeMapping m ctx = { ctx with written := ctx.written ++ mappingEntries m } := by
  induction m generalizing ctx with
  | nil => simp [writeMapping, mappingEntries]
  | cons e es ih => simp [writeMapping, mappingEntries, ih, ObjectsContext.write]

theorem callsOf_mappingEntries (callee : String) (m : List (Nat × String)) :
    callsOf callee (mappingEntries m) = [] := by
  induction m with
  | nil => rfl
  | cons e es ih =>
    simp only [callsOf] at ih
    simp [callsOf, mappingEntries, Token.callOf, ih]

theorem callsOf_callEntries_ne (callee other : String) (h : other ≠ callee)
    (calls : List (Nat × (ObjectsContext → ExternalWrite))) (ctx : ObjectsContext) :
    callsOf callee (callEntries other calls ctx) = [] := by
  induction calls generalizing ctx with
  | nil => rfl
  | cons c rest ih =>
    have h2 := ih (ctx.external other c.1 (c.2 ctx))
    simp only [callsOf] at h2
    simp [callsOf, callEntries, Token.callOf, h, h2]

theorem stateAfterCalls_written (callee : String)
    (calls : List (Nat × (ObjectsContext → ExternalWrite))) (ctx : ObjectsContext) :
    (stateAfterCalls callee calls ctx).written
      = ctx.written ++ callEntries callee calls ctx := rfl

/-- The flush of a category whose key has a queue. -/
theorem WriteResourceDictionary_queue (d : ResourcesDictionary) (c : String)
    (m : List (Nat × String)) (s : DocumentContext) (q : List (Nat × IResourceWritingTask))
    (hq : TaskMap.find s.mResourcesTasks (d.address, c) = some q) :
    WriteResourceDictionary d c m s =
      if (callWhileSuccess "IResourceWritingTask::Write" (resourceTaskCalls q) .eSuccess
          (categoryLoopStart c m s)).1 ≠ .eSuccess then
        ((callWhileSuccess "IResourceWritingTask::Write" (resourceTaskCalls q) .eSuccess
            (categoryLoopStart c m s)).1,
          { s with
            mObjectsContext :=
              (callWhileSuccess "IResourceWritingTask::Write" (resourceTaskCalls q) .eSuccess
                (categoryLoopStart c m s)).2,
            mResourcesTasks := TaskMap.erase s.mResourcesTasks (d.address, c) })
      else
        ((callWhileSuccess "IResourceWritingTask::Write" (resourceTaskCalls q) .eSuccess
            (categoryLoopStart c m s)).1,
          { s with
            mObjectsContext :=
              ((callWhileSuccess "OnResourceDictionaryWrite"
                (resourceDictionaryCalls c s.mExtenders) .eSuccess
                (callWhileSuccess "IResourceWritingTask::Write" (resourceTaskCalls q) .eSuccess
                  (categoryLoopStart c m s)).2).2).write .EndDictionary,
            mResourcesTasks := TaskMap.erase s.mResourcesTasks (d.address, c) }) := by
  unfold WriteResourceDictionary
  simp only [hq, Option.isSome_some, Bool.or_true, if_true, DocumentContext.write,
    ObjectsContext.write, writeMapping_eq, resourceTaskCalls, resourceDictionaryCalls,
    categoryLoopStart, List.append_assoc, List.cons_append, List.nil_append]

/-- The flush of a category whose key has no queue. -/
theorem WriteResourceDictionary_noQueue (d : ResourcesDictionary) (c : String)
    (m : List (Nat × String)) (s : DocumentContext)
    (hq : TaskMap.find s.mResourcesTasks (d.address, c) = none) :
    WriteResourceDictionary d c m s =
      if m = [] then (.eSuccess, s)
      else (.eSuccess,
        { s with
          mObjectsContext :=
            ((callWhileSuccess "OnResourceDictionaryWrite"
              (resourceDictionaryCalls c s.mExtenders) .eSuccess
              (categoryLoopStart c m s)).2).write .EndDictionary }) := by
  unfold WriteResourceDictionary
  cases m with
  | nil => simp [hq]
  | cons e es =>
    simp only [hq, List.isEmpty_cons, Bool.not_false, Bool.true_or, if_true,
      DocumentContext.write, ObjectsContext.write, writeMapping_eq, resourceDictionaryCalls,
      categoryLoopStart]
    simp

theorem WriteResourceDictionary_queue_failure (d : ResourcesDictionary) (c : String)
    (m : List (Nat × String)) (s : DocumentContext) (q : List (Nat × IResourceWritingTask))
    (ctx : ObjectsContext)
    (hq : TaskMap.find s.mResourcesTasks (d.address, c) = some q)
    (hloop : callWhileSuccess "IResourceWritingTask::Write" (resourceTaskCalls q) .eSuccess
      (categoryLoopStart c m s) = (.eFailure, ctx)) :
    WriteResourceDictionary d c m s =
      (.eFailure, { s with
        mObjectsContext := ctx,
        mResourcesTasks := TaskMap.erase s.mResourcesTasks (d.address, c) }) := by
  rw [WriteResourceDictionary_queue d c m s q hq, hloop]
  rfl

theorem WriteResourceDictionary_queue_success (d : ResourcesDictionary) (c : String)
    (m : List (Nat × String)) (s : DocumentContext) (q : List (Nat × IResourceWritingTask))
    (ctx : ObjectsContext)
    (hq : TaskMap.find s.mResourcesTasks (d.address, c) = some q)
    (hloop : callWhileSuccess "IResourceWritingTask::Write" (resourceTaskCalls q) .eSuccess
      (categoryLoopStart c m s) = (.eSuccess, ctx)) :
    WriteResourceDictionary d c m s =
      (.eSuccess, { s with
        mObjectsContext := ((callWhileSuccess "OnResourceDictionaryWrite"
          (resourceDictionaryCalls c s.mExtenders) .eSuccess ctx).2).write .EndDictionary,
        mResourcesTasks := TaskMap.erase s.mResourcesTasks (d.address, c) }) := by
  rw [WriteResourceDictionary_queue d c m s q hq, hloop]
  rfl

/-! ## C17: the queue of a flushed key is discarded -/

theorem writtenSince_append (s s2 : DocumentContext) (X : List Token)
    (h : s2.mObjectsContext.written = s.mObjectsContext.written ++ X) :
    writtenSince s s2 = X := by
  simp [writtenSince, h]

theorem categoryLoopStart_written (c : String) (m : List (Nat × String))
    (s : DocumentContext) :
    (categoryLoopStart c m s).written
      = s.mObjectsContext.written ++ ([.WriteKey c, .StartDictionary] ++ mappingEntries m) := by
  simp [categoryLoopStart]

theorem callsOf_categoryStart (callee c : String) (m : List (Nat × String)) :
    callsOf callee ([Token.WriteKey c, Token.StartDictionary] ++ mappingEntries m) = [] := by
  rw [callsOf_append, callsOf_mappingEntries]
  rfl

/-- C17: when `WriteResourceDictionary` flushes a key that has a queue, the key has no
queue afterwards, whatever the tasks return, and the queues of the other keys are as they
were; when the queue is `pre`, then `t`, then `post`, the tasks of `pre` succeed and `t`
fails, the result is failure and the log records, after the key of the category, the
opening of the sub-dictionary and the name bindings, the calls of the tasks of `pre` and of
`t` and nothing else: no task of `post` runs. -/
theorem C17_queue_discarded (d : ResourcesDictionary) (c : String) (m : List (Nat × String))
    (s : DocumentContext) (q : List (Nat × IResourceWritingTask))
    (hq : TaskMap.find s.mResourcesTasks (d.address, c) = some q) :
    TaskMap.find (WriteResourceDictionary d c m s).2.mResourcesTasks (d.address, c) = none ∧
    (∀ other, other ≠ (d.address, c) →
      TaskMap.find (WriteResourceDictionary d c m s).2.mResourcesTasks other
        = TaskMap.find s.mResourcesTasks other) ∧
    (∀ (pre post : List (Nat × IResourceWritingTask)) (t : Nat × IResourceWritingTask),
      q = pre ++ t :: post →
      callsSucceed "IResourceWritingTask::Write" (resourceTaskCalls pre)
        (categoryLoopStart c m s) = true →
      (t.2.Write (stateAfterCalls "IResourceWritingTask::Write" (resourceTaskCalls pre)
        (categoryLoopStart c m s))).status = .eFailure →
      (WriteResourceDictionary d c m s).1 = .eFailure ∧
      writtenSince s (WriteResourceDictionary d c m s).2
        = [.WriteKey c, .StartDictionary] ++ mappingEntries m
          ++ callEntries "IResourceWritingTask::Write" (resourceTaskCalls (pre ++ [t]))
              (categoryLoopStart c m s) ∧
      callsOf "IResourceWritingTask::Write" (writtenSince s (WriteResourceDictionary d c m s).2)
        = (pre ++ [t]).map Prod.fst) := by
  refine ⟨?_, ?_, ?_⟩
  · rw [WriteResourceDictionary_queue d c m s q hq]
    split_ifs <;> exact TaskMap.find_erase_self _ _
  · intro other hne
    rw [WriteResourceDictionary_queue d c m s q hq]
    split_ifs <;> exact TaskMap.find_erase_other _ _ _ hne
  · intro pre post t hsplit hpre hfail
    have hloop := callWhileSuccess_firstFailure "IResourceWritingTask::Write"
      (resourceTaskCalls pre) (resourceTaskCalls post) (t.1, t.2.Write)
      (categoryLoopStart c m s) hpre hfail
    have hcalls : resourceTaskCalls q
        = resourceTaskCalls pre ++ (t.1, t.2.Write) :: resourceTaskCalls post := by
      rw [hsplit]
      simp [resourceTaskCalls]
    have hlast : resourceTaskCalls (pre ++ [t])
        = resourceTaskCalls pre ++ [(t.1, t.2.Write)] := by
      simp [resourceTaskCalls]
    rw [← hcalls, ← hlast] at hloop
    rw [WriteResourceDictionary_queue_failure d c m s q _ hq hloop]
    have hw : writtenSince s
        { s with
          mObjectsContext := stateAfterCalls "IResourceWritingTask::Write"
            (resourceTaskCalls (pre ++ [t])) (categoryLoopStart c m s),
          mResourcesTasks := TaskMap.erase s.mResourcesTasks (d.address, c) }
        = [.WriteKey c, .StartDictionary] ++ mappingEntries m
          ++ callEntries "IResourceWritingTask::Write"
              (resourceTaskCalls (pre ++ [t])) (categoryLoopStart c m s) := by
      apply writtenSince_append
      simp [stateAfterCalls, categoryLoopStart]
    refine ⟨rfl, hw, ?_⟩
    rw [hw, callsOf_append, callsOf_categoryStart, callsOf_callEntries]
    simp [resourceTaskCalls]

/-- C17 at a queue of three tasks of which the second fails: the first two run, the result
is failure and the key has no queue afterwards. -/
theorem C17_queue_discarded_witness :
    (WriteResourceDictionary emptyResources "Font" []
      { freshDocument with mResourcesTasks :=
          [((200, "Font"), [(1, entryTask "A"), (2, failingTask), (3, entryTask "B")])] }).1
      = .eFailure ∧
    callsOf "IResourceWritingTask::Write" (writtenSince
      { freshDocument with mResourcesTasks :=
          [((200, "Font"), [(1, entryTask "A"), (2, failingTask), (3, entryTask "B")])] }
      (WriteResourceDictionary emptyResources "Font" []
        { freshDocument with mResourcesTasks :=
            [((200, "Font"), [(1, entryTask "A"), (2, failingTask), (3, entryTask "B")])] }).2)
      = [1, 2] ∧
    TaskMap.find (WriteResourceDictionary emptyResources "Font" []
      { freshDocument with mResourcesTasks :=
          [((200, "Font"), [(1, entryTask "A"), (2, failingTask), (3, entryTask "B")])] }
      ).2.mResourcesTasks (200, "Font") = none := by
  have h := C17_queue_discarded emptyResources "Font" []
    { freshDocument with mResourcesTasks :=
        [((200, "Font"), [(1, entryTask "A"), (2, failingTask), (3, entryTask "B")])] }
    [(1, entryTask "A"), (2, failingTask), (3, entryTask "B")] rfl
  have h3 := h.2.2 [(1, entryTask "A")] [(3, entryTask "B")] (2, failingTask) rfl rfl rfl
  exact ⟨h3.1, h3.2.2, h.1⟩

/-! ## C16: a queue is flushed once, in registration order -/

theorem TaskMap.find_pushBack {κ τ : Type} [DecidableEq κ] (m : TaskMap κ τ)
    (key other : κ) (task : Nat × τ) :
    TaskMap.find (TaskMap.pushBack m key task) other
      = if other = key then some (TaskMap.queue m key ++ [task]) else TaskMap.find m other := by
  induction m with
  | nil =>
    by_cases h : other = key
    · simp [TaskMap.queue, TaskMap.pushBack, TaskMap.find, h]
    · have h2 : ¬ key = other := fun h2 => h h2.symm
      simp [TaskMap.queue, TaskMap.pushBack, TaskMap.find, h, h2]
  | cons e rest ih =>
    simp only [TaskMap.queue] at ih ⊢
    by_cases h1 : e.1 = key
    · by_cases h2 : other = key
      · simp [TaskMap.pushBack, TaskMap.find, h1, h2]
      · have h3 : ¬ key = other := fun h3 => h2 h3.symm
        simp [TaskMap.pushBack, TaskMap.find, h1, h2, h3]
    · by_cases h2 : e.1 = other
      · have h3 : ¬ other = key := fun h3 => h1 (h2.trans h3)
        simp [TaskMap.pushBack, TaskMap.find, h1, h2, h3]
      · simp only [TaskMap.pushBack, h1, if_false, TaskMap.find, h2]
        exact ih

theorem AddExtendedResourceMapping_state (env : Collaborators) (d : ResourcesDictionary)
    (c : String) (t : Nat × IResourceWritingTask) (s : DocumentContext) :
    (AddExtendedResourceMapping env d c t s).2.2
      = { s with mResourcesTasks := TaskMap.pushBack s.mResourcesTasks (d.address, c) t } :=
  rfl

theorem registerResourceTasks_cons (env : Collaborators)
    (r : ResourcesDictionary × String × (Nat × IResourceWritingTask))
    (rest : List (ResourcesDictionary × String × (Nat × IResourceWritingTask)))
    (s : DocumentContext) :
    registerResourceTasks env (r :: rest) s
      = registerResourceTasks env rest
          { s with mResourcesTasks :=
              TaskMap.pushBack s.mResourcesTasks (r.1.address, r.2.1) r.2.2 } := rfl

/-- The queue of a key after a sequence of registrations: the tasks it had, then the tasks
registered for it, in the order of registration. -/
theorem registerResourceTasks_find (env : Collaborators)
    (regs : List (ResourcesDictionary × String × (Nat × IResourceWritingTask)))
    (s : DocumentContext) (key : Nat × String) :
    TaskMap.find (registerResourceTasks env regs s).mResourcesTasks key
      = if (tasksRegisteredFor key regs).isEmpty then TaskMap.find s.mResourcesTasks key
        else some (TaskMap.queue s.mResourcesTasks key ++ tasksRegisteredFor key regs) := by
  induction regs generalizing s with
  | nil => simp [registerResourceTasks, tasksRegisteredFor]
  | cons r rest ih =>
    rw [registerResourceTasks_cons, ih]
    by_cases hk : (r.1.address, r.2.1) = key
    · have hq : TaskMap.queue (TaskMap.pushBack s.mResourcesTasks (r.1.address, r.2.1) r.2.2)
          key = TaskMap.queue s.mResourcesTasks key ++ [r.2.2] := by
        rw [TaskMap.queue_pushBack, if_pos hk.symm]
      have hf : TaskMap.find (TaskMap.pushBack s.mResourcesTasks (r.1.address, r.2.1) r.2.2)
          key = some (TaskMap.queue s.mResourcesTasks key ++ [r.2.2]) := by
        rw [TaskMap.find_pushBack, if_pos hk.symm, hk]
      have ht : tasksRegisteredFor key (r :: rest) = r.2.2 :: tasksRegisteredFor key rest := by
        simp [tasksRegisteredFor, List.filter_cons, hk]
      simp only [hq, hf, ht]
      cases hrest : tasksRegisteredFor key rest <;> simp
    · have hk2 : ¬ key = (r.1.address, r.2.1) := fun h => hk h.symm
      have hq : TaskMap.queue (TaskMap.pushBack s.mResourcesTasks (r.1.address, r.2.1) r.2.2)
          key = TaskMap.queue s.mResourcesTasks key := by
        rw [TaskMap.queue_pushBack, if_neg hk2]
      have hf : TaskMap.find (TaskMap.pushBack s.mResourcesTasks (r.1.address, r.2.1) r.2.2)
          key = TaskMap.find s.mResourcesTasks key := by
        rw [TaskMap.find_pushBack, if_neg hk2]
      have ht : tasksRegisteredFor key (r :: rest) = tasksRegisteredFor key rest := by
        simp [tasksRegisteredFor, List.filter_cons, hk]
      simp only [hq, hf, ht]

theorem resourceTaskCalls_fst (q : List (Nat × IResourceWritingTask)) :
    (resourceTaskCalls q).map Prod.fst = q.map Prod.fst := by
  simp only [resourceTaskCalls, List.map_map]
  rfl

/-- What a loop of calls appends to the log holds no call of another callee. -/
theorem callWhileSuccess_written (callee : String)
    (calls : List (Nat × (ObjectsContext → ExternalWrite))) (ctx : ObjectsContext) :
    ∃ X, (callWhileSuccess callee calls .eSuccess ctx).2.written = ctx.written ++ X ∧
      ∀ other, other ≠ callee → callsOf other X = [] := by
  obtain ⟨n, hn⟩ := callWhileSuccess_prefix callee calls ctx
  refine ⟨callEntries callee (calls.take n) ctx, ?_, ?_⟩
  · rw [hn]
    rfl
  · intro other hne
    exact callsOf_callEntries_ne other callee (fun h => hne h.symm) _ _

/-- C16 (amended): after a sequence of `AddExtendedResourceMapping` calls of which some
are for the key (d, c), the first flush of (d, c) by `WriteResourceDictionary`, when the
tasks succeed, returns success and runs the tasks the key had and then the tasks registered
for it, in the order of registration, each once; afterwards the key has no queue. A second
flush of (d, c) returns success, runs no task and leaves the registry as it is; it changes
nothing at all when the category has no name binding, and otherwise writes the key of the
category and its sub-dictionary with the name bindings again. -/
theorem C16_flush_once (env : Collaborators) (d : ResourcesDictionary) (c : String)
    (regs : List (ResourcesDictionary × String × (Nat × IResourceWritingTask)))
    (s : DocumentContext) (m m2 : List (Nat × String))
    (hreg : (tasksRegisteredFor (d.address, c) regs).isEmpty = false)
    (hok : callsSucceed "IResourceWritingTask::Write"
      (resourceTaskCalls (TaskMap.queue s.mResourcesTasks (d.address, c)
        ++ tasksRegisteredFor (d.address, c) regs))
      (categoryLoopStart c m (registerResourceTasks env regs s)) = true) :
    (WriteResourceDictionary d c m (registerResourceTasks env regs s)).1 = .eSuccess ∧
    callsOf "IResourceWritingTask::Write" (writtenSince (registerResourceTasks env regs s)
        (WriteResourceDictionary d c m (registerResourceTasks env regs s)).2)
      = (TaskMap.queue s.mResourcesTasks (d.address, c)
          ++ tasksRegisteredFor (d.address, c) regs).map Prod.fst ∧
    TaskMap.find (WriteResourceDictionary d c m
      (registerResourceTasks env regs s)).2.mResourcesTasks (d.address, c) = none ∧
    (WriteResourceDictionary d c m2
      (WriteResourceDictionary d c m (registerResourceTasks env regs s)).2).1 = .eSuccess ∧
    callsOf "IResourceWritingTask::Write"
      (writtenSince (WriteResourceDictionary d c m (registerResourceTasks env regs s)).2
        (WriteResourceDictionary d c m2
          (WriteResourceDictionary d c m (registerResourceTasks env regs s)).2).2) = [] ∧
    (WriteResourceDictionary d c m2
      (WriteResourceDictionary d c m (registerResourceTasks env regs s)).2).2.mResourcesTasks
      = (WriteResourceDictionary d c m (registerResourceTasks env regs s)).2.mResourcesTasks ∧
    (m2 = [] →
      (WriteResourceDictionary d c m2
        (WriteResourceDictionary d c m (registerResourceTasks env regs s)).2).2
      = (WriteResourceDictionary d c m (registerResourceTasks env regs s)).2) ∧
    (m2 ≠ [] → ∃ X,
      writtenSince (WriteResourceDictionary d c m (registerResourceTasks env regs s)).2
        (WriteResourceDictionary d c m2
          (WriteResourceDictionary d c m (registerResourceTasks env regs s)).2).2
      = [.WriteKey c, .StartDictionary] ++ mappingEntries m2 ++ X ++ [.EndDictionary]) := by
  have hfind : TaskMap.find (registerResourceTasks env regs s).mResourcesTasks (d.address, c)
      = some (TaskMap.queue s.mResourcesTasks (d.address, c)
          ++ tasksRegisteredFor (d.address, c) regs) := by
    rw [registerResourceTasks_find, hreg]
    rfl
  have hloop := callWhileSuccess_all "IResourceWritingTask::Write" _ _ hok
  have h1 := WriteResourceDictionary_queue_success d c m (registerResourceTasks env regs s)
    _ _ hfind hloop
  obtain ⟨X, hX, hXcalls⟩ := callWhileSuccess_written "OnResourceDictionaryWrite"
    (resourceDictionaryCalls c (registerResourceTasks env regs s).mExtenders)
    (stateAfterCalls "IResourceWritingTask::Write"
      (resourceTaskCalls (TaskMap.queue s.mResourcesTasks (d.address, c)
        ++ tasksRegisteredFor (d.address, c) regs))
      (categoryLoopStart c m (registerResourceTasks env regs s)))
  have hnone : TaskMap.find (WriteResourceDictionary d c m
      (registerResourceTasks env regs s)).2.mResourcesTasks (d.address, c) = none := by
    rw [h1]
    exact TaskMap.find_erase_self _ _
  have h2 := WriteResourceDictionary_noQueue d c m2
    (WriteResourceDictionary d c m (registerResourceTasks env regs s)).2 hnone
  obtain ⟨Y, hY, hYcalls⟩ := callWhileSuccess_written "OnResourceDictionaryWrite"
    (resourceDictionaryCalls c
      (WriteResourceDictionary d c m (registerResourceTasks env regs s)).2.mExtenders)
    (categoryLoopStart c m2
      (WriteResourceDictionary d c m (registerResourceTasks env regs s)).2)
  have hsecond : m2 ≠ [] →
      writtenSince (WriteResourceDictionary d c m (registerResourceTasks env regs s)).2
        (WriteResourceDictionary d c m2
          (WriteResourceDictionary d c m (registerResourceTasks env regs s)).2).2
      = [.WriteKey c, .StartDictionary] ++ mappingEntries m2 ++ Y ++ [.EndDictionary] := by
    intro hm
    rw [h2, if_neg hm]
    apply writtenSince_append
    simp only [ObjectsContext.write, hY, categoryLoopStart_written, List.append_assoc]
  refine ⟨?_, ?_, hnone, ?_, ?_, ?_, ?_, ?_⟩
  · rw [h1]
  · have hw : writtenSince (registerResourceTasks env regs s)
        (WriteResourceDictionary d c m (registerResourceTasks env regs s)).2
        = [.WriteKey c, .StartDictionary] ++ mappingEntries m
          ++ callEntries "IResourceWritingTask::Write"
              (resourceTaskCalls (TaskMap.queue s.mResourcesTasks (d.address, c)
                ++ tasksRegisteredFor (d.address, c) regs))
              (categoryLoopStart c m (registerResourceTasks env regs s))
          ++ X ++ [.EndDictionary] := by
      rw [h1]
      apply writtenSince_append
      simp only [ObjectsContext.write, hX, stateAfterCalls_written,
        categoryLoopStart_written, List.append_assoc]
    rw [hw, callsOf_append, callsOf_append, callsOf_append, callsOf_categoryStart,
      callsOf_callEntries, hXcalls _ (by decide), resourceTaskCalls_fst]
    simp [callsOf, Token.callOf]
  · rw [h2]
    split_ifs <;> rfl
  · by_cases hm : m2 = []
    · rw [h2, if_pos hm]
      simp [writtenSince, callsOf]
    · rw [hsecond hm, callsOf_append, callsOf_append, callsOf_categoryStart,
        hYcalls _ (by decide)]
      simp [callsOf, Token.callOf]
  · rw [h2]
    split_ifs <;> rfl
  · intro hm
    rw [h2, if_pos hm]
  · intro hm
    exact ⟨Y, hsecond hm⟩

/-- C16 at two tasks registered for the Font category of a resources dictionary without
any name: the first flush runs them in the order of registration, the second flush changes
nothing. -/
theorem C16_flush_once_witness :
    callsOf "IResourceWritingTask::Write"
      (writtenSince
        (registerResourceTasks quietEnv
          [(emptyResources, "Font", (1, entryTask "A")),
           (emptyResources, "Font", (2, entryTask "B"))] freshDocument)
        (WriteResourceDictionary emptyResources "Font" []
          (registerResourceTasks quietEnv
            [(emptyResources, "Font", (1, entryTask "A")),
             (emptyResources, "Font", (2, entryTask "B"))] freshDocument)).2) = [1, 2] ∧
    (WriteResourceDictionary emptyResources "Font" []
      (WriteResourceDictionary emptyResources "Font" []
        (registerResourceTasks quietEnv
          [(emptyResources, "Font", (1, entryTask "A")),
           (emptyResources, "Font", (2, entryTask "B"))] freshDocument)).2).2
      = (WriteResourceDictionary emptyResources "Font" []
        (registerResourceTasks quietEnv
          [(emptyResources, "Font", (1, entryTask "A")),
           (emptyResources, "Font", (2, entryTask "B"))] freshDocument)).2 := by
  have h := C16_flush_once quietEnv emptyResources "Font"
    [(emptyResources, "Font", (1, entryTask "A")),
     (emptyResources, "Font", (2, entryTask "B"))] freshDocument [] [] rfl rfl
  exact ⟨h.2.1, h.2.2.2.2.2.2.1 rfl⟩

/-- C16 fails as stated: a resources dictionary has one font (object 5 under the name FN1)
and two tasks registered for its Font category; after the first flush, which runs the two
tasks, a second flush of the same key is not a no-op: it writes the Font key and the
sub-dictionary with the name binding again. -/
theorem C16_counterexample :
    callsOf "IResourceWritingTask::Write"
      (writtenSince
        (registerResourceTasks quietEnv
          [(fontResources, "Font", (1, entryTask "A")),
           (fontResources, "Font", (2, entryTask "B"))] freshDocument)
        (WriteResourceDictionary fontResources "Font" fontResources.mFonts
          (registerResourceTasks quietEnv
            [(fontResources, "Font", (1, entryTask "A")),
             (fontResources, "Font", (2, entryTask "B"))] freshDocument)).2) = [1, 2] ∧
    writtenSince
      (WriteResourceDictionary fontResources "Font" fontResources.mFonts
        (registerResourceTasks quietEnv
          [(fontResources, "Font", (1, entryTask "A")),
           (fontResources, "Font", (2, entryTask "B"))] freshDocument)).2
      (WriteResourceDictionary fontResources "Font" fontResources.mFonts
        (WriteResourceDictionary fontResources "Font" fontResources.mFonts
          (registerResourceTasks quietEnv
            [(fontResources, "Font", (1, entryTask "A")),
             (fontResources, "Font", (2, entryTask "B"))] freshDocument)).2).2
      = [.WriteKey "Font", .StartDictionary, .WriteKey "FN1", .WriteNewObjectReferenceValue 5,
         .EndDictionary] ∧
    (WriteResourceDictionary fontResources "Font" fontResources.mFonts
      (WriteResourceDictionary fontResources "Font" fontResources.mFonts
        (registerResourceTasks quietEnv
          [(fontResources, "Font", (1, entryTask "A")),
           (fontResources, "Font", (2, entryTask "B"))]
          freshDocument)).2).2.mObjectsContext.written.length
      ≠ (WriteResourceDictionary fontResources "Font" fontResources.mFonts
        (registerResourceTasks quietEnv
          [(fontResources, "Font", (1, entryTask "A")),
           (fontResources, "Font", (2, entryTask "B"))]
          freshDocument)).2.mObjectsContext.written.length := by
  refine ⟨rfl, rfl, ?_⟩
  decide

/-! ## C18: failure of a task of a category -/

/-- C18 evaluated: a resources dictionary has a single queued task, which fails. When the
task is queued for XObject, ExtGState, Font, Pattern, Shading or Properties,
`WriteResourcesDictionary` returns failure. When it is queued for ColorSpace, the flush of
that category fails, its sub-dictionary is left open, the status is overwritten by the
flush of Pattern and `WriteResourcesDictionary` returns success. -/
theorem C18_colorspace_failure_lost :
    (WriteResourcesDictionary emptyResources (failingQueueDocument "XObject")).1 = .eFailure ∧
    (WriteResourcesDictionary emptyResources (failingQueueDocument "ExtGState")).1
      = .eFailure ∧
    (WriteResourcesDictionary emptyResources (failingQueueDocument "Font")).1 = .eFailure ∧
    (WriteResourcesDictionary emptyResources (failingQueueDocument "Pattern")).1 = .eFailure ∧
    (WriteResourcesDictionary emptyResources (failingQueueDocument "Shading")).1 = .eFailure ∧
    (WriteResourcesDictionary emptyResources (failingQueueDocument "Properties")).1
      = .eFailure ∧
    (WriteResourceDictionary emptyResources scColorSpaces emptyResources.mColorSpaces
      ((failingQueueDocument "ColorSpace").write .StartDictionary)).1 = .eFailure ∧
    (WriteResourcesDictionary emptyResources (failingQueueDocument "ColorSpace")).1
      = .eSuccess ∧
    (WriteResourcesDictionary emptyResources
      (failingQueueDocument "ColorSpace")).2.mObjectsContext.written
      = [.StartDictionary, .WriteKey "ColorSpace", .StartDictionary,
         .External "IResourceWritingTask::Write" 1 .eFailure [], .EndDictionary] :=
  ⟨rfl, rfl, rfl, rfl, rfl, rfl, rfl, rfl, rfl⟩

/-! ## C20: failure of a resource task at form end -/

/-- C20 evaluated: a form has no form-end task and its resources dictionary has a single
queued task, for the Font category, which fails. `WriteResourcesDictionary` returns failure
on that dictionary; `EndFormXObjectNoRelease` does not use that result and returns
success. -/
theorem C20_resource_failure_dropped :
    (WriteResourcesDictionary sampleForm.mResources
      (((failingQueueDocument "Font").write .EndPDFStream).write
        (.StartNewIndirectObject sampleForm.mResourcesDictionaryID))).1 = .eFailure ∧
    (EndFormXObjectNoRelease sampleForm (failingQueueDocument "Font")).1 = .eSuccess ∧
    (EndFormXObjectNoRelease sampleForm (failingQueueDocument "Font")).2.mObjectsContext.written
      = [.EndPDFStream, .StartNewIndirectObject 4, .StartDictionary,
         .WriteKey "Font", .StartDictionary,
         .External "IResourceWritingTask::Write" 1 .eFailure [], .EndIndirectObject] :=
  ⟨rfl, rfl, rfl⟩

/-! ## Lemmas on the end of a form -/

theorem AppendsNoFormEndCall.refl (s : DocumentContext) : AppendsNoFormEndCall s s :=
  ⟨⟨[], by simp, rfl⟩, rfl⟩

theorem AppendsNoFormEndCall.write (s x : DocumentContext) (t : Token)
    (ht : t.callOf "IFormEndWritingTask::Write" = none)
    (h : AppendsNoFormEndCall s x) : AppendsNoFormEndCall s (x.write t) := by
  obtain ⟨⟨X, hX, hc⟩, hf⟩ := h
  refine ⟨⟨X ++ [t], ?_, ?_⟩, hf⟩
  · simp [DocumentContext.write, ObjectsContext.write, hX]
  · rw [callsOf_append, hc]
    simp [callsOf, ht]

theorem callWhileSuccess_written_any (callee : String)
    (calls : List (Nat × (ObjectsContext → ExternalWrite))) (status : EStatusCode)
    (ctx : ObjectsContext) :
    ∃ X, (callWhileSuccess callee calls status ctx).2.written = ctx.written ++ X ∧
      ∀ other, other ≠ callee → callsOf other X = [] := by
  cases status with
  | eSuccess => exact callWhileSuccess_written callee calls ctx
  | eFailure =>
    rw [callWhileSuccess_failure]
    exact ⟨[], by simp, fun _ _ => rfl⟩

theorem AppendsNoFormEndCall.of_written (s x x2 : DocumentContext) (Z : List Token)
    (h : AppendsNoFormEndCall s x)
    (hw : x2.mObjectsContext.written = x.mObjectsContext.written ++ Z)
    (hc : callsOf "IFormEndWritingTask::Write" Z = [])
    (hf : x2.mFormEndTasks = x.mFormEndTasks) : AppendsNoFormEndCall s x2 := by
  obtain ⟨⟨X, hX, hXc⟩, hXf⟩ := h
  refine ⟨⟨X ++ Z, ?_, ?_⟩, hf.trans hXf⟩
  · rw [hw, hX, List.append_assoc]
  · rw [callsOf_append, hXc, hc]
    rfl

theorem AppendsNoFormEndCall.loop_extenders (s x : DocumentContext)
    (calls : List (Nat × (ObjectsContext → ExternalWrite))) (status : EStatusCode)
    (h : AppendsNoFormEndCall s x) :
    AppendsNoFormEndCall s { x with
      mObjectsContext :=
        (callWhileSuccess "OnResourcesWrite" calls status x.mObjectsContext).2 } := by
  obtain ⟨Y, hY, hYc⟩ := callWhileSuccess_written_any "OnResourcesWrite" calls status
    x.mObjectsContext
  exact AppendsNoFormEndCall.of_written s x _ Y h hY (hYc _ (by decide)) rfl

theorem AppendsNoFormEndCall.procsets (s x : DocumentContext) (ns : List String)
    (h : AppendsNoFormEndCall s x) : AppendsNoFormEndCall s (writeProcsets ns x) := by
  induction ns generalizing x with
  | nil => exact h
  | cons n rest ih => exact ih _ (AppendsNoFormEndCall.write s x _ rfl h)

theorem AppendsNoFormEndCall.category (s x : DocumentContext) (d : ResourcesDictionary)
    (c : String) (m : List (Nat × String)) (h : AppendsNoFormEndCall s x) :
    AppendsNoFormEndCall s (WriteResourceDictionary d c m x).2 := by
  cases hq : TaskMap.find x.mResourcesTasks (d.address, c) with
  | none =>
    rw [WriteResourceDictionary_noQueue d c m x hq]
    split_ifs
    · exact h
    · obtain ⟨Y, hY, hYc⟩ := callWhileSuccess_written "OnResourceDictionaryWrite"
        (resourceDictionaryCalls c x.mExtenders) (categoryLoopStart c m x)
      refine AppendsNoFormEndCall.of_written s x _
        ([.WriteKey c, .StartDictionary] ++ mappingEntries m ++ Y ++ [.EndDictionary]) h ?_ ?_
        rfl
      · simp only [ObjectsContext.write, hY, categoryLoopStart_written, List.append_assoc]
      · rw [callsOf_append, callsOf_append, callsOf_categoryStart, hYc _ (by decide)]
        rfl
  | some q =>
    obtain ⟨T, hT, hTc⟩ := callWhileSuccess_written "IResourceWritingTask::Write"
      (resourceTaskCalls q) (categoryLoopStart c m x)
    rw [WriteResourceDictionary_queue d c m x q hq]
    split_ifs
    · refine AppendsNoFormEndCall.of_written s x _
        ([.WriteKey c, .StartDictionary] ++ mappingEntries m ++ T) h ?_ ?_ rfl
      · simp only [hT, categoryLoopStart_written, List.append_assoc]
      · rw [callsOf_append, callsOf_categoryStart, hTc _ (by decide)]
        rfl
    · obtain ⟨Y, hY, hYc⟩ := callWhileSuccess_written "OnResourceDictionaryWrite"
        (resourceDictionaryCalls c x.mExtenders)
        (callWhileSuccess "IResourceWritingTask::Write" (resourceTaskCalls q) .eSuccess
          (categoryLoopStart c m x)).2
      refine AppendsNoFormEndCall.of_written s x _
        ([.WriteKey c, .StartDictionary] ++ mappingEntries m ++ T ++ Y ++ [.EndDictionary])
        h ?_ ?_ rfl
      · simp only [ObjectsContext.write, hY, hT, categoryLoopStart_written,
          List.append_assoc]
      · rw [callsOf_append, callsOf_append, callsOf_append, callsOf_categoryStart,
          hTc _ (by decide), hYc _ (by decide)]
        rfl

theorem AppendsNoFormEndCall.resources (s x : DocumentContext) (d : ResourcesDictionary)
    (h : AppendsNoFormEndCall s x) :
    AppendsNoFormEndCall s (WriteResourcesDictionary d x).2 := by
  unfold WriteResourcesDictionary
  simp only []
  split_ifs <;>
    repeat (first
      | exact h
      | apply AppendsNoFormEndCall.category
      | (apply AppendsNoFormEndCall.write; rfl)
      | apply AppendsNoFormEndCall.procsets
      | apply AppendsNoFormEndCall.loop_extenders)

theorem formResourcesWritten_quiet (f : PDFFormXObject) (s : DocumentContext) :
    AppendsNoFormEndCall s (formResourcesWritten f s) := by
  unfold formResourcesWritten
  apply AppendsNoFormEndCall.write
  · rfl
  apply AppendsNoFormEndCall.resources
  apply AppendsNoFormEndCall.write
  · rfl
  apply AppendsNoFormEndCall.write
  · rfl
  exact AppendsNoFormEndCall.refl s

theorem EndFormXObjectNoRelease_queue (f : PDFFormXObject) (s : DocumentContext)
    (q : List (Nat × IFormEndWritingTask))
    (hq : TaskMap.find s.mFormEndTasks f.address = some q) :
    EndFormXObjectNoRelease f s =
      ((callWhileSuccess "IFormEndWritingTask::Write" (formEndTaskCalls f q) .eSuccess
          (formResourcesWritten f s).mObjectsContext).1,
        { formResourcesWritten f s with
          mObjectsContext :=
            (callWhileSuccess "IFormEndWritingTask::Write" (formEndTaskCalls f q) .eSuccess
              (formResourcesWritten f s).mObjectsContext).2,
          mFormEndTasks := TaskMap.erase s.mFormEndTasks f.address }) := by
  have hf := (formResourcesWritten_quiet f s).2
  unfold EndFormXObjectNoRelease
  unfold formResourcesWritten at hf
  simp only [hf, hq, formEndTaskCalls, formResourcesWritten]

theorem EndFormXObjectNoRelease_noQueue (f : PDFFormXObject) (s : DocumentContext)
    (hq : TaskMap.find s.mFormEndTasks f.address = none) :
    EndFormXObjectNoRelease f s = (.eSuccess, formResourcesWritten f s) := by
  have hf := (formResourcesWritten_quiet f s).2
  unfold EndFormXObjectNoRelease
  unfold formResourcesWritten at hf
  simp only [hf, hq, formResourcesWritten]

theorem formEndTaskCalls_fst (f : PDFFormXObject) (q : List (Nat × IFormEndWritingTask)) :
    (formEndTaskCalls f q).map Prod.fst = q.map Prod.fst := by
  simp only [formEndTaskCalls, List.map_map]
  rfl

theorem registerFormEndTasks_cons (r : PDFFormXObject × (Nat × IFormEndWritingTask))
    (rest : List (PDFFormXObject × (Nat × IFormEndWritingTask))) (s : DocumentContext) :
    registerFormEndTasks (r :: rest) s
      = registerFormEndTasks rest
          { s with mFormEndTasks := TaskMap.pushBack s.mFormEndTasks r.1.address r.2 } := rfl

/-- The queue of a form after a sequence of registrations: the tasks it had, then the tasks
registered for it, in the order of registration. -/
theorem registerFormEndTasks_find
    (regs : List (PDFFormXObject × (Nat × IFormEndWritingTask)))
    (s : DocumentContext) (address : Nat) :
    TaskMap.find (registerFormEndTasks regs s).mFormEndTasks address
      = if (formTasksRegisteredFor address regs).isEmpty then
          TaskMap.find s.mFormEndTasks address
        else some (TaskMap.queue s.mFormEndTasks address
          ++ formTasksRegisteredFor address regs) := by
  induction regs generalizing s with
  | nil => simp [registerFormEndTasks, formTasksRegisteredFor]
  | cons r rest ih =>
    rw [registerFormEndTasks_cons, ih]
    by_cases hk : r.1.address = address
    · have hq : TaskMap.queue (TaskMap.pushBack s.mFormEndTasks r.1.address r.2) address
          = TaskMap.queue s.mFormEndTasks address ++ [r.2] := by
        rw [TaskMap.queue_pushBack, if_pos hk.symm]
      have hf : TaskMap.find (TaskMap.pushBack s.mFormEndTasks r.1.address r.2) address
          = some (TaskMap.queue s.mFormEndTasks address ++ [r.2]) := by
        rw [TaskMap.find_pushBack, if_pos hk.symm, hk]
      have ht : formTasksRegisteredFor address (r :: rest)
          = r.2 :: formTasksRegisteredFor address rest := by
        simp [formTasksRegisteredFor, List.filter_cons, hk]
      simp only [hq, hf, ht]
      cases hrest : formTasksRegisteredFor address rest <;> simp
    · have hk2 : ¬ address = r.1.address := fun h => hk h.symm
      have hq : TaskMap.queue (TaskMap.pushBack s.mFormEndTasks r.1.address r.2) address
          = TaskMap.queue s.mFormEndTasks address := by
        rw [TaskMap.queue_pushBack, if_neg hk2]
      have hf : TaskMap.find (TaskMap.pushBack s.mFormEndTasks r.1.address r.2) address
          = TaskMap.find s.mFormEndTasks address := by
        rw [TaskMap.find_pushBack, if_neg hk2]
      have ht : formTasksRegisteredFor address (r :: rest)
          = formTasksRegisteredFor address rest := by
        simp [formTasksRegisteredFor, List.filter_cons, hk]
      simp only [hq, hf, ht]

/-- What `EndFormXObjectNoRelease` appends to the log when the form has a queue: a stretch
without any call of a form-end task, then the entries of the loop. -/
theorem EndFormXObjectNoRelease_calls (f : PDFFormXObject) (s : DocumentContext)
    (q : List (Nat × IFormEndWritingTask)) (status : EStatusCode)
    (run : List (Nat × (ObjectsContext → ExternalWrite)))
    (hq : TaskMap.find s.mFormEndTasks f.address = some q)
    (hloop : callWhileSuccess "IFormEndWritingTask::Write" (formEndTaskCalls f q) .eSuccess
        (formResourcesWritten f s).mObjectsContext
      = (status, stateAfterCalls "IFormEndWritingTask::Write" run
          (formResourcesWritten f s).mObjectsContext)) :
    (EndFormXObjectNoRelease f s).1 = status ∧
    callsOf "IFormEndWritingTask::Write" (writtenSince s (EndFormXObjectNoRelease f s).2)
      = run.map Prod.fst := by
  obtain ⟨⟨X, hX, hXc⟩, -⟩ := formResourcesWritten_quiet f s
  rw [EndFormXObjectNoRelease_queue f s q hq, hloop]
  refine ⟨rfl, ?_⟩
  have hw : writtenSince s
      { formResourcesWritten f s with
        mObjectsContext := stateAfterCalls "IFormEndWritingTask::Write" run
          (formResourcesWritten f s).mObjectsContext,
        mFormEndTasks := TaskMap.erase s.mFormEndTasks f.address }
      = X ++ callEntries "IFormEndWritingTask::Write" run
          (formResourcesWritten f s).mObjectsContext := by
    apply writtenSince_append
    simp only [stateAfterCalls_written, hX, List.append_assoc]
  rw [hw, callsOf_append, hXc, callsOf_callEntries]
  rfl

/-! ## C19: the form-end tasks -/

/-- C19: after a sequence of `RegisterFormEndWritingTask` calls of which some are for the
form `f`, `EndFormXObjectNoRelease f` runs the tasks `f` had and then the tasks registered
for `f`, and no task registered for another form, in the order of registration: all of them
when they succeed, with success as the result, and, when the first task that fails is `t`,
the tasks before `t` and `t` only, with the status of `t` as the result. Whatever the
outcome, `f` has no queue afterwards and the queues of the other forms are as they were, so
that a second `EndFormXObjectNoRelease f` runs no form-end task. -/
theorem C19_form_end_tasks (f : PDFFormXObject)
    (regs : List (PDFFormXObject × (Nat × IFormEndWritingTask))) (s : DocumentContext)
    (hreg : (formTasksRegisteredFor f.address regs).isEmpty = false) :
    TaskMap.find (EndFormXObjectNoRelease f (registerFormEndTasks regs s)).2.mFormEndTasks
      f.address = none ∧
    (∀ other, other ≠ f.address →
      TaskMap.find (EndFormXObjectNoRelease f (registerFormEndTasks regs s)).2.mFormEndTasks
        other = TaskMap.find (registerFormEndTasks regs s).mFormEndTasks other) ∧
    (callsSucceed "IFormEndWritingTask::Write"
        (formEndTaskCalls f (TaskMap.queue s.mFormEndTasks f.address
          ++ formTasksRegisteredFor f.address regs))
        (formResourcesWritten f (registerFormEndTasks regs s)).mObjectsContext = true →
      (EndFormXObjectNoRelease f (registerFormEndTasks regs s)).1 = .eSuccess ∧
      callsOf "IFormEndWritingTask::Write" (writtenSince (registerFormEndTasks regs s)
          (EndFormXObjectNoRelease f (registerFormEndTasks regs s)).2)
        = (TaskMap.queue s.mFormEndTasks f.address
            ++ formTasksRegisteredFor f.address regs).map Prod.fst) ∧
    (∀ (pre post : List (Nat × IFormEndWritingTask)) (t : Nat × IFormEndWritingTask),
      TaskMap.queue s.mFormEndTasks f.address ++ formTasksRegisteredFor f.address regs
        = pre ++ t :: post →
      callsSucceed "IFormEndWritingTask::Write" (formEndTaskCalls f pre)
        (formResourcesWritten f (registerFormEndTasks regs s)).mObjectsContext = true →
      (t.2.Write f (stateAfterCalls "IFormEndWritingTask::Write" (formEndTaskCalls f pre)
        (formResourcesWritten f (registerFormEndTasks regs s)).mObjectsContext)).status
        = .eFailure →
      (EndFormXObjectNoRelease f (registerFormEndTasks regs s)).1
        = (t.2.Write f (stateAfterCalls "IFormEndWritingTask::Write" (formEndTaskCalls f pre)
            (formResourcesWritten f (registerFormEndTasks regs s)).mObjectsContext)).status ∧
      callsOf "IFormEndWritingTask::Write" (writtenSince (registerFormEndTasks regs s)
          (EndFormXObjectNoRelease f (registerFormEndTasks regs s)).2)
        = (pre ++ [t]).map Prod.fst) ∧
    (EndFormXObjectNoRelease f
      (EndFormXObjectNoRelease f (registerFormEndTasks regs s)).2).1 = .eSuccess ∧
    callsOf "IFormEndWritingTask::Write"
      (writtenSince (EndFormXObjectNoRelease f (registerFormEndTasks regs s)).2
        (EndFormXObjectNoRelease f
          (EndFormXObjectNoRelease f (registerFormEndTasks regs s)).2).2) = [] := by
  have hfind : TaskMap.find (registerFormEndTasks regs s).mFormEndTasks f.address
      = some (TaskMap.queue s.mFormEndTasks f.address
          ++ formTasksRegisteredFor f.address regs) := by
    rw [registerFormEndTasks_find, hreg]
    rfl
  have hEnd := EndFormXObjectNoRelease_queue f (registerFormEndTasks regs s) _ hfind
  have hnone : TaskMap.find
      (EndFormXObjectNoRelease f (registerFormEndTasks regs s)).2.mFormEndTasks
      f.address = none := by
    rw [hEnd]
    exact TaskMap.find_erase_self _ _
  have hsecond := EndFormXObjectNoRelease_noQueue f
    (EndFormXObjectNoRelease f (registerFormEndTasks regs s)).2 hnone
  refine ⟨hnone, ?_, ?_, ?_, ?_, ?_⟩
  · intro other hne
    rw [hEnd]
    exact TaskMap.find_erase_other _ _ _ hne
  · intro hok
    have hloop := callWhileSuccess_all "IFormEndWritingTask::Write" _ _ hok
    have h := EndFormXObjectNoRelease_calls f (registerFormEndTasks regs s) _ _ _ hfind hloop
    rw [formEndTaskCalls_fst] at h
    exact h
  · intro pre post t hsplit hpre hfail
    have hloop := callWhileSuccess_firstFailure "IFormEndWritingTask::Write"
      (formEndTaskCalls f pre) (formEndTaskCalls f post) (t.1, t.2.Write f)
      (formResourcesWritten f (registerFormEndTasks regs s)).mObjectsContext hpre hfail
    have hcalls : formEndTaskCalls f (TaskMap.queue s.mFormEndTasks f.address
          ++ formTasksRegisteredFor f.address regs)
        = formEndTaskCalls f pre ++ (t.1, t.2.Write f) :: formEndTaskCalls f post := by
      rw [hsplit]
      simp [formEndTaskCalls]
    rw [← hcalls] at hloop
    have h := EndFormXObjectNoRelease_calls f (registerFormEndTasks regs s) _ _ _ hfind hloop
    rw [hfail]
    refine ⟨h.1, ?_⟩
    rw [h.2]
    simp [formEndTaskCalls]
  · rw [hsecond]
  · rw [hsecond]
    obtain ⟨⟨X, hX, hXc⟩, -⟩ := formResourcesWritten_quiet f
      (EndFormXObjectNoRelease f (registerFormEndTasks regs s)).2
    rw [writtenSince_append _ _ X hX]
    exact hXc

/-- C19 at three tasks registered in the order 1 (for `sampleForm`), 9 (for another form),
2 (for `sampleForm`): the end of `sampleForm` runs 1 and then 2, returns success and leaves
the queue of the other form in the registry; and at a queue of `sampleForm` whose second
task fails: the third task does not run and the result is failure. -/
theorem C19_form_end_tasks_witness :
    ((EndFormXObjectNoRelease sampleForm
        (registerFormEndTasks [(sampleForm, (1, entryFormTask "A")),
          (otherForm, (9, entryFormTask "Z")), (sampleForm, (2, entryFormTask "B"))]
          freshDocument)).1 = .eSuccess ∧
      callsOf "IFormEndWritingTask::Write" (writtenSince
        (registerFormEndTasks [(sampleForm, (1, entryFormTask "A")),
          (otherForm, (9, entryFormTask "Z")), (sampleForm, (2, entryFormTask "B"))]
          freshDocument)
        (EndFormXObjectNoRelease sampleForm
          (registerFormEndTasks [(sampleForm, (1, entryFormTask "A")),
            (otherForm, (9, entryFormTask "Z")), (sampleForm, (2, entryFormTask "B"))]
            freshDocument)).2) = [1, 2]) ∧
    ((EndFormXObjectNoRelease sampleForm
        (registerFormEndTasks [(sampleForm, (1, entryFormTask "A")),
          (sampleForm, (2, failingFormTask)), (sampleForm, (3, entryFormTask "B"))]
          freshDocument)).1 = .eFailure ∧
      callsOf "IFormEndWritingTask::Write" (writtenSince
        (registerFormEndTasks [(sampleForm, (1, entryFormTask "A")),
          (sampleForm, (2, failingFormTask)), (sampleForm, (3, entryFormTask "B"))]
          freshDocument)
        (EndFormXObjectNoRelease sampleForm
          (registerFormEndTasks [(sampleForm, (1, entryFormTask "A")),
            (sampleForm, (2, failingFormTask)), (sampleForm, (3, entryFormTask "B"))]
            freshDocument)).2) = [1, 2]) := by
  have h1 := (C19_form_end_tasks sampleForm
    [(sampleForm, (1, entryFormTask "A")), (otherForm, (9, entryFormTask "Z")),
     (sampleForm, (2, entryFormTask "B"))] freshDocument rfl).2.2.1 rfl
  have h2 := (C19_form_end_tasks sampleForm
    [(sampleForm, (1, entryFormTask "A")), (sampleForm, (2, failingFormTask)),
     (sampleForm, (3, entryFormTask "B"))] freshDocument rfl).2.2.2.1
    [(1, entryFormTask "A")] [(3, entryFormTask "B")] (2, failingFormTask) rfl rfl rfl
  exact ⟨h1, h2⟩

/-! ## C22: failure of a per-category resource callback -/

/-- C22 evaluated: a document has one extender, whose `OnResourceDictionaryWrite` fails, and
a resources dictionary with one font. The callback is called for the Font category and
fails; `WriteResourceDictionary` returns success all the same, and so does
`WriteResourcesDictionary`. An extender whose `OnResourcesWrite` fails on the same
dictionary does make `WriteResourcesDictionary` return failure. -/
theorem C22_category_callback_failure_lost :
    (WriteResourceDictionary fontResources scFonts fontResources.mFonts
      (oneExtenderDocument failingCategoryExtender)).1 = .eSuccess ∧
    (WriteResourceDictionary fontResources scFonts fontResources.mFonts
      (oneExtenderDocument failingCategoryExtender)).2.mObjectsContext.written
      = [.WriteKey "Font", .StartDictionary, .WriteKey "FN1", .WriteNewObjectReferenceValue 5,
         .External "OnResourceDictionaryWrite" 10 .eFailure [], .EndDictionary] ∧
    (WriteResourcesDictionary fontResources
      (oneExtenderDocument failingCategoryExtender)).1 = .eSuccess ∧
    (WriteResourcesDictionary fontResources
      (oneExtenderDocument failingCategoryExtender)).2.mObjectsContext.written
      = [.StartDictionary, .WriteKey "Font", .StartDictionary, .WriteKey "FN1",
         .WriteNewObjectReferenceValue 5,
         .External "OnResourceDictionaryWrite" 10 .eFailure [], .EndDictionary,
         .External "OnResourcesWrite" 10 .eSuccess [], .EndDictionary] ∧
    (WriteResourcesDictionary fontResources
      (oneExtenderDocument failingResourcesExtender)).1 = .eFailure :=
  ⟨rfl, rfl, rfl, rfl, rfl⟩

/-! ## C30: end of file after a failing cross-reference stream -/

/-- C30 evaluated: the source declares a cross-reference stream and the writer of the
stream fails. `FinalizeModifiedPDF` returns failure, and its output ends with the startxref
keyword, the offset and the end-of-file marker. With a source that declares a classic
table and a failing table writer, it returns failure and writes none of them. -/
theorem C30_eof_after_failed_xref_stream :
    statusOf (FinalizeModifiedPDF failingXrefStreamEnv xrefStreamSourceParser 13
      modifiedDocument) = some .eFailure ∧
    writtenBy (FinalizeModifiedPDF failingXrefStreamEnv xrefStreamSourceParser 13
      modifiedDocument)
      = [.External "WriteUsedFontsDefinitions" 0 .eSuccess [],
         .StartNewIndirectObject 6, .StartDictionary, .WriteKey "ModDate",
         .WriteLiteralStringValue "2012", .EndDictionary, .EndIndirectObject,
         .StartNewIndirectObject 7, .StartDictionary, .WriteKey "Type",
         .WriteNameValue "XRef", .WriteKey "Size", .WriteIntegerValue 8, .WriteKey "Prev",
         .WriteIntegerValue 500, .WriteKey "Root", .WriteObjectReferenceValue ⟨1, 0⟩,
         .WriteKey "Info", .WriteObjectReferenceValue ⟨6, 0⟩, .WriteKey "ID", .StartArray,
         .WriteHexString "0a0b", .WriteHexString "d41d8cd9", .EndArray, .EndLine,
         .WriteXrefStream .eFailure,
         .WriteKeyword "startxref", .WriteInteger 7, .FreeContextWrite scEOF] ∧
    statusOf (FinalizeModifiedPDF failingXrefTableEnv sourceParser 13 modifiedDocument)
      = some .eFailure ∧
    writtenBy (FinalizeModifiedPDF failingXrefTableEnv sourceParser 13 modifiedDocument)
      = [.External "WriteUsedFontsDefinitions" 0 .eSuccess [],
         .StartNewIndirectObject 6, .StartDictionary, .WriteKey "ModDate",
         .WriteLiteralStringValue "2012", .EndDictionary, .EndIndirectObject,
         .WriteXrefTable .eFailure] :=
  ⟨rfl, rfl, rfl, rfl⟩

/-! ## Lemmas on the temporary version extender -/

theorem insertExtender_split (addr : Nat) (e : IDocumentContextExtender)
    (l : List (Nat × IDocumentContextExtender)) (hfresh : ∀ x ∈ l, x.1 ≠ addr) :
    insertExtender addr e l = extendersBefore addr l ++ (addr, e) :: extendersAfter addr l := by
  induction l with
  | nil => rfl
  | cons x rest ih =>
    have hx : x.1 ≠ addr := hfresh x (List.mem_cons_self _ _)
    have ih2 := ih (fun y hy => hfresh y (List.mem_cons_of_mem _ hy))
    by_cases h : addr < x.1
    · have h2 : ¬ x.1 < addr := by omega
      simp [insertExtender, extendersBefore, extendersAfter, List.takeWhile, List.dropWhile,
        h, h2]
    · have h2 : x.1 < addr := by omega
      have h3 : ¬ addr = x.1 := fun h4 => hx h4.symm
      simp only [insertExtender, h, if_false, h3, extendersBefore, extendersAfter,
        List.takeWhile, List.dropWhile, h2, decide_True, List.cons_append]
      simp only [extendersBefore, extendersAfter] at ih2
      rw [ih2]

theorem filter_insertExtender (addr : Nat) (e : IDocumentContextExtender)
    (l : List (Nat × IDocumentContextExtender)) (hfresh : ∀ x ∈ l, x.1 ≠ addr) :
    (insertExtender addr e l).filter (fun x => x.1 != addr) = l := by
  induction l with
  | nil => simp [insertExtender]
  | cons x rest ih =>
    have hx : x.1 ≠ addr := hfresh x (List.mem_cons_self _ _)
    have ih2 := ih (fun y hy => hfresh y (List.mem_cons_of_mem _ hy))
    have hall : (x :: rest).filter (fun x => x.1 != addr) = x :: rest := by
      rw [List.filter_eq_self]
      intro y hy
      simp [hfresh y hy]
    by_cases h : addr < x.1
    · simp only [insertExtender, h, if_true]
      rw [List.filter_cons]
      simp only [bne_self_eq_false, Bool.false_eq_true, if_false]
      exact hall
    · have h3 : ¬ addr = x.1 := fun h4 => hx h4.symm
      simp only [insertExtender, h, if_false, h3]
      rw [List.filter_cons]
      simp [hx, ih2]


theorem WriteTrailerDictionaryValues_mExtenders (env : Collaborators) (s : DocumentContext) :
    (WriteTrailerDictionaryValues env s).2.mExtenders = s.mExtenders := by
  cases hr : s.mTrailerInformation.mRootReference with
  | none => rw [WriteTrailerDictionaryValues_noRoot env s hr]; rfl
  | some root => rw [WriteTrailerDictionaryValues_root env s root hr]; rfl

theorem finishModifiedPDF_mExtenders (env : Collaborators) (parser : PDFParser)
    (s : DocumentContext) :
    (finishModifiedPDF env parser s).2.mExtenders = s.mExtenders := by
  have hI : (WriteInfoDictionary env s).mExtenders = s.mExtenders := by
    obtain ⟨I, -, -, -, h⟩ := WriteInfoDictionary_shape env s
    exact h
  have hT : ∀ x : DocumentContext, (WriteTrailerDictionary env x).2.mExtenders = x.mExtenders := by
    intro x
    unfold WriteTrailerDictionary
    simp only [DocumentContext.write]
    rw [WriteTrailerDictionaryValues_mExtenders]
  have hX : ∀ x : DocumentContext, (WriteXrefStream env x).2.2.mExtenders = x.mExtenders := by
    intro x
    unfold WriteXrefStream
    simp only []
    split
    · rw [WriteTrailerDictionaryValues_mExtenders]; rfl
    · simp only [DocumentContext.write]
      rw [WriteTrailerDictionaryValues_mExtenders]
  rw [← hI]
  unfold finishModifiedPDF
  simp only []
  split
  · simp only [WriteFinalEOF, WriteXrefReference, DocumentContext.write]
    rw [hX]
  · split
    · rfl
    · split
      · rw [hT]; rfl
      · simp only [WriteFinalEOF, WriteXrefReference, DocumentContext.write]
        rw [hT]; rfl

theorem callsOf_of_inFinish (callee : String) (X : List Token)
    (h : X.all Token.inFinish = true) : callsOf callee X = [] := by
  induction X with
  | nil => rfl
  | cons t ts ih =>
    simp only [List.all_cons, Bool.and_eq_true] at h
    have h2 := ih h.2
    simp only [callsOf] at h2
    cases t <;> simp_all [callsOf, Token.callOf, Token.inFinish]

theorem finishModifiedPDF_calls (env : Collaborators) (parser : PDFParser)
    (s : DocumentContext) (callee : String) :
    ∃ Y, (finishModifiedPDF env parser s).2.mObjectsContext.written
        = s.mObjectsContext.written ++ Y ∧ callsOf callee Y = [] := by
  obtain ⟨I, S, hw, -, hI, hS, -⟩ := finishModifiedPDF_spec env parser s
  refine ⟨I ++ S, by rw [hw, List.append_assoc], ?_⟩
  rw [callsOf_append, callsOf_of_inFinish callee I (all_inFinish_of_inEntries hI),
    callsOf_of_inFinish callee S hS]
  rfl

theorem callWhileSuccess_append (callee : String)
    (a b : List (Nat × (ObjectsContext → ExternalWrite))) (ctx : ObjectsContext)
    (h : callsSucceed callee a ctx = true) :
    callWhileSuccess callee (a ++ b) .eSuccess ctx
      = callWhileSuccess callee b .eSuccess (stateAfterCalls callee a ctx) := by
  induction a generalizing ctx with
  | nil => simp [stateAfterCalls_nil]
  | cons c rest ih =>
    simp only [callsSucceed, Bool.and_eq_true, decide_eq_true_eq] at h
    simp only [List.cons_append, callWhileSuccess, if_true, h.1, stateAfterCalls_cons]
    exact ih _ h.2

theorem callWhileSuccess_append_failure (callee : String)
    (a b : List (Nat × (ObjectsContext → ExternalWrite))) (ctx : ObjectsContext)
    (h : callsSucceed callee a ctx = false) :
    callWhileSuccess callee (a ++ b) .eSuccess ctx
      = (.eFailure, (callWhileSuccess callee a .eSuccess ctx).2) := by
  induction a generalizing ctx with
  | nil => simp [callsSucceed] at h
  | cons c rest ih =>
    cases hc : (c.2 ctx).status with
    | eSuccess =>
      simp only [callsSucceed, hc, decide_True, Bool.true_and] at h
      simp only [List.cons_append, callWhileSuccess, if_true, hc]
      exact ih _ h
    | eFailure =>
      simp only [List.cons_append, callWhileSuccess, if_true, hc, callWhileSuccess_failure]


/-- The addresses a loop of calls records are among those of its calls. -/
theorem callWhileSuccess_calls (callee : String)
    (calls : List (Nat × (ObjectsContext → ExternalWrite))) (ctx : ObjectsContext) :
    ∃ X, (callWhileSuccess callee calls .eSuccess ctx).2.written = ctx.written ++ X ∧
      (∀ a ∈ callsOf callee X, a ∈ calls.map Prod.fst) ∧
      (∀ t ∈ X, t.isExternal = true) := by
  obtain ⟨n, hn⟩ := callWhileSuccess_prefix callee calls ctx
  refine ⟨callEntries callee (calls.take n) ctx, by rw [hn]; rfl, ?_, ?_⟩
  · intro a ha
    rw [callsOf_callEntries] at ha
    exact List.mem_of_mem_take (by rw [← List.map_take]; exact ha)
  · clear hn
    generalize calls.take n = l
    induction l generalizing ctx with
    | nil => intro t ht; cases ht
    | cons c rest ih =>
      intro t ht
      simp only [callEntries, List.mem_cons] at ht
      rcases ht with ht | ht
      · rw [ht]; rfl
      · exact ih _ t ht

theorem catalogStart_calls (callee : String) (n : Nat) (ref : ObjectReference) :
    callsOf callee (catalogStart n ref) = [] := by
  simp [callsOf, catalogStart, Token.callOf]

theorem WriteCatalogObject_mExtenders (ref : ObjectReference) (s : DocumentContext) :
    (WriteCatalogObject ref s).2.mExtenders = s.mExtenders := by
  rw [WriteCatalogObject_calls]

/-- The catalog callbacks the catalog writer records are on extenders of the set. -/
theorem WriteCatalogObject_log (ref : ObjectReference) (s : DocumentContext) :
    ∃ C, (WriteCatalogObject ref s).2.mObjectsContext.written
        = s.mObjectsContext.written ++ C ∧
      ∀ a ∈ callsOf "OnCatalogWrite" C, a ∈ s.mExtenders.map Prod.fst := by
  obtain ⟨X, hX, hcalls, -⟩ := callWhileSuccess_calls "OnCatalogWrite"
    (catalogCalls s.mCatalogInformation s.mExtenders) (catalogLoopStart ref s)
  refine ⟨catalogStart s.mObjectsContext.objectsCount ref ++ X
    ++ [.EndDictionary, .EndIndirectObject], ?_, ?_⟩
  · rw [WriteCatalogObject_calls]
    simp only []
    rw [hX]
    simp only [catalogLoopStart, List.append_assoc]
  · intro a ha
    rw [callsOf_append, callsOf_append, catalogStart_calls] at ha
    simp only [List.nil_append, List.mem_append] at ha
    rcases ha with ha | ha
    · have := hcalls a ha
      simpa [catalogCalls] using this
    · simp [callsOf, Token.callOf] at ha


/-- The catalog step of `FinalizeModifiedPDF` with the temporary version extender. -/
theorem writeCatalogOfModifiedPDF_version (env : Collaborators) (version : Nat)
    (ref : ObjectReference) (s : DocumentContext)
    (hfresh : ∀ x ∈ s.mExtenders, x.1 ≠ env.NewVersionUpdate) :
    (writeCatalogOfModifiedPDF env true version ref s).2.mExtenders = s.mExtenders ∧
    (∃ C, (writeCatalogOfModifiedPDF env true version ref s).2.mObjectsContext.written
      = s.mObjectsContext.written ++ C) ∧
    (callsSucceed "OnCatalogWrite"
        (catalogCalls s.mCatalogInformation (extendersBefore env.NewVersionUpdate s.mExtenders))
        (catalogLoopStart ref s) = true →
      versionEntry env version
        ∈ writtenSince s (writeCatalogOfModifiedPDF env true version ref s).2) ∧
    (callsSucceed "OnCatalogWrite"
        (catalogCalls s.mCatalogInformation (extendersBefore env.NewVersionUpdate s.mExtenders))
        (catalogLoopStart ref s) = false →
      (writeCatalogOfModifiedPDF env true version ref s).1 = .eFailure ∧
      catalogCallOn env.NewVersionUpdate
        (writtenSince s (writeCatalogOfModifiedPDF env true version ref s).2) = false) := by
  have hsplit := insertExtender_split env.NewVersionUpdate (VersionUpdate env version)
    s.mExtenders hfresh
  have hcalls : catalogCalls s.mCatalogInformation
      (insertExtender env.NewVersionUpdate (VersionUpdate env version) s.mExtenders)
      = catalogCalls s.mCatalogInformation (extendersBefore env.NewVersionUpdate s.mExtenders)
        ++ (env.NewVersionUpdate, (VersionUpdate env version).OnCatalogWrite
              s.mCatalogInformation)
          :: catalogCalls s.mCatalogInformation
              (extendersAfter env.NewVersionUpdate s.mExtenders) := by
    rw [hsplit]
    simp [catalogCalls]
  have hunf : writeCatalogOfModifiedPDF env true version ref s
      = ((WriteCatalogObject ref (AddDocumentContextExtender env.NewVersionUpdate
            (VersionUpdate env version) s)).1,
          RemoveDocumentContextExtender env.NewVersionUpdate
            (WriteCatalogObject ref (AddDocumentContextExtender env.NewVersionUpdate
              (VersionUpdate env version) s)).2) := by
    unfold writeCatalogOfModifiedPDF
    simp only [if_true]
  have hloop : catalogLoopStart ref (AddDocumentContextExtender env.NewVersionUpdate
      (VersionUpdate env version) s) = catalogLoopStart ref s := rfl
  rw [hunf, WriteCatalogObject_calls, hloop]
  simp only [AddDocumentContextExtender, RemoveDocumentContextExtender, hcalls]
  refine ⟨filter_insertExtender _ _ _ hfresh, ?_, ?_, ?_⟩
  · obtain ⟨X, hX, -⟩ := callWhileSuccess_calls "OnCatalogWrite"
      (catalogCalls s.mCatalogInformation (extendersBefore env.NewVersionUpdate s.mExtenders)
        ++ (env.NewVersionUpdate, (VersionUpdate env version).OnCatalogWrite
              s.mCatalogInformation)
          :: catalogCalls s.mCatalogInformation
              (extendersAfter env.NewVersionUpdate s.mExtenders)) (catalogLoopStart ref s)
    refine ⟨catalogStart s.mObjectsContext.objectsCount ref ++ X
      ++ [.EndDictionary, .EndIndirectObject], ?_⟩
    rw [hX]
    simp only [catalogLoopStart, List.append_assoc]
  · intro hpre
    rw [callWhileSuccess_append _ _ _ _ hpre]
    obtain ⟨X, hX, -⟩ := callWhileSuccess_written "OnCatalogWrite"
      (catalogCalls s.mCatalogInformation (extendersAfter env.NewVersionUpdate s.mExtenders))
      ((stateAfterCalls "OnCatalogWrite" (catalogCalls s.mCatalogInformation
          (extendersBefore env.NewVersionUpdate s.mExtenders)) (catalogLoopStart ref s)).external
        "OnCatalogWrite" env.NewVersionUpdate
        ((VersionUpdate env version).OnCatalogWrite s.mCatalogInformation
          (stateAfterCalls "OnCatalogWrite" (catalogCalls s.mCatalogInformation
            (extendersBefore env.NewVersionUpdate s.mExtenders)) (catalogLoopStart ref s))))
    rw [writtenSince_append s _ (catalogStart s.mObjectsContext.objectsCount ref
      ++ callEntries "OnCatalogWrite" (catalogCalls s.mCatalogInformation
          (extendersBefore env.NewVersionUpdate s.mExtenders)) (catalogLoopStart ref s)
      ++ [versionEntry env version] ++ X ++ [.EndDictionary, .EndIndirectObject])]
    · simp
    · simp only [callWhileSuccess, if_true]
      have hst : ((VersionUpdate env version).OnCatalogWrite s.mCatalogInformation
          (stateAfterCalls "OnCatalogWrite" (catalogCalls s.mCatalogInformation
            (extendersBefore env.NewVersionUpdate s.mExtenders))
            (catalogLoopStart ref s))).status = .eSuccess := rfl
      rw [hst, hX]
      simp [ObjectsContext.external, stateAfterCalls, catalogLoopStart, versionEntry,
        VersionUpdate]
  · intro hpre
    rw [callWhileSuccess_append_failure _ _ _ _ hpre]
    refine ⟨rfl, ?_⟩
    obtain ⟨X, hX, hc, -⟩ := callWhileSuccess_calls "OnCatalogWrite"
      (catalogCalls s.mCatalogInformation (extendersBefore env.NewVersionUpdate s.mExtenders))
      (catalogLoopStart ref s)
    rw [writtenSince_append s _ (catalogStart s.mObjectsContext.objectsCount ref
      ++ X ++ [.EndDictionary, .EndIndirectObject])]
    · simp only [catalogCallOn, callsOf_append, catalogStart_calls, List.nil_append]
      have hend : callsOf "OnCatalogWrite" [Token.EndDictionary, Token.EndIndirectObject]
          = [] := rfl
      rw [hend, List.append_nil]
      cases hcon : (callsOf "OnCatalogWrite" X).contains env.NewVersionUpdate with
      | false => rfl
      | true =>
        exfalso
        have hm : env.NewVersionUpdate ∈ callsOf "OnCatalogWrite" X := by
          simpa using hcon
        have hm2 := hc _ hm
        simp only [catalogCalls, List.map_map, List.mem_map] at hm2
        obtain ⟨x, hx, hxe⟩ := hm2
        have hx2 : x ∈ s.mExtenders := ( List.takeWhile_prefix _).subset hx
        exact hfresh x hx2 hxe
    · rw [hX]
      simp only [catalogLoopStart, List.append_assoc]

theorem callsOf_of_inPagesObject (callee : String) (X : List Token)
    (h : X.all Token.inPagesObject = true) : callsOf callee X = [] := by
  induction X with
  | nil => rfl
  | cons t ts ih =>
    simp only [List.all_cons, Bool.and_eq_true] at h
    have h2 := ih h.2
    simp only [callsOf] at h2
    cases t <;> simp_all [callsOf, Token.callOf, Token.inPagesObject]

theorem callsOf_postOrder (callee : String) (t : PageTree) :
    callsOf callee t.postOrder = [] := by
  rw [PageTree.postOrder_nodes]
  exact callsOf_of_inPagesObject callee _ (framesOf_inPagesObject _)

theorem callsOf_copiedEntries (callee : String) (d : PDFDictionary) :
    callsOf callee (copiedEntries d) = [] := by
  induction d with
  | nil => rfl
  | cons e es ih =>
    simp only [callsOf] at ih
    by_cases h : e.1 = "Parent" <;> simp [copiedEntries, h, ih, callsOf, Token.callOf]

theorem GetPageTreeRoot_mExtenders (s : DocumentContext) :
    (GetPageTreeRoot s).2.mExtenders = s.mExtenders := by
  unfold GetPageTreeRoot
  cases s.mCatalogInformation.mPageTree <;> rfl

theorem WritePagesTree_mExtenders (s : DocumentContext) :
    (WritePagesTree s).mExtenders = s.mExtenders := by
  unfold WritePagesTree
  exact GetPageTreeRoot_mExtenders s

/-- The splice writes no callback and leaves the extenders as they are. -/
theorem WriteCombinedPageTree_calls (env : Collaborators) (parser : PDFParser)
    (s : DocumentContext) (c : Nat × DocumentContext) (callee : String)
    (h : WriteCombinedPageTree env parser s = some c) :
    c.2.mExtenders = s.mExtenders ∧
    ∃ B, c.2.mObjectsContext.written = s.mObjectsContext.written ++ B ∧
      callsOf callee B = [] := by
  have hE := GetPageTreeRoot_mExtenders { s with
    mObjectsContext := s.mObjectsContext.AllocateNewObjectID.2 }
  rw [WriteCombinedPageTree_unfold] at h
  cases ho : GetOriginalDocumentPageTreeRoot parser with
  | none => simp [ho] at h
  | some original =>
    simp only [ho] at h
    cases hp : parser.ParseNewObject original.ObjectID with
    | none => simp [hp] at h
    | some obj =>
      cases obj with
      | dictionary entries =>
        simp only [hp] at h
        cases hc : env.CopyingContextStart parser with
        | eFailure =>
          simp only [hc, ne_eq, reduceCtorEq, not_false_eq_true, if_true,
            Option.some.injEq] at h
          subst h
          refine ⟨hE, _, rfl, ?_⟩
          rw [callsOf_append, callsOf_postOrder]
          rfl
        | eSuccess =>
          simp only [hc, ne_eq, not_true_eq_false, if_false, Option.some.injEq] at h
          subst h
          refine ⟨hE, _, rfl, ?_⟩
          simp only [callsOf_append, callsOf_postOrder, rewrittenOriginalRoot, spliceRoot,
            callsOf_copiedEntries, List.nil_append, List.append_nil]
          rfl
      | _ => simp [hp] at h

theorem catalogCallOn_append (addr : Nat) (a b : List Token) :
    catalogCallOn addr (a ++ b) = (catalogCallOn addr a || catalogCallOn addr b) := by
  simp only [catalogCallOn, callsOf_append]
  cases h1 : (callsOf "OnCatalogWrite" a).contains addr <;>
  cases h2 : (callsOf "OnCatalogWrite" b).contains addr <;>
    simp_all [List.contains_iff_exists_mem_beq]

theorem catalogCallOn_of_nil (addr : Nat) (a : List Token)
    (h : callsOf "OnCatalogWrite" a = []) : catalogCallOn addr a = false := by
  simp [catalogCallOn, h]

theorem catalogCallOn_of_extenders (addr : Nat) (a : List Token)
    (l : List (Nat × IDocumentContextExtender)) (hfresh : ∀ x ∈ l, x.1 ≠ addr)
    (h : ∀ n ∈ callsOf "OnCatalogWrite" a, n ∈ l.map Prod.fst) :
    catalogCallOn addr a = false := by
  cases hcon : catalogCallOn addr a with
  | false => rfl
  | true =>
    exfalso
    have hm : addr ∈ callsOf "OnCatalogWrite" a := by
      simpa [catalogCallOn] using hcon
    have hm2 := h _ hm
    simp only [List.mem_map] at hm2
    obtain ⟨x, hx, hxe⟩ := hm2
    exact hfresh x hx hxe

/-- From the catalog decision on: the extenders are restored, the version extender is not
called when the target version is not higher, and it has written its entry when it is
higher and the result is success. -/
theorem finalizeFromCatalog_version (env : Collaborators) (parser : PDFParser)
    (version : Nat) (hasNew : Bool) (ref : ObjectReference) (s : DocumentContext)
    (hfresh : ∀ x ∈ s.mExtenders, x.1 ≠ env.NewVersionUpdate) :
    (finalizeFromCatalog env parser version hasNew ref s).2.mExtenders = s.mExtenders ∧
    ∃ X, (finalizeFromCatalog env parser version hasNew ref s).2.mObjectsContext.written
        = s.mObjectsContext.written ++ X ∧
      (IsRequiredVersionHigherThanPDFVersion parser version = false →
        catalogCallOn env.NewVersionUpdate X = false) ∧
      (IsRequiredVersionHigherThanPDFVersion parser version = true →
        (finalizeFromCatalog env parser version hasNew ref s).1 = .eSuccess →
        versionEntry env version ∈ X) := by
  have hfin : ∀ x : DocumentContext, ∃ Y,
      (finishModifiedPDF env parser x).2.mObjectsContext.written
        = x.mObjectsContext.written ++ Y ∧ catalogCallOn env.NewVersionUpdate Y = false := by
    intro x
    obtain ⟨Y, hY, hc⟩ := finishModifiedPDF_calls env parser x "OnCatalogWrite"
    exact ⟨Y, hY, catalogCallOn_of_nil _ _ hc⟩
  unfold finalizeFromCatalog
  simp only []
  split
  · -- a catalog is written
    cases hb : IsRequiredVersionHigherThanPDFVersion parser version with
    | false =>
      have hunf : writeCatalogOfModifiedPDF env false version ref s
          = ((WriteCatalogObject ref s).1, (WriteCatalogObject ref s).2) := by
        unfold writeCatalogOfModifiedPDF
        simp
      obtain ⟨C, hC, hcalls⟩ := WriteCatalogObject_log ref s
      have hCno := catalogCallOn_of_extenders env.NewVersionUpdate C s.mExtenders hfresh hcalls
      rw [hunf]
      split
      · refine ⟨WriteCatalogObject_mExtenders ref s, C, hC, fun _ => hCno, ?_⟩
        intro h
        cases h
      · obtain ⟨Y, hY, hYno⟩ := hfin (WriteCatalogObject ref s).2
        refine ⟨by rw [finishModifiedPDF_mExtenders, WriteCatalogObject_mExtenders],
          C ++ Y, by rw [hY, hC, List.append_assoc], fun _ => ?_, ?_⟩
        · rw [catalogCallOn_append, hCno, hYno]
          rfl
        · intro h
          cases h
    | true =>
      obtain ⟨hE, ⟨C, hC⟩, hyes, hno⟩ := writeCatalogOfModifiedPDF_version env version ref s
        hfresh
      split
      · rename_i hfail
        refine ⟨hE, C, hC, ?_, fun _ hs => absurd hs hfail⟩
        intro h
        cases h
      · rename_i hok
        simp only [ne_eq, not_not] at hok
        obtain ⟨Y, hY, -⟩ := hfin (writeCatalogOfModifiedPDF env true version ref s).2
        refine ⟨by rw [finishModifiedPDF_mExtenders, hE], C ++ Y,
          by rw [hY, hC, List.append_assoc], ?_, fun _ _ => ?_⟩
        · intro h
          cases h
        have hpre : callsSucceed "OnCatalogWrite"
            (catalogCalls s.mCatalogInformation
              (extendersBefore env.NewVersionUpdate s.mExtenders))
            (catalogLoopStart ref s) = true := by
          cases hcs : callsSucceed "OnCatalogWrite"
            (catalogCalls s.mCatalogInformation
              (extendersBefore env.NewVersionUpdate s.mExtenders))
            (catalogLoopStart ref s) with
          | true => rfl
          | false =>
            have := (hno hcs).1
            rw [hok] at this
            cases this
        have hmem := hyes hpre
        rw [writtenSince_append s _ C hC] at hmem
        exact List.mem_append_left _ hmem
  · -- no catalog is written
    rename_i hD
    obtain ⟨Y, hY, hYno⟩ := hfin s
    refine ⟨finishModifiedPDF_mExtenders env parser s, Y, hY, fun _ => hYno, fun hb _ => ?_⟩
    rw [hb] at hD
    simp at hD
/-- The whole of `FinalizeModifiedPDF`: the extenders are restored, the version extender is
not called when the target version is not higher, and it has written its entry when it is
higher and the result is success. -/
theorem FinalizeModifiedPDF_version (env : Collaborators) (parser : PDFParser)
    (version : Nat) (s : DocumentContext) (r : EStatusCode × DocumentContext)
    (hfresh : ∀ x ∈ s.mExtenders, x.1 ≠ env.NewVersionUpdate)
    (h : FinalizeModifiedPDF env parser version s = some r) :
    r.2.mExtenders = s.mExtenders ∧
    ∃ X, r.2.mObjectsContext.written = s.mObjectsContext.written ++ X ∧
      (IsRequiredVersionHigherThanPDFVersion parser version = false →
        catalogCallOn env.NewVersionUpdate X = false) ∧
      (IsRequiredVersionHigherThanPDFVersion parser version = true →
        r.1 = .eSuccess → versionEntry env version ∈ X) := by
  have hfw := WriteUsedFontsDefinitions_written env s
  have hfc : catalogCallOn env.NewVersionUpdate
      [Token.External "WriteUsedFontsDefinitions" 0
        (env.WriteUsedFontsDefinitions s.mObjectsContext).status
        (env.WriteUsedFontsDefinitions s.mObjectsContext).tokens] = false := rfl
  -- the three branches that end in the catalog decision
  have key : ∀ (hasNew : Bool) (ref : ObjectReference) (s1 : DocumentContext)
      (B1 : List Token),
      s1.mExtenders = s.mExtenders →
      s1.mObjectsContext.written = s.mObjectsContext.written ++ B1 →
      catalogCallOn env.NewVersionUpdate B1 = false →
      r = finalizeFromCatalog env parser version hasNew ref s1 →
      r.2.mExtenders = s.mExtenders ∧
      ∃ X, r.2.mObjectsContext.written = s.mObjectsContext.written ++ X ∧
        (IsRequiredVersionHigherThanPDFVersion parser version = false →
          catalogCallOn env.NewVersionUpdate X = false) ∧
        (IsRequiredVersionHigherThanPDFVersion parser version = true →
          r.1 = .eSuccess → versionEntry env version ∈ X) := by
    intro hasNew ref s1 B1 hE hw hB hr
    obtain ⟨hE2, X, hX, hno, hyes⟩ := finalizeFromCatalog_version env parser version hasNew
      ref s1 (by rw [hE]; exact hfresh)
    rw [hr]
    refine ⟨by rw [hE2, hE], B1 ++ X, by rw [hX, hw, List.append_assoc], fun hb => ?_,
      fun hb hs => List.mem_append_right _ (hyes hb hs)⟩
    rw [catalogCallOn_append, hB, hno hb]
    rfl
  unfold FinalizeModifiedPDF at h
  simp only [] at h
  split at h
  · -- the used fonts could not be written
    rename_i hf
    simp only [Option.some.injEq] at h
    subst h
    exact ⟨rfl, _, hfw, fun _ => hfc, fun _ hs => absurd hs hf⟩
  · cases ho : GetOriginalDocumentPageTreeRoot parser with
    | none => simp [ho] at h
    | some original =>
      simp only [ho] at h
      split at h
      · split at h
        · -- splice
          cases hc : WriteCombinedPageTree env parser (WriteUsedFontsDefinitions env s).2 with
          | none => simp [hc] at h
          | some c =>
            simp only [hc] at h
            obtain ⟨hcE, B, hB, hBc⟩ := WriteCombinedPageTree_calls env parser _ c
              "OnCatalogWrite" hc
            have hB1 : catalogCallOn env.NewVersionUpdate
                ([Token.External "WriteUsedFontsDefinitions" 0
                  (env.WriteUsedFontsDefinitions s.mObjectsContext).status
                  (env.WriteUsedFontsDefinitions s.mObjectsContext).tokens] ++ B) = false := by
              rw [catalogCallOn_append, hfc, catalogCallOn_of_nil _ _ hBc]
              rfl
            have hw1 : c.2.mObjectsContext.written = s.mObjectsContext.written
                ++ ([Token.External "WriteUsedFontsDefinitions" 0
                  (env.WriteUsedFontsDefinitions s.mObjectsContext).status
                  (env.WriteUsedFontsDefinitions s.mObjectsContext).tokens] ++ B) := by
              rw [hB, hfw, List.append_assoc]
            split at h
            · simp only [Option.some.injEq] at h
              subst h
              refine ⟨hcE, _, hw1, fun _ => hB1, fun _ hs => ?_⟩
              cases hs
            · simp only [Option.some.injEq] at h
              exact key true _ c.2 _ hcE hw1 hB1 h.symm
        · -- a new pages tree without an original root
          simp only [Option.some.injEq] at h
          have hw1 : (GetPageTreeRoot (WritePagesTree
              (WriteUsedFontsDefinitions env s).2)).2.mObjectsContext.written
              = s.mObjectsContext.written
                ++ ([Token.External "WriteUsedFontsDefinitions" 0
                  (env.WriteUsedFontsDefinitions s.mObjectsContext).status
                  (env.WriteUsedFontsDefinitions s.mObjectsContext).tokens]
                  ++ (GetPageTreeRoot (WriteUsedFontsDefinitions env s).2).1.postOrder) := by
            rw [GetPageTreeRoot_written, WritePagesTree_written, hfw, List.append_assoc]
          refine key true _ (GetPageTreeRoot (WritePagesTree
            (WriteUsedFontsDefinitions env s).2)).2 _ ?_ hw1 ?_ h.symm
          · rw [GetPageTreeRoot_mExtenders, WritePagesTree_mExtenders]
            rfl
          · rw [catalogCallOn_append, hfc, catalogCallOn_of_nil _ _ (callsOf_postOrder _ _)]
            rfl
      · -- no new pages
        simp only [Option.some.injEq] at h
        exact key false _ (WriteUsedFontsDefinitions env s).2 _ rfl hfw hfc h.symm
theorem failedCallsOf_append (callee : String) (a b : List Token) :
    failedCallsOf callee (a ++ b) = failedCallsOf callee a ++ failedCallsOf callee b := by
  simp [failedCallsOf, List.filterMap_append]

theorem failedCallsOf_subset (callee : String) (X : List Token) :
    ∀ a ∈ failedCallsOf callee X, a ∈ callsOf callee X := by
  intro a ha
  simp only [failedCallsOf, List.mem_filterMap] at ha
  obtain ⟨t, ht, hta⟩ := ha
  simp only [callsOf, List.mem_filterMap]
  refine ⟨t, ht, ?_⟩
  cases t with
  | External c id status w =>
    simp only [Token.failedCallOf] at hta
    split at hta
    · rename_i hc
      simp only [Token.callOf, hc.1, if_true]
      exact hta
    · cases hta
  | _ => simp [Token.failedCallOf] at hta

theorem failedCallsOf_of_nil (callee : String) (X : List Token)
    (h : callsOf callee X = []) : failedCallsOf callee X = [] := by
  cases hf : failedCallsOf callee X with
  | nil => rfl
  | cons a rest =>
    have := failedCallsOf_subset callee X a (by rw [hf]; exact List.mem_cons_self _ _)
    rw [h] at this
    cases this

theorem failedCallsOf_callEntries (callee : String)
    (calls : List (Nat × (ObjectsContext → ExternalWrite))) (ctx : ObjectsContext)
    (h : callsSucceed callee calls ctx = true) :
    failedCallsOf callee (callEntries callee calls ctx) = [] := by
  induction calls generalizing ctx with
  | nil => rfl
  | cons c rest ih =>
    simp only [callsSucceed, Bool.and_eq_true, decide_eq_true_eq] at h
    have := ih _ h.2
    simp only [failedCallsOf] at this ⊢
    simp only [callEntries, List.filterMap_cons, Token.failedCallOf, h.1, ne_eq,
      not_true_eq_false, and_false, if_false, this]

/-- A loop of calls one of which fails records a failed call on one of its objects. -/
theorem callWhileSuccess_failedCall (callee : String)
    (calls : List (Nat × (ObjectsContext → ExternalWrite))) (ctx : ObjectsContext)
    (h : callsSucceed callee calls ctx = false) :
    ∃ X, (callWhileSuccess callee calls .eSuccess ctx).2.written = ctx.written ++ X ∧
      (∀ a ∈ callsOf callee X, a ∈ calls.map Prod.fst) ∧
      ∃ a ∈ failedCallsOf callee X, a ∈ calls.map Prod.fst := by
  induction calls generalizing ctx with
  | nil => simp [callsSucceed] at h
  | cons c rest ih =>
    cases hc : (c.2 ctx).status with
    | eSuccess =>
      simp only [callsSucceed, hc, decide_True, Bool.true_and] at h
      obtain ⟨X, hX, hsub, a, ha, hmem⟩ := ih _ h
      refine ⟨Token.External callee c.1 (c.2 ctx).status (c.2 ctx).tokens :: X, ?_, ?_,
        a, ?_, ?_⟩
      · simp only [callWhileSuccess, if_true]
        rw [hc, hX]
        simp [ObjectsContext.external, hc]
      · intro b hb
        simp only [callsOf, List.filterMap_cons, Token.callOf, if_true, List.mem_cons] at hb
        rcases hb with hb | hb
        · simp [hb]
        · exact List.mem_cons_of_mem _ (hsub b hb)
      · simp only [failedCallsOf, List.filterMap_cons, Token.failedCallOf, hc, ne_eq,
          not_true_eq_false, and_false, if_false]
        exact ha
      · exact List.mem_cons_of_mem _ hmem
    | eFailure =>
      refine ⟨[Token.External callee c.1 (c.2 ctx).status (c.2 ctx).tokens], ?_, ?_,
        c.1, ?_, ?_⟩
      · simp only [callWhileSuccess, if_true]
        rw [hc, callWhileSuccess_failure]
        simp [ObjectsContext.external, hc]
      · intro b hb
        simp only [callsOf, List.filterMap_cons, Token.callOf, if_true, List.filterMap_nil,
          List.mem_singleton] at hb
        simp [hb]
      · simp [failedCallsOf, Token.failedCallOf, hc]
      · simp

theorem extendersBefore_lt (addr : Nat) (l : List (Nat × IDocumentContextExtender)) :
    ∀ x ∈ extendersBefore addr l, x.1 < addr := by
  intro x hx
  have := List.mem_takeWhile_imp hx
  simpa using this

theorem extendersAfter_not_lt (addr : Nat) (l : List (Nat × IDocumentContextExtender))
    (hsorted : l.Pairwise (fun a b => a.1 < b.1)) :
    ∀ x ∈ extendersAfter addr l, ¬ x.1 < addr := by
  induction l with
  | nil => intro x hx; cases hx
  | cons y rest ih =>
    rw [List.pairwise_cons] at hsorted
    by_cases hy : y.1 < addr
    · have : extendersAfter addr (y :: rest) = extendersAfter addr rest := by
        simp [extendersAfter, List.dropWhile, hy]
      rw [this]
      exact ih hsorted.2
    · have : extendersAfter addr (y :: rest) = y :: rest := by
        simp [extendersAfter, List.dropWhile, hy]
      rw [this]
      intro x hx
      rcases List.mem_cons.1 hx with hx | hx
      · rw [hx]; exact hy
      · have := hsorted.1 x hx
        omega

theorem versionEntry_not_mem (env : Collaborators) (version : Nat) (X : List Token)
    (h : catalogCallOn env.NewVersionUpdate X = false) : versionEntry env version ∉ X := by
  intro hm
  have : env.NewVersionUpdate ∈ callsOf "OnCatalogWrite" X := by
    simp only [callsOf, List.mem_filterMap]
    exact ⟨_, hm, by simp [versionEntry, Token.callOf]⟩
  simp only [catalogCallOn] at h
  have h2 : (callsOf "OnCatalogWrite" X).contains env.NewVersionUpdate = true := by
    simpa using this
  rw [h] at h2
  cases h2

theorem catalogCallFailedBelow_append (addr : Nat) (a b : List Token) :
    catalogCallFailedBelow addr (a ++ b)
      = (catalogCallFailedBelow addr a || catalogCallFailedBelow addr b) := by
  simp [catalogCallFailedBelow, failedCallsOf_append, List.any_append]

theorem catalogCallFailedBelow_of_nil (addr : Nat) (a : List Token)
    (h : callsOf "OnCatalogWrite" a = []) : catalogCallFailedBelow addr a = false := by
  simp [catalogCallFailedBelow, failedCallsOf_of_nil _ _ h]

/-- The catalog step of `FinalizeModifiedPDF` with the temporary version extender: a catalog
object is written, and the version extender has written its entry exactly when the log
records no failed catalog callback on an extender that comes before it. -/
theorem writeCatalogOfModifiedPDF_versionKey (env : Collaborators) (version : Nat)
    (ref : ObjectReference) (s : DocumentContext)
    (hfresh : ∀ x ∈ s.mExtenders, x.1 ≠ env.NewVersionUpdate)
    (hsorted : s.mExtenders.Pairwise (fun a b => a.1 < b.1)) :
    ∃ C, (writeCatalogOfModifiedPDF env true version ref s).2.mObjectsContext.written
        = s.mObjectsContext.written ++ C ∧
      C.any (Token.isName scCatalog) = true ∧
      (versionEntry env version ∈ C ↔
        catalogCallFailedBelow env.NewVersionUpdate C = false) := by
  have hsplit := insertExtender_split env.NewVersionUpdate (VersionUpdate env version)
    s.mExtenders hfresh
  have hcalls : catalogCalls s.mCatalogInformation
      (insertExtender env.NewVersionUpdate (VersionUpdate env version) s.mExtenders)
      = catalogCalls s.mCatalogInformation (extendersBefore env.NewVersionUpdate s.mExtenders)
        ++ (env.NewVersionUpdate, (VersionUpdate env version).OnCatalogWrite
              s.mCatalogInformation)
          :: catalogCalls s.mCatalogInformation
              (extendersAfter env.NewVersionUpdate s.mExtenders) := by
    rw [hsplit]
    simp [catalogCalls]
  have hunf : writeCatalogOfModifiedPDF env true version ref s
      = ((WriteCatalogObject ref (AddDocumentContextExtender env.NewVersionUpdate
            (VersionUpdate env version) s)).1,
          RemoveDocumentContextExtender env.NewVersionUpdate
            (WriteCatalogObject ref (AddDocumentContextExtender env.NewVersionUpdate
              (VersionUpdate env version) s)).2) := by
    unfold writeCatalogOfModifiedPDF
    simp only [if_true]
  have hloop : catalogLoopStart ref (AddDocumentContextExtender env.NewVersionUpdate
      (VersionUpdate env version) s) = catalogLoopStart ref s := rfl
  have hstart : failedCallsOf "OnCatalogWrite"
      (catalogStart s.mObjectsContext.objectsCount ref) = [] :=
    failedCallsOf_of_nil _ _ (catalogStart_calls _ _ _)
  have hend : failedCallsOf "OnCatalogWrite" [Token.EndDictionary, Token.EndIndirectObject]
      = [] := rfl
  rw [hunf, WriteCatalogObject_calls, hloop]
  simp only [AddDocumentContextExtender, RemoveDocumentContextExtender, hcalls]
  cases hpre : callsSucceed "OnCatalogWrite"
      (catalogCalls s.mCatalogInformation (extendersBefore env.NewVersionUpdate s.mExtenders))
      (catalogLoopStart ref s) with
  | true =>
    rw [callWhileSuccess_append _ _ _ _ hpre]
    obtain ⟨X, hX, hsub, -⟩ := callWhileSuccess_calls "OnCatalogWrite"
      (catalogCalls s.mCatalogInformation (extendersAfter env.NewVersionUpdate s.mExtenders))
      ((stateAfterCalls "OnCatalogWrite" (catalogCalls s.mCatalogInformation
          (extendersBefore env.NewVersionUpdate s.mExtenders)) (catalogLoopStart ref s)).external
        "OnCatalogWrite" env.NewVersionUpdate
        ((VersionUpdate env version).OnCatalogWrite s.mCatalogInformation
          (stateAfterCalls "OnCatalogWrite" (catalogCalls s.mCatalogInformation
            (extendersBefore env.NewVersionUpdate s.mExtenders)) (catalogLoopStart ref s))))
    have hst : ((VersionUpdate env version).OnCatalogWrite s.mCatalogInformation
        (stateAfterCalls "OnCatalogWrite" (catalogCalls s.mCatalogInformation
          (extendersBefore env.NewVersionUpdate s.mExtenders))
          (catalogLoopStart ref s))).status = .eSuccess := rfl
    have hXno : ∀ a ∈ failedCallsOf "OnCatalogWrite" X, ¬ a < env.NewVersionUpdate := by
      intro a ha
      have h1 := hsub a (failedCallsOf_subset _ _ a ha)
      simp only [catalogCalls, List.map_map, List.mem_map] at h1
      obtain ⟨x, hx, hxa⟩ := h1
      have := extendersAfter_not_lt env.NewVersionUpdate s.mExtenders hsorted x hx
      simp only [Function.comp] at hxa
      rw [← hxa]
      exact this
    refine ⟨catalogStart s.mObjectsContext.objectsCount ref
      ++ (callEntries "OnCatalogWrite" (catalogCalls s.mCatalogInformation
          (extendersBefore env.NewVersionUpdate s.mExtenders)) (catalogLoopStart ref s)
        ++ [versionEntry env version] ++ X) ++ [.EndDictionary, .EndIndirectObject],
      ?_, catalogStart_any _ _ _ _, ?_⟩
    · simp only [callWhileSuccess, if_true]
      rw [hst, hX]
      simp [ObjectsContext.external, stateAfterCalls, catalogLoopStart, versionEntry,
        VersionUpdate]
    · refine ⟨fun _ => ?_, fun _ => by simp⟩
      simp only [catalogCallFailedBelow, failedCallsOf_append, hstart, hend,
        failedCallsOf_callEntries _ _ _ hpre, List.nil_append, List.append_nil]
      have hv : failedCallsOf "OnCatalogWrite" [versionEntry env version] = [] := rfl
      rw [hv, List.nil_append, List.any_eq_false]
      intro a ha
      simpa using hXno a ha
  | false =>
    rw [callWhileSuccess_append_failure _ _ _ _ hpre]
    obtain ⟨X, hX, hsub, a, ha, hmem⟩ := callWhileSuccess_failedCall "OnCatalogWrite"
      (catalogCalls s.mCatalogInformation (extendersBefore env.NewVersionUpdate s.mExtenders))
      (catalogLoopStart ref s) hpre
    have hlow : ∀ b ∈ (catalogCalls s.mCatalogInformation
        (extendersBefore env.NewVersionUpdate s.mExtenders)).map Prod.fst,
        b < env.NewVersionUpdate := by
      intro b hb
      simp only [catalogCalls, List.map_map, List.mem_map] at hb
      obtain ⟨x, hx, hxb⟩ := hb
      simp only [Function.comp] at hxb
      rw [← hxb]
      exact extendersBefore_lt _ _ x hx
    refine ⟨catalogStart s.mObjectsContext.objectsCount ref ++ X
      ++ [.EndDictionary, .EndIndirectObject], ?_, catalogStart_any _ _ _ _, ?_⟩
    · simp only []
      rw [hX]
      simp only [catalogLoopStart, List.append_assoc]
    · have hfail : catalogCallFailedBelow env.NewVersionUpdate
          (catalogStart s.mObjectsContext.objectsCount ref ++ X
            ++ [Token.EndDictionary, Token.EndIndirectObject]) = true := by
        simp only [catalogCallFailedBelow, failedCallsOf_append, hstart, hend,
          List.nil_append, List.append_nil, List.any_eq_true]
        exact ⟨a, ha, by simpa using hlow a hmem⟩
      have hnot : versionEntry env version ∉ catalogStart s.mObjectsContext.objectsCount ref
          ++ X ++ [Token.EndDictionary, Token.EndIndirectObject] := by
        apply versionEntry_not_mem
        simp only [catalogCallOn, callsOf_append, catalogStart_calls, List.nil_append]
        have hend2 : callsOf "OnCatalogWrite" [Token.EndDictionary, Token.EndIndirectObject]
            = [] := rfl
        rw [hend2, List.append_nil]
        cases hcon : (callsOf "OnCatalogWrite" X).contains env.NewVersionUpdate with
        | false => rfl
        | true =>
          exfalso
          have hm : env.NewVersionUpdate ∈ callsOf "OnCatalogWrite" X := by
            simpa using hcon
          exact absurd (hlow _ (hsub _ hm)) (by omega)
      rw [hfail]
      exact ⟨fun h => absurd h hnot, fun h => by cases h⟩

theorem copiedEntries_any_name (value : String) (d : PDFDictionary) :
    (copiedEntries d).any (Token.isName value) = false := by
  induction d with
  | nil => rfl
  | cons e es ih =>
    by_cases h : e.1 = "Parent" <;> simp [copiedEntries, h, ih, Token.isName]

theorem postOrder_any_catalog (t : PageTree) :
    t.postOrder.any (Token.isName scCatalog) = false := by
  rw [PageTree.postOrder_nodes]
  exact any_false_of_all (framesOf_inPagesObject _) (fun t ht => (inPagesObject_marks t ht).1)

/-- The splice writes no catalog and calls no extender back. -/
theorem WriteCombinedPageTree_noCatalog (env : Collaborators) (parser : PDFParser)
    (s : DocumentContext) (c : Nat × DocumentContext)
    (h : WriteCombinedPageTree env parser s = some c) :
    ∃ B, c.2.mObjectsContext.written = s.mObjectsContext.written ++ B ∧
      callsOf "OnCatalogWrite" B = [] ∧ B.any (Token.isName scCatalog) = false := by
  obtain ⟨-, B, hB, hcalls⟩ := WriteCombinedPageTree_calls env parser s c "OnCatalogWrite" h
  refine ⟨B, hB, hcalls, ?_⟩
  rw [WriteCombinedPageTree_unfold] at h
  cases ho : GetOriginalDocumentPageTreeRoot parser with
  | none => simp [ho] at h
  | some original =>
    simp only [ho] at h
    cases hp : parser.ParseNewObject original.ObjectID with
    | none => simp [hp] at h
    | some obj =>
      cases obj with
      | dictionary entries =>
        simp only [hp] at h
        cases hc : env.CopyingContextStart parser with
        | eFailure =>
          simp only [hc, ne_eq, reduceCtorEq, not_false_eq_true, if_true,
            Option.some.injEq] at h
          subst h
          have hB2 := List.append_cancel_left hB
          rw [← hB2, List.any_append, postOrder_any_catalog]
          rfl
        | eSuccess =>
          simp only [hc, ne_eq, not_true_eq_false, if_false, Option.some.injEq] at h
          subst h
          have hB2 := List.append_cancel_left hB
          rw [← hB2]
          simp only [List.any_append, postOrder_any_catalog, rewrittenOriginalRoot,
            copiedEntries_any_name, Bool.false_or]
          rfl
      | _ => simp [hp] at h

/-- From the catalog decision on, with a target version higher than the one of the source:
a catalog object is written, and the version extender has written its entry exactly when
the log records no failed catalog callback on an extender that comes before it. -/
theorem finalizeFromCatalog_versionKey (env : Collaborators) (parser : PDFParser)
    (version : Nat) (hasNew : Bool) (ref : ObjectReference) (s : DocumentContext)
    (hfresh : ∀ x ∈ s.mExtenders, x.1 ≠ env.NewVersionUpdate)
    (hsorted : s.mExtenders.Pairwise (fun a b => a.1 < b.1))
    (hb : IsRequiredVersionHigherThanPDFVersion parser version = true) :
    ∃ X, (finalizeFromCatalog env parser version hasNew ref s).2.mObjectsContext.written
        = s.mObjectsContext.written ++ X ∧
      X.any (Token.isName scCatalog) = true ∧
      (versionEntry env version ∈ X ↔
        catalogCallFailedBelow env.NewVersionUpdate X = false) := by
  obtain ⟨C, hC, hcat, hiff⟩ := writeCatalogOfModifiedPDF_versionKey env version ref s hfresh
    hsorted
  unfold finalizeFromCatalog
  simp only [hb, Bool.or_true, Bool.true_or, if_true]
  split
  · exact ⟨C, hC, hcat, hiff⟩
  · obtain ⟨Y, hY, hYc⟩ := finishModifiedPDF_calls env parser
      (writeCatalogOfModifiedPDF env true version ref s).2 "OnCatalogWrite"
    refine ⟨C ++ Y, by rw [hY, hC, List.append_assoc], by rw [List.any_append, hcat]; rfl, ?_⟩
    rw [catalogCallFailedBelow_append, catalogCallFailedBelow_of_nil _ _ hYc, Bool.or_false,
      ← hiff, List.mem_append]
    exact ⟨fun h => h.elim id (fun h2 => absurd h2
      (versionEntry_not_mem env version Y (catalogCallOn_of_nil _ _ hYc))), Or.inl⟩

/-- The whole of `FinalizeModifiedPDF` with a target version higher than the one of the
source: the version extender has written its entry exactly when a catalog object is written
and the log records no failed catalog callback on an extender that comes before it. -/
theorem FinalizeModifiedPDF_versionKey (env : Collaborators) (parser : PDFParser)
    (version : Nat) (s : DocumentContext) (r : EStatusCode × DocumentContext)
    (hfresh : ∀ x ∈ s.mExtenders, x.1 ≠ env.NewVersionUpdate)
    (hsorted : s.mExtenders.Pairwise (fun a b => a.1 < b.1))
    (hb : IsRequiredVersionHigherThanPDFVersion parser version = true)
    (h : FinalizeModifiedPDF env parser version s = some r) :
    ∃ X, r.2.mObjectsContext.written = s.mObjectsContext.written ++ X ∧
      (versionEntry env version ∈ X ↔
        (X.any (Token.isName scCatalog) = true ∧
          catalogCallFailedBelow env.NewVersionUpdate X = false)) := by
  have hfw := WriteUsedFontsDefinitions_written env s
  have hfc : callsOf "OnCatalogWrite"
      [Token.External "WriteUsedFontsDefinitions" 0
        (env.WriteUsedFontsDefinitions s.mObjectsContext).status
        (env.WriteUsedFontsDefinitions s.mObjectsContext).tokens] = [] := rfl
  -- a failure before the catalog decision
  have early : ∀ (B1 : List Token), callsOf "OnCatalogWrite" B1 = [] →
      B1.any (Token.isName scCatalog) = false →
      (versionEntry env version ∈ B1 ↔
        (B1.any (Token.isName scCatalog) = true ∧
          catalogCallFailedBelow env.NewVersionUpdate B1 = false)) := by
    intro B1 hc hn
    rw [hn]
    exact ⟨fun hm => absurd hm (versionEntry_not_mem env version B1
      (catalogCallOn_of_nil _ _ hc)), fun h2 => by cases h2.1⟩
  -- the three branches that end in the catalog decision
  have key : ∀ (hasNew : Bool) (ref : ObjectReference) (s1 : DocumentContext)
      (B1 : List Token),
      s1.mExtenders = s.mExtenders →
      s1.mObjectsContext.written = s.mObjectsContext.written ++ B1 →
      callsOf "OnCatalogWrite" B1 = [] →
      r = finalizeFromCatalog env parser version hasNew ref s1 →
      ∃ X, r.2.mObjectsContext.written = s.mObjectsContext.written ++ X ∧
        (versionEntry env version ∈ X ↔
          (X.any (Token.isName scCatalog) = true ∧
            catalogCallFailedBelow env.NewVersionUpdate X = false)) := by
    intro hasNew ref s1 B1 hE hw hB hr
    obtain ⟨X, hX, hcat, hiff⟩ := finalizeFromCatalog_versionKey env parser version hasNew
      ref s1 (by rw [hE]; exact hfresh) (by rw [hE]; exact hsorted) hb
    rw [hr]
    refine ⟨B1 ++ X, by rw [hX, hw, List.append_assoc], ?_⟩
    rw [catalogCallFailedBelow_append, catalogCallFailedBelow_of_nil _ _ hB, Bool.false_or,
      List.any_append, hcat, Bool.or_true, ← hiff, List.mem_append]
    exact ⟨fun h => ⟨rfl, h.elim (fun h2 => absurd h2
      (versionEntry_not_mem env version B1 (catalogCallOn_of_nil _ _ hB))) id⟩,
      fun h => Or.inr h.2⟩
  unfold FinalizeModifiedPDF at h
  simp only [] at h
  split at h
  · -- the used fonts could not be written
    simp only [Option.some.injEq] at h
    subst h
    exact ⟨_, hfw, early _ hfc (fonts_any_catalog env s)⟩
  · cases ho : GetOriginalDocumentPageTreeRoot parser with
    | none => simp [ho] at h
    | some original =>
      simp only [ho] at h
      split at h
      · split at h
        · -- splice
          cases hc : WriteCombinedPageTree env parser (WriteUsedFontsDefinitions env s).2 with
          | none => simp [hc] at h
          | some c =>
            simp only [hc] at h
            obtain ⟨hcE, -⟩ := WriteCombinedPageTree_calls env parser _ c "OnCatalogWrite" hc
            obtain ⟨B, hB, hBc, hBn⟩ := WriteCombinedPageTree_noCatalog env parser _ c hc
            have hB1 : callsOf "OnCatalogWrite"
                ([Token.External "WriteUsedFontsDefinitions" 0
                  (env.WriteUsedFontsDefinitions s.mObjectsContext).status
                  (env.WriteUsedFontsDefinitions s.mObjectsContext).tokens] ++ B) = [] := by
              rw [callsOf_append, hfc, hBc]
              rfl
            have hw1 : c.2.mObjectsContext.written = s.mObjectsContext.written
                ++ ([Token.External "WriteUsedFontsDefinitions" 0
                  (env.WriteUsedFontsDefinitions s.mObjectsContext).status
                  (env.WriteUsedFontsDefinitions s.mObjectsContext).tokens] ++ B) := by
              rw [hB, hfw, List.append_assoc]
            split at h
            · simp only [Option.some.injEq] at h
              subst h
              refine ⟨_, hw1, early _ hB1 ?_⟩
              rw [List.any_append, fonts_any_catalog, hBn]
              rfl
            · simp only [Option.some.injEq] at h
              exact key true _ c.2 _ hcE hw1 hB1 h.symm
        · -- a new pages tree without an original root
          simp only [Option.some.injEq] at h
          have hw1 : (GetPageTreeRoot (WritePagesTree
              (WriteUsedFontsDefinitions env s).2)).2.mObjectsContext.written
              = s.mObjectsContext.written
                ++ ([Token.External "WriteUsedFontsDefinitions" 0
                  (env.WriteUsedFontsDefinitions s.mObjectsContext).status
                  (env.WriteUsedFontsDefinitions s.mObjectsContext).tokens]
                  ++ (GetPageTreeRoot (WriteUsedFontsDefinitions env s).2).1.postOrder) := by
            rw [GetPageTreeRoot_written, WritePagesTree_written, hfw, List.append_assoc]
          refine key true _ (GetPageTreeRoot (WritePagesTree
            (WriteUsedFontsDefinitions env s).2)).2 _ ?_ hw1 ?_ h.symm
          · rw [GetPageTreeRoot_mExtenders, WritePagesTree_mExtenders]
            rfl
          · rw [callsOf_append, hfc, callsOf_postOrder]
            rfl
      · -- no new pages
        simp only [Option.some.injEq] at h
        exact key false _ (WriteUsedFontsDefinitions env s).2 _ rfl hfw hfc h.symm

/-! ## C28: the temporary version extender -/

/-- C28 (amended): the extenders being kept in the order of their addresses and the address
of the version extender being none of a registered extender, a `FinalizeModifiedPDF` that
returns leaves the set of extenders as it was before the call, whatever its result. When the
target version is not higher than the one of the source, its output records no call of the
version extender. When it is higher, the output of `FinalizeModifiedPDF` has the entry of
the version extender, the key Version with the target version as a name, exactly when it
has a catalog object and records no failed catalog callback on an extender whose address is
lower than the one of the version extender; it has the entry whenever the result is
success. -/
theorem C28_version_extender_temporary (env : Collaborators) (parser : PDFParser)
    (version : Nat) (s : DocumentContext) (r : EStatusCode × DocumentContext)
    (hfresh : ∀ x ∈ s.mExtenders, x.1 ≠ env.NewVersionUpdate)
    (hsorted : s.mExtenders.Pairwise (fun a b => a.1 < b.1))
    (h : FinalizeModifiedPDF env parser version s = some r) :
    r.2.mExtenders = s.mExtenders ∧
    (version ≤ parser.PDFLevelTenths →
      catalogCallOn env.NewVersionUpdate (writtenSince s r.2) = false) ∧
    (parser.PDFLevelTenths < version →
      (versionEntry env version ∈ writtenSince s r.2 ↔
        ((writtenSince s r.2).any (Token.isName scCatalog) = true ∧
          catalogCallFailedBelow env.NewVersionUpdate (writtenSince s r.2) = false))) ∧
    (parser.PDFLevelTenths < version → r.1 = .eSuccess →
      versionEntry env version ∈ writtenSince s r.2) := by
  obtain ⟨hE, X, hX, hno, hyes⟩ := FinalizeModifiedPDF_version env parser version s r hfresh h
  rw [writtenSince_append s r.2 X hX]
  refine ⟨hE, fun hle => hno ?_, fun hlt => ?_, fun hlt hs => hyes ?_ hs⟩
  · simp only [IsRequiredVersionHigherThanPDFVersion, decide_eq_false_iff_not]
    omega
  · obtain ⟨Y, hY, hiff⟩ := FinalizeModifiedPDF_versionKey env parser version s r hfresh
      hsorted (by simp only [IsRequiredVersionHigherThanPDFVersion, decide_eq_true_eq]
                  exact hlt) h
    have hXY : X = Y := List.append_cancel_left (hX.symm.trans hY)
    rw [hXY]
    exact hiff
  · simp only [IsRequiredVersionHigherThanPDFVersion, decide_eq_true_eq]
    exact hlt

/-- C28 at modified documents with one extender (address 10) and a source of level 1.3.
With an extender that succeeds and the target version 1.4 the finalisation succeeds, its
output has the Version entry and the extenders are as before; with the target version 1.3
the version extender is not called. With an extender that fails and the target version 1.4
the output has a catalog object, records the failed callback and has no Version entry. -/
theorem C28_version_extender_temporary_witness :
    (∀ x ∈ keyExtenderDocument.mExtenders, x.1 ≠ quietEnv.NewVersionUpdate) ∧
    keyExtenderDocument.mExtenders.Pairwise (fun a b => a.1 < b.1) ∧
    (((FinalizeModifiedPDF quietEnv sourceParser 14 keyExtenderDocument).getD
        (.eFailure, freshDocument)).2.mExtenders = keyExtenderDocument.mExtenders ∧
      versionEntry quietEnv 14 ∈ writtenSince keyExtenderDocument
        ((FinalizeModifiedPDF quietEnv sourceParser 14 keyExtenderDocument).getD
          (.eFailure, freshDocument)).2) ∧
    catalogCallOn quietEnv.NewVersionUpdate (writtenSince keyExtenderDocument
      ((FinalizeModifiedPDF quietEnv sourceParser 13 keyExtenderDocument).getD
        (.eFailure, freshDocument)).2) = false ∧
    ((writtenSince failingExtenderDocument
        ((FinalizeModifiedPDF quietEnv sourceParser 14 failingExtenderDocument).getD
          (.eFailure, freshDocument)).2).any (Token.isName scCatalog) = true ∧
      catalogCallFailedBelow quietEnv.NewVersionUpdate (writtenSince failingExtenderDocument
        ((FinalizeModifiedPDF quietEnv sourceParser 14 failingExtenderDocument).getD
          (.eFailure, freshDocument)).2) = true ∧
      versionEntry quietEnv 14 ∉ writtenSince failingExtenderDocument
        ((FinalizeModifiedPDF quietEnv sourceParser 14 failingExtenderDocument).getD
          (.eFailure, freshDocument)).2) := by
  have hfresh : ∀ x ∈ keyExtenderDocument.mExtenders, x.1 ≠ quietEnv.NewVersionUpdate := by
    intro x hx
    rcases List.mem_singleton.1 hx with rfl
    decide
  have hfresh2 : ∀ x ∈ failingExtenderDocument.mExtenders,
      x.1 ≠ quietEnv.NewVersionUpdate := by
    intro x hx
    rcases List.mem_singleton.1 hx with rfl
    decide
  have hsorted : keyExtenderDocument.mExtenders.Pairwise (fun a b => a.1 < b.1) :=
    List.pairwise_singleton _ _
  have h14 := C28_version_extender_temporary quietEnv sourceParser 14 keyExtenderDocument _
    hfresh hsorted rfl
  have h13 := C28_version_extender_temporary quietEnv sourceParser 13 keyExtenderDocument _
    hfresh hsorted rfl
  have hf := C28_version_extender_temporary quietEnv sourceParser 14 failingExtenderDocument
    _ hfresh2 (List.pairwise_singleton _ _) rfl
  have hfailed : catalogCallFailedBelow quietEnv.NewVersionUpdate
      (writtenSince failingExtenderDocument
        ((FinalizeModifiedPDF quietEnv sourceParser 14 failingExtenderDocument).getD
          (.eFailure, freshDocument)).2) = true := rfl
  refine ⟨hfresh, hsorted, ⟨h14.1, h14.2.2.2 (by decide) rfl⟩, h13.2.1 (by decide),
    rfl, hfailed, fun hm => ?_⟩
  have h2 : catalogCallFailedBelow quietEnv.NewVersionUpdate
      (writtenSince failingExtenderDocument
        ((FinalizeModifiedPDF quietEnv sourceParser 14 failingExtenderDocument).getD
          (.eFailure, freshDocument)).2) = false := ((hf.2.2.1 (by decide)).1 hm).2
  rw [hfailed] at h2
  cases h2

/-- C28 as stated fails: the target version 1.4 is higher than the level 1.3 of the source
and the only extender, at the address 10, fails in its catalog callback. The version
extender, at the address 1000, comes after it in the set and is not called: the catalog
object is closed without a Version key and `FinalizeModifiedPDF` returns failure. -/
theorem C28_counterexample :
    IsRequiredVersionHigherThanPDFVersion sourceParser 14 = true ∧
    statusOf (FinalizeModifiedPDF quietEnv sourceParser 14 failingExtenderDocument)
      = some .eFailure ∧
    writtenBy (FinalizeModifiedPDF quietEnv sourceParser 14 failingExtenderDocument)
      = [.External "WriteUsedFontsDefinitions" 0 .eSuccess [],
         .StartNewIndirectObject 6, .StartDictionary, .WriteKey "Type",
         .WriteNameValue "Catalog", .WriteKey "Pages", .WriteObjectReferenceValue ⟨2, 0⟩,
         .External "OnCatalogWrite" 10 .eFailure [],
         .EndDictionary, .EndIndirectObject] ∧
    catalogCallOn quietEnv.NewVersionUpdate
      (writtenBy (FinalizeModifiedPDF quietEnv sourceParser 14 failingExtenderDocument))
      = false ∧
    (writtenBy (FinalizeModifiedPDF quietEnv sourceParser 14 failingExtenderDocument)).any
      (Token.isKey "Version") = false :=
  ⟨rfl, rfl, rfl, rfl, rfl⟩

/-! ## C21: failure of a page callback -/

/-- C21 evaluated: a document has one extender, whose `OnPageWrite` fails. `WritePage`
calls it, the callback fails, the page dictionary and the page object are closed and
`WritePage` returns success with the ID of the page. An extender whose `OnResourcesWrite`
fails does make `WritePage` return failure, and one whose `OnCatalogWrite` fails makes
`WriteCatalogObject` return failure. -/
theorem C21_page_callback_failure_lost :
    (WritePage quietEnv samplePage (oneExtenderDocument failingPageExtender)).1
      = (.eSuccess, 1) ∧
    (WritePage quietEnv samplePage
      (oneExtenderDocument failingPageExtender)).2.mObjectsContext.written
      = [.StartNewIndirectObject 1, .StartDictionary, .WriteKey "Type", .WriteNameValue "Page",
         .WriteKey "Parent", .WriteNewObjectReferenceValue 2,
         .WriteKey "MediaBox", .WriteRectangleValue ⟨0, 0, 595, 842⟩,
         .WriteKey "Resources", .StartDictionary, .WriteKey "Font", .StartDictionary,
         .WriteKey "FN1", .WriteNewObjectReferenceValue 5,
         .External "OnResourceDictionaryWrite" 10 .eSuccess [], .EndDictionary,
         .External "OnResourcesWrite" 10 .eSuccess [], .EndDictionary,
         .WriteKey "Contents", .WriteNewObjectReferenceValue 7,
         .External "OnPageWrite" 10 .eFailure [],
         .EndDictionary, .EndIndirectObject] ∧
    (WritePage quietEnv samplePage (oneExtenderDocument failingResourcesExtender)).1
      = (.eFailure, 1) ∧
    (WriteCatalogObject ⟨2, 0⟩ (oneExtenderDocument failingExtender)).1 = .eFailure :=
  ⟨rfl, rfl, rfl, rfl⟩

/-! ## C23: link annotations -/

theorem mem_insertAnnotationID (id x : Nat) (l : List Nat) :
    x ∈ insertAnnotationID id l ↔ x = id ∨ x ∈ l := by
  induction l with
  | nil => simp [insertAnnotationID]
  | cons y rest ih =>
    by_cases h1 : id < y
    · simp [insertAnnotationID, h1]
    · by_cases h2 : id = y
      · subst h2
        simp [insertAnnotationID]
      · simp only [insertAnnotationID, h1, h2, if_false, List.mem_cons, ih]
        tauto

/-- C23: when the encoder rejects the URL, `AttachURLLinktoCurrentPage` returns failure and
leaves the document context as it was: nothing is written, no ID is allocated and the
pending annotations are unchanged. When the encoder accepts it, the function returns
success, appends exactly the annotation object of the encoded URL, framed under the one ID
it allocates, and the pending annotations are the former ones and that ID. -/
theorem C23_url_link (env : Collaborators) (inURL : String)
    (inLinkClickArea : PDFRectangle) (s : DocumentContext) :
    ((env.Ascii7Encode inURL).1 = false →
      AttachURLLinktoCurrentPage env inURL inLinkClickArea s = (.eFailure, s)) ∧
    ((env.Ascii7Encode inURL).1 = true →
      (AttachURLLinktoCurrentPage env inURL inLinkClickArea s).1 = .eSuccess ∧
      (AttachURLLinktoCurrentPage env inURL inLinkClickArea s).2.mObjectsContext.written
        = s.mObjectsContext.written
          ++ linkAnnotationObject s.mObjectsContext.objectsCount inLinkClickArea
              (env.Ascii7Encode inURL).2 ∧
      (AttachURLLinktoCurrentPage env inURL inLinkClickArea s).2.mObjectsContext.objectsCount
        = s.mObjectsContext.objectsCount + 1 ∧
      ∀ id, id ∈ (AttachURLLinktoCurrentPage env inURL inLinkClickArea s).2.mAnnotations ↔
        id = s.mObjectsContext.objectsCount ∨ id ∈ s.mAnnotations) := by
  constructor
  · intro h
    simp [AttachURLLinktoCurrentPage, WriteAnnotationAndLinkForURL, h]
  · intro h
    have hw : WriteAnnotationAndLinkForURL env inURL inLinkClickArea s
        = ((.eSuccess, s.mObjectsContext.objectsCount),
            { s with mObjectsContext :=
              { written := s.mObjectsContext.written
                  ++ linkAnnotationObject s.mObjectsContext.objectsCount inLinkClickArea
                      (env.Ascii7Encode inURL).2,
                objectsCount := s.mObjectsContext.objectsCount + 1 } }) := by
      simp [WriteAnnotationAndLinkForURL, h, DocumentContext.write, ObjectsContext.write,
        ObjectsContext.StartNewIndirectObject, ObjectsContext.AllocateNewObjectID,
        linkAnnotationObject, scType, scAnnot, scSubType, scLink, scRect, scF, scBS, scW, scA,
        scAction, scS, scURI]
    simp only [AttachURLLinktoCurrentPage, hw, ne_eq, not_true_eq_false, if_false,
      RegisterAnnotationReferenceForNextPageWrite]
    refine ⟨?_, ?_, ?_, fun id => mem_insertAnnotationID _ _ _⟩ <;> trivial

/-- C23 at a document with the pending annotations 3 and 9 and twelve objects: an URL with
a character outside ASCII-7 changes nothing; an ASCII-7 URL gives the annotation object 12
and the pending annotations 3, 9 and 12. -/
theorem C23_url_link_witness :
    (quietEnv.Ascii7Encode "http://ä.b/c").1 = false ∧
    AttachURLLinktoCurrentPage quietEnv "http://ä.b/c" ⟨10, 20, 110, 40⟩
      pendingAnnotationsDocument = (.eFailure, pendingAnnotationsDocument) ∧
    (quietEnv.Ascii7Encode "http://a.b/c").1 = true ∧
    (AttachURLLinktoCurrentPage quietEnv "http://a.b/c" ⟨10, 20, 110, 40⟩
      pendingAnnotationsDocument).1 = .eSuccess ∧
    (AttachURLLinktoCurrentPage quietEnv "http://a.b/c" ⟨10, 20, 110, 40⟩
      pendingAnnotationsDocument).2.mObjectsContext.written
      = linkAnnotationObject 12 ⟨10, 20, 110, 40⟩ "http://a.b/c" ∧
    (∀ id, id ∈ (AttachURLLinktoCurrentPage quietEnv "http://a.b/c" ⟨10, 20, 110, 40⟩
      pendingAnnotationsDocument).2.mAnnotations ↔ id = 12 ∨ id ∈ [3, 9]) := by
  have hbad : (quietEnv.Ascii7Encode "http://ä.b/c").1 = false := by decide
  have hgood : (quietEnv.Ascii7Encode "http://a.b/c").1 = true := by decide
  have h1 := (C23_url_link quietEnv "http://ä.b/c" ⟨10, 20, 110, 40⟩
    pendingAnnotationsDocument).1 hbad
  have h2 := (C23_url_link quietEnv "http://a.b/c" ⟨10, 20, 110, 40⟩
    pendingAnnotationsDocument).2 hgood
  exact ⟨hbad, h1, hgood, h2.1, h2.2.1, h2.2.2.2⟩

/-! ## Lemmas on the state file -/

theorem ObjectsContext.parsed_write (w : ObjectsContext) (t : Token) :
    (w.write t).parsed = w.parsed.step t := by
  simp [ObjectsContext.parsed, ObjectsContext.write, List.foldl_append]

theorem ObjectsContext.objectsCount_write (w : ObjectsContext) (t : Token) :
    (w.write t).objectsCount = w.objectsCount := rfl

theorem ObjectsContext.parsed_allocate (w : ObjectsContext) :
    w.AllocateNewObjectID.2.parsed = w.parsed := rfl

theorem ObjectsContext.objectsCount_allocate (w : ObjectsContext) :
    w.AllocateNewObjectID.2.objectsCount = w.objectsCount + 1 := rfl

theorem ObjectsContext.allocate_fst (w : ObjectsContext) :
    w.AllocateNewObjectID.1 = w.objectsCount := rfl

theorem WriteReferenceState_parsed (ref : ObjectReference) (w : ObjectsContext) :
    (WriteReferenceState ref w).parsed = w.parsed.emit (referenceStateObject ref) := by
  simp [WriteReferenceState, ObjectsContext.parsed_write, ParseState.step, ParseState.emit,
    referenceStateObject]

theorem WriteReferenceState_objectsCount (ref : ObjectReference) (w : ObjectsContext) :
    (WriteReferenceState ref w).objectsCount = w.objectsCount := by
  unfold WriteReferenceState
  simp only [ObjectsContext.objectsCount_write]

theorem WriteDateState_parsed (d : PDFDate) (w : ObjectsContext) :
    (WriteDateState d w).parsed = w.parsed.emit (.dictionary (dateStateEntries d)) := by
  simp [WriteDateState, ObjectsContext.parsed_write, ParseState.step, ParseState.emit,
    dateStateEntries]

theorem WriteDateState_objectsCount (d : PDFDate) (w : ObjectsContext) :
    (WriteDateState d w).objectsCount = w.objectsCount := by
  unfold WriteDateState
  simp only [ObjectsContext.objectsCount_write]

theorem writeAdditionalInfoState_parsed (es : List (String × String)) (w : ObjectsContext)
    (o : List (Nat × PDFObject)) (c : Option Nat) (v : PDFObject) (entries : PDFDictionary)
    (rest : List ParseFrame)
    (h : w.parsed = ⟨o, c, v, .dictionary entries none :: rest⟩) :
    (writeAdditionalInfoState es w).parsed
      = ⟨o, c, v, .dictionary (entries ++ additionalInfoStateEntries es) none :: rest⟩ := by
  induction es generalizing w entries with
  | nil => simpa [writeAdditionalInfoState, additionalInfoStateEntries] using h
  | cons e es ih =>
    rw [writeAdditionalInfoState]
    rw [ih _ (entries ++ [(e.1, PDFObject.literalString e.2)])]
    · simp [additionalInfoStateEntries]
    · simp [ObjectsContext.parsed_write, h, ParseState.step, ParseState.emit]

theorem writeAdditionalInfoState_objectsCount (es : List (String × String))
    (w : ObjectsContext) : (writeAdditionalInfoState es w).objectsCount = w.objectsCount := by
  induction es generalizing w with
  | nil => rfl
  | cons e es ih => rw [writeAdditionalInfoState, ih]; rfl

theorem WriteTrailerInfoState_parsed (inObjectID : Nat) (s : DocumentContext)
    (w : ObjectsContext) :
    (WriteTrailerInfoState inObjectID s w).parsed
      = ParseState.between (w.parsed.objects
          ++ [(inObjectID, .dictionary
                (infoStateEntries s.mTrailerInformation.mInfoDictionary))]) := by
  unfold WriteTrailerInfoState
  simp only [ObjectsContext.parsed_write]
  rw [writeAdditionalInfoState_parsed _ _ w.parsed.objects (some inObjectID) .null []
    [.dictionary [("Type", .name "InfoDictionary"),
      ("Title", .literalString s.mTrailerInformation.mInfoDictionary.Title),
      ("Author", .literalString s.mTrailerInformation.mInfoDictionary.Author),
      ("Subject", .literalString s.mTrailerInformation.mInfoDictionary.Subject),
      ("Keywords", .literalString s.mTrailerInformation.mInfoDictionary.Keywords),
      ("Creator", .literalString s.mTrailerInformation.mInfoDictionary.Creator),
      ("Producer", .literalString s.mTrailerInformation.mInfoDictionary.Producer),
      ("CreationDate", .dictionary
        (dateStateEntries s.mTrailerInformation.mInfoDictionary.CreationDate)),
      ("ModDate", .dictionary
        (dateStateEntries s.mTrailerInformation.mInfoDictionary.ModDate)),
      ("Trapped", .integer s.mTrailerInformation.mInfoDictionary.Trapped.toInt)]
      (some "mAdditionalInfoEntries")]]
  · simp [ParseState.step, ParseState.emit, ParseState.between, infoStateEntries]
  · simp [ObjectsContext.parsed_write, WriteDateState_parsed, ParseState.step,
      ParseState.emit]

theorem WriteTrailerInfoState_objectsCount (inObjectID : Nat) (s : DocumentContext)
    (w : ObjectsContext) :
    (WriteTrailerInfoState inObjectID s w).objectsCount = w.objectsCount := by
  unfold WriteTrailerInfoState
  simp only [ObjectsContext.objectsCount_write, writeAdditionalInfoState_objectsCount,
    WriteDateState_objectsCount]

theorem WriteTrailerState_parsed (inObjectID : Nat) (s : DocumentContext)
    (w : ObjectsContext) :
    (WriteTrailerState inObjectID s w).parsed
      = ParseState.between (w.parsed.objects
          ++ [(inObjectID, .dictionary
                (trailerStateEntries s.mTrailerInformation w.objectsCount)),
              (w.objectsCount, .dictionary
                (infoStateEntries s.mTrailerInformation.mInfoDictionary))]) := by
  unfold WriteTrailerState
  rw [WriteTrailerInfoState_parsed]
  simp [ObjectsContext.parsed_write, WriteReferenceState_parsed, ParseState.step,
    ParseState.emit, ParseState.between, trailerStateEntries,
    ObjectsContext.parsed_allocate, ObjectsContext.objectsCount_allocate,
    ObjectsContext.allocate_fst, ObjectsContext.objectsCount_write,
    WriteReferenceState_objectsCount]

theorem WriteTrailerState_objectsCount (inObjectID : Nat) (s : DocumentContext)
    (w : ObjectsContext) :
    (WriteTrailerState inObjectID s w).objectsCount = w.objectsCount + 1 := by
  unfold WriteTrailerState
  simp only [WriteTrailerInfoState_objectsCount, ObjectsContext.objectsCount_write,
    WriteReferenceState_objectsCount, ObjectsContext.objectsCount_allocate]

theorem writePageIDChildrenState_parsed (pages : List Nat) (w : ObjectsContext)
    (o : List (Nat × PDFObject)) (c : Option Nat) (v : PDFObject) (items : List PDFObject)
    (rest : List ParseFrame) (h : w.parsed = ⟨o, c, v, .array items :: rest⟩) :
    (writePageIDChildrenState pages w).parsed
      = ⟨o, c, v, .array (items ++ pages.map (fun (p : Nat) => PDFObject.integer (p : Int))) :: rest⟩ := by
  induction pages generalizing w items with
  | nil => simpa [writePageIDChildrenState] using h
  | cons p ps ih =>
    rw [writePageIDChildrenState]
    rw [ih _ (items ++ [PDFObject.integer (p : Int)])]
    · simp
    · simp [ObjectsContext.parsed_write, h, ParseState.step, ParseState.emit]

theorem writePageIDChildrenState_objectsCount (pages : List Nat) (w : ObjectsContext) :
    (writePageIDChildrenState pages w).objectsCount = w.objectsCount := by
  induction pages generalizing w with
  | nil => rfl
  | cons p ps ih => rw [writePageIDChildrenState, ih]; rfl

theorem allocateKidsObjectIDs_spec (k : Nat) (w : ObjectsContext)
    (o : List (Nat × PDFObject)) (c : Option Nat) (v : PDFObject) (items : List PDFObject)
    (rest : List ParseFrame) (h : w.parsed = ⟨o, c, v, .array items :: rest⟩) :
    (allocateKidsObjectIDs k w).2 = List.range' w.objectsCount k ∧
    (allocateKidsObjectIDs k w).1.objectsCount = w.objectsCount + k ∧
    (allocateKidsObjectIDs k w).1.parsed
      = ⟨o, c, v, .array (items ++ (List.range' w.objectsCount k).map
          (fun (id : Nat) => PDFObject.indirectObjectReference id 0)) :: rest⟩ := by
  induction k generalizing w items with
  | zero => simpa [allocateKidsObjectIDs] using h
  | succ k ih =>
    have hstep : (w.AllocateNewObjectID.2.write
        (.WriteNewIndirectObjectReference w.AllocateNewObjectID.1)).parsed
        = ⟨o, c, v, .array (items ++ [PDFObject.indirectObjectReference w.objectsCount 0])
            :: rest⟩ := by
      simp [ObjectsContext.parsed_write, ObjectsContext.parsed_allocate,
        ObjectsContext.allocate_fst, h, ParseState.step, ParseState.emit]
    obtain ⟨h1, h2, h3⟩ := ih _ _ hstep
    have hc : (w.AllocateNewObjectID.2.write
        (.WriteNewIndirectObjectReference w.AllocateNewObjectID.1)).objectsCount
        = w.objectsCount + 1 := rfl
    rw [hc] at h1 h2 h3
    simp only [allocateKidsObjectIDs]
    refine ⟨?_, ?_, ?_⟩
    · rw [h1]
      simp [List.range'_succ, ObjectsContext.allocate_fst]
    · rw [h2]; omega
    · rw [h3]
      simp [List.range'_succ]

theorem stateObjects_append (a b : List (Nat × List Nat × PDFDictionary)) :
    stateObjects (a ++ b) = stateObjects a ++ stateObjects b := by
  simp [stateObjects]

mutual
/-- What `WritePageTreeState` leaves: the objects of the nodes in the state file, the
registry of the state writer, and the ID stored for the open node. -/
theorem WritePageTreeState_spec : ∀ (t : PageTree) (inObjectID : Nat) (position : List Nat)
    (s : DocumentContext) (w : ObjectsContext),
    (WritePageTreeState inObjectID t position s w).1.parsed
      = ParseState.between (w.parsed.objects
          ++ stateObjects (t.stateNodes inObjectID w.objectsCount position)) ∧
    (WritePageTreeState inObjectID t position s w).1.objectsCount
      = w.objectsCount + t.descendants ∧
    ∃ x, (WritePageTreeState inObjectID t position s w).2
        = { s with mCurrentPageTreeIDInState := x } ∧
      ((∃ e ∈ t.stateNodes inObjectID w.objectsCount position,
          e.2.1 = s.mCatalogInformation.mCurrentPageTreeNode) →
        ∃ d, (x, s.mCatalogInformation.mCurrentPageTreeNode, d)
          ∈ t.stateNodes inObjectID w.objectsCount position) ∧
      ((¬ ∃ e ∈ t.stateNodes inObjectID w.objectsCount position,
          e.2.1 = s.mCatalogInformation.mCurrentPageTreeNode) →
        x = s.mCurrentPageTreeIDInState)
  | .leafParent id parent pages, inObjectID, position, s, w => by
    refine ⟨?_, ?_, ?_⟩
    · simp only [WritePageTreeState, ObjectsContext.parsed_write]
      rw [writePageIDChildrenState_parsed pages _ w.parsed.objects (some inObjectID) .null []
        [.dictionary [("Type", .name "PageTree"), ("mPageTreeID", .integer (id : Int)),
          ("mIsLeafParent", .boolean true)] (some "mKidsIDs")]]
      · simp [ParseState.step, ParseState.emit, ParseState.between, PageTree.stateNodes,
          stateObjects, leafStateEntries]
      · simp [ObjectsContext.parsed_write, ParseState.step, ParseState.emit]
    · simp only [WritePageTreeState, ObjectsContext.objectsCount_write,
        writePageIDChildrenState_objectsCount, PageTree.descendants, Nat.add_zero]
    · by_cases hp : position = s.mCatalogInformation.mCurrentPageTreeNode
      · refine ⟨inObjectID, by simp [WritePageTreeState, hp], fun _ => ?_, fun hn => ?_⟩
        · exact ⟨leafStateEntries id pages, by rw [← hp]; simp [PageTree.stateNodes]⟩
        · exact absurd ⟨(inObjectID, position, leafStateEntries id pages),
            by simp [PageTree.stateNodes], hp⟩ hn
      · refine ⟨s.mCurrentPageTreeIDInState, by simp [WritePageTreeState, hp],
          fun he => ?_, fun _ => rfl⟩
        obtain ⟨e, he1, he2⟩ := he
        simp only [PageTree.stateNodes, List.mem_singleton] at he1
        rw [he1] at he2
        exact absurd he2 hp
  | .node id parent kids, inObjectID, position, s, w => by
    -- the object of the node itself
    have hunf : WritePageTreeState inObjectID (.node id parent kids) position s w
        = ((writePageTreeStateKids
              (allocateKidsObjectIDs kids.length (nodeStateStart inObjectID id w)).2 kids
              position 0 s
              (nodeStateEnd (allocateKidsObjectIDs kids.length
                (nodeStateStart inObjectID id w)).1)).1,
            if position = (writePageTreeStateKids
                (allocateKidsObjectIDs kids.length (nodeStateStart inObjectID id w)).2 kids
                position 0 s
                (nodeStateEnd (allocateKidsObjectIDs kids.length
                  (nodeStateStart inObjectID id w)).1)).2.mCatalogInformation.mCurrentPageTreeNode
            then { (writePageTreeStateKids
                (allocateKidsObjectIDs kids.length (nodeStateStart inObjectID id w)).2 kids
                position 0 s
                (nodeStateEnd (allocateKidsObjectIDs kids.length
                  (nodeStateStart inObjectID id w)).1)).2 with
              mCurrentPageTreeIDInState := inObjectID }
            else (writePageTreeStateKids
                (allocateKidsObjectIDs kids.length (nodeStateStart inObjectID id w)).2 kids
                position 0 s
                (nodeStateEnd (allocateKidsObjectIDs kids.length
                  (nodeStateStart inObjectID id w)).1)).2) := by
      simp only [WritePageTreeState, nodeStateStart, nodeStateEnd]
    have hstart : (nodeStateStart inObjectID id w).parsed
        = ⟨w.parsed.objects, some inObjectID, .null,
            [.array [], .dictionary [("Type", .name "PageTree"),
              ("mPageTreeID", .integer (id : Int)), ("mIsLeafParent", .boolean false)]
              (some "mKidsNodes")]⟩ := by
      simp [nodeStateStart, ObjectsContext.parsed_write, ParseState.step, ParseState.emit]
    have hcount : (nodeStateStart inObjectID id w).objectsCount = w.objectsCount := by
      simp only [nodeStateStart, ObjectsContext.objectsCount_write]
    obtain ⟨ha1, ha2, ha3⟩ := allocateKidsObjectIDs_spec kids.length _ _ _ _ _ _ hstart
    rw [hcount] at ha1 ha2 ha3
    have hself : (nodeStateEnd (allocateKidsObjectIDs kids.length
        (nodeStateStart inObjectID id w)).1).parsed
        = ParseState.between (w.parsed.objects
            ++ [(inObjectID, .dictionary
                  (nodeStateEntries id (List.range' w.objectsCount kids.length)))]) := by
      simp [nodeStateEnd, ObjectsContext.parsed_write, ha3, ParseState.step, ParseState.emit,
        ParseState.between, nodeStateEntries]
    have hcount2 : (nodeStateEnd (allocateKidsObjectIDs kids.length
        (nodeStateStart inObjectID id w)).1).objectsCount = w.objectsCount + kids.length := by
      simp only [nodeStateEnd, ObjectsContext.objectsCount_write, ha2]
    obtain ⟨hk1, hk2, hk3, x, hkx, hkyes, hkno⟩ := writePageTreeStateKids_spec kids
      w.objectsCount position 0 s _ _ hself
    rw [hcount2] at hk1 hk2 hkyes hkno
    rw [hunf, ha1]
    refine ⟨?_, ?_, ?_⟩
    · rw [hk1]
      simp [PageTree.stateNodes, stateObjects]
    · simp only [PageTree.descendants]
      rw [hk2]
      omega
    · rw [hkx]
      by_cases hp : position = s.mCatalogInformation.mCurrentPageTreeNode
      · refine ⟨inObjectID, by simp [hp], fun _ => ?_, fun hn => ?_⟩
        · exact ⟨nodeStateEntries id (List.range' w.objectsCount kids.length),
            by rw [← hp]; simp [PageTree.stateNodes]⟩
        · exact absurd ⟨(inObjectID, position,
            nodeStateEntries id (List.range' w.objectsCount kids.length)),
            by simp [PageTree.stateNodes], hp⟩ hn
      · refine ⟨x, by simp [hp], fun he => ?_, fun hn => ?_⟩
        · obtain ⟨e, he1, he2⟩ := he
          simp only [PageTree.stateNodes, List.mem_cons] at he1
          rcases he1 with he1 | he1
          · rw [he1] at he2
            exact absurd he2 hp
          · obtain ⟨d, hd⟩ := hkyes ⟨e, he1, he2⟩
            exact ⟨d, by simp only [PageTree.stateNodes, List.mem_cons]; exact Or.inr hd⟩
        · apply hkno
          rintro ⟨e, he1, he2⟩
          exact hn ⟨e, by simp only [PageTree.stateNodes, List.mem_cons]; exact Or.inr he1,
            he2⟩
/-- What the loop of `WritePageTreeState` over the kids leaves. -/
theorem writePageTreeStateKids_spec : ∀ (ks : List PageTree) (kidID : Nat)
    (position : List Nat) (i : Nat) (s : DocumentContext) (w : ObjectsContext)
    (o : List (Nat × PDFObject)), w.parsed = ParseState.between o →
    (writePageTreeStateKids (List.range' kidID ks.length) ks position i s w).1.parsed
      = ParseState.between (o
          ++ stateObjects (PageTree.stateNodesKids kidID ks w.objectsCount position i)) ∧
    (writePageTreeStateKids (List.range' kidID ks.length) ks position i s w).1.objectsCount
      = w.objectsCount + (PageTree.descendantsKids ks - ks.length) ∧
    ks.length ≤ PageTree.descendantsKids ks ∧
    ∃ x, (writePageTreeStateKids (List.range' kidID ks.length) ks position i s w).2
        = { s with mCurrentPageTreeIDInState := x } ∧
      ((∃ e ∈ PageTree.stateNodesKids kidID ks w.objectsCount position i,
          e.2.1 = s.mCatalogInformation.mCurrentPageTreeNode) →
        ∃ d, (x, s.mCatalogInformation.mCurrentPageTreeNode, d)
          ∈ PageTree.stateNodesKids kidID ks w.objectsCount position i) ∧
      ((¬ ∃ e ∈ PageTree.stateNodesKids kidID ks w.objectsCount position i,
          e.2.1 = s.mCatalogInformation.mCurrentPageTreeNode) →
        x = s.mCurrentPageTreeIDInState)
  | [], kidID, position, i, s, w, o, hw => by
    refine ⟨by simp [writePageTreeStateKids, PageTree.stateNodesKids, stateObjects, hw],
      by simp [writePageTreeStateKids, PageTree.descendantsKids], by simp,
      s.mCurrentPageTreeIDInState, by simp [writePageTreeStateKids], fun he => ?_,
      fun _ => rfl⟩
    obtain ⟨e, he1, -⟩ := he
    simp [PageTree.stateNodesKids] at he1
  | k :: ks, kidID, position, i, s, w, o, hw => by
    obtain ⟨h1, h2, x1, hx1, hyes1, hno1⟩ := WritePageTreeState_spec k kidID (position ++ [i])
      s w
    rw [hw] at h1
    simp only [ParseState.between] at h1
    obtain ⟨g1, g2, g3, x2, hx2, hyes2, hno2⟩ := writePageTreeStateKids_spec ks (kidID + 1)
      position (i + 1) (WritePageTreeState kidID k (position ++ [i]) s w).2
      (WritePageTreeState kidID k (position ++ [i]) s w).1 _ h1
    rw [h2] at g1 g2 hyes2 hno2
    have hx2b : (writePageTreeStateKids (List.range' (kidID + 1) ks.length) ks position
        (i + 1) (WritePageTreeState kidID k (position ++ [i]) s w).2
        (WritePageTreeState kidID k (position ++ [i]) s w).1).2
        = { s with mCurrentPageTreeIDInState := x2 } := by
      rw [hx2, hx1]
    rw [hx1] at hyes2 hno2
    simp only [] at hyes2 hno2
    simp only [List.length_cons, List.range'_succ, writePageTreeStateKids,
      PageTree.stateNodesKids, PageTree.descendantsKids]
    refine ⟨?_, ?_, ?_, x2, hx2b, fun he => ?_, fun hn => ?_⟩
    · rw [g1, stateObjects_append, List.append_assoc]
    · rw [g2]; omega
    · omega
    · by_cases hrest : ∃ e ∈ PageTree.stateNodesKids (kidID + 1) ks
          (w.objectsCount + k.descendants) position (i + 1),
          e.2.1 = s.mCatalogInformation.mCurrentPageTreeNode
      · obtain ⟨d, hd⟩ := hyes2 hrest
        exact ⟨d, List.mem_append_right _ hd⟩
      · have hx : x2 = x1 := hno2 hrest
        obtain ⟨e, he1, he2⟩ := he
        rcases List.mem_append.1 he1 with he1 | he1
        · obtain ⟨d, hd⟩ := hyes1 ⟨e, he1, he2⟩
          exact ⟨d, by rw [hx]; exact List.mem_append_left _ hd⟩
        · exact absurd ⟨e, he1, he2⟩ hrest
    · have hrest : ¬ ∃ e ∈ PageTree.stateNodesKids (kidID + 1) ks
          (w.objectsCount + k.descendants) position (i + 1),
          e.2.1 = s.mCatalogInformation.mCurrentPageTreeNode := by
        rintro ⟨e, he1, he2⟩
        exact hn ⟨e, List.mem_append_right _ he1, he2⟩
      have hfirst : ¬ ∃ e ∈ k.stateNodes kidID w.objectsCount (position ++ [i]),
          e.2.1 = s.mCatalogInformation.mCurrentPageTreeNode := by
        rintro ⟨e, he1, he2⟩
        exact hn ⟨e, List.mem_append_left _ he1, he2⟩
      rw [hno2 hrest, hno1 hfirst]
end

theorem PageTree.stateNodes_eq_cons (t : PageTree) (inObjectID n : Nat)
    (position : List Nat) :
    t.stateNodes inObjectID n position
      = (inObjectID, position, t.stateEntries n)
        :: (t.stateNodes inObjectID n position).tail := by
  cases t <;> simp [PageTree.stateNodes, PageTree.stateEntries]

theorem PageTree.queryID_stateEntries (t : PageTree) (n : Nat) :
    queryInteger (t.stateEntries n) "mPageTreeID" = some (t.GetID : Int) := by
  cases t <;>
    simp [PageTree.stateEntries, leafStateEntries, nodeStateEntries, queryInteger,
      PDFDictionary.QueryDirectObject, List.find?, PageTree.GetID]

theorem PageTree.SetParent_linked (t : PageTree) (p q : Option Nat) :
    (t.linked p).SetParent q = t.linked q := by
  cases t <;> simp [PageTree.linked, PageTree.SetParent]

theorem foldl_AddNodeToTree_node (ks : List PageTree) (id : Nat) (p : Option Nat)
    (done : List PageTree) :
    ks.foldl (fun (a k : PageTree) => a.AddNodeToTree (k.linked none)) (.node id p done)
      = .node id p (done ++ PageTree.linkedKids ks id) := by
  induction ks generalizing done with
  | nil => simp [PageTree.linkedKids]
  | cons k ks ih =>
    have hstep : (PageTree.node id p done).AddNodeToTree (k.linked none)
        = .node id p (done ++ [k.linked (some id)]) := by
      simp [PageTree.AddNodeToTree, PageTree.SetParent_linked]
    rw [List.foldl_cons, hstep, ih]
    simp [PageTree.linkedKids]

theorem foldl_AddNodeToTree_new (ks : List PageTree) (id : Nat) (h : ks.isEmpty = false) :
    ks.foldl (fun (a k : PageTree) => a.AddNodeToTree (k.linked none)) (PageTree.new id)
      = .node id none (PageTree.linkedKids ks id) := by
  cases ks with
  | nil => simp at h
  | cons k ks =>
    have hstep : (PageTree.new id).AddNodeToTree (k.linked none)
        = .node id none [k.linked (some id)] := by
      simp [PageTree.new, PageTree.AddNodeToTree, PageTree.SetParent_linked]
    rw [List.foldl_cons, hstep, foldl_AddNodeToTree_node]
    simp [PageTree.linkedKids]

theorem readKidsIDs_spec (pages : List Nat) (id : Nat) (p : Option Nat) (done : List Nat) :
    readKidsIDs (pages.map (fun (p : Nat) => PDFObject.integer (p : Int))) (.leafParent id p done)
      = some (.leafParent id p (done ++ pages)) := by
  induction pages generalizing done with
  | nil => simp [readKidsIDs]
  | cons x xs ih =>
    simp only [List.map_cons, readKidsIDs, PageTree.AddPageToTree, Int.toNat_ofNat, ih,
      List.append_assoc, List.singleton_append]

theorem openNodeAfter_append (curID : Nat) (a b : List (Nat × List Nat × PDFDictionary))
    (current : Option (List Nat)) :
    openNodeAfter curID (a ++ b) current
      = openNodeAfter curID b (openNodeAfter curID a current) := by
  simp [openNodeAfter, List.foldl_append]

mutual
/-- What `ReadPageTreeState` makes of the objects of a tree: the tree with its
back-references, and the open node. -/
theorem ReadPageTreeState_spec : ∀ (t : PageTree) (reader : PDFParser)
    (curID inObjectID n : Nat) (position : List Nat) (current : Option (List Nat))
    (fuel : Nat),
    (∀ e ∈ t.stateNodes inObjectID n position,
      reader.ParseNewObject e.1 = some (.dictionary e.2.2)) →
    t.nodesHaveKids = true → t.depth ≤ fuel →
    ReadPageTreeState reader curID fuel (t.stateEntries n) (PageTree.new t.GetID) position
        current
      = some (t.linked none,
          openNodeAfter curID (t.stateNodes inObjectID n position).tail current)
  | .leafParent id parent pages, reader, curID, inObjectID, n, position, current, fuel,
      _, _, hfuel => by
    cases fuel with
    | zero => simp [PageTree.depth] at hfuel
    | succ f =>
      have hq1 : PDFDictionary.QueryDirectObject (leafStateEntries id pages) "mIsLeafParent"
          = some (.boolean true) := by
        simp [leafStateEntries, PDFDictionary.QueryDirectObject, List.find?]
      have hq2 : PDFDictionary.QueryDirectObject (leafStateEntries id pages) "mKidsIDs"
          = some (.array (pages.map (fun (p : Nat) => PDFObject.integer (p : Int)))) := by
        simp [leafStateEntries, PDFDictionary.QueryDirectObject, List.find?]
      simp only [ReadPageTreeState, PageTree.stateEntries, hq1, hq2, PageTree.new,
        PageTree.GetID, readKidsIDs_spec, List.nil_append, Option.map_some',
        PageTree.linked, PageTree.stateNodes, List.tail_cons, openNodeAfter, List.foldl_nil]
  | .node id parent kids, reader, curID, inObjectID, n, position, current, fuel,
      hlook, hkids, hfuel => by
    cases fuel with
    | zero => simp [PageTree.depth] at hfuel
    | succ f =>
      have hq1 : PDFDictionary.QueryDirectObject
          (nodeStateEntries id (List.range' n kids.length)) "mIsLeafParent"
          = some (.boolean false) := by
        simp [nodeStateEntries, PDFDictionary.QueryDirectObject, List.find?]
      have hq2 : PDFDictionary.QueryDirectObject
          (nodeStateEntries id (List.range' n kids.length)) "mKidsNodes"
          = some (.array ((List.range' n kids.length).map
              (fun (k : Nat) => PDFObject.indirectObjectReference k 0))) := by
        simp [nodeStateEntries, PDFDictionary.QueryDirectObject, List.find?]
      simp only [PageTree.nodesHaveKids, Bool.and_eq_true, Bool.not_eq_true'] at hkids
      simp only [PageTree.depth] at hfuel
      have hrec := readKidsNodes_spec kids reader curID n (n + kids.length) position 0
        current f (PageTree.new id)
        (fun e he => hlook e (by
          simp only [PageTree.stateNodes, List.mem_cons]
          exact Or.inr he))
        hkids.2 (by omega)
      simp only [ReadPageTreeState, PageTree.stateEntries, hq1, hq2, PageTree.GetID, hrec,
        foldl_AddNodeToTree_new kids id hkids.1, PageTree.linked, PageTree.stateNodes,
        List.tail_cons]
/-- What the loop of `ReadPageTreeState` over the kids makes of the objects of the kids. -/
theorem readKidsNodes_spec : ∀ (ks : List PageTree) (reader : PDFParser)
    (curID kidID n : Nat) (position : List Nat) (i : Nat) (current : Option (List Nat))
    (fuel : Nat) (acc : PageTree),
    (∀ e ∈ PageTree.stateNodesKids kidID ks n position i,
      reader.ParseNewObject e.1 = some (.dictionary e.2.2)) →
    PageTree.nodesHaveKidsAll ks = true → PageTree.depthKids ks ≤ fuel →
    readKidsNodes reader curID (ReadPageTreeState reader curID fuel)
        ((List.range' kidID ks.length).map (fun (k : Nat) => PDFObject.indirectObjectReference k 0))
        acc position i current
      = some (ks.foldl (fun (a k : PageTree) => a.AddNodeToTree (k.linked none)) acc,
          openNodeAfter curID (PageTree.stateNodesKids kidID ks n position i) current)
  | [], reader, curID, kidID, n, position, i, current, fuel, acc, _, _, _ => by
    simp [readKidsNodes, PageTree.stateNodesKids, openNodeAfter]
  | k :: ks, reader, curID, kidID, n, position, i, current, fuel, acc, hlook, hkids,
      hfuel => by
    simp only [PageTree.nodesHaveKidsAll, Bool.and_eq_true] at hkids
    simp only [PageTree.depthKids] at hfuel
    have hhead : reader.ParseNewObject kidID = some (.dictionary (k.stateEntries n)) := by
      have := hlook (kidID, position ++ [i], k.stateEntries n) (by
        simp only [PageTree.stateNodesKids]
        rw [PageTree.stateNodes_eq_cons]
        simp)
      exact this
    have hk := ReadPageTreeState_spec k reader curID kidID n (position ++ [i])
      (if kidID = curID then some (position ++ [i]) else current) fuel
      (fun e he => hlook e (by
        simp only [PageTree.stateNodesKids]
        exact List.mem_append_left _ he))
      hkids.1 (by omega)
    have hrest := readKidsNodes_spec ks reader curID (kidID + 1) (n + k.descendants)
      position (i + 1)
      (openNodeAfter curID (k.stateNodes kidID n (position ++ [i])).tail
        (if kidID = curID then some (position ++ [i]) else current))
      fuel (acc.AddNodeToTree (k.linked none))
      (fun e he => hlook e (by
        simp only [PageTree.stateNodesKids]
        exact List.mem_append_right _ he))
      hkids.2 (by omega)
    have hopen : openNodeAfter curID (k.stateNodes kidID n (position ++ [i])) current
        = openNodeAfter curID (k.stateNodes kidID n (position ++ [i])).tail
            (if kidID = curID then some (position ++ [i]) else current) := by
      conv_lhs => rw [PageTree.stateNodes_eq_cons]
      simp [openNodeAfter]
    simp only [List.length_cons, List.range'_succ, List.map_cons, readKidsNodes, hhead,
      PageTree.queryID_stateEntries, Int.toNat_ofNat, hk, hrest, List.foldl_cons,
      PageTree.stateNodesKids, openNodeAfter_append, hopen]
end

theorem PageTree.length_le_descendantsKids (ks : List PageTree) :
    ks.length ≤ PageTree.descendantsKids ks := by
  induction ks with
  | nil => simp [PageTree.descendantsKids]
  | cons k ks ih => simp only [List.length_cons, PageTree.descendantsKids]; omega

mutual
/-- The IDs under which the nodes of a tree are stored: the ID given for the root and IDs
the registry of the state writer gives, each once. -/
theorem PageTree.stateNodes_keys : ∀ (t : PageTree) (inObjectID n : Nat)
    (position : List Nat), inObjectID < n →
    (∀ e ∈ t.stateNodes inObjectID n position,
      e.1 = inObjectID ∨ (n ≤ e.1 ∧ e.1 < n + t.descendants)) ∧
    ((t.stateNodes inObjectID n position).map (fun e => e.1)).Nodup
  | .leafParent id parent pages, inObjectID, n, position, _ => by
    simp [PageTree.stateNodes]
  | .node id parent kids, inObjectID, n, position, h => by
    obtain ⟨h1, h2⟩ := PageTree.stateNodesKids_keys kids n (n + kids.length) position 0
      (Nat.le_refl _)
    have hlen := PageTree.length_le_descendantsKids kids
    have hin : ∀ e ∈ PageTree.stateNodesKids n kids (n + kids.length) position 0,
        n ≤ e.1 ∧ e.1 < n + PageTree.descendantsKids kids := by
      intro e he
      rcases h1 e he with h3 | h3 <;> omega
    simp only [PageTree.stateNodes, PageTree.descendants, List.map_cons, List.nodup_cons,
      List.mem_cons, List.mem_map]
    refine ⟨?_, ?_, h2⟩
    · rintro e (he | he)
      · exact Or.inl (by rw [he])
      · exact Or.inr (hin e he)
    · rintro ⟨e, he, heq⟩
      have := hin e he
      omega
/-- The IDs under which the nodes of the kids of a node are stored. -/
theorem PageTree.stateNodesKids_keys : ∀ (ks : List PageTree) (kidID n : Nat)
    (position : List Nat) (i : Nat), kidID + ks.length ≤ n →
    (∀ e ∈ PageTree.stateNodesKids kidID ks n position i,
      (kidID ≤ e.1 ∧ e.1 < kidID + ks.length) ∨
      (n ≤ e.1 ∧ e.1 < n + (PageTree.descendantsKids ks - ks.length))) ∧
    ((PageTree.stateNodesKids kidID ks n position i).map (fun e => e.1)).Nodup
  | [], kidID, n, position, i, _ => by
    simp [PageTree.stateNodesKids]
  | k :: ks, kidID, n, position, i, h => by
    simp only [List.length_cons] at h
    obtain ⟨h1, h2⟩ := PageTree.stateNodes_keys k kidID n (position ++ [i]) (by omega)
    obtain ⟨g1, g2⟩ := PageTree.stateNodesKids_keys ks (kidID + 1) (n + k.descendants)
      position (i + 1) (by omega)
    have hlen := PageTree.length_le_descendantsKids ks
    simp only [PageTree.stateNodesKids, List.map_append, List.length_cons,
      PageTree.descendantsKids, List.mem_append]
    refine ⟨?_, ?_⟩
    · rintro e (he | he)
      · rcases h1 e he with h3 | h3
        · exact Or.inl (by omega)
        · exact Or.inr (by omega)
      · rcases g1 e he with h3 | h3
        · exact Or.inl (by omega)
        · exact Or.inr (by omega)
    · rw [List.nodup_append]
      refine ⟨h2, g2, ?_⟩
      intro a ha hb
      simp only [List.mem_map] at ha hb
      obtain ⟨e, he, rfl⟩ := ha
      obtain ⟨e2, he2, heq⟩ := hb
      have := h1 e he
      have := g1 e2 he2
      omega
end

theorem find_of_nodup_keys (l : List (Nat × PDFObject)) (k : Nat) (v : PDFObject)
    (h : (k, v) ∈ l) (hn : (l.map (fun e => e.1)).Nodup) :
    (l.find? (fun e => e.1 == k)).map (fun e => e.2) = some v := by
  induction l with
  | nil => cases h
  | cons x xs ih =>
    simp only [List.map_cons, List.nodup_cons, List.mem_map, not_exists, not_and] at hn
    rcases List.mem_cons.1 h with h1 | h1
    · subst h1
      simp [List.find?]
    · have hne : x.1 ≠ k := fun heq => hn.1 (k, v) h1 heq.symm
      have hb : (x.1 == k) = false := by simpa using hne
      simp only [List.find?, hb]
      exact ih h1 hn.2
mutual
theorem PageTree.stateNodes_position : ∀ (t : PageTree) (inObjectID n : Nat)
    (position path : List Nat), (t.nodeAt path).isSome = true →
    ∃ e ∈ t.stateNodes inObjectID n position, e.2.1 = position ++ path
  | .leafParent id parent pages, inObjectID, n, position, [], _ =>
    ⟨(inObjectID, position, leafStateEntries id pages), by simp [PageTree.stateNodes],
      by simp⟩
  | .leafParent id parent pages, inObjectID, n, position, _ :: _, h => by
    simp [PageTree.nodeAt] at h
  | .node id parent kids, inObjectID, n, position, [], _ =>
    ⟨(inObjectID, position, nodeStateEntries id (List.range' n kids.length)),
      by simp only [PageTree.stateNodes]; exact List.mem_cons_self _ _, by simp⟩
  | .node id parent kids, inObjectID, n, position, i :: rest, h => by
    simp only [PageTree.nodeAt] at h
    obtain ⟨e, he, hp⟩ := PageTree.stateNodesKids_position kids n (n + kids.length) position
      0 i rest h
    exact ⟨e, by simp only [PageTree.stateNodes]; exact List.mem_cons_of_mem _ he,
      by rw [hp]; simp⟩

theorem PageTree.stateNodesKids_position : ∀ (ks : List PageTree) (kidID n : Nat)
    (position : List Nat) (i j : Nat) (rest : List Nat),
    (PageTree.nodeAtKids ks j rest).isSome = true →
    ∃ e ∈ PageTree.stateNodesKids kidID ks n position i,
      e.2.1 = position ++ (i + j) :: rest
  | [], kidID, n, position, i, j, rest, h => by
    simp [PageTree.nodeAtKids] at h
  | k :: ks, kidID, n, position, i, 0, rest, h => by
    simp only [PageTree.nodeAtKids] at h
    obtain ⟨e, he, hp⟩ := PageTree.stateNodes_position k kidID n (position ++ [i]) rest h
    exact ⟨e, by simp only [PageTree.stateNodesKids]; exact List.mem_append_left _ he,
      by rw [hp]; simp⟩
  | k :: ks, kidID, n, position, i, j + 1, rest, h => by
    simp only [PageTree.nodeAtKids] at h
    obtain ⟨e, he, hp⟩ := PageTree.stateNodesKids_position ks (kidID + 1)
      (n + k.descendants) position (i + 1) j rest h
    exact ⟨e, by simp only [PageTree.stateNodesKids]; exact List.mem_append_right _ he,
      by rw [hp]; simp; omega⟩
end

theorem openNodeAfter_absent (x : Nat) (nodes : List (Nat × List Nat × PDFDictionary))
    (current : Option (List Nat)) (h : x ∉ nodes.map (fun e => e.1)) :
    openNodeAfter x nodes current = current := by
  induction nodes generalizing current with
  | nil => rfl
  | cons e rest ih =>
    simp only [List.map_cons, List.mem_cons, not_or] at h
    have hne : ¬ e.1 = x := fun heq => h.1 heq.symm
    simp only [openNodeAfter, List.foldl_cons, hne, if_false]
    exact ih current h.2

/-- The state reader takes for the open node the one node whose ID is the ID stored. -/
theorem openNodeAfter_unique (x : Nat) (path : List Nat) (d : PDFDictionary)
    (nodes : List (Nat × List Nat × PDFDictionary)) (current : Option (List Nat))
    (h : (x, path, d) ∈ nodes) (hn : (nodes.map (fun e => e.1)).Nodup) :
    openNodeAfter x nodes current = some path := by
  induction nodes generalizing current with
  | nil => cases h
  | cons e rest ih =>
    simp only [List.map_cons, List.nodup_cons] at hn
    rcases List.mem_cons.1 h with h1 | h1
    · subst h1
      simp only [openNodeAfter, List.foldl_cons, if_true]
      exact openNodeAfter_absent x rest _ hn.1
    · have hne : ¬ e.1 = x := by
        intro heq
        apply hn.1
        rw [heq]
        exact List.mem_map.2 ⟨_, h1, rfl⟩
      simp only [openNodeAfter, List.foldl_cons, hne, if_false]
      exact ih current h1 hn.2

theorem ReadDateState_spec (d : PDFDate) :
    ReadDateState (some (dateStateEntries d)) = some d := by
  simp [ReadDateState, dateStateEntries, queryInteger, PDFDictionary.QueryDirectObject,
    List.find?]

theorem readAdditionalInfoEntries_spec (es : List (String × String)) :
    readAdditionalInfoEntries (additionalInfoStateEntries es) = some es := by
  induction es with
  | nil => rfl
  | cons e es ih =>
    simp only [additionalInfoStateEntries, List.map_cons] at ih ⊢
    simp [readAdditionalInfoEntries, ih]

theorem EInfoTrapped.ofInt_toInt (t : EInfoTrapped) : EInfoTrapped.ofInt t.toInt = t := by
  cases t <;> simp [EInfoTrapped.ofInt, EInfoTrapped.toInt]

/-- The info dictionary the state reader makes of the state of an info dictionary. -/
theorem ReadTrailerInfoState_spec (info : InfoDictionary) :
    ReadTrailerInfoState (infoStateEntries info)
      = some { info with ModDate := info.CreationDate } := by
  have hq : queryDictionary (infoStateEntries info) "CreationDate"
      = some (dateStateEntries info.CreationDate) := by
    simp [queryDictionary, infoStateEntries, PDFDictionary.QueryDirectObject, List.find?]
  have ha : queryDictionary (infoStateEntries info) "mAdditionalInfoEntries"
      = some (additionalInfoStateEntries info.mAdditionalInfoEntries) := by
    simp [queryDictionary, infoStateEntries, PDFDictionary.QueryDirectObject, List.find?]
  have hs : queryLiteralString (infoStateEntries info) "Title" = some info.Title ∧
      queryLiteralString (infoStateEntries info) "Author" = some info.Author ∧
      queryLiteralString (infoStateEntries info) "Subject" = some info.Subject ∧
      queryLiteralString (infoStateEntries info) "Keywords" = some info.Keywords ∧
      queryLiteralString (infoStateEntries info) "Creator" = some info.Creator ∧
      queryLiteralString (infoStateEntries info) "Producer" = some info.Producer ∧
      queryInteger (infoStateEntries info) "Trapped" = some info.Trapped.toInt := by
    simp [queryLiteralString, queryInteger, infoStateEntries,
      PDFDictionary.QueryDirectObject, List.find?]
  obtain ⟨h1, h2, h3, h4, h5, h6, h7⟩ := hs
  simp only [ReadTrailerInfoState, h1, h2, h3, h4, h5, h6, h7, hq, ha, ReadDateState_spec,
    readAdditionalInfoEntries_spec, EInfoTrapped.ofInt_toInt]

/-- The trailer information the state reader makes of the state of a trailer
information. -/
theorem ReadTrailerState_spec (reader : PDFParser) (t : TrailerInformation)
    (infoDictionaryID : Nat) (s : DocumentContext)
    (hinfo : reader.ParseNewObject infoDictionaryID
      = some (.dictionary (infoStateEntries t.mInfoDictionary))) :
    ReadTrailerState reader (trailerStateEntries t infoDictionaryID) s
      = some { s with mTrailerInformation := restoredTrailer t } := by
  have h1 : queryInteger (trailerStateEntries t infoDictionaryID) "mPrev"
      = some (t.mPrev.getD 0) := by
    simp [queryInteger, trailerStateEntries, PDFDictionary.QueryDirectObject, List.find?]
  have h2 : (queryDictionary (trailerStateEntries t infoDictionaryID)
      "mRootReference").bind GetReferenceFromState = some (t.mRootReference.getD ⟨0, 0⟩) := by
    simp [queryDictionary, trailerStateEntries, referenceStateObject,
      GetReferenceFromState, PDFDictionary.QueryDirectObject, List.find?]
  have h3 : (queryDictionary (trailerStateEntries t infoDictionaryID)
      "mEncryptReference").bind GetReferenceFromState
      = some (t.mEncryptReference.getD ⟨0, 0⟩) := by
    simp [queryDictionary, trailerStateEntries, referenceStateObject,
      GetReferenceFromState, PDFDictionary.QueryDirectObject, List.find?]
  have h4 : (queryDictionary (trailerStateEntries t infoDictionaryID)
      "mInfoDictionaryReference").bind GetReferenceFromState
      = some (t.mInfoDictionaryReference.getD ⟨0, 0⟩) := by
    simp [queryDictionary, trailerStateEntries, referenceStateObject,
      GetReferenceFromState, PDFDictionary.QueryDirectObject, List.find?]
  have h5 : reader.QueryDictionaryObject (trailerStateEntries t infoDictionaryID)
      "mInfoDictionary" = some (.dictionary (infoStateEntries t.mInfoDictionary)) := by
    simp [PDFParser.QueryDictionaryObject, trailerStateEntries,
      PDFDictionary.QueryDirectObject, List.find?, hinfo]
  simp only [ReadTrailerState, h1, h2, h3, h4, h5, ReadTrailerInfoState_spec,
    restoredTrailer, TrailerInformation.SetPrev, TrailerInformation.SetRootReference,
    TrailerInformation.SetEncrypt, TrailerInformation.SetInfoReference]

theorem WriteState_eq (env : Collaborators) (w : ObjectsContext) (inObjectID : Nat)
    (s : DocumentContext) :
    WriteState env w inObjectID s
      = ((env.WriteUsedFontsState (WriteCatalogInformationState (w.objectsCount + 1) s
              (WriteTrailerState w.objectsCount s
                (documentStateWriter inObjectID s w))).1 (w.objectsCount + 2)).status,
          (WriteCatalogInformationState (w.objectsCount + 1) s
              (WriteTrailerState w.objectsCount s
                (documentStateWriter inObjectID s w))).1.external
            "UsedFontsRepository::WriteState" (w.objectsCount + 2)
            (env.WriteUsedFontsState (WriteCatalogInformationState (w.objectsCount + 1) s
              (WriteTrailerState w.objectsCount s
                (documentStateWriter inObjectID s w))).1 (w.objectsCount + 2)),
          (WriteCatalogInformationState (w.objectsCount + 1) s
              (WriteTrailerState w.objectsCount s
                (documentStateWriter inObjectID s w))).2) := by
  simp only [WriteState, documentStateWriter, ObjectsContext.allocate_fst,
    ObjectsContext.objectsCount_allocate, ObjectsContext.objectsCount_write]

theorem documentStateWriter_spec (inObjectID : Nat) (s : DocumentContext)
    (w : ObjectsContext) :
    (documentStateWriter inObjectID s w).parsed
      = ParseState.between (w.parsed.objects
          ++ [(inObjectID, .dictionary (documentStateEntries s w.objectsCount))]) ∧
    (documentStateWriter inObjectID s w).objectsCount = w.objectsCount + 3 := by
  constructor
  · cases hm : s.mModifiedDocumentIDExists <;>
      simp [documentStateWriter, hm, ObjectsContext.parsed_write,
        ObjectsContext.parsed_allocate, ObjectsContext.allocate_fst,
        ObjectsContext.objectsCount_allocate, ObjectsContext.objectsCount_write,
        ParseState.step, ParseState.emit, ParseState.between, documentStateEntries]
  · cases hm : s.mModifiedDocumentIDExists <;>
      simp [documentStateWriter, hm, ObjectsContext.objectsCount_allocate,
        ObjectsContext.objectsCount_write]

theorem ObjectsContext.parsed_external (w : ObjectsContext) (callee : String) (id : Nat)
    (f : ExternalWrite) : (w.external callee id f).parsed = w.parsed := by
  simp [ObjectsContext.parsed, ObjectsContext.external, List.foldl_append, ParseState.step]

theorem WriteCatalogInformationState_none (inObjectID : Nat) (s : DocumentContext)
    (w : ObjectsContext) (h : s.mCatalogInformation.mPageTree = none) :
    (WriteCatalogInformationState inObjectID s w).1.parsed
      = ParseState.between (w.parsed.objects
          ++ [(inObjectID, .dictionary (catalogStateEntries none))]) := by
  simp [WriteCatalogInformationState, h, ObjectsContext.parsed_write, ParseState.step,
    ParseState.emit, ParseState.between, catalogStateEntries]

theorem WriteCatalogInformationState_some (inObjectID : Nat) (s : DocumentContext)
    (w : ObjectsContext) (root : PageTree) (h : s.mCatalogInformation.mPageTree = some root) :
    ∃ x, (WriteCatalogInformationState inObjectID s w).1.parsed
        = ParseState.between (w.parsed.objects
            ++ stateObjects (root.stateNodes w.objectsCount (w.objectsCount + 1) [])
            ++ [(inObjectID, .dictionary
                  (catalogStateEntries (some (w.objectsCount, x))))]) ∧
      ((root.nodeAt s.mCatalogInformation.mCurrentPageTreeNode).isSome = true →
        ∃ d, (x, s.mCatalogInformation.mCurrentPageTreeNode, d)
          ∈ root.stateNodes w.objectsCount (w.objectsCount + 1) []) := by
  obtain ⟨h1, -, x, hx, hyes, -⟩ := WritePageTreeState_spec root w.objectsCount [] s
    w.AllocateNewObjectID.2
  rw [ObjectsContext.parsed_allocate, ObjectsContext.objectsCount_allocate] at h1
  rw [ObjectsContext.objectsCount_allocate] at hyes
  refine ⟨x, ?_, fun hv => ?_⟩
  · simp [WriteCatalogInformationState, h, ObjectsContext.parsed_write,
      ObjectsContext.allocate_fst, h1, hx, ParseState.step, ParseState.emit,
      ParseState.between, catalogStateEntries]
  · obtain ⟨e, he, hp⟩ := PageTree.stateNodes_position root w.objectsCount
      (w.objectsCount + 1) [] s.mCatalogInformation.mCurrentPageTreeNode hv
    exact hyes ⟨e, he, by simpa using hp⟩

/-- The objects of the state file of a document context without a page tree. -/
theorem stateFile_objects_none (env : Collaborators) (n inObjectID : Nat)
    (s : DocumentContext) (h : s.mCatalogInformation.mPageTree = none) :
    (stateFile env n inObjectID s).parsed.objects
      = [(inObjectID, .dictionary (documentStateEntries s n)),
         (n, .dictionary (trailerStateEntries s.mTrailerInformation (n + 3))),
         (n + 3, .dictionary (infoStateEntries s.mTrailerInformation.mInfoDictionary)),
         (n + 1, .dictionary (catalogStateEntries none))] := by
  obtain ⟨hd1, hd2⟩ := documentStateWriter_spec inObjectID s
    { written := [], objectsCount := n }
  have hw0 : ({ written := [], objectsCount := n } : ObjectsContext).parsed.objects = [] := rfl
  simp only [stateFile, WriteState_eq, ObjectsContext.parsed_external,
    WriteCatalogInformationState_none _ _ _ h, WriteTrailerState_parsed, hd1, hd2, hw0,
    ParseState.between, List.nil_append, List.append_assoc, List.cons_append]

/-- The objects of the state file of a document context with a page tree. -/
theorem stateFile_objects_some (env : Collaborators) (n inObjectID : Nat)
    (s : DocumentContext) (root : PageTree)
    (h : s.mCatalogInformation.mPageTree = some root) :
    ∃ x, (stateFile env n inObjectID s).parsed.objects
        = [(inObjectID, .dictionary (documentStateEntries s n)),
           (n, .dictionary (trailerStateEntries s.mTrailerInformation (n + 3))),
           (n + 3, .dictionary (infoStateEntries s.mTrailerInformation.mInfoDictionary))]
          ++ stateObjects (root.stateNodes (n + 4) (n + 5) [])
          ++ [(n + 1, .dictionary (catalogStateEntries (some (n + 4, x))))] ∧
      ((root.nodeAt s.mCatalogInformation.mCurrentPageTreeNode).isSome = true →
        ∃ d, (x, s.mCatalogInformation.mCurrentPageTreeNode, d)
          ∈ root.stateNodes (n + 4) (n + 5) []) := by
  obtain ⟨hd1, hd2⟩ := documentStateWriter_spec inObjectID s
    { written := [], objectsCount := n }
  have hw0 : ({ written := [], objectsCount := n } : ObjectsContext).parsed.objects = [] := rfl
  obtain ⟨x, hx, hyes⟩ := WriteCatalogInformationState_some (n + 1) s
    (WriteTrailerState n s (documentStateWriter inObjectID s
      { written := [], objectsCount := n })) root h
  rw [WriteTrailerState_objectsCount, WriteTrailerState_parsed, hd1, hd2, hw0] at hx
  rw [WriteTrailerState_objectsCount, hd2] at hyes
  refine ⟨x, ?_, hyes⟩
  simp only [stateFile, WriteState_eq, ObjectsContext.parsed_external, hx,
    ParseState.between, List.nil_append, List.append_assoc, List.cons_append]

theorem ReadCatalogInformationState_none (fuel : Nat) (reader : PDFParser)
    (s : DocumentContext) :
    ReadCatalogInformationState fuel reader (catalogStateEntries none) s
      = some { s with
          mCatalogInformation := { mPageTree := none, mCurrentPageTreeNode := [] } } := by
  simp [ReadCatalogInformationState, catalogStateEntries, PDFDictionary.QueryDirectObject,
    List.find?]

/-- The catalog information the state reader makes of the state of a page tree. -/
theorem ReadCatalogInformationState_some (fuel : Nat) (reader : PDFParser)
    (s : DocumentContext) (root : PageTree) (rootID n x : Nat) (path : List Nat)
    (d : PDFDictionary)
    (hlook : ∀ e ∈ root.stateNodes rootID n [],
      reader.ParseNewObject e.1 = some (.dictionary e.2.2))
    (hkids : root.nodesHaveKids = true) (hfuel : root.depth ≤ fuel)
    (hnodup : ((root.stateNodes rootID n []).map (fun e => e.1)).Nodup)
    (hx : (x, path, d) ∈ root.stateNodes rootID n []) :
    ReadCatalogInformationState fuel reader (catalogStateEntries (some (rootID, x))) s
      = some { s with
          mCurrentPageTreeIDInState := x,
          mCatalogInformation :=
            { mPageTree := some (root.linked none), mCurrentPageTreeNode := path } } := by
  have hq1 : PDFDictionary.QueryDirectObject (catalogStateEntries (some (rootID, x)))
      "PageTreeRoot" = some (.indirectObjectReference rootID 0) := by
    simp [catalogStateEntries, PDFDictionary.QueryDirectObject, List.find?]
  have hq2 : PDFDictionary.QueryDirectObject (catalogStateEntries (some (rootID, x)))
      "mCurrentPageTreeNode" = some (.indirectObjectReference x 0) := by
    simp [catalogStateEntries, PDFDictionary.QueryDirectObject, List.find?]
  have hroot : reader.ParseNewObject rootID = some (.dictionary (root.stateEntries n)) := by
    have := hlook (rootID, [], root.stateEntries n) (by
      rw [PageTree.stateNodes_eq_cons]
      exact List.mem_cons_self _ _)
    exact this
  have hread := ReadPageTreeState_spec root reader x rootID n []
    (if rootID = x then some [] else none) fuel hlook hkids hfuel
  have hopen : openNodeAfter x (root.stateNodes rootID n []).tail
      (if rootID = x then some [] else none) = some path := by
    have h1 := openNodeAfter_unique x path d (root.stateNodes rootID n []) none hx hnodup
    rw [PageTree.stateNodes_eq_cons] at h1
    simpa [openNodeAfter] using h1
  rw [hopen] at hread
  simp only [ReadCatalogInformationState, hq1, hq2, hroot, PageTree.queryID_stateEntries,
    Int.toNat_ofNat, hread]

/-- The round trip of the state of a document context: what `ReadState` makes of the state
file `WriteState` has written. -/
theorem ReadState_stateFile (env : Collaborators) (n inObjectID fuel : Nat)
    (s fresh : DocumentContext) (hid : inObjectID < n) (hread : PageTreeReadable s fuel) :
    ∃ r, ReadState env fuel (stateReader (stateFile env n inObjectID s)) inObjectID fresh
        = some r ∧
      r.1 = env.ReadUsedFontsState (stateReader (stateFile env n inObjectID s)) (n + 2) ∧
      r.2.mTrailerInformation = restoredTrailer s.mTrailerInformation ∧
      r.2.mModifiedDocumentIDExists = s.mModifiedDocumentIDExists ∧
      (s.mModifiedDocumentIDExists = true →
        r.2.mModifiedDocumentID = s.mModifiedDocumentID) ∧
      r.2.mCatalogInformation
        = (match s.mCatalogInformation.mPageTree with
          | none => { mPageTree := none, mCurrentPageTreeNode := [] }
          | some root =>
            { mPageTree := some (root.linked none),
              mCurrentPageTreeNode := s.mCatalogInformation.mCurrentPageTreeNode }) := by
  -- the lookups of the state reader
  have hparse : ∀ id, (stateReader (stateFile env n inObjectID s)).ParseNewObject id
      = ((stateFile env n inObjectID s).parsed.objects.find? (fun e => e.1 == id)).map
          (fun e => e.2) := fun _ => rfl
  -- the reading of the fixed part, given the lookups
  have hfixed : ∀ (catalog : PDFDictionary) (s2 : DocumentContext → DocumentContext),
      (stateReader (stateFile env n inObjectID s)).ParseNewObject inObjectID
        = some (.dictionary (documentStateEntries s n)) →
      (stateReader (stateFile env n inObjectID s)).ParseNewObject n
        = some (.dictionary (trailerStateEntries s.mTrailerInformation (n + 3))) →
      (stateReader (stateFile env n inObjectID s)).ParseNewObject (n + 3)
        = some (.dictionary (infoStateEntries s.mTrailerInformation.mInfoDictionary)) →
      (stateReader (stateFile env n inObjectID s)).ParseNewObject (n + 1)
        = some (.dictionary catalog) →
      (∀ s1, ReadCatalogInformationState fuel (stateReader (stateFile env n inObjectID s))
        catalog s1 = some (s2 s1)) →
      ReadState env fuel (stateReader (stateFile env n inObjectID s)) inObjectID fresh
        = some (env.ReadUsedFontsState (stateReader (stateFile env n inObjectID s)) (n + 2),
            s2 { fresh with
              mModifiedDocumentIDExists := s.mModifiedDocumentIDExists,
              mModifiedDocumentID :=
                if s.mModifiedDocumentIDExists then s.mModifiedDocumentID
                else fresh.mModifiedDocumentID,
              mTrailerInformation := restoredTrailer s.mTrailerInformation }) := by
    intro catalog s2 hdoc htr hinfo hcat hread2
    have hq1 : PDFDictionary.QueryDirectObject (documentStateEntries s n)
        "mModifiedDocumentIDExists" = some (.boolean s.mModifiedDocumentIDExists) := by
      simp [documentStateEntries, PDFDictionary.QueryDirectObject, List.find?]
    have hq2 : (stateReader (stateFile env n inObjectID s)).QueryDictionaryObject
        (documentStateEntries s n) "mTrailerInformation"
        = some (.dictionary (trailerStateEntries s.mTrailerInformation (n + 3))) := by
      simp [PDFParser.QueryDictionaryObject, documentStateEntries,
        PDFDictionary.QueryDirectObject, List.find?, htr]
    have hq3 : (stateReader (stateFile env n inObjectID s)).QueryDictionaryObject
        (documentStateEntries s n) "mCatalogInformation" = some (.dictionary catalog) := by
      simp [PDFParser.QueryDictionaryObject, documentStateEntries,
        PDFDictionary.QueryDirectObject, List.find?, hcat]
    have hq4 : PDFDictionary.QueryDirectObject (documentStateEntries s n)
        "mUsedFontsRepository" = some (.indirectObjectReference (n + 2) 0) := by
      simp [documentStateEntries, PDFDictionary.QueryDirectObject, List.find?]
    cases hm : s.mModifiedDocumentIDExists with
    | false =>
      rw [hm] at hq1
      simp only [ReadState, hdoc, hq1, hq2, hq3, hq4, Bool.false_eq_true, if_false,
        ReadTrailerState_spec _ _ _ _ hinfo, hread2]
    | true =>
      rw [hm] at hq1
      have hq5 : PDFDictionary.QueryDirectObject (documentStateEntries s n)
          "mModifiedDocumentID" = some (.hexString s.mModifiedDocumentID) := by
        simp [documentStateEntries, hm, PDFDictionary.QueryDirectObject, List.find?]
      simp only [ReadState, hdoc, hq1, hq2, hq3, hq4, hq5, if_true,
        ReadTrailerState_spec _ _ _ _ hinfo, hread2]
  cases ht : s.mCatalogInformation.mPageTree with
  | none =>
    have hobjs := stateFile_objects_none env n inObjectID s ht
    have hnodup : (((stateFile env n inObjectID s).parsed.objects).map
        (fun e => e.1)).Nodup := by
      rw [hobjs]
      simp only [List.map_cons, List.map_nil, List.nodup_cons, List.mem_cons,
        List.mem_singleton, List.not_mem_nil, not_false_eq_true, List.nodup_nil, and_true,
        or_false]
      omega
    have hres := hfixed (catalogStateEntries none)
      (fun s1 => { s1 with
        mCatalogInformation := { mPageTree := none, mCurrentPageTreeNode := [] } })
      (by rw [hparse]; exact find_of_nodup_keys _ _ _ (by rw [hobjs]; simp) hnodup)
      (by rw [hparse]; exact find_of_nodup_keys _ _ _ (by rw [hobjs]; simp) hnodup)
      (by rw [hparse]; exact find_of_nodup_keys _ _ _ (by rw [hobjs]; simp) hnodup)
      (by rw [hparse]; exact find_of_nodup_keys _ _ _ (by rw [hobjs]; simp) hnodup)
      (fun s1 => ReadCatalogInformationState_none fuel _ s1)
    refine ⟨_, hres, rfl, rfl, rfl, fun hm => ?_, rfl⟩
    simp [hm]
  | some root =>
    obtain ⟨hkids, hvalid, hfuel⟩ := hread root ht
    obtain ⟨x, hobjs, hyes⟩ := stateFile_objects_some env n inObjectID s root ht
    obtain ⟨d, hd⟩ := hyes hvalid
    obtain ⟨hkeys, hnd⟩ := PageTree.stateNodes_keys root (n + 4) (n + 5) [] (by omega)
    have hnodup : (((stateFile env n inObjectID s).parsed.objects).map
        (fun e => e.1)).Nodup := by
      rw [hobjs]
      simp only [List.map_append, List.map_cons, List.map_nil, stateObjects, List.map_map]
      rw [List.nodup_append]
      refine ⟨?_, by simp, ?_⟩
      · rw [show ([inObjectID, n, n + 3] ++ List.map ((fun e => e.1) ∘
            fun e => (e.1, PDFObject.dictionary e.2.2))
              (root.stateNodes (n + 4) (n + 5) []))
            = [inObjectID, n, n + 3] ++ (root.stateNodes (n + 4) (n + 5) []).map
                (fun e => e.1) from rfl]
        rw [List.nodup_append]
        refine ⟨?_, hnd, ?_⟩
        · simp only [List.nodup_cons, List.mem_cons, List.mem_singleton, List.not_mem_nil,
            not_false_eq_true, List.nodup_nil, and_true, or_false]
          omega
        · intro a ha hb
          simp only [List.mem_map] at hb
          obtain ⟨e, he, rfl⟩ := hb
          have := hkeys e he
          simp only [List.mem_cons, List.mem_singleton, List.not_mem_nil, or_false] at ha
          omega
      · intro a ha hb
        simp only [List.mem_singleton] at hb
        subst hb
        simp only [List.mem_append, List.mem_cons, List.mem_singleton, List.not_mem_nil,
          or_false, List.mem_map, Function.comp] at ha
        rcases ha with ha | ⟨e, he, heq⟩
        · omega
        · have := hkeys e he
          omega
    have hlook : ∀ e ∈ root.stateNodes (n + 4) (n + 5) [],
        (stateReader (stateFile env n inObjectID s)).ParseNewObject e.1
          = some (.dictionary e.2.2) := by
      intro e he
      rw [hparse]
      refine find_of_nodup_keys _ _ _ ?_ hnodup
      rw [hobjs]
      simp only [List.mem_append, stateObjects, List.mem_map]
      exact Or.inl (Or.inr ⟨e, he, rfl⟩)
    have hres := hfixed (catalogStateEntries (some (n + 4, x)))
      (fun s1 => { s1 with
        mCurrentPageTreeIDInState := x,
        mCatalogInformation :=
          { mPageTree := some (root.linked none),
            mCurrentPageTreeNode := s.mCatalogInformation.mCurrentPageTreeNode } })
      (by rw [hparse]; exact find_of_nodup_keys _ _ _ (by rw [hobjs]; simp) hnodup)
      (by rw [hparse]; exact find_of_nodup_keys _ _ _ (by rw [hobjs]; simp) hnodup)
      (by rw [hparse]; exact find_of_nodup_keys _ _ _ (by rw [hobjs]; simp) hnodup)
      (by rw [hparse]; exact find_of_nodup_keys _ _ _ (by rw [hobjs]; simp) hnodup)
      (fun s1 => ReadCatalogInformationState_some fuel _ s1 root (n + 4) (n + 5) x _ d
        hlook hkids hfuel hnd hd)
    refine ⟨_, hres, rfl, rfl, rfl, fun hm => ?_, rfl⟩
    simp [hm]
mutual
theorem PageTree.shape_linked : ∀ (t : PageTree) (p : Option Nat),
    (t.linked p).shape = t.shape
  | .leafParent id parent pages, p => by simp [PageTree.linked, PageTree.shape]
  | .node id parent kids, p => by
    simp [PageTree.linked, PageTree.shape, PageTree.shapeKids_linkedKids kids id]

theorem PageTree.shapeKids_linkedKids : ∀ (ks : List PageTree) (p : Nat),
    PageTree.shapeKids (PageTree.linkedKids ks p) = PageTree.shapeKids ks
  | [], p => by simp [PageTree.linkedKids, PageTree.shapeKids]
  | k :: ks, p => by
    simp [PageTree.linkedKids, PageTree.shapeKids, PageTree.shape_linked k (some p),
      PageTree.shapeKids_linkedKids ks p]
end

mutual
theorem PageTree.nodeAt_linked : ∀ (t : PageTree) (p : Option Nat) (path : List Nat),
    ((t.linked p).nodeAt path).map PageTree.shape = (t.nodeAt path).map PageTree.shape
  | .leafParent id parent pages, p, [] => by
    simp [PageTree.linked, PageTree.nodeAt, PageTree.shape]
  | .leafParent id parent pages, p, _ :: _ => by
    simp [PageTree.linked, PageTree.nodeAt]
  | .node id parent kids, p, [] => by
    have := PageTree.shape_linked (.node id parent kids) p
    simp only [PageTree.linked] at this
    simp [PageTree.linked, PageTree.nodeAt, this]
  | .node id parent kids, p, i :: rest => by
    simp only [PageTree.linked, PageTree.nodeAt]
    exact PageTree.nodeAtKids_linkedKids kids id i rest

theorem PageTree.nodeAtKids_linkedKids : ∀ (ks : List PageTree) (p i : Nat)
    (rest : List Nat),
    (PageTree.nodeAtKids (PageTree.linkedKids ks p) i rest).map PageTree.shape
      = (PageTree.nodeAtKids ks i rest).map PageTree.shape
  | [], p, i, rest => by simp [PageTree.linkedKids, PageTree.nodeAtKids]
  | k :: ks, p, 0, rest => by
    simp only [PageTree.linkedKids, PageTree.nodeAtKids]
    exact PageTree.nodeAt_linked k (some p) rest
  | k :: ks, p, i + 1, rest => by
    simp only [PageTree.linkedKids, PageTree.nodeAtKids]
    exact PageTree.nodeAtKids_linkedKids ks p i rest
end

/-! ## C24: round trip of the page tree -/

/-- C24: a document context is written by `WriteState` into a new state file, under an ID
the registry of the state writer gave before, and read back by `ReadState` into any
document context, with a bound on the recursion that the levels of the page tree do not
exceed; every node of the page tree that is no leaf parent has a kid and the open node is a
node of the tree. Then `ReadState` returns; when the document has no page tree the restored
one has none; when it has one, the restored tree has the same IDs, leaf parent flags and
kids in the same order at every node (the same shape), and is the original tree with the
back-references to the parents rebuilt. -/
theorem C24_page_tree_round_trip (env : Collaborators) (n inObjectID fuel : Nat)
    (s fresh : DocumentContext) (hid : inObjectID < n) (hread : PageTreeReadable s fuel) :
    ∃ r, ReadState env fuel (stateReader (stateFile env n inObjectID s)) inObjectID fresh
        = some r ∧
      (s.mCatalogInformation.mPageTree = none → r.2.mCatalogInformation.mPageTree = none) ∧
      (∀ tree, s.mCatalogInformation.mPageTree = some tree →
        ∃ restored, r.2.mCatalogInformation.mPageTree = some restored ∧
          restored.shape = tree.shape ∧ restored = tree.linked none) := by
  obtain ⟨r, hr, -, -, -, -, hc⟩ := ReadState_stateFile env n inObjectID fuel s fresh hid hread
  refine ⟨r, hr, fun h => ?_, fun tree h => ?_⟩
  · rw [hc, h]
  · rw [h] at hc
    exact ⟨tree.linked none, by rw [hc], PageTree.shape_linked tree none, rfl⟩

/-- C24 at the document whose page tree is `sampleTree`, a root with two leaf parents, and
at a document without a page tree. -/
theorem C24_page_tree_round_trip_witness :
    (0 < 1 ∧ PageTreeReadable pagedDocument 2 ∧
      ∃ r, roundTrip 2 pagedDocument = some r ∧
        ∃ restored, r.2.mCatalogInformation.mPageTree = some restored ∧
          restored.shape = sampleTree.shape ∧ restored = sampleTree.linked none) ∧
    (PageTreeReadable datedDocument 0 ∧
      ∃ r, roundTrip 0 datedDocument = some r ∧ r.2.mCatalogInformation.mPageTree = none) := by
  have h1 : PageTreeReadable pagedDocument 2 := by
    intro tree h
    cases h
    exact ⟨rfl, rfl, by decide⟩
  have h2 : PageTreeReadable datedDocument 0 := by
    intro tree h
    cases h
  obtain ⟨r, hr, -, hsome⟩ := C24_page_tree_round_trip quietEnv 1 0 2 pagedDocument
    freshDocument (by decide) h1
  obtain ⟨r2, hr2, hnone, -⟩ := C24_page_tree_round_trip quietEnv 1 0 0 datedDocument
    freshDocument (by decide) h2
  exact ⟨⟨by decide, h1, r, hr, hsome sampleTree rfl⟩, h2, r2, hr2, hnone rfl⟩

/-! ## C25: round trip of the open node -/

/-- C25: under the conditions of the round trip of the page tree, for a document with a
page tree, `ReadState` returns and the position of the open node in the restored tree is
the position of the open node in the original tree, whatever that position; the node at
that position of the restored tree has the ID, the leaf parent flag and the kids of the
open node of the original tree. -/
theorem C25_open_node_round_trip (env : Collaborators) (n inObjectID fuel : Nat)
    (s fresh : DocumentContext) (tree : PageTree) (hid : inObjectID < n)
    (hread : PageTreeReadable s fuel) (htree : s.mCatalogInformation.mPageTree = some tree) :
    ∃ r restored, ReadState env fuel (stateReader (stateFile env n inObjectID s)) inObjectID
        fresh = some r ∧
      r.2.mCatalogInformation.mPageTree = some restored ∧
      r.2.mCatalogInformation.mCurrentPageTreeNode
        = s.mCatalogInformation.mCurrentPageTreeNode ∧
      (restored.nodeAt r.2.mCatalogInformation.mCurrentPageTreeNode).isSome = true ∧
      (restored.nodeAt r.2.mCatalogInformation.mCurrentPageTreeNode).map PageTree.shape
        = (tree.nodeAt s.mCatalogInformation.mCurrentPageTreeNode).map PageTree.shape := by
  obtain ⟨r, hr, -, -, -, -, hc⟩ := ReadState_stateFile env n inObjectID fuel s fresh hid hread
  rw [htree] at hc
  have hnode := PageTree.nodeAt_linked tree none s.mCatalogInformation.mCurrentPageTreeNode
  have hvalid := (hread tree htree).2.1
  refine ⟨r, tree.linked none, hr, by rw [hc], by rw [hc], ?_, ?_⟩
  · rw [hc]
    simp only []
    cases h1 : (tree.linked none).nodeAt s.mCatalogInformation.mCurrentPageTreeNode with
    | some x => rfl
    | none =>
      rw [h1] at hnode
      cases h2 : tree.nodeAt s.mCatalogInformation.mCurrentPageTreeNode with
      | none => rw [h2] at hvalid; cases hvalid
      | some y => rw [h2] at hnode; cases hnode
  · rw [hc]
    exact hnode

/-- C25 at the document whose page tree is `sampleTree` with its second kid open, and at
the same document with the root open. -/
theorem C25_open_node_round_trip_witness :
    (∃ r restored, roundTrip 2 pagedDocument = some r ∧
      r.2.mCatalogInformation.mPageTree = some restored ∧
      r.2.mCatalogInformation.mCurrentPageTreeNode = [1] ∧
      (restored.nodeAt [1]).map PageTree.shape = some (.leafParent 5 none [6])) ∧
    (∃ r restored,
      roundTrip 2 { pagedDocument with
        mCatalogInformation := { mPageTree := some sampleTree, mCurrentPageTreeNode := [] } }
        = some r ∧
      r.2.mCatalogInformation.mPageTree = some restored ∧
      r.2.mCatalogInformation.mCurrentPageTreeNode = []) := by
  have h1 : PageTreeReadable pagedDocument 2 := by
    intro tree h
    cases h
    exact ⟨rfl, rfl, by decide⟩
  have h2 : PageTreeReadable { pagedDocument with
      mCatalogInformation := { mPageTree := some sampleTree, mCurrentPageTreeNode := [] } }
      2 := by
    intro tree h
    cases h
    exact ⟨rfl, rfl, by decide⟩
  obtain ⟨r, restored, hr, ht, hc, -, hs⟩ := C25_open_node_round_trip quietEnv 1 0 2
    pagedDocument freshDocument sampleTree (by decide) h1 rfl
  obtain ⟨r2, restored2, hr2, ht2, hc2, -, -⟩ := C25_open_node_round_trip quietEnv 1 0 2
    { pagedDocument with
      mCatalogInformation := { mPageTree := some sampleTree, mCurrentPageTreeNode := [] } }
    freshDocument sampleTree (by decide) h2 rfl
  refine ⟨⟨r, restored, hr, ht, hc, ?_⟩, r2, restored2, hr2, ht2, hc2⟩
  rw [hc] at hs
  exact hs

/-! ## C26: round trip of the info dictionary -/

set_option maxRecDepth 100000 in
/-- C26 evaluated: a document whose info dictionary has a creation date in 2012 and a
modification date in 2013 is written by `WriteState` and read back by `ReadState`. The
title, the other text fields, the creation date, the trapped flag and the additional
entries are restored; the modification date restored is the creation date. -/
theorem C26_mod_date_from_creation_date :
    datedDocument.mTrailerInformation.mInfoDictionary.ModDate = laterDate ∧
    datedDocument.mTrailerInformation.mInfoDictionary.CreationDate = sampleDate ∧
    laterDate ≠ sampleDate ∧
    (roundTrip 0 datedDocument).map (fun r => r.1) = some .eSuccess ∧
    (roundTrip 0 datedDocument).map (fun r => r.2.mTrailerInformation.mInfoDictionary)
      = some { datedDocument.mTrailerInformation.mInfoDictionary with
          ModDate := sampleDate } :=
  ⟨rfl, rfl, by decide, rfl, rfl⟩

/-! ## C29: new pages of a session -/

/-- C29 evaluated: `GetPageTreeRoot` has created the root of the session page tree of a
modified document and no page was added. The root is a leaf parent without a kid and the
tree has no leaf page, and `DocumentHasNewPages` is true: the loop takes the leaf parent
flag of the node for a leaf. Without a page tree node it is false, and with two pages under
a leaf parent it is true. -/
theorem C29_leaf_parent_without_pages :
    (emptyRootDocument.mCatalogInformation.mPageTree.map PageTree.IsLeafParent) = some true ∧
    (emptyRootDocument.mCatalogInformation.mPageTree.map PageTree.GetNodesCount) = some 0 ∧
    (emptyRootDocument.mCatalogInformation.mPageTree.map PageTree.leafCount) = some 0 ∧
    DocumentHasNewPages emptyRootDocument = true ∧
    DocumentHasNewPages modifiedDocument = false ∧
    (modifiedDocumentWithPages.mCatalogInformation.mPageTree.map PageTree.leafCount)
      = some 2 ∧
    DocumentHasNewPages modifiedDocumentWithPages = true :=
  ⟨rfl, rfl, rfl, rfl, rfl, rfl, rfl⟩

end PDFHummus
